import Mathlib

/-!
# network-automation-executor: the task controller, the connection and the walk

A shallow embedding of `internal/core/services/controller` (variable substitution,
group extraction, `when` conditions, sending and marking of tasks, the autotests and
`NewController`), of `internal/core/services/spawner` (prompts, `Connection.Send`,
`PromptDefine`, `NewSpawn` and `NewConnection`), of `internal/adapters/filestorage` and of
the function `Run` of `cmd`, together with the parts of `internal/core/domains` and
`internal/core/ports` they use, and the properties proved about them.

Conventions of the embedding:

* a Go `string` is the list of its characters (`Str`); the sources only ever handle
  valid UTF-8 text, on which byte-wise and character-wise searching agree;
* a Go `map[string]T` read `m[k]` gives the zero value for a missing key;
* the standard library (`regexp`, `strings`) is not part of the repository:
  the functions of `strings` are written out, the one regular expression
  that is fixed in the source (the variable pattern) is written out as a scanner, and
  all other regular expressions are taken from a `RegexpLib` parameter;
* the device behind the session of the goexpect library and the disk behind the file
  storage are not part of the repository either: each is a function that gives the
  answer to the latest request from the requests made so far; the machine on which the
  program starts `ssh1`, `ssh` and `telnet` is a function of the command;
* the controller is passed along as a value; a pointer into its task file is the list of
  indices that leads to the task;
* a call that ends the process (`ExitError`, `ExitSuccess`, a panic) is an explicit
  outcome, never a returned value;
* a function that calls itself without a bound in the source (`PromptDefine`, and `Run`
  through it and through the subtasks) takes a bound `fuel` on the depth of the calls and
  gives `none` when the bound is too small.
-/

set_option autoImplicit false

namespace Executor

/-! # Part I: the embedding -/

/-! ## Strings -/

/-- Go `string`, as the list of its characters. -/
abbrev Str := List Char

/-- Go `strings.Replace(s, old, new, -1)` for a non-empty `old`, with `fuel` bounding the
number of characters still to be looked at: at each position, an occurrence of `old`
is replaced by `new` and skipped, any other character is copied. -/
def replaceFuel (old new : Str) : Nat → Str → Str
  | 0, s => s
  | _, [] => []
  | n + 1, c :: rest =>
    if old.isPrefixOf (c :: rest) then
      new ++ replaceFuel old new n ((c :: rest).drop old.length)
    else
      c :: replaceFuel old new n rest

/-- Go `strings.Replace(s, old, new, -1)`: every non-overlapping occurrence of `old`,
found from left to right, is replaced by `new`; an empty `old` matches before every
character and at the end. -/
def Replace (s old new : Str) : Str :=
  if old = [] then new ++ s.flatMap (fun c => c :: new)
  else replaceFuel old new s.length s

/-- Go `strings.Contains(s, substr)`. -/
def Contains (s substr : Str) : Bool :=
  s.tails.any (fun t => substr.isPrefixOf t)

/-! ## `internal/core/ports` -/

def PIPE_STATUS_SUCCESS : Str := "success".toList
def PIPE_STATUS_FAIL : Str := "fail".toList
def PIPE_STATUS_SKIPPED : Str := "skipped".toList
def ERROR_REGEX_VAR_NOT_EXIST : Str := "spawner-regex-variable-not-exist".toList
def ERROR_REGEX_GROUP_NE : Str := "spawner-regex-group-val-count-not-equal".toList
def ERROR_WHEN_CONDITION_DOUBLE_BASED : Str := "spawner-when-condition-double-based".toList
def SPAWN_TIMEOUT_SYSTEM : Int := 20

/-! ## The variable pattern of `RegExpConstructor` -/

/-- Go character class `\s` (`[\t\n\f\r ]`); the class `[^\s\t]` of the variable pattern
is its complement. -/
def isSpace (c : Char) : Bool :=
  c = '\t' || c = '\n' || c = '\x0c' || c = '\r' || c = ' '

namespace VariableRegExp

/-- The tail `(?P<variable>[^\s\t]+?)}}` of the variable pattern, tried at the head of
the text: the lazy `+?` takes the shortest non-empty run of non-space characters that
is followed by `}}`. Gives the captured run and the text after the `}}`. -/
def scanKey : Str → Option (Str × Str)
  | [] => none
  | c :: rest =>
    if isSpace c then none
    else match rest with
      | '}' :: '}' :: after => some ([c], after)
      | _ => match scanKey rest with
        | some (k, r) => some (c :: k, r)
        | none => none

/-- The variable pattern `{{(?P<variable>[^\s\t]+?)}}` tried at the head of the text:
the captured variable name and the text after the match. -/
def matchAt : Str → Option (Str × Str)
  | '{' :: '{' :: rest => scanKey rest
  | _ => none

/-- The text `{{key}}` of a match whose captured group is `key` (`match[0]`). -/
def token (key : Str) : Str := '{' :: '{' :: key ++ ['}', '}']

/-- The method `FindAllStringSubmatch` with `fuel` bounding the characters still to be
looked at. -/
def findFuel : Nat → Str → List (Str × Str)
  | 0, _ => []
  | _, [] => []
  | n + 1, c :: rest =>
    match matchAt (c :: rest) with
    | some (k, r) => (token k, k) :: findFuel n r
    | none => findFuel n rest

/-- Go `compiledRegExp.FindAllStringSubmatch(text, -1)` for the variable pattern: the
successive non-overlapping matches, leftmost first, each as the pair
`(match[0], match[1])` of the whole token and the captured variable name. -/
def FindAllStringSubmatch (text : Str) : List (Str × Str) :=
  findFuel text.length text

end VariableRegExp

/-! ## `Controller.RegExpConstructor` -/

/-- The type `Artefacts` (`map[string]string`); `none` is a missing key. -/
abbrev Artefacts := Str → Option Str

/-- Map read `variables[key]`: the empty string for a missing key. -/
def Artefacts.get (vars : Artefacts) (key : Str) : Str :=
  (vars key).getD []

/-- A failing return of the functions in `controller.regexp.go`: the line handed to
`logger.ERROR` just before returning, and the text of the returned `error`. -/
structure Failure where
  logged : Str
  message : Str
deriving DecidableEq

/-- The text built by
`fmt.Sprintf("Text contains variable '%s', but suited variable do not exist", match[0])`. -/
def variableMessage (m0 : Str) : Str :=
  "Text contains variable '".toList ++ m0 ++ "', but suited variable do not exist".toList

/-- The `for _, match := range ...` loop of `RegExpConstructor`, on the matches still to
be handled and the current text. -/
def RegExpConstructor.loop (vars : Artefacts) : List (Str × Str) → Str → Str × Option Failure
  | [], text => (text, none)
  | m :: ms, text =>
    let newValue := vars.get m.2
    if !newValue.isEmpty then
      RegExpConstructor.loop vars ms (Replace text m.1 newValue)
    else
      (text, some ⟨ERROR_REGEX_VAR_NOT_EXIST, variableMessage m.1⟩)

/-- The method `Controller.RegExpConstructor(text, variables)`: the returned text and
error. The matches are those of the text as it is on entry; each one replaces all
occurrences of its token in the current text. -/
def RegExpConstructor (text : Str) (vars : Artefacts) : Str × Option Failure :=
  RegExpConstructor.loop vars (VariableRegExp.FindAllStringSubmatch text) text

/-! ### The substitution the specification describes -/

namespace VariableRegExp

/-- The text in which every token whose variable name is selected by `sel` is replaced
by that variable's value, the other tokens and all other characters being copied;
`fuel` bounds the characters still to be looked at. -/
def substSomeFuel (vars : Artefacts) (sel : Str → Bool) : Nat → Str → Str
  | 0, s => s
  | _, [] => []
  | n + 1, c :: rest =>
    match matchAt (c :: rest) with
    | some (k, r) => (if sel k then vars.get k else token k) ++ substSomeFuel vars sel n r
    | none => c :: substSomeFuel vars sel n rest

/-- The text in which every token whose variable name is selected by `sel` is replaced
by that variable's value, nothing else changed. -/
def substSome (vars : Artefacts) (sel : Str → Bool) (text : Str) : Str :=
  substSomeFuel vars sel text.length text

/-- The specification's result, with `fuel` bounding the characters still to be looked
at: each token replaced by its own variable's value, any other character copied. -/
def substituteFuel (vars : Artefacts) : Nat → Str → Str
  | 0, s => s
  | _, [] => []
  | n + 1, c :: rest =>
    match matchAt (c :: rest) with
    | some (k, r) => vars.get k ++ substituteFuel vars n r
    | none => c :: substituteFuel vars n rest

/-- The specification's result for a text `S` and artefacts `A`: `S` with each token
`{{KEY}}` of the text replaced by `A[KEY]`, nothing else changed. -/
def substituteAll (vars : Artefacts) (text : Str) : Str :=
  substituteFuel vars text.length text

/-- A text contains a token: somewhere in it stands `{{KEY}}` with `KEY` a non-empty
run of non-space characters. -/
def HasToken (text : Str) : Prop :=
  ∃ pre key post, text = pre ++ token key ++ post ∧ key ≠ [] ∧ ∀ c ∈ key, isSpace c = false

/-- No character of the text is a brace. -/
abbrev BraceFree (s : Str) : Prop := ∀ c ∈ s, c ≠ '{' ∧ c ≠ '}'

/-- Every variable referenced by a token of the text has a brace-free name and a
non-empty, brace-free value. -/
def GoodFor (vars : Artefacts) (s : Str) : Prop :=
  ∀ m ∈ FindAllStringSubmatch s,
    BraceFree m.2 ∧ vars.get m.2 ≠ [] ∧ BraceFree (vars.get m.2)

end VariableRegExp


/-! ## `internal/core/domains` -/

/-- The type `domains.Setting`. -/
structure Setting where
  Timeout : Int
deriving DecidableEq

/-- The type `domains.Param`. -/
structure Param where
  Timeout : Int
  OutputFile : Str
  OnErrorContinue : Bool
  PromptChangeAllowed : Bool
  CommandRepeatAllowed : Bool
  Filter : Str
  FilterExclude : Str
deriving DecidableEq

/-- The type `domains.When`. -/
structure When where
  Name : Str
  IfStatus : Str
  IfOutputContains : Str
  IfOutputNotContains : Str
  IfOutputContainsRe : Str
  IfOutputNotContainsRe : Str
  Variable : Str
  IfValue : Str
  IfValueNot : Str
  OnMove : Str
  OnExit : Bool
deriving DecidableEq

/-- The type `domains.Task`; a `nil` pointer (`Tasks`, `When`) is `none`. -/
inductive Task where
  | mk (Command Status Name : Str) (Params : Param) (Tasks : Option (List Task))
      (When : Option (List When))

def Task.Command : Task → Str
  | .mk command _ _ _ _ _ => command

def Task.Status : Task → Str
  | .mk _ status _ _ _ _ => status

def Task.Name : Task → Str
  | .mk _ _ name _ _ _ => name

def Task.Params : Task → Param
  | .mk _ _ _ params _ _ => params

def Task.Tasks : Task → Option (List Task)
  | .mk _ _ _ _ tasks _ => tasks

def Task.When : Task → Option (List When)
  | .mk _ _ _ _ _ when => when

/-- The type `domains.TaskPattern`. -/
structure TaskPattern where
  Host : Str
  Status : Str
  Vendor : Str
  Error : Str
  CreatinGtime : Str
  ExecutingTime : Str
  Tasks : Option (List Task)
  Settings : Option Setting
  Variables : Artefacts
  Autotests : Option (List When)

/-! ## `internal/core/services/spawner`: the data -/

/-- The type `spawner.Prompt`; `RegExp` is the source of the compiled expression. -/
structure Prompt where
  Vendor : Str
  Name : Str
  RegExp : Str
  Errors : List Str
deriving DecidableEq

/-- What `Spawn` hands to `Session.ExpectBatch` of the goexpect library: the text sent
and the sources of the expressions waited for. -/
inductive Batch where
  /-- The batch of `SendString`: send `send`, then fail on the expression `errors` or
  succeed on the expression `prompt`, within `timeout` seconds. -/
  | sendString (send errors prompt : Str) (timeout : Int)
  /-- The batch of `SendEnableCisco`: send `enable`, send `password` once when a password
  is asked for, succeed on the expression `prompt`, within the system timeout. -/
  | enableCisco (password prompt : Str)
  /-- The batch of `SendExitFromMenuCisco`: send `send`, succeed on the expression
  `prompt`, within the system timeout. -/
  | menuExit (send prompt : Str)
deriving DecidableEq

/-- The session `*expect.GExpect` with the device behind it: `sent` are the batches run
so far, latest first, and `respond` gives, for the batches run so far, what the latest one
returns: the outputs `resources` (`none` for `nil`) and the text of the error. -/
structure Session where
  respond : List Batch → Option (List Str) × Option Str
  sent : List Batch

/-- The method `Session.ExpectBatch(batch, timeout)`: what the batch returns, and the
session after it. -/
def Session.ExpectBatch (s : Session) (batch : Batch) :
    (Option (List Str) × Option Str) × Session :=
  (s.respond (batch :: s.sent), { s with sent := batch :: s.sent })

/-- The type `spawner.Spawn`; a connection only exists once `NewSpawn` has set `Session`. -/
structure Spawn where
  Session : Session
  Username : Str
  Password : Str

/-- The type `spawner.Connection`; `Prompt` is `none` for the `nil` pointer of a connection
whose prompt was never defined. -/
structure Connection where
  spawn : Spawn
  Prompt : Option Prompt
  connectOutput : Str

/-! ## `internal/adapters/filestorage`: the data -/

/-- The files under the directory of a `FileStorage`: `written` are the files written so
far, latest first, as name and content, and `fails` gives, for the files written so far
and the name and content of a file, the text of the error with which creating the
directory, creating the file or writing it fails. -/
structure Disk where
  fails : List (Str × Str) → Str → Str → Option Str
  written : List (Str × Str)

/-- The type `filestorage.FileStorage`, together with the files of its directory. -/
structure FileStorage where
  directory : Str
  AllowedRuneFilename : Str
  disk : Disk

/-! ## `Controller` -/

/-- The type `controller.NamedTask`. -/
structure NamedTask where
  Status : Str
  Output : Str
deriving DecidableEq

/-- The type `controller.Controller`: the connection (`none` for a `nil` pointer), the
task file, the storage of the outputs, the named-task table (`map[string]*NamedTask`,
`none` for a missing or `nil` entry), the name of the next task and the artefacts. -/
structure Controller where
  Connection : Option Connection
  Task : TaskPattern
  OutputStorage : FileStorage
  Names : Str → Option NamedTask
  NextTaskName : Str
  Variables : Artefacts

/-- The end of the process: the task file as last written by `Save` and the exit code. -/
structure Halted where
  saved : TaskPattern
  exitCode : Int

/-- How a call ends: it returns, or the process exits inside it (`ExitError`,
`ExitSuccess`), or it panics. -/
inductive Outcome (α : Type) where
  | returned (a : α)
  | exited (h : Halted)
  | panicked

/-- The method `Controller.ExitError(errorCode)`: record the error and the `fail` status
in the task file, save it, and end the process with `log.Fatal` (exit code 1). -/
def Controller.ExitError (c : Controller) (errorCode : Str) : Halted :=
  { saved := { c.Task with Error := errorCode, Status := PIPE_STATUS_FAIL }, exitCode := 1 }

/-- The method `Controller.ExitSuccess()`: record the `success` status in the task file,
save it, and end the process with `os.Exit(0)`. -/
def Controller.ExitSuccess (c : Controller) : Halted :=
  { saved := { c.Task with Status := PIPE_STATUS_SUCCESS }, exitCode := 0 }

/-- The method `Controller.GetDefaultTimeout()`. -/
def Controller.GetDefaultTimeout (c : Controller) : Int :=
  match c.Task.Settings with
  | some settings => if settings.Timeout != 0 then settings.Timeout else SPAWN_TIMEOUT_SYSTEM
  | none => SPAWN_TIMEOUT_SYSTEM

/-- The method `Controller.Compile(task, vars)`: the task as it is after the call, or the
exit taken when a substitution fails. -/
def Controller.Compile (c : Controller) (task : Executor.Task) (vars : Artefacts) :
    Outcome Executor.Task :=
  match RegExpConstructor task.Command vars with
  | (_, some commandSubError) => .exited (c.ExitError commandSubError.message)
  | (command, none) =>
    match RegExpConstructor task.Params.OutputFile vars with
    | (_, some outputFileError) => .exited (c.ExitError outputFileError.message)
    | (outputFile, none) =>
      let timeout :=
        if task.Params.Timeout ≤ 0 then c.GetDefaultTimeout else task.Params.Timeout
      .returned (.mk command task.Status task.Name
        { task.Params with Timeout := timeout, OutputFile := outputFile } task.Tasks task.When)

/-! ## Sample inputs -/

/-- The artefacts `vrf = mgmt` of the substitution scenario. -/
def sampleVrfVars : Artefacts :=
  fun k => if k == "vrf".toList then some "mgmt".toList else none

/-- Artefacts in which the value of `a` is itself the token of `b`. -/
def sampleNestedVars : Artefacts :=
  fun k =>
    if k == "a".toList then some "\x7b\x7bb\x7d\x7d".toList
    else if k == "b".toList then some "x".toList
    else none

/-- The empty artefact map. -/
def sampleNoVars : Artefacts := fun _ => none

/-- A task with the given command and nothing else set. -/
def sampleTask (command : Str) : Task :=
  .mk command [] [] ⟨0, [], false, false, false, [], []⟩ none none

/-- A storage of outputs on which every write succeeds and nothing is written yet. -/
def sampleStorage : FileStorage :=
  { directory := "/var/outputs".toList,
    AllowedRuneFilename := "[a-zA-Z0-9-_\\.]".toList,
    disk := { fails := fun _ _ _ => none, written := [] } }

/-- A controller on an otherwise empty task file for host `h`, with empty tables and no
connection. -/
def sampleController : Controller :=
  { Connection := none,
    Task := { Host := "h".toList, Status := [], Vendor := [], Error := [], CreatinGtime := [],
              ExecutingTime := [], Tasks := none, Settings := none, Variables := fun _ => none,
              Autotests := none },
    OutputStorage := sampleStorage,
    Names := fun _ => none, NextTaskName := [], Variables := fun _ => none }

/-- Artefacts with a variable named `a` and a variable whose name `x{{a` holds braces. -/
def sampleBraceNameVars : Artefacts :=
  fun k =>
    if k == "a".toList then some "1".toList
    else if k == "x\x7b\x7ba".toList then some "2".toList
    else none

/-- The command `show ip route vrf {{vrf}}` of the substitution scenario. -/
def sampleVrfCommand : Str := "show ip route vrf \x7b\x7bvrf\x7d\x7d".toList

/-- The text `{{a}} {{b}}`. -/
def sampleTwoTokens : Str := "\x7b\x7ba\x7d\x7d \x7b\x7bb\x7d\x7d".toList

/-- The text `{{a}} {{x{{a}}`, whose second token is `{{x{{a}}`. -/
def sampleBraceNameText : Str := "\x7b\x7ba\x7d\x7d \x7b\x7bx\x7b\x7ba\x7d\x7d".toList

/-- The command `show {{x}}`. -/
def sampleMissingCommand : Str := "show \x7b\x7bx\x7d\x7d".toList

/-- The token `{{x}}` and its variable name, as the variable pattern reports them. -/
def sampleMissingMatch : Str × Str := ("\x7b\x7bx\x7d\x7d".toList, "x".toList)

/-- The error text for the token `{{x}}`. -/
def sampleMissingMessage : Str :=
  "Text contains variable '\x7b\x7bx\x7d\x7d', but suited variable do not exist".toList

/-! ## Regular expressions taken from the task file -/

/-- A compiled regular expression of Go's `regexp` package, by the methods the
controller calls on it. -/
structure Regexp where
  /-- Names of the parenthesised groups; entry 0 stands for the whole expression and is
  empty, an unnamed group has an empty name. -/
  SubexpNames : List Str
  /-- `FindAllStringSubmatch(s, -1)`: the matches in order, each the list of the whole
  match followed by the groups' captures. -/
  FindAllStringSubmatch : Str → List (List Str)
  /-- `MatchString(s)`: whether the text contains a match. -/
  MatchString : Str → Bool

/-- The `regexp` package: `Compile pattern` is the compiled expression, `none` when the
pattern is rejected. `regexp.MustCompile` panics on a rejected pattern. -/
structure RegexpLib where
  Compile : Str → Option Regexp

/-- Go `regexp.MatchString(pattern, s)`: the pair of `matched` and whether an error is
returned; a rejected pattern gives `(false, err)`. -/
def RegexpLib.MatchString (lib : RegexpLib) (pattern s : Str) : Bool × Bool :=
  match lib.Compile pattern with
  | some re => (re.MatchString s, false)
  | none => (false, true)

/-- Go `strconv.Itoa`. -/
def Itoa (i : Int) : Str :=
  if i < 0 then '-' :: (Nat.repr i.natAbs).toList else (Nat.repr i.toNat).toList

/-- Go `math.MaxInt` (64-bit `int`). -/
def MaxInt : Int := 9223372036854775807

/-- Go `math.MinInt` (64-bit `int`). -/
def MinInt : Int := -9223372036854775808

/-! ## `Controller.RegExpMatch` -/

/-- The `map[string][]string` built by `RegExpMatch`, as the list of its entries in the
order in which the keys were first written. Go leaves the order in which `range`
visits a map open; the loops below only take a minimum, a maximum, a set of positions
and one assignment per key, so they are written in this list's order. -/
abbrev Groups := List (Str × List Str)

/-- The statement `result[name] = append(result[name], group)`. -/
def Groups.push (name group : Str) : Groups → Groups
  | [] => [(name, [group])]
  | (n, values) :: rest =>
    if n == name then (n, values ++ [group]) :: rest
    else (n, values) :: Groups.push name group rest

/-- The inner loop `for groupIndex, group := range match`: `none` is the panic of
`groupNames[groupIndex]` on an index out of range. -/
def RegExpMatch.collectMatch (groupNames : List Str) : List (Nat × Str) → Groups → Option Groups
  | [], result => some result
  | (groupIndex, group) :: rest, result =>
    if groupIndex > 0 then
      match groupNames[groupIndex]? with
      | none => none
      | some declared =>
        let name := if declared.length ≤ 0 then Itoa groupIndex else declared
        RegExpMatch.collectMatch groupNames rest (Groups.push name group result)
    else
      RegExpMatch.collectMatch groupNames rest result

/-- The outer loop `for _, match := range compiledRegExp.FindAllStringSubmatch(output, -1)`. -/
def RegExpMatch.collect (groupNames : List Str) : List (List Str) → Groups → Option Groups
  | [], result => some result
  | m :: ms, result =>
    match RegExpMatch.collectMatch groupNames m.enum result with
    | none => none
    | some result2 => RegExpMatch.collect groupNames ms result2

/-- The closure `get_min`. -/
def get_min (slice : Groups) : Int :=
  let min := slice.foldl
    (fun (min : Int) val => if (val.2.length : Int) < min then (val.2.length : Int) else min) MaxInt
  if min == MaxInt then 0 else min

/-- The closure `get_max`. -/
def get_max (slice : Groups) : Int :=
  let max := slice.foldl
    (fun (max : Int) val => if (val.2.length : Int) > max then (val.2.length : Int) else max) MinInt
  if max == MinInt then 0 else max

/-- The text of the error returned when the groups differ in length; `stage` is
`", st 1"` or `", st 2"`. -/
def RegExpMatch.countMessage (result : Groups) (stage : Str) : Str :=
  "Count of element in different groups is not equal, max: ".toList ++ Itoa (get_max result)
    ++ ", min: ".toList ++ Itoa (get_min result) ++ stage

/-- The list `removingValueIndexPerGroups`: for every group, the positions of its values
that the exclude expression matches. -/
def RegExpMatch.removing (excludeRegExp : Regexp) (result : Groups) : List Nat :=
  result.flatMap fun group =>
    (group.2.enum.filter fun iv => excludeRegExp.MatchString iv.2).map Prod.fst

/-- The list `survivors` of one group: the values whose position equals none of the
positions to remove. -/
def RegExpMatch.survivors (removing : List Nat) (group : List Str) : List Str :=
  (group.enum.filter fun iv => !(removing.any fun r => iv.1 == r)).map Prod.snd

/-- The block run for a non-empty `excRegex`, after the exclude expression is compiled. -/
def RegExpMatch.exclude (excludeRegExp : Regexp) (result : Groups) : Groups :=
  let removing := RegExpMatch.removing excludeRegExp result
  if removing.length > 0 then
    result.map fun group => (group.1, RegExpMatch.survivors removing group.2)
  else
    result

/-- The block `if len(excRegex) > 0 { ... }`: the map after it; `none` is the panic of
`regexp.MustCompile(excRegex)`. -/
def RegExpMatch.excluded (lib : RegexpLib) (excRegex : Str) (result : Groups) : Option Groups :=
  if excRegex.length > 0 then
    match lib.Compile excRegex with
    | none => none
    | some excludeRegExp => some (RegExpMatch.exclude excludeRegExp result)
  else some result

/-- The second comparison of the lengths and the final `return`. -/
def RegExpMatch.finish (result : Groups) : Outcome (Groups × Int × Option Failure) :=
  if get_min result != get_max result then
    .returned ([], -1,
      some ⟨ERROR_REGEX_GROUP_NE, RegExpMatch.countMessage result ", st 2".toList⟩)
  else
    .returned (result, get_min result, none)

/-- The method `Controller.RegExpMatch(output, incRegex, excRegex)`: the returned map,
count and error; a `nil` map is the empty list. -/
def RegExpMatch (lib : RegexpLib) (output incRegex excRegex : Str) :
    Outcome (Groups × Int × Option Failure) :=
  match lib.Compile incRegex with
  | none => .panicked
  | some compiledRegExp =>
    match RegExpMatch.collect compiledRegExp.SubexpNames
        (compiledRegExp.FindAllStringSubmatch output) [] with
    | none => .panicked
    | some result =>
      if get_min result != get_max result then
        .returned ([], -1,
          some ⟨ERROR_REGEX_GROUP_NE, RegExpMatch.countMessage result ", st 1".toList⟩)
      else
        match RegExpMatch.excluded lib excRegex result with
        | none => .panicked
        | some result => RegExpMatch.finish result

/-! ### What the specification says about exclusion -/

/-- Whether position `k` is to be removed: the value at position `k` of at least one
group matches the exclude expression. -/
def RegExpMatch.positionExcluded (excludeRegExp : Regexp) (result : Groups) (k : Nat) : Bool :=
  result.any fun group =>
    match group.2[k]? with
    | some value => excludeRegExp.MatchString value
    | none => false

/-- A group's list with the excluded positions removed and all other positions kept in
their order. -/
def RegExpMatch.keptPositions (excludeRegExp : Regexp) (result : Groups) (values : List Str) :
    List Str :=
  (values.enum.filter fun iv => !RegExpMatch.positionExcluded excludeRegExp result iv.1).map
    Prod.snd

/-! ## A small regular-expression library for the examples -/

/-- A sequence of one-character classes tried at the head of the text: the characters
matched, one per class, and the text after them. -/
def classesMatchAt : List (Char → Bool) → Str → Option (Str × Str)
  | [], rest => some ([], rest)
  | _ :: _, [] => none
  | p :: ps, c :: rest =>
    if p c then
      match classesMatchAt ps rest with
      | some (cs, r) => some (c :: cs, r)
      | none => none
    else none

/-- All successive matches of a non-empty sequence of one-character classes, each class
being a group: the whole match followed by the one-character captures. -/
def classesFind (ps : List (Char → Bool)) : Nat → Str → List (List Str)
  | 0, _ => []
  | _, [] => []
  | n + 1, c :: rest =>
    match classesMatchAt ps (c :: rest) with
    | some (cs, r) => (cs :: cs.map fun x => [x]) :: classesFind ps n r
    | none => classesFind ps n rest

/-- The compiled form of a pattern made of one-character groups with the given names. -/
def classesRegexp (names : List Str) (ps : List (Char → Bool)) : Regexp :=
  { SubexpNames := [] :: names,
    FindAllStringSubmatch := fun s => classesFind ps s.length s,
    MatchString := fun s => !(classesFind ps s.length s).isEmpty }

/-- All successive non-overlapping occurrences of a non-empty literal pattern, each as a
match without groups. -/
def literalFind (pattern : Str) : Nat → Str → List (List Str)
  | 0, _ => []
  | _, [] => []
  | n + 1, c :: rest =>
    if pattern.isPrefixOf (c :: rest) then
      [pattern] :: literalFind pattern n ((c :: rest).drop pattern.length)
    else literalFind pattern n rest

/-- The compiled form of a non-empty pattern without special characters, which matches
itself. -/
def literalRegexp (pattern : Str) : Regexp :=
  { SubexpNames := [[]],
    FindAllStringSubmatch := fun s => literalFind pattern s.length s,
    MatchString := fun s => Contains s pattern }

/-- A regular-expression library that knows the patterns `(?P<a>[a-z])(?P<b>[0-9])` and
`(?P<2>[a-z])([0-9])(?P<c>[a-z])` and the patterns made of letters and digits only, and
rejects every other pattern. -/
def sampleLib : RegexpLib :=
  { Compile := fun pattern =>
      if pattern == "(?P<a>[a-z])(?P<b>[0-9])".toList then
        some (classesRegexp ["a".toList, "b".toList] [Char.isLower, Char.isDigit])
      else if pattern == "(?P<2>[a-z])([0-9])(?P<c>[a-z])".toList then
        some (classesRegexp ["2".toList, [], "c".toList] [Char.isLower, Char.isDigit, Char.isLower])
      else if !pattern.isEmpty && pattern.all Char.isAlphanum then
        some (literalRegexp pattern)
      else none }

/-! ## `Controller.WhenActions` and `Controller.WhenMatcher` -/

/-- The method `Controller.WhenActions(when)`: the returned error and the controller after
the call; `none` for `when` is the `nil` pointer. With `OnExit` the process ends inside
`ExitSuccess` and nothing is returned. -/
def Controller.WhenActions (c : Controller) (when : Option When) :
    Outcome (Option Str × Controller) :=
  match when with
  | none => .returned (some "when is nil".toList, c)
  | some when =>
    if when.OnExit then .exited c.ExitSuccess
    else if when.OnMove.length > 0 then .returned (none, { c with NextTaskName := when.OnMove })
    else .returned (none, c)

/-- The part `// Actions` that ends both kinds of clause: run the actions, then return
`(false, actionError)` or `(true, nil)`. -/
def Controller.WhenMatcher.actions (c : Controller) (when : When) :
    Outcome (Bool × Option Str × Controller) :=
  match c.WhenActions (some when) with
  | .returned (some actionError, c2) => .returned (false, some actionError, c2)
  | .returned (none, c2) => .returned (true, none, c2)
  | .exited h => .exited h
  | .panicked => .panicked

/-- The block `if len(when.Name) > 0 { ... }` of one clause. -/
def Controller.WhenMatcher.byName (c : Controller) (lib : RegexpLib) (when : When) :
    Outcome (Bool × Option Str × Controller) :=
  match c.Names when.Name with
  | none => .returned (false, none, c)
  | some entry =>
    if entry.Status.length ≤ 0 then .returned (false, none, c)
    else if when.IfStatus.length > 0 && entry.Status != when.IfStatus then
      .returned (false, none, c)
    else if when.IfOutputContains.length > 0
        && !Contains entry.Output when.IfOutputContains then
      .returned (false, none, c)
    else if when.IfOutputNotContains.length > 0
        && Contains entry.Output when.IfOutputNotContains then
      .returned (false, none, c)
    else if when.IfOutputContainsRe.length > 0
        && (!(lib.MatchString when.IfOutputContainsRe entry.Output).1
            || (lib.MatchString when.IfOutputContainsRe entry.Output).2) then
      .returned (false, none, c)
    else if when.IfOutputNotContainsRe.length > 0
        && ((lib.MatchString when.IfOutputNotContainsRe entry.Output).1
            && (lib.MatchString when.IfOutputNotContainsRe entry.Output).2) then
      .returned (false, none, c)
    else Controller.WhenMatcher.actions c when

/-- The block `if len(when.Variable) > 0 { ... }` of one clause. -/
def Controller.WhenMatcher.byVariable (c : Controller) (vars : Artefacts) (when : When) :
    Outcome (Bool × Option Str × Controller) :=
  if (vars.get when.Variable).length ≤ 0 then .returned (false, none, c)
  else if when.IfValue.length > 0 && vars.get when.Variable != when.IfValue then
    .returned (false, none, c)
  else if when.IfValueNot.length > 0 && vars.get when.Variable == when.IfValueNot then
    .returned (false, none, c)
  else Controller.WhenMatcher.actions c when

/-- The loop `for whenIdx, when := range *when` followed by the final
`return true, nil`. -/
def Controller.WhenMatcher.loop (c : Controller) (lib : RegexpLib) (vars : Artefacts) :
    List When → Outcome (Bool × Option Str × Controller)
  | [] => .returned (true, none, c)
  | when :: rest =>
    if when.Name.length > 0 && when.Variable.length > 0 then
      .returned (false, some ERROR_WHEN_CONDITION_DOUBLE_BASED, c)
    else if when.Name.length > 0 then Controller.WhenMatcher.byName c lib when
    else if when.Variable.length > 0 then Controller.WhenMatcher.byVariable c vars when
    else Controller.WhenMatcher.loop c lib vars rest

/-- The method `Controller.WhenMatcher(when, vars)`: the returned `passed`, the text of the
returned error, and the controller after the call. -/
def Controller.WhenMatcher (c : Controller) (lib : RegexpLib) (when : Option (List When))
    (vars : Artefacts) : Outcome (Bool × Option Str × Controller) :=
  match when with
  | none => .returned (true, none, c)
  | some clauses => Controller.WhenMatcher.loop c lib vars clauses

/-! ### What the specification says about one clause -/

/-- The condition of a name-based clause as the specification words it: the named-task
table has an entry for `name` with a non-empty status, and every predicate that is set
holds for that entry (`ifOutputNotContainsRe` apart). -/
def NameClauseHolds (c : Controller) (lib : RegexpLib) (when : When) : Prop :=
  ∃ entry, c.Names when.Name = some entry ∧ entry.Status ≠ [] ∧
    (when.IfStatus = [] ∨ when.IfStatus = entry.Status) ∧
    (when.IfOutputContains = [] ∨ when.IfOutputContains <:+: entry.Output) ∧
    (when.IfOutputNotContains = [] ∨ ¬ when.IfOutputNotContains <:+: entry.Output) ∧
    (when.IfOutputContainsRe = [] ∨
      ∃ re, lib.Compile when.IfOutputContainsRe = some re ∧ re.MatchString entry.Output = true)

/-- The condition of a variable-based clause as the specification words it. -/
def VariableClauseHolds (vars : Artefacts) (when : When) : Prop :=
  vars.get when.Variable ≠ [] ∧
    (when.IfValue = [] ∨ when.IfValue = vars.get when.Variable) ∧
    (when.IfValueNot = [] ∨ when.IfValueNot ≠ vars.get when.Variable)

/-- The controller after the actions of a clause that does not exit. -/
def afterMove (c : Controller) (when : When) : Controller :=
  if when.OnMove.length > 0 then { c with NextTaskName := when.OnMove } else c

/-- A clause with every field empty and `onExit` unset. -/
def emptyWhen : When :=
  { Name := [], IfStatus := [], IfOutputContains := [], IfOutputNotContains := [],
    IfOutputContainsRe := [], IfOutputNotContainsRe := [], Variable := [], IfValue := [],
    IfValueNot := [], OnMove := [], OnExit := false }

/-- A controller whose named-task table holds the task `A` with status `success` and
output `foo bar`. -/
def sampleNamedController : Controller :=
  { sampleController with
    Names := fun name =>
      if name == "A".toList then some ⟨PIPE_STATUS_SUCCESS, "foo bar".toList⟩ else none }

/-- A clause that sets both a name and a variable. -/
def sampleDoubleWhen : When :=
  { emptyWhen with
    Name := "A".toList
    Variable := "v".toList
    OnMove := "T".toList }

/-- A name-based clause on task `A` that asks to exit. -/
def sampleExitWhen : When :=
  { emptyWhen with
    Name := "A".toList
    OnExit := true }

/-- A name-based clause on task `A` with the predicates `ifStatus: success` and
`ifOutputContains: foo`, moving on to task `T`. -/
def sampleNameWhen : When :=
  { emptyWhen with
    Name := "A".toList
    IfStatus := "success".toList
    IfOutputContains := "foo".toList
    OnMove := "T".toList }

/-- A name-based clause on task `A` whose only predicate is `ifOutputNotContainsRe: foo`. -/
def sampleNotContainsReWhen : When :=
  { emptyWhen with
    Name := "A".toList
    IfOutputNotContainsRe := "foo".toList }

/-- A variable-based clause on `vrf` that asks to exit. -/
def sampleVariableExitWhen : When :=
  { emptyWhen with
    Variable := "vrf".toList
    OnExit := true }

/-- A variable-based clause on `vrf` with `ifValue: mgmt` and `ifValueNot: prod`. -/
def sampleVariableWhen : When :=
  { emptyWhen with
    Variable := "vrf".toList
    IfValue := "mgmt".toList
    IfValueNot := "prod".toList }
/-! ## More of `strings` -/

/-- Go `strings.Trim(s, cutset)`: `s` without the leading and trailing characters that
are in `cutset`. -/
def Trim (s cutset : Str) : Str :=
  ((s.dropWhile fun c => cutset.contains c).reverse.dropWhile fun c => cutset.contains c).reverse

/-- Go `strings.HasPrefix(s, start)`. -/
def HasPrefix (s start : Str) : Bool :=
  start.isPrefixOf s

/-- Go `strings.Join(elems, sep)`. -/
def Join (elems : List Str) (sep : Str) : Str :=
  sep.intercalate elems

/-- Go `strings.LastIndex(s, substr)`: the index of the last occurrence of `substr` in
`s`, or `-1`. -/
def LastIndex (s substr : Str) : Int :=
  match (List.range (s.length + 1)).reverse.find? fun i => substr.isPrefixOf (s.drop i) with
  | some i => i
  | none => -1

/-- The first occurrence of a non-empty `old` is replaced by `new`. -/
def replaceFirst (old new : Str) : Str → Str
  | [] => []
  | c :: rest =>
    if old.isPrefixOf (c :: rest) then new ++ (c :: rest).drop old.length
    else c :: replaceFirst old new rest

/-- Go `strings.Replace(s, old, new, 1)`: the first occurrence of `old` is replaced by
`new`; nothing is done when `old == new`, and an empty `old` matches at the start. -/
def ReplaceFirst (s old new : Str) : Str :=
  if old == new then s
  else if old.isEmpty then new ++ s
  else replaceFirst old new s

/-! ## More of `internal/core/ports` -/

def ERROR_SEND_COMMAND : Str := "spawner-command-send-error".toList
def ERROR_PROMPT_TIMEOUT : Str := "spawner-prompt-capture-timeout".toList
def ERROR_PROMPT_CHANGED : Str := "spawner-prompt-has-been-changed".toList
def ERROR_PROMPT_DEFINE : Str := "spawner-prompt-was-not-defined".toList
def ERROR_INTERNAL_BUFFER : Str := "internal-error-spawn-buffer-is-empty".toList
def ERROR_INTERNAL_CISCO_ENABLE : Str := "internal-error-cisco-enable".toList
def ERROR_INTERNAL_CISCO_MENU_EXIT : Str := "internal-error-cisco-menu-exit".toList

/-! ## `internal/core/services/spawner`: the prompts -/

/-- The prompt `PromptUniversal` of the catalog. -/
def PromptUniversal : Prompt :=
  { Name := "universal".toList,
    Vendor := "unknown".toList,
    RegExp := "[^>#:]([>#:\\]]\\s?)$".toList,
    Errors :=
      ["([Cc]onnection\\sclosed)".toList,
      "([Aa]uthentication\\sfailed)".toList,
      "([Cc]onnection\\srefused)".toList,
      "([Cc]onnection\\stimed\\sout)".toList,
      "([Pp]ermission\\sdenied)".toList,
      "([Tt]he\\sremote\\ssystem\\srefused\\sthe\\sconnection)".toList,
      "([Uu]nable\\sto\\snegotiate\\swith)".toList] }

/-- The prompt `PromptCiscoUser` of the catalog. -/
def PromptCiscoUser : Prompt :=
  { Name := "cisco-user".toList,
    Vendor := "cisco".toList,
    RegExp := "\\r\\n\\r?[^<\\s]+>".toList,
    Errors :=
      ["(\\n\\r?[Tt]ranslating.*domain server)".toList,
      "(\\n\\r?%\\s[Bb]ad\\sIP\\saddress)".toList,
      "(\\n\\r?%\\s[Uu]nknown\\scommand)".toList,
      "(\\n\\r?%\\s[Ii]ncomplete\\scommand)".toList,
      "(\\n\\r?%\\s[Aa]mbiguous\\scommand)".toList,
      "(\\n\\r?%\\s[Ii]nvalid\\sinput)".toList,
      "(\\n\\r?%\\s[Ii]nvalid\\s[Cc]ommand)".toList,
      "(\\n\\r?%\\s[Aa]ccess\\sdenied)".toList,
      "(\\n\\r?%\\s[Ee]rror\\sin\\sauthentication)".toList,
      "(\\n\\r?[Uu]nrecognized\\shost)".toList,
      "(\\n\\r?[Cc]ommand\\sauthorization\\sfailed)".toList,
      "(\\n\\r?[Cc]ommand\\srejected:)".toList,
      "(\\n\\r?ERROR:\\s%\\s[Ii]nvalid\\s[Ii]nput)".toList,
      "(\\n\\r?ERROR:\\s%\\s[Ii]nvalid\\s[Hh]ostname)".toList,
      "(\\n\\r?ERROR:\\s%\\s[Ii]ncomplete\\s[Cc]ommand)".toList,
      "(\\n\\r?%[Ee]rror\\sparsing\\sfilename)".toList,
      "(\\n\\r?%[Ee]rror\\sopening)".toList] }

/-- The prompt `PromptCiscoPriv` of the catalog. -/
def PromptCiscoPriv : Prompt :=
  { Name := "cisco-priv".toList,
    Vendor := PromptCiscoUser.Vendor,
    RegExp := "\\r?\\n\\r?[^#\\s]+#".toList,
    Errors :=
      PromptCiscoUser.Errors }

/-- The prompt `PromptCiscoConf` of the catalog. -/
def PromptCiscoConf : Prompt :=
  { Name := "cisco-conf".toList,
    Vendor := PromptCiscoUser.Vendor,
    RegExp := "\\r?\\n\\r?[^#\\s]+\\(conf[^#\\s]+?\\)#".toList,
    Errors :=
      PromptCiscoUser.Errors }

/-- The prompt `PromptCiscoMenu` of the catalog. -/
def PromptCiscoMenu : Prompt :=
  { Name := "cisco-menu".toList,
    Vendor := PromptCiscoUser.Vendor,
    RegExp := ".*([Ss]elect\\s[Aa]ction|[Yy]our\\s[Ss]election).*:".toList,
    Errors :=
      PromptCiscoUser.Errors }

/-- The prompt `PromptHuaweiUser` of the catalog. -/
def PromptHuaweiUser : Prompt :=
  { Name := "huawei-user".toList,
    Vendor := "huawei".toList,
    RegExp := "\\r?\\n\\r?(.+)?<.+>".toList,
    Errors :=
      ["(\\r\\n\\r?[Ee]rror:\\s)".toList] }

/-- The prompt `PromptHuaweiSys` of the catalog. -/
def PromptHuaweiSys : Prompt :=
  { Name := "huawei-sys".toList,
    Vendor := PromptHuaweiUser.Vendor,
    RegExp := "\\r?\\n\\r?(.+)?\\[.+\\]".toList,
    Errors :=
      PromptHuaweiUser.Errors }

/-- The prompt `PromptF5Bash` of the catalog. -/
def PromptF5Bash : Prompt :=
  { Name := "f5-bash".toList,
    Vendor := "f5".toList,
    RegExp := "\\[[a-zA-Z0-9\\-\\_]+?@[a-zA-Z0-9\\-\\_]+?\\:[a-zA-Z\\s]+?\\:[a-zA-Z\\s]+?\\]".toList,
    Errors :=
      ["(\\-bash:\\s.*:\\scommand\\snot\\sfound)".toList] }

/-- The prompt `PromptF5TMSH` of the catalog. -/
def PromptF5TMSH : Prompt :=
  { Name := "f5-tmos".toList,
    Vendor := PromptF5Bash.Vendor,
    RegExp := "[a-zA-Z0-9\\-\\_]+?\\@\\([a-zA-Z0-9\\-\\_]+?\\)\\([a-zA-Z0-9\\-\\_\\s]+?\\)\\([a-zA-Z0-9\\-\\_\\s]+?\\)\\([a-zA-Z0-9\\-\\_\\s\\/]+?\\)\\(tmos\\)".toList,
    Errors :=
      ["([Ss]yntax\\s[Ee]rror:)".toList,
      "([Uu]nexpected\\s[Ee]rror:)".toList,
      "([Uu]se\\s\\\"quit\\\"\\sto\\send\\sthe\\scurrent\\ssession)".toList] }

/-- The prompt `PromptRadwareAlteon` of the catalog. -/
def PromptRadwareAlteon : Prompt :=
  { Name := "radware-alteon".toList,
    Vendor := "radware".toList,
    RegExp := "\\r?\\n\\r?>>\\s[^#]+#".toList,
    Errors :=
      ["(\\r\\n\\r?[Ee]rror:\\s)".toList] }

/-- The method `Prompt.GetRegExp()` on a prompt that is not `nil`; every prompt of the
catalog has an expression. -/
def Prompt.GetRegExp (p : Prompt) : Str :=
  p.RegExp

/-- The method `Prompt.GetErrors()` on a prompt that is not `nil`: the source of the
expression for the errors of the prompt. -/
def Prompt.GetErrors (p : Prompt) : Str :=
  if p.Name.length > 0 then Join p.Errors "|".toList
  else Join PromptUniversal.Errors "|".toList

/-- The prompts in the order in which `NewPrompt` tries them. -/
def NewPrompt.order : List Prompt :=
  [PromptCiscoConf, PromptCiscoUser, PromptCiscoPriv, PromptCiscoMenu, PromptHuaweiUser,
   PromptHuaweiSys, PromptF5Bash, PromptF5TMSH, PromptRadwareAlteon]

/-- The `switch` of `NewPrompt`: the first prompt whose expression matches the output.
The expressions are compiled with `regexp.MustCompile` when the package is loaded, which
panics on a rejected pattern; the panic is taken here, where the expression is used. -/
def NewPrompt.first (lib : RegexpLib) (output : Str) : List Prompt → Outcome (Option Prompt)
  | [] => .returned none
  | p :: rest =>
    match lib.Compile p.RegExp with
    | none => .panicked
    | some re => if re.MatchString output then .returned (some p) else NewPrompt.first lib output rest

/-- The function `NewPrompt(output)`: the prompt, or the error. -/
def NewPrompt (lib : RegexpLib) (output : Str) : Outcome (Except Str Prompt) :=
  match NewPrompt.first lib output NewPrompt.order with
  | .returned (some p) => .returned (.ok p)
  | .returned none => .returned (.error ERROR_PROMPT_DEFINE)
  | .exited h => .exited h
  | .panicked => .panicked

/-! ## `internal/core/services/spawner`: `Spawn` -/

/-- The method `Spawn.SendString(command, timeout, prompt)` for a prompt that is not
`nil`: the output, the error and the spawn after the call. With a `nil` prompt the
method panics at its first use, `prompt.Name`; the callers take that case. -/
def Spawn.SendString (s : Spawn) (command : Str) (timeout : Int) (p : Prompt) :
    (Str × Option Str) × Spawn :=
  let (answer, session) := s.Session.ExpectBatch
    (.sendString (command ++ "\n".toList) p.GetErrors p.GetRegExp timeout)
  let s := { s with Session := session }
  match answer with
  | (none, _) => (([], some ERROR_INTERNAL_BUFFER), s)
  | (some [], _) => (([], some ERROR_INTERNAL_BUFFER), s)
  | (some (first :: _), some connectionError) =>
    if Contains connectionError "expect: timer expired".toList then
      ((first, some ERROR_PROMPT_TIMEOUT), s)
    else ((first, some connectionError), s)
  | (some (first :: _), none) => ((first, none), s)

/-- The method `Spawn.SendEnableCisco(prompt)`: the error and the spawn after the call. -/
def Spawn.SendEnableCisco (s : Spawn) (p : Prompt) : Option Str × Spawn :=
  let (answer, session) := s.Session.ExpectBatch
    (.enableCisco (s.Password ++ "\n".toList) p.RegExp)
  let s := { s with Session := session }
  match answer with
  | (none, _) => (some ERROR_INTERNAL_BUFFER, s)
  | (some _, err) => (err, s)

/-- The method `Spawn.SendExitFromMenuCisco(command, prompt)`: the error and the spawn
after the call. -/
def Spawn.SendExitFromMenuCisco (s : Spawn) (command : Str) (p : Prompt) : Option Str × Spawn :=
  let (answer, session) := s.Session.ExpectBatch
    (.menuExit (command ++ "\n".toList) p.RegExp)
  let s := { s with Session := session }
  match answer with
  | (none, _) => (some ERROR_INTERNAL_BUFFER, s)
  | (some _, err) => (err, s)

/-! ## `internal/core/services/spawner`: `Connection` -/

/-- The method `Connection.CiscoMenuAction(spawnOutput, prompt)`: the error and the
connection after the call. The three expressions are compiled with `regexp.MustCompile`,
which panics on a rejected pattern. -/
def Connection.CiscoMenuAction (lib : RegexpLib) (c : Connection) (spawnOutput : Str)
    (p : Executor.Prompt) : Outcome (Option Str × Connection) :=
  match lib.Compile "\\sq\\s.*(exit|quit|close)".toList,
      lib.Compile "\\se\\s.*(exit|quit|close)".toList,
      lib.Compile "\\sc\\s.*(exit|quit|close)".toList with
  | some buttonQ, some buttonE, some buttonC =>
    if buttonQ.MatchString spawnOutput then
      let (err, spawn) := c.spawn.SendExitFromMenuCisco "q".toList p
      .returned (err, { c with spawn := spawn })
    else if buttonE.MatchString spawnOutput then
      let (err, spawn) := c.spawn.SendExitFromMenuCisco "e".toList p
      .returned (err, { c with spawn := spawn })
    else if buttonC.MatchString spawnOutput then
      let (err, spawn) := c.spawn.SendExitFromMenuCisco "c".toList p
      .returned (err, { c with spawn := spawn })
    else .returned (some ERROR_INTERNAL_CISCO_MENU_EXIT, c)
  | _, _, _ => .panicked

/-- The check that ends both recoveries of `PromptDefine`: the error `code` unless the
prompt now is `PromptCiscoPriv`. A `nil` prompt panics. -/
def Connection.PromptDefine.expectPriv (code : Str) (c : Connection) :
    Outcome (Option Str × Connection) :=
  match c.Prompt with
  | none => .panicked
  | some p =>
    if p.Name != PromptCiscoPriv.Name then .returned (some code, c)
    else .returned (none, c)

/-- The method `Connection.PromptDefine()`: the error and the connection after the call.
The method calls itself after each recovery, without a bound; `fuel` bounds the depth of
these calls and `none` says that the bound was too small. -/
def Connection.PromptDefine (lib : RegexpLib) :
    Nat → Connection → Option (Outcome (Option Str × Connection))
  | 0, _ => none
  | fuel + 1, c =>
    match c.spawn.SendString [] SPAWN_TIMEOUT_SYSTEM PromptUniversal with
    | ((_, some sendError), spawn) => some (.returned (some sendError, { c with spawn := spawn }))
    | ((output, none), spawn) =>
      let c := { c with spawn := spawn }
      let output := if !HasPrefix output "\r\n".toList then "\r\n".toList ++ output else output
      match NewPrompt lib output with
      | .panicked => some .panicked
      | .exited h => some (.exited h)
      | .returned (.error promptError) => some (.returned (some promptError, c))
      | .returned (.ok p) =>
        let c := { c with Prompt := some p }
        if p.Name == PromptCiscoUser.Name then
          let (_, spawn) := c.spawn.SendEnableCisco PromptCiscoPriv
          match Connection.PromptDefine lib fuel { c with spawn := spawn } with
          | none => none
          | some (.returned (_, c)) =>
            some (Connection.PromptDefine.expectPriv ERROR_INTERNAL_CISCO_ENABLE c)
          | some (.exited h) => some (.exited h)
          | some .panicked => some .panicked
        else if p.Name == PromptCiscoMenu.Name then
          match c.CiscoMenuAction lib c.connectOutput PromptCiscoPriv with
          | .panicked => some .panicked
          | .exited h => some (.exited h)
          | .returned (_, c) =>
            match Connection.PromptDefine lib fuel c with
            | none => none
            | some (.returned (_, c)) =>
              some (Connection.PromptDefine.expectPriv ERROR_INTERNAL_CISCO_MENU_EXIT c)
            | some (.exited h) => some (.exited h)
            | some .panicked => some .panicked
        else some (.returned (none, c))

/-- The first three steps of the clean-up of the output in `Connection.Send`: trim `\r`,
`\n` and spaces at both ends, then delete the byte pairs `20 8` and `32 8`. -/
def Connection.Send.clean (output : Str) : Str :=
  let output := Trim output "\r\n ".toList
  let output := Replace output [Char.ofNat 20, Char.ofNat 8] []
  Replace output [Char.ofNat 32, Char.ofNat 8] []

/-- The clean-up of the output in `Connection.Send`: the first three steps, then
`strings.Replace(output, output[strings.LastIndex(output, "\n")+1:], "", 1)`. -/
def Connection.Send.sanitize (output : Str) : Str :=
  let output := Connection.Send.clean output
  ReplaceFirst output (output.drop (LastIndex output "\n".toList + 1).toNat) []

/-- The method `Connection.Send(command, timeout, promptChangeAllowed)`: the output, the
error and the connection after the call. A `nil` prompt panics where it is first read:
in `SendString` when it is the prompt to wait for, else at `currentPrompt.Name`. -/
def Connection.Send (lib : RegexpLib) (fuel : Nat) (c : Connection) (command : Str)
    (timeout : Int) (promptChangeAllowed : Bool) :
    Option (Outcome ((Str × Option Str) × Connection)) :=
  let currentPrompt := c.Prompt
  let nextPrompt := if promptChangeAllowed then some PromptUniversal else c.Prompt
  match nextPrompt with
  | none => some .panicked
  | some next =>
    match c.spawn.SendString command timeout next with
    | ((output, some sendError), spawn) =>
      some (.returned ((Connection.Send.sanitize output, some sendError), { c with spawn := spawn }))
    | ((output, none), spawn) =>
      let output := Connection.Send.sanitize output
      match Connection.PromptDefine lib fuel { c with spawn := spawn } with
      | none => none
      | some .panicked => some .panicked
      | some (.exited h) => some (.exited h)
      | some (.returned (some promptDefineError, c)) =>
        some (.returned ((output, some promptDefineError), c))
      | some (.returned (none, c)) =>
        match c.Prompt, currentPrompt with
        | some p, some current =>
          if p.Name != current.Name && !promptChangeAllowed then
            some (.returned ((output, some ERROR_PROMPT_CHANGED), c))
          else some (.returned ((output, none), c))
        | _, _ => some .panicked

/-- The output that the specification of `Connection.Send` describes: the raw output
trimmed, without the two byte pairs, and without its last line, the text after the last
newline. -/
def sanitizeSpec (raw : Str) : Str :=
  let output := Connection.Send.clean raw
  output.take (LastIndex output "\n".toList + 1).toNat

/-- The text of the last line of the cleaned output occurs in the cleaned output before
the last line. -/
def lastLineOccursEarlier (raw : Str) : Bool :=
  let output := Connection.Send.clean raw
  (List.range (LastIndex output "\n".toList + 1).toNat).any fun j =>
    (output.drop (LastIndex output "\n".toList + 1).toNat).isPrefixOf (output.drop j)

/-! ## `internal/adapters/filestorage` -/

/-- Whether `regexp.MatchString(f.AllowedRuneFilename, string(symb))` gives `matched`
without an error. -/
def FileStorage.allowed (lib : RegexpLib) (f : FileStorage) (symb : Char) : Bool :=
  (lib.MatchString f.AllowedRuneFilename [symb]).1
    && !(lib.MatchString f.AllowedRuneFilename [symb]).2

/-- The method `FileStorage.NameVerify(s)`. -/
def FileStorage.NameVerify (lib : RegexpLib) (f : FileStorage) (s : Str) : Bool :=
  s.all fun symb => f.allowed lib symb

/-- The method `FileStorage.NameNormalization(s)`. -/
def FileStorage.NameNormalization (lib : RegexpLib) (f : FileStorage) (s : Str) : Str :=
  s.filter fun symb => f.allowed lib symb

/-- The part of `FileStorage.Save` that creates the directory and the file and writes
the data: the error of the disk, or the file added to the files written. -/
def FileStorage.write (f : FileStorage) (data filename : Str) : Option Str × FileStorage :=
  match f.disk.fails f.disk.written filename data with
  | some err => (some err, f)
  | none => (none, { f with disk := { f.disk with written := (filename, data) :: f.disk.written } })

/-- The method `FileStorage.Save(data, filename)`: the text of the error and the storage
after the call. -/
def FileStorage.Save (lib : RegexpLib) (f : FileStorage) (data filename : Str) :
    Option Str × FileStorage :=
  if data.length ≤ 0 then (none, f)
  else if !f.NameVerify lib filename then
    if (f.NameNormalization lib filename).length > 0 then
      f.write data (f.NameNormalization lib filename)
    else (some ("Filename is incorrect: '".toList ++ filename ++ "'".toList), f)
  else f.write data filename

/-! ## `Controller`: the pointers into the task file -/

/-- A pointer `*[]domains.Task` into the task file of the controller: the indices that
lead from the list of the file to the task whose field `Tasks` is meant, outermost
first; the empty list is `controller.Task.Tasks` itself. -/
abbrev TasksRef := List Nat

/-- The assignment `task.Status = status`. -/
def Task.setStatus (status : Str) (t : Task) : Task :=
  .mk t.Command status t.Name t.Params t.Tasks t.When

/-- The task with another list under its field `Tasks`. -/
def Task.setTasks (tasks : Option (List Task)) (t : Task) : Task :=
  .mk t.Command t.Status t.Name t.Params tasks t.When

/-- The list that the pointer `tasks` points to, read from the list `root` of the file;
`none` is a `nil` pointer. -/
def tasksAt : TasksRef → Option (List Task) → Option (List Task)
  | [], root => root
  | _ :: _, none => none
  | i :: rest, some list =>
    match list[i]? with
    | none => none
    | some t => tasksAt rest t.Tasks

/-- The list `root` of the file after `(*tasks)[taskIdx].Status = status`. -/
def setStatusAt (status : Str) : TasksRef → Nat → Option (List Task) → Option (List Task)
  | _, _, none => none
  | [], taskIdx, some list => some (list.modify (Task.setStatus status) taskIdx)
  | i :: rest, taskIdx, some list =>
    some (list.modify (fun t => t.setTasks (setStatusAt status rest taskIdx t.Tasks)) i)

/-- The list `*tasks`. -/
def Controller.tasksAt (c : Controller) (tasks : TasksRef) : Option (List Executor.Task) :=
  Executor.tasksAt tasks c.Task.Tasks

/-- The task `(*tasks)[taskIdx]`, `none` when there is none. -/
def Controller.taskAt (c : Controller) (tasks : TasksRef) (taskIdx : Nat) :
    Option Executor.Task :=
  match c.tasksAt tasks with
  | none => none
  | some list => list[taskIdx]?

/-- The status `(*tasks)[taskIdx].Status`. -/
def Controller.statusAt (c : Controller) (tasks : TasksRef) (taskIdx : Nat) : Option Str :=
  (c.taskAt tasks taskIdx).map Task.Status

/-! ## `Controller.Send`, `Controller.SetTaskStatus`, `Controller.SaveOutput` -/

/-- Map write `variables[key] = value`. -/
def Artefacts.set (vars : Artefacts) (key value : Str) : Artefacts :=
  fun k => if k == key then some value else vars k

/-- The entry `c.Names[name]` after its field `Output` is written, a new entry being made
when there is none. -/
def Controller.nameOutput (c : Controller) (name output : Str) : Controller :=
  { c with Names := fun k =>
      if k == name then
        match c.Names name with
        | some entry => some { entry with Output := output }
        | none => some { Status := [], Output := output }
      else c.Names k }

/-- The entry `c.Names[name]` after its field `Status` is written, a new entry being made
when there is none. -/
def Controller.nameStatus (c : Controller) (name status : Str) : Controller :=
  { c with Names := fun k =>
      if k == name then
        match c.Names name with
        | some entry => some { entry with Status := status }
        | none => some { Status := status, Output := [] }
      else c.Names k }

/-- The method `Controller.Send(task)`: the output, the text of the error and the
controller after the call. A `nil` connection or prompt panics; `fuel` is handed to
`Connection.Send`. -/
def Controller.Send (c : Controller) (lib : RegexpLib) (fuel : Nat) (task : Executor.Task) :
    Option (Outcome ((Str × Option Str) × Controller)) :=
  match c.Connection with
  | none => some .panicked
  | some connection =>
    match connection.Send lib fuel task.Command task.Params.Timeout
        task.Params.PromptChangeAllowed with
    | none => none
    | some .panicked => some .panicked
    | some (.exited h) => some (.exited h)
    | some (.returned ((commandSendOutput, some commandSendError), connection)) =>
      let c := { c with Connection := some connection }
      let c := if task.Name.length > 0 then c.nameOutput task.Name commandSendOutput else c
      some (.returned ((commandSendOutput, some commandSendError), c))
    | some (.returned ((commandSendOutput, none), connection)) =>
      match connection.Prompt with
      | none => some .panicked
      | some p =>
        let c := { c with Connection := some connection,
                          Variables := c.Variables.set "prompt".toList p.Name }
        let c := if task.Name.length > 0 then c.nameOutput task.Name commandSendOutput else c
        some (.returned ((commandSendOutput, none), c))

/-- The method `Controller.SetTaskStatus(task, status)` for the pointer
`&(*tasks)[taskIdx]`: the controller after the call. `Run` only ever passes a pointer to
a task of the file; for indices that lead to no task nothing is written. -/
def Controller.SetTaskStatus (c : Controller) (tasks : TasksRef) (taskIdx : Nat)
    (status : Str) : Controller :=
  match c.taskAt tasks taskIdx with
  | none => c
  | some task =>
    let c := { c with Task :=
      { c.Task with Tasks := setStatusAt status tasks taskIdx c.Task.Tasks } }
    if task.Name.length > 0 then c.nameStatus task.Name status else c

/-- The method `Controller.SaveOutput(output, filename)`: the text of the error and the
controller after the call. -/
def Controller.SaveOutput (c : Controller) (lib : RegexpLib) (output filename : Str) :
    Option Str × Controller :=
  match c.OutputStorage.Save lib output filename with
  | (err, storage) => (err, { c with OutputStorage := storage })

/-! ## `cmd`: `Run` -/

/-- The map `variables` of a call of `Run`. `main` hands over `controller.Variables`, a
Go map and so the very map that `Controller.Send` writes to; every run of the subtasks
gets a map of its own, which nothing writes to after it is made. -/
inductive VarsRef where
  | controller
  | own (m : Artefacts)

/-- The content of the map `variables` when the controller is `ctrl`. -/
def VarsRef.read (ctrl : Controller) : VarsRef → Artefacts
  | .controller => ctrl.Variables
  | .own m => m

/-- The map `subTaskArtefacts`: the loop `for index, values := range regMap` run on the
copy `sub` of `variables`; `none` is the panic of `values[subTaskOrder]` on an index out
of range. -/
def Run.subTaskArtefacts (subTaskOrder : Nat) : Groups → Artefacts → Option Artefacts
  | [], sub => some sub
  | (index, values) :: rest, sub =>
    match values[subTaskOrder]? with
    | none => none
    | some value => Run.subTaskArtefacts subTaskOrder rest (sub.set index value)

/-- The loop `for subTaskOrder := 0; subTaskOrder < regCount; subTaskOrder++` with
`todo` runs still to make; `run` is `Run` for the subtasks. -/
def Run.subTasks (run : Controller → TasksRef → VarsRef → Int → Option (Outcome Controller))
    (tasks : TasksRef) (taskIdx : Nat) (vars : VarsRef) (depthLevel : Int) (regMap : Groups) :
    Nat → Nat → Controller → Option (Outcome Controller)
  | 0, _, ctrl => some (.returned ctrl)
  | todo + 1, subTaskOrder, ctrl =>
    match Run.subTaskArtefacts subTaskOrder regMap (vars.read ctrl) with
    | none => some .panicked
    | some subTaskArtefacts =>
      match run ctrl (tasks ++ [taskIdx]) (.own subTaskArtefacts) (depthLevel + 1) with
      | some (.returned ctrl) =>
        Run.subTasks run tasks taskIdx vars depthLevel regMap todo (subTaskOrder + 1) ctrl
      | other => other

/-- The loop body from `if len(task.Params.Filter) > 0` to its end. -/
def Run.byFilter (lib : RegexpLib)
    (run : Controller → TasksRef → VarsRef → Int → Option (Outcome Controller))
    (ctrl : Controller) (tasks : TasksRef) (taskIdx : Nat) (task : Task) (vars : VarsRef)
    (depthLevel : Int) (output : Str) : Option (Outcome Controller) :=
  if task.Params.Filter.length > 0 then
    match RegExpMatch lib output task.Params.Filter task.Params.FilterExclude with
    | .panicked => some .panicked
    | .exited h => some (.exited h)
    | .returned (_, _, some regError) => some (.exited (ctrl.ExitError regError.message))
    | .returned (regMap, regCount, none) =>
      if regCount ≤ 0 then
        some (.returned (ctrl.SetTaskStatus tasks taskIdx PIPE_STATUS_SKIPPED))
      else if task.Tasks.isSome then
        Run.subTasks run tasks taskIdx vars depthLevel regMap regCount.toNat 0 ctrl
      else some (.returned (ctrl.SetTaskStatus tasks taskIdx PIPE_STATUS_SKIPPED))
  else some (.returned ctrl)

/-- The loop body from `if len(task.Params.OutputFile) > 0 && ...` to its end; an index
out of range in `(*tasks)[taskIdx]` panics. -/
def Run.byOutputFile (lib : RegexpLib)
    (run : Controller → TasksRef → VarsRef → Int → Option (Outcome Controller))
    (ctrl : Controller) (tasks : TasksRef) (taskIdx : Nat) (task : Task) (vars : VarsRef)
    (depthLevel : Int) (output : Str) : Option (Outcome Controller) :=
  if task.Params.OutputFile.length > 0 then
    match ctrl.statusAt tasks taskIdx with
    | none => some .panicked
    | some status =>
      if status == PIPE_STATUS_SUCCESS then
        match ctrl.SaveOutput lib output task.Params.OutputFile with
        | (some savingFileError, ctrl) => some (.exited (ctrl.ExitError savingFileError))
        | (none, ctrl) => Run.byFilter lib run ctrl tasks taskIdx task vars depthLevel output
      else Run.byFilter lib run ctrl tasks taskIdx task vars depthLevel output
  else Run.byFilter lib run ctrl tasks taskIdx task vars depthLevel output

/-- The loop body from `output, commandSendError := ctrl.Send(&task)` to its end. -/
def Run.bySend (lib : RegexpLib) (fuel : Nat)
    (run : Controller → TasksRef → VarsRef → Int → Option (Outcome Controller))
    (ctrl : Controller) (tasks : TasksRef) (taskIdx : Nat) (task : Task) (vars : VarsRef)
    (depthLevel : Int) : Option (Outcome Controller) :=
  match ctrl.Send lib fuel task with
  | none => none
  | some .panicked => some .panicked
  | some (.exited h) => some (.exited h)
  | some (.returned ((output, some commandSendError), ctrl)) =>
    if task.Params.OnErrorContinue then
      Run.byOutputFile lib run (ctrl.SetTaskStatus tasks taskIdx PIPE_STATUS_FAIL) tasks taskIdx
        task vars depthLevel output
    else
      some (.exited ((ctrl.SetTaskStatus tasks taskIdx PIPE_STATUS_FAIL).ExitError
        commandSendError))
  | some (.returned ((output, none), ctrl)) =>
    Run.byOutputFile lib run (ctrl.SetTaskStatus tasks taskIdx PIPE_STATUS_SUCCESS) tasks taskIdx
      task vars depthLevel output

/-- The loop body from `conditionsSuccess, conditionsError := ctrl.WhenMatcher(...)` to
its end. -/
def Run.byWhen (lib : RegexpLib) (fuel : Nat)
    (run : Controller → TasksRef → VarsRef → Int → Option (Outcome Controller))
    (ctrl : Controller) (tasks : TasksRef) (taskIdx : Nat) (task : Task) (vars : VarsRef)
    (depthLevel : Int) : Option (Outcome Controller) :=
  match ctrl.WhenMatcher lib task.When (vars.read ctrl) with
  | .panicked => some .panicked
  | .exited h => some (.exited h)
  | .returned (_, some conditionsError, ctrl) => some (.exited (ctrl.ExitError conditionsError))
  | .returned (false, none, ctrl) =>
    some (.returned (ctrl.SetTaskStatus tasks taskIdx PIPE_STATUS_SKIPPED))
  | .returned (true, none, ctrl) => Run.bySend lib fuel run ctrl tasks taskIdx task vars depthLevel

/-- The loop body from `if len(task.Status) > 0` to its end. -/
def Run.byStatus (lib : RegexpLib) (fuel : Nat)
    (run : Controller → TasksRef → VarsRef → Int → Option (Outcome Controller))
    (ctrl : Controller) (tasks : TasksRef) (taskIdx : Nat) (task : Task) (vars : VarsRef)
    (depthLevel : Int) : Option (Outcome Controller) :=
  if task.Status.length > 0 && (!task.Params.CommandRepeatAllowed && depthLevel == 0) then
    some (.returned (ctrl.SetTaskStatus tasks taskIdx PIPE_STATUS_SKIPPED))
  else Run.byWhen lib fuel run ctrl tasks taskIdx task vars depthLevel

/-- The loop body from `if len(ctrl.NextTaskName) > 0` to its end, for the compiled
`task`. -/
def Run.byNextTaskName (lib : RegexpLib) (fuel : Nat)
    (run : Controller → TasksRef → VarsRef → Int → Option (Outcome Controller))
    (ctrl : Controller) (tasks : TasksRef) (taskIdx : Nat) (task : Task) (vars : VarsRef)
    (depthLevel : Int) : Option (Outcome Controller) :=
  if ctrl.NextTaskName.length > 0 then
    if task.Name != ctrl.NextTaskName then
      some (.returned (ctrl.SetTaskStatus tasks taskIdx PIPE_STATUS_SKIPPED))
    else
      Run.byStatus lib fuel run { ctrl with NextTaskName := [] } tasks taskIdx task vars depthLevel
  else Run.byStatus lib fuel run ctrl tasks taskIdx task vars depthLevel

/-- One turn of the loop `for taskIdx, task := range *tasks`, for the copy `task` of
`(*tasks)[taskIdx]`: the controller with which the loop goes on, or the end of the
process. -/
def Run.task (lib : RegexpLib) (fuel : Nat)
    (run : Controller → TasksRef → VarsRef → Int → Option (Outcome Controller))
    (ctrl : Controller) (tasks : TasksRef) (taskIdx : Nat) (task : Task) (vars : VarsRef)
    (depthLevel : Int) : Option (Outcome Controller) :=
  match ctrl.Compile task (vars.read ctrl) with
  | .panicked => some .panicked
  | .exited h => some (.exited h)
  | .returned task => Run.byNextTaskName lib fuel run ctrl tasks taskIdx task vars depthLevel

/-- The loop `for taskIdx, task := range *tasks` with `todo` tasks still to visit; each
turn copies the task from the list as it is then. The list keeps its length while the
loop runs, so the task is there; the case that it is not is written as a panic. -/
def Run.loop (lib : RegexpLib) (fuel : Nat)
    (run : Controller → TasksRef → VarsRef → Int → Option (Outcome Controller))
    (tasks : TasksRef) (vars : VarsRef) (depthLevel : Int) :
    Nat → Nat → Controller → Option (Outcome Controller)
  | 0, _, ctrl => some (.returned ctrl)
  | todo + 1, taskIdx, ctrl =>
    match ctrl.taskAt tasks taskIdx with
    | none => some .panicked
    | some task =>
      match Run.task lib fuel run ctrl tasks taskIdx task vars depthLevel with
      | some (.returned ctrl) => Run.loop lib fuel run tasks vars depthLevel todo (taskIdx + 1) ctrl
      | other => other

/-- The function `Run(ctrl, tasks, vars, depthLevel)`: the controller after the call, or
the end of the process inside it. A `nil` pointer `tasks` panics. `fuel` bounds the depth
of the calls of `Run` and of `PromptDefine`; `none` says that the bound was too small. -/
def Run (lib : RegexpLib) :
    Nat → Controller → TasksRef → VarsRef → Int → Option (Outcome Controller)
  | 0, _, _, _, _ => none
  | fuel + 1, ctrl, tasks, vars, depthLevel =>
    match ctrl.tasksAt tasks with
    | none => some .panicked
    | some list => Run.loop lib fuel (Run lib fuel) tasks vars depthLevel list.length 0 ctrl

/-! ## What a walk may change -/

/-- The three statuses that `Run` writes. -/
def IsWalkStatus (s : Str) : Prop :=
  s = PIPE_STATUS_SUCCESS ∨ s = PIPE_STATUS_FAIL ∨ s = PIPE_STATUS_SKIPPED

/-- The controllers that are reached from a controller by steps of two kinds: a call of
`SetTaskStatus` that writes one of the three statuses to a task `(*tasks)[taskIdx]` with
`allowed tasks taskIdx`, and a step that leaves the task file as it is and the artefacts
as they are but for the key `prompt`. -/
inductive Effect (allowed : TasksRef → Nat → Prop) : Controller → Controller → Prop
  | refl (c : Controller) : Effect allowed c c
  | status {c c2 : Controller} (tasks : TasksRef) (taskIdx : Nat) (s : Str)
      (h : Effect allowed c c2) (ha : allowed tasks taskIdx) (hs : IsWalkStatus s) :
      Effect allowed c (c2.SetTaskStatus tasks taskIdx s)
  | other {c c2 : Controller} (c3 : Controller) (h : Effect allowed c c2)
      (hT : c3.Task = c2.Task)
      (hV : ∀ k, k ≠ "prompt".toList → c3.Variables k = c2.Variables k) :
      Effect allowed c c3

/-- The tasks that the turn of the loop of `Run` for `(*tasks)[taskIdx]` may write a
status to: that task, and the tasks below it. -/
def turnWrites (tasks : TasksRef) (taskIdx : Nat) (q : TasksRef) (j : Nat) : Prop :=
  (q = tasks ∧ j = taskIdx) ∨ (tasks ++ [taskIdx]) <+: q

/-- The tasks that the loop of `Run` over `*tasks` may write a status to from the index
`taskIdx` on: the tasks of the list from that index on, and the tasks below them. -/
def loopWrites (tasks : TasksRef) (taskIdx : Nat) (q : TasksRef) (j : Nat) : Prop :=
  (q = tasks ∧ taskIdx ≤ j) ∨ ∃ i, taskIdx ≤ i ∧ (tasks ++ [i]) <+: q

/-- The tasks that `Run` over `*tasks` may write a status to: the tasks of the list and
the tasks below them. -/
def runWrites (tasks : TasksRef) (q : TasksRef) (_ : Nat) : Prop :=
  tasks <+: q

/-- The task `(*tasks)[taskIdx]` has one of the three statuses that `Run` writes. -/
def Marked (c : Controller) (tasks : TasksRef) (taskIdx : Nat) : Prop :=
  ∃ s, c.statusAt tasks taskIdx = some s ∧ IsWalkStatus s

/-! ## What the specification says about the subtasks -/

/-- The artefacts that the specification gives to the run `k` of the subtasks: the
artefacts `current` of the frame, with each group identifier of `regMap` taken to the
value `k` captured for that group. -/
def overlayAt (current : Artefacts) (regMap : Groups) (k : Nat) : Artefacts :=
  fun key =>
    match regMap.find? fun group => group.1 == key with
    | some group => group.2[k]?
    | none => current key

/-- The walks that the specification asks for: for each `k` of the list in turn, one walk
of the list `children` at the depth `depthLevel` with the artefacts `overlayAt` of the
frame at that time; a walk that does not return ends the whole. -/
def walkEach (run : Controller → TasksRef → VarsRef → Int → Option (Outcome Controller))
    (children : TasksRef) (vars : VarsRef) (depthLevel : Int) (regMap : Groups) :
    List Nat → Controller → Option (Outcome Controller)
  | [], ctrl => some (.returned ctrl)
  | k :: rest, ctrl =>
    match run ctrl children (.own (overlayAt (vars.read ctrl) regMap k)) depthLevel with
    | some (.returned ctrl) => walkEach run children vars depthLevel regMap rest ctrl
    | other => other

/-! ## A regular-expression library for the prompts of a Cisco device -/

/-- The longest run of characters of a class at the head of the text, and the text after
it. -/
def spanClass (p : Char → Bool) : Str → Str × Str
  | [] => ([], [])
  | c :: rest =>
    if p c then ((spanClass p rest).1.cons c, (spanClass p rest).2) else ([], c :: rest)

/-- The piece `\r?` at the head of the text: the text after it. -/
def skipCR : Str → Str
  | '\r' :: rest => rest
  | text => text

/-- The class `[^#\s]`. -/
def notHashSpace (c : Char) : Bool :=
  c != '#' && !isSpace c

/-- The class `[^<\s]`. -/
def notLessSpace (c : Char) : Bool :=
  c != '<' && !isSpace c

/-- The expression `\r?\n\r?[^#\s]+#` tried at the head of the text: the text after the
match. The run `[^#\s]+` cannot hold a `#`, so it is the longest run and a `#` follows. -/
def privMatchAt (text : Str) : Option Str :=
  match skipCR text with
  | '\n' :: rest =>
    match spanClass notHashSpace (skipCR rest) with
    | (_ :: _, '#' :: after) => some after
    | _ => none
  | _ => none

/-- Whether the run `[^#\s]+\(conf[^#\s]+?\)` can be laid over the whole of `run`: the
text `(conf` starts at some place after the first character, and at least one character
lies between it and the closing bracket that ends the run. -/
def confRun (run : Str) : Bool :=
  run.getLast? == some ')' &&
    (List.range run.length).any fun i =>
      1 ≤ i && "(conf".toList.isPrefixOf (run.drop i) && i + 5 + 1 < run.length

/-- The expression `\r?\n\r?[^#\s]+\(conf[^#\s]+?\)#` tried at the head of the text: the
text after the match. All of it up to the final `#` lies in one run of `[^#\s]`, which
the `#` ends. -/
def confMatchAt (text : Str) : Option Str :=
  match skipCR text with
  | '\n' :: rest =>
    match spanClass notHashSpace (skipCR rest) with
    | (run, '#' :: after) => if confRun run then some after else none
    | _ => none
  | _ => none

/-- The greedy run `[^<\s]+` followed by `>` laid over a run of `[^<\s]`: the length of
the match, which ends at the last `>` of the run that is not its first character. -/
def userRun (run : Str) : Option Nat :=
  match (List.range run.length).reverse.find? fun i => 1 ≤ i && run[i]? == some '>' with
  | some i => some (i + 1)
  | none => none

/-- The expression `\r\n\r?[^<\s]+>` tried at the head of the text: the text after the
match. -/
def userMatchAt (text : Str) : Option Str :=
  match text with
  | '\r' :: '\n' :: rest =>
    match userRun (spanClass notLessSpace (skipCR rest)).1 with
    | some n => some ((skipCR rest).drop n)
    | none => none
  | _ => none

/-- The expression `(?P<vdc>\S+)` tried at the head of the text: the text after the
match, which is the longest run of characters that are not spaces. -/
def wordMatchAt (text : Str) : Option Str :=
  match spanClass (fun c => !isSpace c) text with
  | (_ :: _, after) => some after
  | _ => none

/-- All successive matches of an expression given by its match at the head of a text,
each as the matched text repeated once for the whole match and once for each of `groups`
groups that span the whole match. The expression matches no empty text. -/
def findMatches (matchAt : Str → Option Str) (groups : Nat) : Nat → Str → List (List Str)
  | 0, _ => []
  | _, [] => []
  | n + 1, c :: rest =>
    match matchAt (c :: rest) with
    | some after =>
      List.replicate (groups + 1) ((c :: rest).take ((c :: rest).length - after.length))
        :: findMatches matchAt groups n after
    | none => findMatches matchAt groups n rest

/-- The compiled form of an expression given by its match at the head of a text, with
groups of the given names that each span the whole match. -/
def matcherRegexp (matchAt : Str → Option Str) (names : List Str) : Regexp :=
  { SubexpNames := [] :: names,
    FindAllStringSubmatch := fun s => findMatches matchAt names.length s.length s,
    MatchString := fun s => s.tails.any fun t => (matchAt t).isSome }

/-- A regular-expression library that knows the expressions of the prompts
`PromptCiscoConf`, `PromptCiscoUser` and `PromptCiscoPriv` and the filter `(?P<vdc>\S+)`,
and takes every other pattern to `sampleLib`. -/
def deviceLib : RegexpLib :=
  { Compile := fun pattern =>
      if pattern == PromptCiscoConf.RegExp then some (matcherRegexp confMatchAt [])
      else if pattern == PromptCiscoUser.RegExp then some (matcherRegexp userMatchAt [])
      else if pattern == PromptCiscoPriv.RegExp then some (matcherRegexp privMatchAt [])
      else if pattern == "(?P<vdc>\\S+)".toList then
        some (matcherRegexp wordMatchAt ["vdc".toList])
      else sampleLib.Compile pattern }

/-! ## A Cisco device for the examples -/

/-- The command of the latest batch, for a batch of `SendString`. -/
def Batch.sent : Batch → Option Str
  | .sendString send _ _ _ => some send
  | _ => none

/-- Whether the device is in configuration mode after the batches `log`, latest first:
the latest of the commands `configure terminal` and `end` decides. -/
def sampleInConf : List Batch → Bool
  | [] => false
  | batch :: earlier =>
    if batch.sent == some "configure terminal\n".toList then true
    else if batch.sent == some "end\n".toList then false
    else sampleInConf earlier

/-- The prompt that the device `R1` shows after the batches `log`. -/
def samplePromptText (log : List Batch) : Str :=
  if sampleInConf log then "R1(config)#".toList else "R1#".toList

/-- What the device `R1` returns for the latest batch of `log`: the echo of the command,
the output of the command, and its prompt; the command `show vdc` lists two contexts
without an echo, the command `show prompt` prints the configured prompt without an echo,
the command `bad` is refused, which the batch of `SendString` reports as the error
`spawner-command-send-error`, and an empty answer with a timeout follows the command
`wait`. -/
def sampleRespond (log : List Batch) : Option (List Str) × Option Str :=
  match log with
  | [] => (none, none)
  | batch :: _ =>
    match batch.sent with
    | none => (some [samplePromptText log], none)
    | some send =>
      if send == "\n".toList then (some ["\r\n".toList ++ samplePromptText log], none)
      else if send == "show vdc\n".toList then
        (some ["L3-CORE\nAGG\n".toList ++ samplePromptText log], none)
      else if send == "show prompt\n".toList then
        (some ["prompt R1#\r\n".toList ++ samplePromptText log], none)
      else if send == "bad\n".toList then
        (some ["bad\r\n% Invalid input detected\r\n".toList ++ samplePromptText log],
          some "spawner-command-send-error".toList)
      else if send == "wait\n".toList then
        (some [[]], some "expect: timer expired after 20 seconds".toList)
      else (some [send.dropLast ++ "\r\n".toList ++ samplePromptText log], none)

/-- A connection to the device `R1` at its prompt `PromptCiscoPriv`, with nothing sent
yet. -/
def sampleConnection : Connection :=
  { spawn := { Session := { respond := sampleRespond, sent := [] },
               Username := "admin".toList,
               Password := "secret".toList },
    Prompt := some PromptCiscoPriv,
    connectOutput := "\r\nR1#".toList }

/-! ## Sample inputs for the walk -/

/-- A clause on the variable `vrf` that moves to the task `T`. -/
def sampleMoveWhen : When :=
  { emptyWhen with
    Variable := "vrf".toList
    OnMove := "T".toList }

/-- The controller `sampleController` after a move to the task `T`. -/
def sampleMovedController : Controller :=
  { sampleController with NextTaskName := "T".toList }

/-- The spawn of `sampleConnection` after the command `configure terminal` is sent while
the prompt `p` is waited for. -/
def sampleConfSpawnFor (p : Prompt) : Spawn :=
  { sampleConnection.spawn with
    Session :=
      { respond := sampleRespond,
        sent := [.sendString "configure terminal\n".toList p.GetErrors p.GetRegExp 20] } }

/-- The connection `sampleConnection` with the spawn `sampleConfSpawnFor p` after
`PromptDefine` has sent the empty command and found the prompt `PromptCiscoConf`. -/
def sampleConfConnectionFor (p : Prompt) : Connection :=
  { spawn :=
      { sampleConnection.spawn with
        Session :=
          { respond := sampleRespond,
            sent := [.sendString "\n".toList PromptUniversal.GetErrors PromptUniversal.GetRegExp
                       SPAWN_TIMEOUT_SYSTEM,
                     .sendString "configure terminal\n".toList p.GetErrors p.GetRegExp 20] } },
    Prompt := some PromptCiscoConf,
    connectOutput := sampleConnection.connectOutput }

/-- The spawn after `configure terminal` is sent while the current prompt is waited for. -/
def sampleConfSpawn : Spawn := sampleConfSpawnFor PromptCiscoPriv

/-- The connection after `configure terminal` is sent while the current prompt is waited
for. -/
def sampleConfConnection : Connection := sampleConfConnectionFor PromptCiscoPriv

/-- The spawn after `configure terminal` is sent while the universal prompt is waited
for. -/
def sampleConfSpawnU : Spawn := sampleConfSpawnFor PromptUniversal

/-- The connection after `configure terminal` is sent while the universal prompt is
waited for. -/
def sampleConfConnectionU : Connection := sampleConfConnectionFor PromptUniversal

/-- A task with the given name and command and nothing else set. -/
def sampleNamedTask (name command : String) : Task :=
  .mk command.toList [] name.toList ⟨0, [], false, false, false, [], []⟩ none none

/-- The task `sampleNamedTask name command` after `Compile` in a file without settings:
the timeout is the system timeout. -/
def sampleCompiledTask (name command : String) : Task :=
  .mk command.toList [] name.toList ⟨20, [], false, false, false, [], []⟩ none none

/-- The artefacts that `NewController` sets for the device `R1`, the date and the time
apart. -/
def sampleSystemVars : Artefacts :=
  fun k =>
    if k == "host".toList then some "h".toList
    else if k == "vendor".toList then some "cisco".toList
    else if k == "prompt".toList then some "cisco-priv".toList
    else none

/-- A controller connected to the device `R1` with the root tasks `tasks`. -/
def sampleRunController (tasks : List Task) : Controller :=
  { sampleController with
    Connection := some sampleConnection
    Task := { sampleController.Task with Tasks := some tasks }
    Variables := sampleSystemVars }

/-- A controller on the root tasks `A` and `T` in which `NextTaskName` is `T`. -/
def sampleGotoController : Controller :=
  { sampleRunController [sampleNamedTask "A" "show a", sampleNamedTask "T" "show t"] with
    NextTaskName := "T".toList }

/-- Two root tasks left with a status by an earlier run, the second with a status that
`Run` does not write. -/
def sampleDoneTasks : List Task :=
  [.mk "show a".toList "success".toList [] ⟨0, [], false, false, false, [], []⟩ none none,
   .mk "show b".toList "done".toList "B".toList ⟨0, [], false, false, false, [], []⟩ none none]

/-- A controller on the root tasks `sampleDoneTasks`. -/
def sampleDoneController : Controller :=
  sampleRunController sampleDoneTasks

/-- The controller with which a walk returns, or `sampleController` when it does not
return. -/
def returnedOr : Option (Outcome Controller) → Controller
  | some (.returned c) => c
  | _ => sampleController

/-- The statuses of the root tasks of a file. -/
def rootStatuses (file : TaskPattern) : Option (List Str) :=
  file.Tasks.map fun list => list.map Task.Status

/-- The texts sent over the connection of a controller, first sent first. -/
def sentTexts (c : Controller) : List Str :=
  match c.Connection with
  | none => []
  | some connection => connection.spawn.Session.sent.reverse.filterMap Batch.sent

/-- The controller `sampleDoneController` after its two root tasks are marked `skipped`. -/
def sampleSkippedController : Controller :=
  (sampleDoneController.SetTaskStatus [] 0 PIPE_STATUS_SKIPPED).SetTaskStatus [] 1
    PIPE_STATUS_SKIPPED

/-- A controller on two root tasks that were not run before: the command of the first is
accepted, the command of the second names the variable `x`, which is not set. -/
def sampleMissingController : Controller :=
  sampleRunController [sampleTask "show a".toList, sampleTask sampleMissingCommand]

/-- A task with the command `bad`, which the device refuses, with `onErrorContinue` set
and the given filter. -/
def sampleBadTask (filter : String) : Task :=
  .mk "bad".toList [] [] ⟨0, [], true, false, false, filter.toList, []⟩ none none

/-- The task `sampleBadTask filter` after `Compile` in a file without settings. -/
def sampleBadCompiled (filter : String) : Task :=
  .mk "bad".toList [] [] ⟨20, [], true, false, false, filter.toList, []⟩ none none

/-- The parent of the fan-out scenario: the command `show vdc` with the filter
`(?P<vdc>\S+)` and the given subtasks. -/
def sampleParentTask (subtasks : List Task) : Task :=
  .mk "show vdc".toList [] [] ⟨0, [], false, false, false, "(?P<vdc>\\S+)".toList, []⟩
    (some subtasks) none

/-- A subtask that enters the configuration mode, with `promptChangeAllowed` set. -/
def sampleConfTask : Task :=
  .mk "configure terminal".toList [] [] ⟨0, [], false, true, false, [], []⟩ none none

/-- A task whose command names the variable `prompt`. -/
def samplePromptTask : Task :=
  sampleTask "show \x7b\x7bprompt\x7d\x7d".toList

/-- A controller on a parent whose subtask enters the configuration mode, followed by a
task whose command names the variable `prompt`. -/
def sampleLeakController : Controller :=
  sampleRunController [sampleParentTask [sampleConfTask], samplePromptTask]

/-- The subtask of the fan-out scenario, `switchto vdc` with the variable `vdc`. -/
def sampleSwitchTask : Task :=
  sampleTask "switchto vdc \x7b\x7bvdc\x7d\x7d".toList

/-- The controller of the fan-out scenario. -/
def sampleFanController : Controller :=
  sampleRunController [sampleParentTask [sampleSwitchTask]]

/-- The controller `sampleRunController [sampleBadTask ""]` after the command `bad` is
sent and refused. -/
def sampleBadController : Controller :=
  { sampleRunController [sampleBadTask ""] with
    Connection := some
      { sampleConnection with
        spawn :=
          { sampleConnection.spawn with
            Session :=
              { respond := sampleRespond,
                sent := [.sendString "bad\n".toList PromptCiscoPriv.GetErrors
                           PromptCiscoPriv.GetRegExp 20] } } } }

/-- The clause of the scenario of the move: on the name `A`, with a move to `T`. -/
def sampleOwnWhen : When :=
  { emptyWhen with
    Name := "A".toList
    OnMove := "T".toList }

/-- The task `A` of the scenario of the move, which carries the clause on its own name. -/
def sampleOwnTask : Task :=
  .mk "show a".toList [] "A".toList ⟨0, [], false, false, false, [], []⟩ none
    (some [sampleOwnWhen])

/-- The controller of the scenario of the move: the root tasks `A`, `B` and `T`, none run
before, and an empty named-task table. -/
def sampleOwnController : Controller :=
  sampleRunController [sampleOwnTask, sampleNamedTask "B" "show b", sampleNamedTask "T" "show t"]

/-- The controller of the scenario of the move after `A` is marked `skipped` and the
command of `B` is sent. -/
def sampleOwnAfterB : Controller :=
  match (sampleOwnController.SetTaskStatus [] 0 PIPE_STATUS_SKIPPED).Send deviceLib 1
      (sampleCompiledTask "B" "show b") with
  | some (.returned (_, c)) => c
  | _ => sampleController

/-- The controller of the scenario of the move after `B` is marked `success` and the
command of `T` is sent. -/
def sampleOwnAfterT : Controller :=
  match (sampleOwnAfterB.SetTaskStatus [] 1 PIPE_STATUS_SUCCESS).Send deviceLib 1
      (sampleCompiledTask "T" "show t") with
  | some (.returned (_, c)) => c
  | _ => sampleController

/-! ## A regular-expression library for the whole catalog of prompts

The expressions of the catalog are written as syntax trees and run by a backtracking
search, which tries the alternatives in the order of preference of the expression; the
match that such a search finds first, from the leftmost place where there is one, is the
match of Go's `regexp`. -/

/-- The syntax tree of a regular expression. -/
inductive Re where
  /-- The empty expression. -/
  | eps
  /-- One character of a class. -/
  | cls (p : Char → Bool)
  /-- The expression `ab`. -/
  | seq (a b : Re)
  /-- The expression `a|b`, which prefers `a`. -/
  | alt (a b : Re)
  /-- The expression `a*`, which prefers more repetitions, or `a*?`, which prefers fewer. -/
  | star (greedy : Bool) (a : Re)
  /-- The group number `i`, counted from 1: `(a)`. -/
  | group (i : Nat) (a : Re)

/-- What the groups have captured so far. -/
abbrev Caps := Nat → Option Str

/-- The repetitions of a step that matches no empty text, tried on `s`: with `greedy`, one
more repetition is tried before the rest `k` of the expression, else after it. The bound
counts the characters left. -/
def Re.repeatRun
    (step : Str → Caps → (Str → Caps → Option (Str × Caps)) → Option (Str × Caps))
    (greedy : Bool) :
    Nat → Str → Caps → (Str → Caps → Option (Str × Caps)) → Option (Str × Caps)
  | 0, s, caps, k => k s caps
  | n + 1, s, caps, k =>
    if greedy then
      (step s caps fun s2 caps2 =>
          if s2.length < s.length then Re.repeatRun step greedy n s2 caps2 k else none).orElse
        fun _ => k s caps
    else
      (k s caps).orElse fun _ =>
        step s caps fun s2 caps2 =>
          if s2.length < s.length then Re.repeatRun step greedy n s2 caps2 k else none

/-- The backtracking search for a match of the expression at the head of `s`, followed
by the rest `k` of the search: the first success in the order of preference. -/
def Re.run : Re → Str → Caps → (Str → Caps → Option (Str × Caps)) → Option (Str × Caps)
  | .eps, s, caps, k => k s caps
  | .cls _, [], _, _ => none
  | .cls p, c :: s, caps, k => if p c then k s caps else none
  | .seq a b, s, caps, k => a.run s caps fun s2 caps2 => b.run s2 caps2 k
  | .alt a b, s, caps, k => (a.run s caps k).orElse fun _ => b.run s caps k
  | .star greedy a, s, caps, k => Re.repeatRun a.run greedy s.length s caps k
  | .group i a, s, caps, k =>
    a.run s caps fun s2 caps2 =>
      k s2 fun j => if j = i then some (s.take (s.length - s2.length)) else caps2 j

/-- The match of the expression at the head of the text: the text after the match and
the captures. -/
def Re.matchAt (re : Re) (s : Str) : Option (Str × Caps) :=
  re.run s (fun _ => none) fun rest caps => some (rest, caps)

/-- Whether the text contains a match. -/
def Re.MatchString (re : Re) (s : Str) : Bool :=
  s.tails.any fun t => (re.matchAt t).isSome

/-- All successive matches of an expression with `groups` groups that matches no empty
text: each as the whole match followed by the captures of the groups, the empty text for
a group that took no part. -/
def Re.findAll (re : Re) (groups : Nat) : Nat → Str → List (List Str)
  | 0, _ => []
  | _, [] => []
  | n + 1, c :: rest =>
    match re.matchAt (c :: rest) with
    | some (after, caps) =>
      (((c :: rest).take ((c :: rest).length - after.length))
          :: (List.range groups).map fun i => (caps (i + 1)).getD [])
        :: Re.findAll re groups n after
    | none => Re.findAll re groups n rest

/-- The compiled form of an expression that has `groups` groups without names and
matches no empty text. -/
def Re.compile (re : Re) (groups : Nat) : Regexp :=
  { SubexpNames := List.replicate (groups + 1) [],
    FindAllStringSubmatch := fun s => re.findAll groups s.length s,
    MatchString := re.MatchString }

/-- The expression for a text taken literally. -/
def Re.chars : Str → Re
  | [] => .eps
  | c :: rest => .seq (.cls fun x => x == c) (Re.chars rest)

/-- The expression `[...]` for the characters listed. -/
def Re.oneOf (s : Str) : Re :=
  .cls fun x => s.contains x

/-- The expressions of a list one after the other. -/
def Re.seqs : List Re → Re
  | [] => .eps
  | a :: rest => .seq a (Re.seqs rest)

/-- The expression `a+`, or `a+?` when `greedy` is unset. -/
def Re.plus (greedy : Bool) (a : Re) : Re :=
  .seq a (.star greedy a)

/-- The expression `a?`. -/
def Re.opt (a : Re) : Re :=
  .alt a .eps

/-- The expression `.`: any character but the newline. -/
def Re.dot : Re :=
  .cls fun x => x != '\n'

/-- The expression `\s`. -/
def Re.space : Re :=
  .cls isSpace

/-- The start `\r?\n\r?` of most expressions of the catalog. -/
def Re.newline : Re :=
  Re.seqs [Re.opt (Re.chars "\r".toList), Re.chars "\n".toList, Re.opt (Re.chars "\r".toList)]

/-- The class `[a-zA-Z0-9\-\_]`. -/
def isWordDash (c : Char) : Bool :=
  c.isAlphanum || c == '-' || c == '_'

/-- The class `[a-zA-Z\s]`. -/
def isAlphaSpace (c : Char) : Bool :=
  c.isAlpha || isSpace c

/-- The class `[a-zA-Z0-9\-\_\s]`. -/
def isWordDashSpace (c : Char) : Bool :=
  isWordDash c || isSpace c

/-- The class `[a-zA-Z0-9\-\_\s\/]`. -/
def isWordDashSpaceSlash (c : Char) : Bool :=
  isWordDashSpace c || c == '/'

/-- The class `[a-zA-Z0-9-_\.]` of `FileStorage.AllowedRuneFilename`. -/
def isFilenameChar (c : Char) : Bool :=
  c.isAlphanum || c == '-' || c == '_' || c == '.'

/-- The expression `\r?\n\r?[^#\s]+\(conf[^#\s]+?\)#` of `PromptCiscoConf`. -/
def reCiscoConf : Re :=
  Re.seqs [Re.newline, Re.plus true (.cls notHashSpace), Re.chars "(conf".toList,
    Re.plus false (.cls notHashSpace), Re.chars ")#".toList]

/-- The expression `\r\n\r?[^<\s]+>` of `PromptCiscoUser`. -/
def reCiscoUser : Re :=
  Re.seqs [Re.chars "\r\n".toList, Re.opt (Re.chars "\r".toList),
    Re.plus true (.cls notLessSpace), Re.chars ">".toList]

/-- The expression `\r?\n\r?[^#\s]+#` of `PromptCiscoPriv`. -/
def reCiscoPriv : Re :=
  Re.seqs [Re.newline, Re.plus true (.cls notHashSpace), Re.chars "#".toList]

/-- The expression `.*([Ss]elect\s[Aa]ction|[Yy]our\s[Ss]election).*:` of
`PromptCiscoMenu`. -/
def reCiscoMenu : Re :=
  Re.seqs [.star true Re.dot,
    .group 1 (.alt
      (Re.seqs [Re.oneOf "Ss".toList, Re.chars "elect".toList, Re.space, Re.oneOf "Aa".toList,
        Re.chars "ction".toList])
      (Re.seqs [Re.oneOf "Yy".toList, Re.chars "our".toList, Re.space, Re.oneOf "Ss".toList,
        Re.chars "election".toList])),
    .star true Re.dot, Re.chars ":".toList]

/-- The expression `\r?\n\r?(.+)?<.+>` of `PromptHuaweiUser`. -/
def reHuaweiUser : Re :=
  Re.seqs [Re.newline, Re.opt (.group 1 (Re.plus true Re.dot)), Re.chars "<".toList,
    Re.plus true Re.dot, Re.chars ">".toList]

/-- The expression `\r?\n\r?(.+)?\[.+\]` of `PromptHuaweiSys`. -/
def reHuaweiSys : Re :=
  Re.seqs [Re.newline, Re.opt (.group 1 (Re.plus true Re.dot)), Re.chars "[".toList,
    Re.plus true Re.dot, Re.chars "]".toList]

/-- The expression
`\[[a-zA-Z0-9\-\_]+?@[a-zA-Z0-9\-\_]+?\:[a-zA-Z\s]+?\:[a-zA-Z\s]+?\]` of `PromptF5Bash`. -/
def reF5Bash : Re :=
  Re.seqs [Re.chars "[".toList, Re.plus false (.cls isWordDash), Re.chars "@".toList,
    Re.plus false (.cls isWordDash), Re.chars ":".toList, Re.plus false (.cls isAlphaSpace),
    Re.chars ":".toList, Re.plus false (.cls isAlphaSpace), Re.chars "]".toList]

/-- The expression of `PromptF5TMSH`: a name, `@`, and four fields in round brackets
followed by `(tmos)`. -/
def reF5TMSH : Re :=
  Re.seqs [Re.plus false (.cls isWordDash), Re.chars "@(".toList,
    Re.plus false (.cls isWordDash), Re.chars ")(".toList,
    Re.plus false (.cls isWordDashSpace), Re.chars ")(".toList,
    Re.plus false (.cls isWordDashSpace), Re.chars ")(".toList,
    Re.plus false (.cls isWordDashSpaceSlash), Re.chars ")(tmos)".toList]

/-- The expression `\r?\n\r?>>\s[^#]+#` of `PromptRadwareAlteon`. -/
def reRadwareAlteon : Re :=
  Re.seqs [Re.newline, Re.chars ">>".toList, Re.space, Re.plus true (.cls fun x => x != '#'),
    Re.chars "#".toList]

/-- The expression `\sK\s.*(exit|quit|close)` of `CiscoMenuAction` for the key `K`. -/
def reMenuButton (key : Char) : Re :=
  Re.seqs [Re.space, .cls (fun x => x == key), Re.space, .star true Re.dot,
    .group 1 (.alt (Re.chars "exit".toList)
      (.alt (Re.chars "quit".toList) (Re.chars "close".toList)))]

/-- The syntax trees of the expressions of the catalog, of `CiscoMenuAction` and of
`FileStorage`, with the number of groups of each. -/
def catalogExpressions : List (Str × Re × Nat) :=
  [(PromptCiscoConf.RegExp, reCiscoConf, 0),
   (PromptCiscoUser.RegExp, reCiscoUser, 0),
   (PromptCiscoPriv.RegExp, reCiscoPriv, 0),
   (PromptCiscoMenu.RegExp, reCiscoMenu, 1),
   (PromptHuaweiUser.RegExp, reHuaweiUser, 1),
   (PromptHuaweiSys.RegExp, reHuaweiSys, 1),
   (PromptF5Bash.RegExp, reF5Bash, 0),
   (PromptF5TMSH.RegExp, reF5TMSH, 0),
   (PromptRadwareAlteon.RegExp, reRadwareAlteon, 0),
   ("\\sq\\s.*(exit|quit|close)".toList, reMenuButton 'q', 1),
   ("\\se\\s.*(exit|quit|close)".toList, reMenuButton 'e', 1),
   ("\\sc\\s.*(exit|quit|close)".toList, reMenuButton 'c', 1),
   ("[a-zA-Z0-9-_\\.]".toList, .cls isFilenameChar, 0)]

/-- A regular-expression library that knows the expressions of `catalogExpressions` and
takes every other pattern to `deviceLib`. -/
def catalogLib : RegexpLib :=
  { Compile := fun pattern =>
      match catalogExpressions.find? fun entry => entry.1 == pattern with
      | some (_, re, groups) => some (re.compile groups)
      | none => deviceLib.Compile pattern }

/-! ## `Controller.Autotests` -/

/-- The text `fmt.Sprintf("TEST[%v] FAIL: %v", testIdx, testError)`, in which a `nil`
error prints as `<nil>`. -/
def Controller.Autotests.message (testIdx : Nat) (testError : Option Str) : Str :=
  "TEST[".toList ++ Itoa testIdx ++ "] FAIL: ".toList ++ testError.getD "<nil>".toList

/-- The loop `for testIdx, test := range *c.Task.Autotests` of `Autotests` from the entry
number `testIdx` on, with `testsResult` as it is so far: the returned error and the
controller after the loop. An entry whose actions end the process ends the loop with it. -/
def Controller.Autotests.loop (lib : RegexpLib) :
    Controller → Nat → Option Str → List When → Outcome (Option Str × Controller)
  | c, _, testsResult, [] => .returned (testsResult, c)
  | c, testIdx, testsResult, test :: rest =>
    match c.WhenMatcher lib (some [test]) c.Variables with
    | .returned (_, some testError, c2) =>
      Controller.Autotests.loop lib c2 (testIdx + 1)
        (some (Controller.Autotests.message testIdx (some testError))) rest
    | .returned (false, none, c2) =>
      Controller.Autotests.loop lib c2 (testIdx + 1)
        (some (Controller.Autotests.message testIdx none)) rest
    | .returned (true, none, c2) =>
      Controller.Autotests.loop lib c2 (testIdx + 1) testsResult rest
    | .exited h => .exited h
    | .panicked => .panicked

/-- The method `Controller.Autotests()`: the text of the returned error, `none` for
`nil`, and the controller after the call. -/
def Controller.Autotests (c : Controller) (lib : RegexpLib) :
    Outcome (Option Str × Controller) :=
  match c.Task.Autotests with
  | none => .returned (none, c)
  | some tests =>
    if tests.length > 0 then Controller.Autotests.loop lib c 0 none tests
    else .returned (none, c)

/-- An entry of `autotests` fails on a controller: evaluated as a list of one clause
against the artefacts and the named-task table of the controller, it returns an error or
`passed = false`. -/
def AutotestFails (c : Controller) (lib : RegexpLib) (test : When) : Prop :=
  ∃ passed err c2, c.WhenMatcher lib (some [test]) c.Variables = .returned (passed, err, c2)
    ∧ (err ≠ none ∨ passed = false)

/-- An entry of `autotests` ends the process on a controller: its evaluation ends in a
shutdown instead of returning. -/
def AutotestExits (c : Controller) (lib : RegexpLib) (test : When) : Prop :=
  ∃ h, c.WhenMatcher lib (some [test]) c.Variables = .exited h

/-! ## The task file that a walk leaves -/

/-- Any task of the file. -/
def anyTask (_ : TasksRef) (_ : Nat) : Prop := True

/-- The shutdown `h` is one that `ExitError` or `ExitSuccess` makes from the controller
`c`. -/
def Controller.Halts (c : Controller) (h : Halted) : Prop :=
  (∃ errorCode, h = c.ExitError errorCode) ∨ h = c.ExitSuccess

/-- The task file that a walk leaves: the file of the controller when it returns, the
file saved when it ends the process; a panic leaves none. -/
def Outcome.file : Outcome Controller → Option TaskPattern
  | .returned c => some c.Task
  | .exited h => some h.saved
  | .panicked => none

/-- The task `(*tasks)[taskIdx]` of a task file, `none` when there is none. -/
def TaskPattern.taskAt (file : TaskPattern) (tasks : TasksRef) (taskIdx : Nat) :
    Option Task :=
  (tasksAt tasks file.Tasks).bind fun list => list[taskIdx]?

/-- The shutdown `h` is made from a controller that differs from `ctrl` by the statuses
that a walk writes and by the artefact `prompt` only. -/
def Controller.EndsIn (ctrl : Controller) (h : Halted) : Prop :=
  ∃ c2 : Controller, Effect anyTask ctrl c2 ∧ c2.Halts h

/-! ## The start-up: `NewSpawn`, `NewConnection`, `NewController` -/

/-- The function `filestorage.NewFileStorage(dir)`, on a disk. -/
def NewFileStorage (dir : Str) (disk : Disk) : FileStorage :=
  { directory := dir,
    AllowedRuneFilename := "[a-zA-Z0-9-_\\.]".toList,
    disk := disk }

def ERROR_CONN_TIMEOUT : Str := "connection-timeout".toList
def ERROR_CONN_NO_AVAILABLE_METHOD : Str := "connection-no-available-method".toList
def ERROR_SYNTAX_NO_HOST : Str := "syntax-host-is-not-set".toList
def ERROR_SYNTAX_NO_TASKS : Str := "syntax-no-tasks".toList
def ERROR_INTERNAL_EXEC : Str := "internal-error-spawn-exec-command-error".toList

/-- A process started by `expect.Spawn`: `login` gives what the batch of `Spawn.Open`
returns when it has the user name and the password to send, the outputs `resources`
(`none` for `nil`) and the text of the error, and the session after that batch. -/
structure Server where
  login : Str → Str → (Option (List Str) × Option Str) × Session

/-- The function `expect.Spawn(bashCommand, -1)` of the goexpect library on the machine
that runs the program: the process started for a command, `none` when an error is
returned instead. -/
structure Launcher where
  Spawn : Str → Option Server

/-- The method `Spawn.Open(bashCommand)` of a spawn with the given user name and password:
the output, and the returned error or the session that is set. -/
def Spawn.Open (launcher : Launcher) (username password bashCommand : Str) :
    Str × Except Str Executor.Session :=
  match launcher.Spawn bashCommand with
  | none => ([], .error ERROR_INTERNAL_EXEC)
  | some server =>
    match server.login username password with
    | ((none, _), _) => ([], .error ERROR_INTERNAL_BUFFER)
    | ((some [], _), _) => ([], .error ERROR_INTERNAL_BUFFER)
    | ((some (first :: _), some connectionError), _) =>
      if Contains connectionError "expect: Process not running".toList then
        (first, .error ERROR_CONN_TIMEOUT)
      else if Contains connectionError "expect: timer expired".toList then
        (first, .error ERROR_CONN_TIMEOUT)
      else (first, .error connectionError)
    | ((some (first :: _), none), session) => (first, .ok session)

/-- The function `NewSpawn(username, password, bashCommand)`: the spawn, `none` for `nil`,
the output and the error. -/
def NewSpawn (launcher : Launcher) (username password bashCommand : Str) :
    Option Spawn × Str × Option Str :=
  match Spawn.Open launcher username password bashCommand with
  | (output, .error openError) => (none, output, some openError)
  | (output, .ok session) =>
    (some { Session := session, Username := username, Password := password }, output, none)

/-- The command with which `NewConnection` calls `ssh`. -/
def NewConnection.ssh_command (host username : Str) : Str :=
  "ssh -o connecttimeout=20 -o StrictHostKeyChecking=no ".toList
    ++ ("-o KexAlgorithms=+diffie-hellman-group1-sha1,".toList
      ++ "diffie-hellman-group14-sha1,diffie-hellman-group14-sha256,".toList
      ++ "diffie-hellman-group16-sha512,diffie-hellman-group-exchange-sha1,".toList
      ++ "diffie-hellman-group-exchange-sha256,ecdh-sha2-nistp256,".toList
      ++ "ecdh-sha2-nistp384,ecdh-sha2-nistp521,curve25519-sha256".toList)
    ++ " ".toList ++ "-o HostKeyAlgorithms=+ssh-dss,ssh-rsa".toList
    ++ " ".toList ++ "-o Ciphers=+aes128-cbc,3des-cbc,aes192-cbc,aes256-cbc".toList
    ++ " ".toList ++ username ++ "@".toList ++ host

/-- The command with which `NewConnection` calls `ssh1`. -/
def NewConnection.ssh1_command (host username : Str) : Str :=
  "ssh1 -o connecttimeout=20 -o StrictHostKeyChecking=no".toList
    ++ " ".toList ++ username ++ "@".toList ++ host

/-- The command with which `NewConnection` calls `telnet`. -/
def NewConnection.telnet_command (host username : Str) : Str :=
  "telnet -l ".toList ++ username ++ " ".toList ++ host

/-- The end of a successful attempt of `NewConnection`:
`return &connection, connection.PromptDefine()`. -/
def NewConnection.connected (lib : RegexpLib) (fuel : Nat) (spawn : Spawn) (output : Str) :
    Option (Outcome (Option Connection × Option Str)) :=
  match Connection.PromptDefine lib fuel
      { spawn := spawn, Prompt := none, connectOutput := output } with
  | none => none
  | some .panicked => some .panicked
  | some (.exited h) => some (.exited h)
  | some (.returned (err, connection)) => some (.returned (some connection, err))

/-- The function `NewConnection(host, username, password)`: the connection, `none` for
`nil`, and the error. The three attempts are made in turn, each only when the one before
it failed; `fuel` is handed to `PromptDefine`. -/
def NewConnection (launcher : Launcher) (lib : RegexpLib) (fuel : Nat)
    (host username password : Str) : Option (Outcome (Option Connection × Option Str)) :=
  match NewSpawn launcher username password (NewConnection.ssh1_command host username) with
  | (some spawnSSH1, outputSSH1, none) => NewConnection.connected lib fuel spawnSSH1 outputSSH1
  | (none, _, none) => some .panicked
  | (_, _, some errorSSH1) =>
    match NewSpawn launcher username password (NewConnection.ssh_command host username) with
    | (some spawnSSH, outputSSH, none) => NewConnection.connected lib fuel spawnSSH outputSSH
    | (none, _, none) => some .panicked
    | (_, _, some errorSSH) =>
      match NewSpawn launcher username password
          (NewConnection.telnet_command host username) with
      | (some spawnTelnet, outputTelnet, none) =>
        NewConnection.connected lib fuel spawnTelnet outputTelnet
      | (none, _, none) => some .panicked
      | (_, _, some errorTelnet) =>
        if errorSSH1 != ERROR_INTERNAL_EXEC then some (.returned (none, some errorSSH1))
        else if errorSSH != ERROR_INTERNAL_EXEC then some (.returned (none, some errorSSH))
        else if errorTelnet != ERROR_INTERNAL_EXEC then
          some (.returned (none, some errorTelnet))
        else some (.returned (none, some ERROR_CONN_NO_AVAILABLE_METHOD))

/-- The method `Controller.connect(host, user, pass)`: the error and the controller after
the call. -/
def Controller.connect (c : Controller) (launcher : Launcher) (lib : RegexpLib) (fuel : Nat)
    (host user pass : Str) : Option (Outcome (Option Str × Controller)) :=
  match NewConnection launcher lib fuel host user pass with
  | none => none
  | some .panicked => some .panicked
  | some (.exited h) => some (.exited h)
  | some (.returned (_, some connectionError)) => some (.returned (some connectionError, c))
  | some (.returned (connection, none)) =>
    some (.returned (none, { c with Connection := connection }))

/-- The controller that `NewController` makes from the task file it has read, before it
connects. -/
def NewController.start (fsysTask : TaskPattern) (outputDirectory : Str) (disk : Disk) :
    Controller :=
  { Connection := none,
    Task := fsysTask,
    OutputStorage := NewFileStorage outputDirectory disk,
    Names := fun _ => none,
    NextTaskName := [],
    Variables := fun _ => none }

/-- The end of `NewController`, after the checks of the task file: the system variables,
the vendor of the file and the variables of the file. A `nil` connection or prompt
panics. -/
def NewController.finish (controller : Controller) (date time : Str) :
    Outcome (Except Str Controller) :=
  match controller.Connection with
  | none => .panicked
  | some connection =>
    match connection.Prompt with
    | none => .panicked
    | some p =>
      let vars := ((((controller.Variables.set "host".toList controller.Task.Host).set
        "date".toList date).set "time".toList time).set "vendor".toList p.Vendor).set
        "prompt".toList p.Name
      .returned (.ok
        { controller with
          Task := { controller.Task with Vendor := p.Vendor },
          Variables := fun index =>
            match controller.Task.Variables index with
            | some value => some value
            | none => vars index })

/-- The function `NewController(taskPath, outputDirectory, user, pass)`: the controller or
the returned error, or the shutdown inside it. `read` is what `jsontask.Read(taskPath)`
returns, `disk` the disk under the output directory, `date` and `time` the formatted
`time.Now()`; `fuel` is handed to `PromptDefine`. -/
def NewController (launcher : Launcher) (lib : RegexpLib) (fuel : Nat)
    (read : Except Str TaskPattern) (disk : Disk) (date time : Str)
    (outputDirectory user pass : Str) : Option (Outcome (Except Str Controller)) :=
  match read with
  | .error fsysTaskReadError => some (.returned (.error fsysTaskReadError))
  | .ok fsysTask =>
    match (NewController.start fsysTask outputDirectory disk).connect launcher lib fuel
        fsysTask.Host user pass with
    | none => none
    | some .panicked => some .panicked
    | some (.exited h) => some (.exited h)
    | some (.returned (some connError, controller)) =>
      some (.exited (controller.ExitError connError))
    | some (.returned (none, controller)) =>
      if controller.Task.Host.length ≤ 0 then
        some (.exited (controller.ExitError ERROR_SYNTAX_NO_HOST))
      else if (match controller.Task.Tasks with
          | none => true
          | some list => decide (list.length ≤ 0)) then
        some (.exited (controller.ExitError ERROR_SYNTAX_NO_TASKS))
      else some (NewController.finish controller date time)

/-! ## The statuses that a walk leaves -/

/-- The status of the task `(*tasks)[taskIdx]` of a task file. -/
def TaskPattern.statusAt (file : TaskPattern) (tasks : TasksRef) (taskIdx : Nat) :
    Option Str :=
  (file.taskAt tasks taskIdx).map Task.Status

/-- The task `(*tasks)[taskIdx]` of a task file has one of the three statuses that `Run`
writes. -/
def TaskPattern.Marked (file : TaskPattern) (tasks : TasksRef) (taskIdx : Nat) : Prop :=
  ∃ s, file.statusAt tasks taskIdx = some s ∧ IsWalkStatus s

/-- The shutdown `h` in the turn of `task` comes before the turn writes a status: it is
made by `Compile`, or, after `Compile` and the check of `NextTaskName`, by the evaluation
of the conditions of the task, which ends the process itself (`onExit`) or returns an
error that `Run` hands to `ExitError`. -/
def Run.gateExit (lib : RegexpLib) (ctrl : Controller) (task : Task) (vars : VarsRef)
    (h : Halted) : Prop :=
  ctrl.Compile task (vars.read ctrl) = .exited h
    ∨ ∃ (compiled : Task) (c : Controller),
        ctrl.Compile task (vars.read ctrl) = .returned compiled
          ∧ (c = ctrl ∨ c = { ctrl with NextTaskName := [] })
          ∧ (c.WhenMatcher lib compiled.When (vars.read c) = .exited h
            ∨ ∃ (passed : Bool) (conditionsError : Str) (c2 : Controller),
                c.WhenMatcher lib compiled.When (vars.read c)
                    = .returned (passed, some conditionsError, c2)
                  ∧ h = c2.ExitError conditionsError)

/-- The tasks that the turns `taskIdx`, ..., `last - 1` of the loop of `Run` over `*tasks`
may write a status to: the tasks of these turns, and the tasks below them. -/
def turnsWrite (tasks : TasksRef) (taskIdx last : Nat) (q : TasksRef) (j : Nat) : Prop :=
  (q = tasks ∧ taskIdx ≤ j ∧ j < last) ∨ ∃ i, taskIdx ≤ i ∧ i < last ∧ (tasks ++ [i]) <+: q

/-! ## Sample inputs for the prompts and the start-up -/

/-- A device that stays in the user mode: whatever is sent, it answers with its prompt
`R1>`. -/
def stubbornRespond (_ : List Batch) : Option (List Str) × Option Str :=
  (some ["\r\nR1>".toList], none)

/-- A connection to the device that stays in the user mode. -/
def stubbornConnection : Connection :=
  { spawn := { Session := { respond := stubbornRespond, sent := [] },
               Username := "admin".toList,
               Password := "secret".toList },
    Prompt := none,
    connectOutput := "\r\nR1>".toList }

/-- A device that shows its prompt `R1>` until `enable` is sent, and its prompt `R1#`
after that. -/
def enableRespond (log : List Batch) : Option (List Str) × Option Str :=
  if log.any fun batch => batch matches .enableCisco _ _ then (some ["\r\nR1#".toList], none)
  else (some ["\r\nR1>".toList], none)

/-- A connection to the device that accepts `enable`. -/
def enableConnection : Connection :=
  { stubbornConnection with
    spawn := { stubbornConnection.spawn with Session := { respond := enableRespond, sent := [] } } }

/-- An entry of `autotests` that asks for the status `fail` of the task `A`. -/
def sampleFailingTest : When :=
  { emptyWhen with
    Name := "A".toList
    IfStatus := "fail".toList }

/-- An entry of `autotests` that asks for the status `success` of the task `A`. -/
def samplePassingTest : When :=
  { emptyWhen with
    Name := "A".toList
    IfStatus := "success".toList }

/-- The controller whose named-task table holds `A` with status `success`, with the given
list of `autotests` in its task file. -/
def sampleTestsController (tests : List When) : Controller :=
  { sampleNamedController with
    Task := { sampleNamedController.Task with Autotests := some tests } }

/-- A controller on a parent whose subtasks are `configure terminal`, which changes the
prompt of the device, and a task whose command names the variable `prompt`. -/
def sampleStaleController : Controller :=
  sampleRunController [sampleParentTask [sampleConfTask, samplePromptTask]]

/-- The controller with which a send returns, or `sampleController` when it does not
return. -/
def sentOr : Option (Outcome ((Str × Option Str) × Controller)) → Controller
  | some (.returned (_, c)) => c
  | _ => sampleController

/-- A machine on which none of `ssh1`, `ssh` and `telnet` can be started. -/
def sampleNoLauncher : Launcher :=
  { Spawn := fun _ => none }

/-- A machine on which `ssh1` cannot be started and `ssh` reaches the device `R1`, which
lets the user in at its prompt `R1#`. -/
def sampleLauncher : Launcher :=
  { Spawn := fun bashCommand =>
      if HasPrefix bashCommand "ssh ".toList then
        some { login := fun _ _ =>
          ((some ["\r\nR1#".toList], none), { respond := sampleRespond, sent := [] }) }
      else none }

/-- A task file with the given host and root tasks and nothing else set. -/
def sampleFile (host : String) (tasks : Option (List Task)) : TaskPattern :=
  { sampleController.Task with
    Host := host.toList
    Tasks := tasks }

/-- The error code recorded in the task file by the shutdown in which a start-up ends,
`none` when it does not end in a shutdown. -/
def recordedError : Option (Outcome (Except Str Controller)) → Option Str
  | some (.exited h) => some h.saved.Error
  | _ => none

/-- The controller with which `connect` returns, or `sampleController` when it does not
return. -/
def connectedOr : Option (Outcome (Option Str × Controller)) → Controller
  | some (.returned (_, c)) => c
  | _ => sampleController

/-- The controller of the start-up on the machine `sampleLauncher` for a task file, once
it is connected. -/
def sampleConnected (file : TaskPattern) : Controller :=
  connectedOr ((NewController.start file [] sampleStorage.disk).connect sampleLauncher
    deviceLib 3 file.Host "admin".toList "secret".toList)

/-- A clause on the variable `vrf` that moves to the task `U`. -/
def sampleLaterWhen : When :=
  { emptyWhen with
    Variable := "vrf".toList
    OnMove := "U".toList }

/-- A task with the given name and status whose command names the variable `x`, which is
not set. -/
def sampleMissingTask (name status : String) : Task :=
  .mk sampleMissingCommand status.toList name.toList ⟨0, [], false, false, false, [], []⟩
    none none

/-- A controller on the root tasks `A` and `T` in which `NextTaskName` is `T`; the command
of `A` names a variable that is not set. -/
def sampleGotoMissingController : Controller :=
  { sampleRunController [sampleMissingTask "A" "", sampleNamedTask "T" "show t"] with
    NextTaskName := "T".toList }

/-- What a walk that ends the process leaves: the exit code, the error and the statuses
of the root tasks of the saved file; `none` for a walk that does not end the process. -/
def shutdownOf : Option (Outcome Controller) → Option (Int × Str × Option (List Str))
  | some (.exited h) => some (h.exitCode, h.saved.Error, rootStatuses h.saved)
  | _ => none

/-- The shutdown in which a walk ends, or the shutdown of `sampleController` by
`ExitSuccess` when the walk does not end the process. -/
def exitedOr : Option (Outcome Controller) → Halted
  | some (.exited h) => h
  | _ => sampleController.ExitSuccess

/-- The controller of the fan-out scenario with a subtask whose command `bad` the device
refuses and which has no `onErrorContinue`. -/
def sampleFailController : Controller :=
  sampleRunController [sampleParentTask [sampleTask "bad".toList]]

/-- The parent of the fan-out scenario after `Compile` in a file without settings. -/
def sampleParentCompiled (subtasks : List Task) : Task :=
  .mk "show vdc".toList [] [] ⟨20, [], false, false, false, "(?P<vdc>\\S+)".toList, []⟩
    (some subtasks) none

/-- The controller `sampleFailController` after the command of the parent is sent and the
parent is marked `success`. -/
def sampleFailAfterParent : Controller :=
  (sentOr (sampleFailController.Send deviceLib 2
    (sampleParentCompiled [sampleTask "bad".toList]))).SetTaskStatus [] 0 PIPE_STATUS_SUCCESS

/-- Whether the Huawei device is in the system view after the batches `log`, latest first:
the latest of the commands `system-view` and `return` decides. -/
def sampleInSystemView : List Batch → Bool
  | [] => false
  | batch :: earlier =>
    if batch.sent == some "system-view\n".toList then true
    else if batch.sent == some "return\n".toList then false
    else sampleInSystemView earlier

/-- What the Huawei device returns for the latest batch of `log`: the echo of the command
and its prompt, `<HUAWEI>` in the user view and `[HUAWEI]` in the system view. A batch of
`SendString` that waits for the expression of `PromptHuaweiUser` while the device is in the
system view never sees its prompt and runs into the timeout. -/
def sampleHuaweiRespond (log : List Batch) : Option (List Str) × Option Str :=
  match log with
  | [] => (none, none)
  | batch :: _ =>
    match batch with
    | .sendString send _ prompt _ =>
      if sampleInSystemView log then
        if prompt == PromptHuaweiUser.RegExp then
          (some [send.dropLast ++ "\r\n[HUAWEI]".toList],
            some "expect: timer expired after 20 seconds".toList)
        else (some [send.dropLast ++ "\r\n[HUAWEI]".toList], none)
      else (some [send.dropLast ++ "\r\n<HUAWEI>".toList], none)
    | _ => (some ["\r\n<HUAWEI>".toList], none)

/-- A connection to the Huawei device at its prompt `PromptHuaweiUser`, with nothing sent
yet. -/
def sampleHuaweiConnection : Connection :=
  { spawn := { Session := { respond := sampleHuaweiRespond, sent := [] },
               Username := "admin".toList,
               Password := "secret".toList },
    Prompt := some PromptHuaweiUser,
    connectOutput := "\r\n<HUAWEI>".toList }

/-- The spawn of `sampleHuaweiConnection` after the command `system-view` is sent while
the universal prompt is waited for. -/
def sampleHuaweiSpawnU : Spawn :=
  (sampleHuaweiConnection.spawn.SendString "system-view".toList 20 PromptUniversal).2

/-- The connection with which `PromptDefine` returns, or `sampleConnection` when it does
not return. -/
def definedOr : Option (Outcome (Option Str × Connection)) → Connection
  | some (.returned (_, c)) => c
  | _ => sampleConnection

/-- The connection `sampleHuaweiConnection` with the spawn `sampleHuaweiSpawnU` after
`PromptDefine`. -/
def sampleHuaweiSysConnection : Connection :=
  definedOr (Connection.PromptDefine catalogLib 1
    { sampleHuaweiConnection with spawn := sampleHuaweiSpawnU })

/-- The task `A` of the scenario of the move with a command that names the variable `x`,
which is not set. -/
def sampleOwnMissingTask : Task :=
  .mk sampleMissingCommand [] "A".toList ⟨0, [], false, false, false, [], []⟩ none
    (some [sampleOwnWhen])

/-- The controller of the scenario of the move in which the command of `A` names a
variable that is not set. -/
def sampleOwnMissingController : Controller :=
  sampleRunController
    [sampleOwnMissingTask, sampleNamedTask "B" "show b", sampleNamedTask "T" "show t"]


/-! # Part II: the properties -/

/-! ## Facts about `strings.Replace` -/

theorem replaceFuel_congr (old new : Str) (ho : old ≠ []) (n m : Nat) (s : Str)
    (hn : s.length ≤ n) (hm : s.length ≤ m) :
    replaceFuel old new n s = replaceFuel old new m s := by
  induction n generalizing m s with
  | zero =>
    have hs : s = [] := List.length_eq_zero.1 (Nat.le_zero.1 hn)
    subst hs
    cases m <;> rfl
  | succ n ih =>
    cases s with
    | nil => cases m <;> rfl
    | cons c rest =>
      cases m with
      | zero => simp at hm
      | succ m =>
        simp only [List.length_cons, Nat.add_le_add_iff_right] at hn hm
        simp only [replaceFuel]
        have hpos : 0 < old.length := List.length_pos.2 ho
        by_cases hp : old.isPrefixOf (c :: rest) = true
        · simp only [hp, if_true]
          rw [ih m _ (by simp only [List.length_drop, List.length_cons]; omega)
            (by simp only [List.length_drop, List.length_cons]; omega)]
        · simp only [hp, Bool.false_eq_true, if_false]
          rw [ih m rest hn hm]

theorem Replace_nil (old new : Str) (ho : old ≠ []) : Replace [] old new = [] := by
  simp [Replace, ho, replaceFuel]

theorem Replace_cons_of_not_prefix (old new : Str) (ho : old ≠ []) (c : Char) (t : Str)
    (hp : old.isPrefixOf (c :: t) = false) :
    Replace (c :: t) old new = c :: Replace t old new := by
  simp [Replace, ho, replaceFuel, hp]

theorem Replace_occurrence (old new : Str) (ho : old ≠ []) (t : Str) :
    Replace (old ++ t) old new = new ++ Replace t old new := by
  cases old with
  | nil => exact absurd rfl ho
  | cons o os =>
    have hp : (o :: os).isPrefixOf (o :: (os ++ t)) = true := by
      rw [List.isPrefixOf_iff_prefix]
      exact List.prefix_append (o :: os) t
    have hd : List.drop (o :: os).length (o :: (os ++ t)) = t := by
      simp
    show (if (o :: os) = [] then _ else
      replaceFuel (o :: os) new (o :: (os ++ t)).length (o :: (os ++ t))) = _
    rw [if_neg ho, List.length_cons]
    show (if (o :: os).isPrefixOf (o :: (os ++ t)) = true then
      new ++ replaceFuel (o :: os) new (os ++ t).length
        (List.drop (o :: os).length (o :: (os ++ t)))
      else _) = _
    rw [if_pos hp, hd]
    rw [replaceFuel_congr (o :: os) new ho _ t.length t (by simp) (le_refl _)]
    simp [Replace]

theorem Replace_append_of_head_ne (o : Char) (os new v t : Str)
    (hv : ∀ c ∈ v, c ≠ o) :
    Replace (v ++ t) (o :: os) new = v ++ Replace t (o :: os) new := by
  induction v with
  | nil => rfl
  | cons c v ih =>
    have hc : c ≠ o := hv c (List.mem_cons_self _ _)
    have hp : (o :: os).isPrefixOf (c :: (v ++ t)) = false := by
      simp [List.isPrefixOf, Ne.symm hc]
    rw [List.cons_append, Replace_cons_of_not_prefix _ _ (by simp) _ _ hp,
      ih (fun x hx => hv x (List.mem_cons_of_mem _ hx))]
    rfl

/-! ## Facts about the variable pattern -/

namespace VariableRegExp

theorem scanKey_some {s k r : Str} (h : scanKey s = some (k, r)) :
    s = k ++ '}' :: '}' :: r ∧ k ≠ [] ∧ ∀ c ∈ k, isSpace c = false := by
  induction s generalizing k r with
  | nil => simp [scanKey] at h
  | cons c rest ih =>
    unfold scanKey at h
    by_cases hc : isSpace c = true
    · simp [hc] at h
    · simp only [hc, Bool.false_eq_true, if_false] at h
      split at h
      · rename_i after
        simp only [Option.some.injEq, Prod.mk.injEq] at h
        obtain ⟨rfl, rfl⟩ := h
        simpa using hc
      · cases hs : scanKey rest with
        | none => simp [hs] at h
        | some p =>
          obtain ⟨k2, r2⟩ := p
          simp only [hs, Option.some.injEq, Prod.mk.injEq] at h
          obtain ⟨rfl, rfl⟩ := h
          obtain ⟨h1, _, h3⟩ := ih hs
          refine ⟨by simp [h1], by simp, ?_⟩
          intro x hx
          rcases List.mem_cons.1 hx with rfl | hx
          · simpa using hc
          · exact h3 x hx

theorem matchAt_some {s k r : Str} (h : matchAt s = some (k, r)) :
    s = token k ++ r ∧ k ≠ [] ∧ ∀ c ∈ k, isSpace c = false := by
  unfold matchAt at h
  split at h
  · rename_i rest
    obtain ⟨h1, h2, h3⟩ := scanKey_some h
    exact ⟨by simp [token, h1], h2, h3⟩
  · simp at h

theorem token_length (k : Str) : (token k).length = k.length + 4 := by
  simp [token]

theorem matchAt_length {s k r : Str} (h : matchAt s = some (k, r)) :
    r.length < s.length := by
  obtain ⟨h1, _, _⟩ := matchAt_some h
  rw [h1, List.length_append, token_length]
  omega

theorem findFuel_congr (n m : Nat) (s : Str) (hn : s.length ≤ n) (hm : s.length ≤ m) :
    findFuel n s = findFuel m s := by
  induction n generalizing m s with
  | zero =>
    have hs : s = [] := List.length_eq_zero.1 (Nat.le_zero.1 hn)
    subst hs
    cases m <;> rfl
  | succ n ih =>
    cases s with
    | nil => cases m <;> rfl
    | cons c rest =>
      cases m with
      | zero => simp at hm
      | succ m =>
        simp only [List.length_cons, Nat.add_le_add_iff_right] at hn hm
        simp only [findFuel]
        cases hma : matchAt (c :: rest) with
        | none => simp only; exact ih m rest hn hm
        | some p =>
          obtain ⟨k, r⟩ := p
          have hl := matchAt_length hma
          simp only [List.length_cons] at hl
          simp only
          rw [ih m r (by omega) (by omega)]

theorem find_nil : FindAllStringSubmatch [] = [] := rfl

theorem find_gap {c : Char} {rest : Str} (h : matchAt (c :: rest) = none) :
    FindAllStringSubmatch (c :: rest) = FindAllStringSubmatch rest := by
  simp only [FindAllStringSubmatch, List.length_cons, findFuel, h]

theorem find_tok {s k r : Str} (h : matchAt s = some (k, r)) :
    FindAllStringSubmatch s = (token k, k) :: FindAllStringSubmatch r := by
  have hl := matchAt_length h
  cases s with
  | nil => simp [matchAt] at h
  | cons c rest =>
    simp only [List.length_cons] at hl
    simp only [FindAllStringSubmatch, List.length_cons, findFuel, h]
    rw [findFuel_congr rest.length r.length r (by omega) (le_refl _)]

theorem substSomeFuel_congr (vars : Artefacts) (sel : Str → Bool) (n m : Nat) (s : Str)
    (hn : s.length ≤ n) (hm : s.length ≤ m) :
    substSomeFuel vars sel n s = substSomeFuel vars sel m s := by
  induction n generalizing m s with
  | zero =>
    have hs : s = [] := List.length_eq_zero.1 (Nat.le_zero.1 hn)
    subst hs
    cases m <;> rfl
  | succ n ih =>
    cases s with
    | nil => cases m <;> rfl
    | cons c rest =>
      cases m with
      | zero => simp at hm
      | succ m =>
        simp only [List.length_cons, Nat.add_le_add_iff_right] at hn hm
        simp only [substSomeFuel]
        cases hma : matchAt (c :: rest) with
        | none => simp only; rw [ih m rest hn hm]
        | some p =>
          obtain ⟨k, r⟩ := p
          have hl := matchAt_length hma
          simp only [List.length_cons] at hl
          simp only
          rw [ih m r (by omega) (by omega)]

theorem substSome_nil (vars : Artefacts) (sel : Str → Bool) : substSome vars sel [] = [] := rfl

theorem substSome_gap (vars : Artefacts) (sel : Str → Bool) {c : Char} {rest : Str}
    (h : matchAt (c :: rest) = none) :
    substSome vars sel (c :: rest) = c :: substSome vars sel rest := by
  simp only [substSome, List.length_cons, substSomeFuel, h]

theorem substSome_tok (vars : Artefacts) (sel : Str → Bool) {s k r : Str}
    (h : matchAt s = some (k, r)) :
    substSome vars sel s = (if sel k then vars.get k else token k) ++ substSome vars sel r := by
  have hl := matchAt_length h
  cases s with
  | nil => simp [matchAt] at h
  | cons c rest =>
    simp only [List.length_cons] at hl
    simp only [substSome, List.length_cons, substSomeFuel, h]
    rw [substSomeFuel_congr vars sel rest.length r.length r (by omega) (le_refl _)]

theorem substituteFuel_eq (vars : Artefacts) (n : Nat) (s : Str) :
    substituteFuel vars n s = substSomeFuel vars (fun _ => true) n s := by
  induction n generalizing s with
  | zero => cases s <;> rfl
  | succ n ih =>
    cases s with
    | nil => rfl
    | cons c rest =>
      simp only [substituteFuel, substSomeFuel]
      cases matchAt (c :: rest) with
      | none => simp only; rw [ih]
      | some p => simp only [if_true]; rw [ih]

theorem substituteAll_eq (vars : Artefacts) (s : Str) :
    substituteAll vars s = substSome vars (fun _ => true) s :=
  substituteFuel_eq vars s.length s

/-- Induction along the scan of a text: a character that starts no match is stepped
over, a match is stepped over as a whole. -/
theorem scan_induction {P : Str → Prop} (hnil : P [])
    (hgap : ∀ c rest, matchAt (c :: rest) = none → P rest → P (c :: rest))
    (htok : ∀ k r, matchAt (token k ++ r) = some (k, r) → P r → P (token k ++ r))
    (s : Str) : P s := by
  generalize hlen : s.length = n
  induction n using Nat.strong_induction_on generalizing s with
  | _ n ih =>
    cases s with
    | nil => exact hnil
    | cons c rest =>
      cases hma : matchAt (c :: rest) with
      | none =>
        exact hgap c rest hma (ih rest.length (by simp [← hlen]) rest rfl)
      | some p =>
        obtain ⟨k, r⟩ := p
        have hl := matchAt_length hma
        obtain ⟨h1, _, _⟩ := matchAt_some hma
        rw [h1] at hma ⊢
        exact htok k r hma (ih r.length (by omega) r rfl)

theorem scanKey_cons_isSome {c : Char} {rest : Str} (hc : isSpace c = false)
    (h : (∃ a, rest = '}' :: '}' :: a) ∨ (scanKey rest).isSome = true) :
    (scanKey (c :: rest)).isSome = true := by
  unfold scanKey
  simp only [hc, Bool.false_eq_true, if_false]
  split
  · rfl
  · rename_i hne
    rcases h with ⟨a, rfl⟩ | h
    · exact absurd rfl (hne a)
    · cases hs : scanKey rest with
      | none => simp [hs] at h
      | some p => rfl

theorem scanKey_isSome_of_matchAt {s : Str} (h : (matchAt s).isSome = true) :
    (scanKey s).isSome = true := by
  unfold matchAt at h
  split at h
  · rename_i rest
    exact scanKey_cons_isSome (by decide) (Or.inr (scanKey_cons_isSome (by decide) (Or.inr h)))
  · simp at h

theorem matchAt_lbrace_cons {rest : Str} (h : (matchAt rest).isSome = true) :
    (matchAt ('{' :: rest)).isSome = true := by
  unfold matchAt at h
  split at h
  · rename_i x
    show (scanKey ('{' :: x)).isSome = true
    exact scanKey_cons_isSome (by decide) (Or.inr h)
  · simp at h

theorem key_eq_of_prefixed {k k2 x y : Str} (hk : ∀ c ∈ k, c ≠ '}') (hk2 : ∀ c ∈ k2, c ≠ '}')
    (h : k ++ '}' :: x <+: k2 ++ '}' :: y) : k = k2 := by
  induction k generalizing k2 with
  | nil =>
    cases k2 with
    | nil => rfl
    | cons c2 t2 =>
      simp only [List.nil_append, List.cons_append, List.cons_prefix_cons] at h
      exact absurd h.1.symm (hk2 c2 (List.mem_cons_self _ _))
  | cons c t ih =>
    cases k2 with
    | nil =>
      simp only [List.nil_append, List.cons_append, List.cons_prefix_cons] at h
      exact absurd h.1 (hk c (List.mem_cons_self _ _))
    | cons c2 t2 =>
      simp only [List.cons_append, List.cons_prefix_cons] at h
      obtain ⟨rfl, h⟩ := h
      rw [ih (fun x hx => hk x (List.mem_cons_of_mem _ hx))
        (fun x hx => hk2 x (List.mem_cons_of_mem _ hx)) h]

theorem not_isPrefixOf {a b : Str} (h : ¬ a <+: b) : a.isPrefixOf b = false := by
  rw [Bool.eq_false_iff]
  intro hp
  exact h (List.isPrefixOf_iff_prefix.1 hp)

/-- Replacing the token of `k` steps over a different token `k2`, both names brace-free. -/
theorem Replace_token_append {k k2 : Str} (hk : BraceFree k) (hk2 : BraceFree k2)
    (hne2 : k2 ≠ []) (hne : k2 ≠ k) (new t : Str) :
    Replace (token k2 ++ t) (token k) new = token k2 ++ Replace t (token k) new := by
  have h0 : ¬ token k <+: '{' :: '{' :: (k2 ++ '}' :: '}' :: t) := by
    intro h
    simp only [token, List.cons_append, List.cons_prefix_cons, true_and] at h
    exact hne (key_eq_of_prefixed (fun c hc => (hk c hc).2) (fun c hc => (hk2 c hc).2) h).symm
  have h1 : ¬ token k <+: '{' :: (k2 ++ '}' :: '}' :: t) := by
    intro h
    cases k2 with
    | nil => exact hne2 rfl
    | cons c2 t2 =>
      simp only [token, List.cons_append, List.cons_prefix_cons, true_and] at h
      exact (hk2 c2 (List.mem_cons_self _ _)).1 h.1.symm
  have h2 : ∀ c ∈ k2 ++ ['}', '}'], c ≠ '{' := by
    intro c hc
    rcases List.mem_append.1 hc with hc | hc
    · exact (hk2 c hc).1
    · simp only [List.mem_cons, List.mem_singleton, List.not_mem_nil, or_false, or_self] at hc
      subst hc
      decide
  have e : token k2 ++ t = '{' :: '{' :: ((k2 ++ ['}', '}']) ++ t) := by simp [token]
  rw [e, Replace_cons_of_not_prefix _ _ (by simp [token]) _ _
      (not_isPrefixOf (by simpa using h0)),
    Replace_cons_of_not_prefix _ _ (by simp [token]) _ _ (not_isPrefixOf (by simpa using h1))]
  show _ :: _ :: Replace _ ('{' :: ('{' :: k ++ ['}', '}'])) new = _
  rw [Replace_append_of_head_ne _ _ _ _ _ h2]
  simp [token]

theorem GoodFor.gap {vars : Artefacts} {c : Char} {rest : Str}
    (hg : GoodFor vars (c :: rest)) (h : matchAt (c :: rest) = none) : GoodFor vars rest := by
  intro m hm
  exact hg m (by rw [find_gap h]; exact hm)

theorem GoodFor.tok {vars : Artefacts} {s k r : Str}
    (hg : GoodFor vars s) (h : matchAt s = some (k, r)) :
    (BraceFree k ∧ vars.get k ≠ [] ∧ BraceFree (vars.get k)) ∧ GoodFor vars r := by
  refine ⟨hg (token k, k) (by rw [find_tok h]; exact List.mem_cons_self _ _), ?_⟩
  intro m hm
  exact hg m (by rw [find_tok h]; exact List.mem_cons_of_mem _ hm)

theorem substSome_head_rbrace {vars : Artefacts} {sel : Str → Bool} {s z : Str}
    (hg : GoodFor vars s) (h : substSome vars sel s = '}' :: z) :
    ∃ s2, s = '}' :: s2 ∧ matchAt s = none ∧ z = substSome vars sel s2 := by
  cases s with
  | nil => simp [substSome_nil] at h
  | cons c rest =>
    cases hma : matchAt (c :: rest) with
    | none =>
      rw [substSome_gap vars sel hma] at h
      simp only [List.cons.injEq] at h
      obtain ⟨rfl, rfl⟩ := h
      exact ⟨rest, rfl, rfl, rfl⟩
    | some p =>
      obtain ⟨k, r⟩ := p
      obtain ⟨⟨_, hv1, hv2⟩, _⟩ := hg.tok hma
      rw [substSome_tok vars sel hma] at h
      by_cases hs : sel k = true
      · simp only [hs, if_true] at h
        cases hv : vars.get k with
        | nil => exact absurd hv hv1
        | cons v vs =>
          rw [hv] at h hv2
          simp only [List.cons_append, List.cons.injEq] at h
          exact absurd h.1 (hv2 v (List.mem_cons_self _ _)).2
      · simp [hs, token] at h

theorem substSome_head_lbrace {vars : Artefacts} {sel : Str → Bool} {s z : Str}
    (hg : GoodFor vars s) (h : substSome vars sel s = '{' :: z) :
    (∃ s2, s = '{' :: s2 ∧ matchAt s = none ∧ z = substSome vars sel s2) ∨
      (matchAt s).isSome = true := by
  cases s with
  | nil => simp [substSome_nil] at h
  | cons c rest =>
    cases hma : matchAt (c :: rest) with
    | none =>
      rw [substSome_gap vars sel hma] at h
      simp only [List.cons.injEq] at h
      obtain ⟨rfl, rfl⟩ := h
      exact Or.inl ⟨rest, rfl, rfl, rfl⟩
    | some p => exact Or.inr rfl

/-- Where the pattern's tail does not match the text, it does not match the partly
substituted text either. -/
theorem not_prefix_of_scanKey_none {vars : Artefacts} (sel : Str → Bool) {s : Str}
    (hg : GoodFor vars s) (hs : scanKey s = none) (k : Str) (hk : k ≠ [])
    (hks : ∀ c ∈ k, isSpace c = false) :
    ¬ (k ++ ['}', '}']) <+: substSome vars sel s := by
  induction s generalizing k with
  | nil =>
    intro h
    rw [substSome_nil, List.prefix_nil] at h
    simp at h
  | cons c rest ih =>
    intro h
    have hma : matchAt (c :: rest) = none := by
      cases hm : matchAt (c :: rest) with
      | none => rfl
      | some p =>
        have := scanKey_isSome_of_matchAt (s := c :: rest) (by rw [hm]; rfl)
        rw [hs] at this
        simp at this
    rw [substSome_gap vars sel hma] at h
    have hg2 := hg.gap hma
    cases k with
    | nil => exact hk rfl
    | cons c0 k2 =>
      simp only [List.cons_append, List.cons_prefix_cons] at h
      obtain ⟨rfl, h⟩ := h
      have hc : isSpace c0 = false := hks c0 (List.mem_cons_self _ _)
      have hno : ¬ ((∃ a, rest = '}' :: '}' :: a) ∨ (scanKey rest).isSome = true) := by
        intro hh
        have := scanKey_cons_isSome hc hh
        rw [hs] at this
        simp at this
      by_cases hk2 : k2 = []
      · subst hk2
        simp only [List.nil_append] at h
        obtain ⟨w, hw⟩ := h
        simp only [List.cons_append] at hw
        obtain ⟨s2, e2, hm2, hz⟩ := substSome_head_rbrace hg2 hw.symm
        have hg3 : GoodFor vars s2 := by
          rw [e2] at hg2 hm2
          exact hg2.gap hm2
        obtain ⟨s3, e3, _, _⟩ := substSome_head_rbrace hg3 hz.symm
        exact hno (Or.inl ⟨s3, by rw [e2, e3]⟩)
      · refine ih hg2 ?_ k2 hk2 (fun x hx => hks x (List.mem_cons_of_mem _ hx)) h
        cases hsr : scanKey rest with
        | none => rfl
        | some p => exact absurd (Or.inr (by rw [hsr]; rfl)) hno

/-- At a character of the text that starts no match, no token of a variable starts in
the partly substituted text. -/
theorem not_prefix_of_matchAt_none {vars : Artefacts} {sel : Str → Bool} {c : Char} {rest : Str}
    (hg : GoodFor vars (c :: rest)) (hma : matchAt (c :: rest) = none) (k : Str) (hk : k ≠ [])
    (hks : ∀ c ∈ k, isSpace c = false) :
    ¬ token k <+: c :: substSome vars sel rest := by
  intro h
  simp only [token, List.cons_append, List.cons_prefix_cons] at h
  obtain ⟨rfl, w, hw⟩ := h
  simp only [List.cons_append] at hw
  have hg2 := hg.gap hma
  rcases substSome_head_lbrace hg2 hw.symm with ⟨s2, e2, hm2, hz⟩ | hsome
  · subst e2
    have hg3 := hg2.gap hm2
    have hs : scanKey s2 = none := hma
    refine not_prefix_of_scanKey_none sel hg3 hs k hk hks ⟨w, ?_⟩
    rw [← hz]
  · have := matchAt_lbrace_cons hsome
    rw [hma] at this
    simp at this

theorem find_shape (s : Str) :
    ∀ m ∈ FindAllStringSubmatch s,
      m.1 = token m.2 ∧ m.2 ≠ [] ∧ ∀ c ∈ m.2, isSpace c = false := by
  induction s using scan_induction with
  | hnil => simp [find_nil]
  | hgap c rest hma ih => rw [find_gap hma]; exact ih
  | htok k r hma ih =>
    rw [find_tok hma]
    intro m hm
    rcases List.mem_cons.1 hm with rfl | hm
    · exact ⟨rfl, (matchAt_some hma).2⟩
    · exact ih m hm

theorem substSome_none (vars : Artefacts) (s : Str) :
    substSome vars (fun _ => false) s = s := by
  induction s using scan_induction with
  | hnil => rfl
  | hgap c rest hma ih => rw [substSome_gap vars _ hma, ih]
  | htok k r hma ih => rw [substSome_tok vars _ hma, ih]; simp

theorem substSome_congr (vars : Artefacts) (sel sel2 : Str → Bool) (s : Str)
    (h : ∀ m ∈ FindAllStringSubmatch s, sel m.2 = sel2 m.2) :
    substSome vars sel s = substSome vars sel2 s := by
  induction s using scan_induction with
  | hnil => rfl
  | hgap c rest hma ih =>
    rw [substSome_gap vars _ hma, substSome_gap vars _ hma, ih (by rw [find_gap hma] at h; exact h)]
  | htok k r hma ih =>
    rw [find_tok hma] at h
    rw [substSome_tok vars _ hma, substSome_tok vars _ hma,
      ih (fun m hm => h m (List.mem_cons_of_mem _ hm))]
    have := h (token k, k) (List.mem_cons_self _ _)
    simp only at this
    rw [this]

/-- One step of the loop: replacing all occurrences of the token of `k` in the partly
substituted text substitutes exactly the tokens of `k` of the original text. -/
theorem Replace_substSome (vars : Artefacts) (sel : Str → Bool) {k : Str} (hk : k ≠ [])
    (hks : ∀ c ∈ k, isSpace c = false) (hkb : BraceFree k) (s : Str) (hg : GoodFor vars s) :
    Replace (substSome vars sel s) (token k) (vars.get k)
      = substSome vars (fun x => sel x || x == k) s := by
  have htk : token k ≠ [] := by simp [token]
  induction s using scan_induction with
  | hnil => rw [substSome_nil, substSome_nil, Replace_nil _ _ htk]
  | hgap c rest hma ih =>
    rw [substSome_gap vars _ hma, substSome_gap vars _ hma,
      Replace_cons_of_not_prefix _ _ htk _ _
        (not_isPrefixOf (not_prefix_of_matchAt_none hg hma k hk hks)),
      ih (hg.gap hma)]
  | htok k2 r hma ih =>
    obtain ⟨⟨hb2, _, hvb⟩, hgr⟩ := hg.tok hma
    have hk2 : k2 ≠ [] := (matchAt_some hma).2.1
    rw [substSome_tok vars _ hma, substSome_tok vars _ hma]
    by_cases hs : sel k2 = true
    · simp only [hs, if_true, Bool.true_or]
      have := Replace_append_of_head_ne '{' ('{' :: k ++ ['}', '}']) (vars.get k) (vars.get k2)
        (substSome vars sel r) (fun c hc => (hvb c hc).1)
      rw [← ih hgr]
      exact this
    · by_cases hkk : k2 = k
      · subst hkk
        simp only [hs, Bool.false_eq_true, if_false, Bool.false_or, beq_self_eq_true, if_true]
        rw [Replace_occurrence _ _ htk, ih hgr]
      · have hbeq : (k2 == k) = false := by simpa using hkk
        simp only [hs, Bool.false_eq_true, if_false, Bool.false_or, hbeq]
        rw [Replace_token_append hkb hb2 hk2 hkk, ih hgr]

end VariableRegExp


/-! ## `RegExpConstructor`: substitution, failure, texts without tokens -/

theorem RegExpConstructor.loop_eq (vars : Artefacts) (s : Str) (hg : VariableRegExp.GoodFor vars s)
    (ms : List (Str × Str)) (sel : Str → Bool)
    (hms : ∀ m ∈ ms, m ∈ VariableRegExp.FindAllStringSubmatch s) :
    RegExpConstructor.loop vars ms (VariableRegExp.substSome vars sel s)
      = (VariableRegExp.substSome vars (fun x => sel x || ms.any (fun m => x == m.2)) s, none) := by
  induction ms generalizing sel with
  | nil => simp [RegExpConstructor.loop]
  | cons m ms ih =>
    have hm := hms m (List.mem_cons_self _ _)
    obtain ⟨h1, h2, h3⟩ := VariableRegExp.find_shape s m hm
    obtain ⟨hb, hv, _⟩ := hg m hm
    have hne : (vars.get m.2).isEmpty = false := by
      cases hvv : vars.get m.2 with
      | nil => exact absurd hvv hv
      | cons a b => rfl
    simp only [RegExpConstructor.loop, hne, Bool.not_false, if_true]
    rw [h1, VariableRegExp.Replace_substSome vars sel h2 h3 hb s hg,
      ih _ (fun x hx => hms x (List.mem_cons_of_mem _ hx))]
    simp [Bool.or_assoc]

/-- The loop fails at the first match whose variable has no value, whatever the text has
become by then. -/
theorem RegExpConstructor.loop_error (vars : Artefacts) (ms : List (Str × Str)) (text : Str)
    (m0 : Str × Str) (h : ms.find? (fun m => (vars.get m.2).isEmpty) = some m0) :
    (RegExpConstructor.loop vars ms text).2
      = some ⟨ERROR_REGEX_VAR_NOT_EXIST, variableMessage m0.1⟩ := by
  induction ms generalizing text with
  | nil => simp at h
  | cons m ms ih =>
    by_cases he : (vars.get m.2).isEmpty = true
    · simp only [List.find?_cons, he, Option.some.injEq] at h
      subst h
      simp [RegExpConstructor.loop, he]
    · simp only [List.find?_cons, he] at h
      simp only [RegExpConstructor.loop, he, Bool.false_eq_true, Bool.not_false, if_true]
      exact ih _ h

/-- The loop returns no error when every match names a variable with a value, whatever
the names and values are. -/
theorem RegExpConstructor.loop_ok (vars : Artefacts) (ms : List (Str × Str)) (text : Str)
    (h : ∀ m ∈ ms, vars.get m.2 ≠ []) :
    (RegExpConstructor.loop vars ms text).2 = none := by
  induction ms generalizing text with
  | nil => rfl
  | cons m ms ih =>
    have hne : (vars.get m.2).isEmpty = false := by
      cases hvv : vars.get m.2 with
      | nil => exact absurd hvv (h m (List.mem_cons_self _ _))
      | cons a b => rfl
    simp only [RegExpConstructor.loop, hne, Bool.not_false, if_true]
    exact ih _ (fun x hx => h x (List.mem_cons_of_mem _ hx))

/-- C1, as stated, fails: with `a = {{b}}` and `b = x` every referenced variable has a
non-empty value, yet `{{a}} {{b}}` becomes `x x` and not `{{b}} x`, because the value put
in for `{{a}}` is hit by the replacement of the later token `{{b}}`. -/
theorem RegExpConstructor_rewrites_inserted_value :
    (∀ m ∈ VariableRegExp.FindAllStringSubmatch sampleTwoTokens,
        sampleNestedVars.get m.2 ≠ []) ∧
      RegExpConstructor sampleTwoTokens sampleNestedVars
        = ("x x".toList, none) ∧
      VariableRegExp.substituteAll sampleNestedVars sampleTwoTokens
        = "\x7b\x7bb\x7d\x7d x".toList ∧
      RegExpConstructor sampleTwoTokens sampleNestedVars
        ≠ (VariableRegExp.substituteAll sampleNestedVars sampleTwoTokens, none) := by
  decide

/-- C1, amended: when every variable referenced by a token of the text has a non-empty
value, and neither the referenced names nor their values contain a brace, the call
succeeds and returns the text with each token replaced by its own variable's value,
nothing else changed. -/
theorem RegExpConstructor_substitutes (text : Str) (vars : Artefacts)
    (hval : ∀ m ∈ VariableRegExp.FindAllStringSubmatch text, vars.get m.2 ≠ [])
    (hvb : ∀ m ∈ VariableRegExp.FindAllStringSubmatch text,
      VariableRegExp.BraceFree (vars.get m.2))
    (hkb : ∀ m ∈ VariableRegExp.FindAllStringSubmatch text, VariableRegExp.BraceFree m.2) :
    RegExpConstructor text vars = (VariableRegExp.substituteAll vars text, none) := by
  have hg : VariableRegExp.GoodFor vars text := fun m hm => ⟨hkb m hm, hval m hm, hvb m hm⟩
  have h := RegExpConstructor.loop_eq vars text hg (VariableRegExp.FindAllStringSubmatch text)
    (fun _ => false) (fun m hm => hm)
  rw [VariableRegExp.substSome_none] at h
  rw [RegExpConstructor, h, VariableRegExp.substituteAll_eq]
  congr 1
  apply VariableRegExp.substSome_congr
  intro m hm
  simp only [Bool.false_or, List.any_eq_true, beq_iff_eq]
  exact ⟨m, hm, rfl⟩

theorem RegExpConstructor_substitutes_witness :
    (∀ m ∈ VariableRegExp.FindAllStringSubmatch sampleVrfCommand,
        sampleVrfVars.get m.2 ≠ []) ∧
      RegExpConstructor sampleVrfCommand sampleVrfVars
        = (VariableRegExp.substituteAll sampleVrfVars sampleVrfCommand, none) ∧
      VariableRegExp.substituteAll sampleVrfVars sampleVrfCommand
        = "show ip route vrf mgmt".toList :=
  ⟨by decide,
   RegExpConstructor_substitutes sampleVrfCommand sampleVrfVars
     (by decide) (by decide) (by decide),
   by decide⟩

/-- A brace inside a referenced name breaks the substitution as well: in
`{{a}} {{x{{a}}` the second token is `{{x{{a}}`, and replacing `{{a}}` first destroys it. -/
theorem RegExpConstructor_brace_in_name :
    RegExpConstructor sampleBraceNameText sampleBraceNameVars
        = ("1 \x7b\x7bx1".toList, none) ∧
      VariableRegExp.substituteAll sampleBraceNameVars sampleBraceNameText
        = "1 2".toList := by
  decide

theorem VariableRegExp.scanKey_isSome_of_key (key post : Str) (hk : key ≠ [])
    (hs : ∀ c ∈ key, isSpace c = false) :
    (VariableRegExp.scanKey (key ++ '}' :: '}' :: post)).isSome = true := by
  induction key with
  | nil => exact absurd rfl hk
  | cons c t ih =>
    have hc := hs c (List.mem_cons_self _ _)
    by_cases ht : t = []
    · subst ht
      exact VariableRegExp.scanKey_cons_isSome hc (Or.inl ⟨post, rfl⟩)
    · exact VariableRegExp.scanKey_cons_isSome hc
        (Or.inr (ih ht (fun x hx => hs x (List.mem_cons_of_mem _ hx))))

/-- The scanner finds a match exactly in the texts that contain a token. -/
theorem VariableRegExp.hasToken_iff (text : Str) :
    VariableRegExp.HasToken text ↔ VariableRegExp.FindAllStringSubmatch text ≠ [] := by
  constructor
  · rintro ⟨pre, key, post, rfl, hk, hs⟩
    induction pre with
    | nil =>
      have hsome : (VariableRegExp.matchAt ([] ++ VariableRegExp.token key ++ post)).isSome
          = true := by
        have := VariableRegExp.scanKey_isSome_of_key key post hk hs
        simpa [VariableRegExp.token, VariableRegExp.matchAt] using this
      cases hm : VariableRegExp.matchAt ([] ++ VariableRegExp.token key ++ post) with
      | none => rw [hm] at hsome; simp at hsome
      | some p => rw [VariableRegExp.find_tok (k := p.1) (r := p.2) hm]; simp
    | cons c pre ih =>
      cases hm : VariableRegExp.matchAt (c :: pre ++ VariableRegExp.token key ++ post) with
      | none =>
        have := @VariableRegExp.find_gap c (pre ++ VariableRegExp.token key ++ post)
          (by simpa using hm)
        simp only [List.cons_append, List.append_assoc] at this ⊢
        rw [this]
        simpa using ih
      | some p => rw [VariableRegExp.find_tok (k := p.1) (r := p.2) hm]; simp
  · induction text using VariableRegExp.scan_induction with
    | hnil => intro h; exact absurd VariableRegExp.find_nil h
    | hgap c rest hma ih =>
      intro h
      rw [VariableRegExp.find_gap hma] at h
      obtain ⟨pre, key, post, e, hk, hs⟩ := ih h
      exact ⟨c :: pre, key, post, by simp [e], hk, hs⟩
    | htok k r hma _ =>
      intro _
      exact ⟨[], k, r, by simp, (VariableRegExp.matchAt_some hma).2⟩

/-- C3: for a text that contains no token and any artefact map, the substitution
succeeds and returns the text unchanged. -/
theorem RegExpConstructor_no_token (text : Str) (vars : Artefacts)
    (h : ¬ VariableRegExp.HasToken text) :
    RegExpConstructor text vars = (text, none) := by
  have hnil : VariableRegExp.FindAllStringSubmatch text = [] := by
    by_contra hne
    exact h ((VariableRegExp.hasToken_iff text).2 hne)
  simp [RegExpConstructor, hnil, RegExpConstructor.loop]

theorem RegExpConstructor_no_token_witness :
    ¬ VariableRegExp.HasToken "show version".toList ∧
      RegExpConstructor "show version".toList sampleNoVars = ("show version".toList, none) :=
  ⟨fun h => (VariableRegExp.hasToken_iff _).1 h (by decide),
   RegExpConstructor_no_token "show version".toList sampleNoVars
     (fun h => (VariableRegExp.hasToken_iff _).1 h (by decide))⟩

/-- C2, as stated, fails: for `show {{x}}` and no artefacts the substitution fails, but
the returned error, which `Compile` hands to `ExitError` and so to the task file, is a
sentence naming the token; the code `spawner-regex-variable-not-exist` only goes to the
log. -/
theorem RegExpConstructor_error_is_not_the_code :
    (∃ m ∈ VariableRegExp.FindAllStringSubmatch sampleMissingCommand,
        sampleNoVars m.2 = none) ∧
      (RegExpConstructor sampleMissingCommand sampleNoVars).2.map Failure.message
        = some sampleMissingMessage ∧
      (RegExpConstructor sampleMissingCommand sampleNoVars).2.map Failure.message
        ≠ some ERROR_REGEX_VAR_NOT_EXIST ∧
      (∃ h, sampleController.Compile (sampleTask sampleMissingCommand) sampleNoVars
          = Outcome.exited h ∧ h.saved.Error ≠ ERROR_REGEX_VAR_NOT_EXIST) := by
  refine ⟨⟨sampleMissingMatch, by decide, rfl⟩, by decide, by decide,
    ⟨sampleController.ExitError sampleMissingMessage, by rfl, by decide⟩⟩

/-- C2, amended: for a text with a token whose variable is missing from the artefacts or
mapped to the empty string, the substitution fails; the code
`spawner-regex-variable-not-exist` is what it logs, and the error it returns is the
sentence `Text contains variable '<token>', but suited variable do not exist` for the first
such token; `Compile` on a task with this command exits through `ExitError` with that
sentence, which becomes the task file's `error` field next to the status `fail`. -/
theorem RegExpConstructor_missing_variable (text : Str) (vars : Artefacts)
    (h : ∃ m ∈ VariableRegExp.FindAllStringSubmatch text, vars m.2 = none ∨ vars m.2 = some []) :
    ∃ m0, (VariableRegExp.FindAllStringSubmatch text).find? (fun m => (vars.get m.2).isEmpty)
          = some m0 ∧
      (RegExpConstructor text vars).2
        = some ⟨ERROR_REGEX_VAR_NOT_EXIST, variableMessage m0.1⟩ ∧
      ∀ (c : Controller) (task : Task), task.Command = text →
        c.Compile task vars = Outcome.exited (c.ExitError (variableMessage m0.1)) ∧
        (c.ExitError (variableMessage m0.1)).saved.Error = variableMessage m0.1 ∧
        (c.ExitError (variableMessage m0.1)).saved.Status = PIPE_STATUS_FAIL := by
  have hsome : ((VariableRegExp.FindAllStringSubmatch text).find?
      (fun m => (vars.get m.2).isEmpty)).isSome = true := by
    rw [List.find?_isSome]
    obtain ⟨m, hm, hv⟩ := h
    refine ⟨m, hm, ?_⟩
    rcases hv with hv | hv <;> simp [Artefacts.get, hv]
  cases hf : (VariableRegExp.FindAllStringSubmatch text).find?
      (fun m => (vars.get m.2).isEmpty) with
  | none => rw [hf] at hsome; simp at hsome
  | some m0 =>
    have herr := RegExpConstructor.loop_error vars _ text m0 hf
    refine ⟨m0, rfl, herr, ?_⟩
    intro c task hcmd
    refine ⟨?_, rfl, rfl⟩
    have hr : RegExpConstructor task.Command vars
        = ((RegExpConstructor text vars).1,
            some ⟨ERROR_REGEX_VAR_NOT_EXIST, variableMessage m0.1⟩) := by
      rw [hcmd]
      exact Prod.ext rfl herr
    simp only [Controller.Compile, hr]

theorem RegExpConstructor_missing_variable_witness :
    (∃ m ∈ VariableRegExp.FindAllStringSubmatch sampleMissingCommand,
        sampleNoVars m.2 = none ∨ sampleNoVars m.2 = some []) ∧
    ∃ m0, (VariableRegExp.FindAllStringSubmatch sampleMissingCommand).find?
          (fun m => (sampleNoVars.get m.2).isEmpty) = some m0 ∧
      (RegExpConstructor sampleMissingCommand sampleNoVars).2
        = some ⟨ERROR_REGEX_VAR_NOT_EXIST, variableMessage m0.1⟩ ∧
      ∀ (c : Controller) (task : Task), task.Command = sampleMissingCommand →
        c.Compile task sampleNoVars = Outcome.exited (c.ExitError (variableMessage m0.1)) ∧
        (c.ExitError (variableMessage m0.1)).saved.Error = variableMessage m0.1 ∧
        (c.ExitError (variableMessage m0.1)).saved.Status = PIPE_STATUS_FAIL :=
  ⟨⟨sampleMissingMatch, by decide, Or.inl rfl⟩,
   RegExpConstructor_missing_variable sampleMissingCommand sampleNoVars
     ⟨sampleMissingMatch, by decide, Or.inl rfl⟩⟩

/-! ## `RegExpMatch`: lengths, exclusion, failure -/

theorem foldl_min_spec (r : Groups) (init : Int) :
    r.foldl (fun (min : Int) val =>
        if (val.2.length : Int) < min then (val.2.length : Int) else min) init ≤ init ∧
      (∀ g ∈ r, r.foldl (fun (min : Int) val =>
        if (val.2.length : Int) < min then (val.2.length : Int) else min) init ≤ g.2.length) ∧
      (r.foldl (fun (min : Int) val =>
        if (val.2.length : Int) < min then (val.2.length : Int) else min) init = init ∨
        ∃ g ∈ r, r.foldl (fun (min : Int) val =>
          if (val.2.length : Int) < min then (val.2.length : Int) else min) init = g.2.length) := by
  induction r generalizing init with
  | nil => simp
  | cons g r ih =>
    simp only [List.foldl_cons, List.mem_cons, forall_eq_or_imp, exists_eq_or_imp]
    by_cases hc : (g.2.length : Int) < init
    · simp only [hc, if_true]
      obtain ⟨h1, h2, h3⟩ := ih (g.2.length : Int)
      refine ⟨by omega, ⟨h1, h2⟩, ?_⟩
      rcases h3 with h3 | h3
      · exact Or.inr (Or.inl h3)
      · exact Or.inr (Or.inr h3)
    · simp only [hc, if_false]
      obtain ⟨h1, h2, h3⟩ := ih init
      refine ⟨h1, ⟨by omega, h2⟩, ?_⟩
      rcases h3 with h3 | h3
      · exact Or.inl h3
      · exact Or.inr (Or.inr h3)

theorem foldl_max_spec (r : Groups) (init : Int) :
    init ≤ r.foldl (fun (max : Int) val =>
        if (val.2.length : Int) > max then (val.2.length : Int) else max) init ∧
      (∀ g ∈ r, (g.2.length : Int) ≤ r.foldl (fun (max : Int) val =>
        if (val.2.length : Int) > max then (val.2.length : Int) else max) init) ∧
      (r.foldl (fun (max : Int) val =>
        if (val.2.length : Int) > max then (val.2.length : Int) else max) init = init ∨
        ∃ g ∈ r, r.foldl (fun (max : Int) val =>
          if (val.2.length : Int) > max then (val.2.length : Int) else max) init = g.2.length) := by
  induction r generalizing init with
  | nil => simp
  | cons g r ih =>
    simp only [List.foldl_cons, List.mem_cons, forall_eq_or_imp, exists_eq_or_imp]
    by_cases hc : (g.2.length : Int) > init
    · simp only [hc, if_true]
      obtain ⟨h1, h2, h3⟩ := ih (g.2.length : Int)
      refine ⟨by omega, ⟨h1, h2⟩, ?_⟩
      rcases h3 with h3 | h3
      · exact Or.inr (Or.inl h3)
      · exact Or.inr (Or.inr h3)
    · simp only [hc, if_false]
      obtain ⟨h1, h2, h3⟩ := ih init
      refine ⟨h1, ⟨by omega, h2⟩, ?_⟩
      rcases h3 with h3 | h3
      · exact Or.inl h3
      · exact Or.inr (Or.inr h3)

theorem get_min_nil : get_min [] = 0 := by decide

/-- The maximum that `get_max` returns bounds every length. -/
theorem le_get_max (r : Groups) : ∀ g ∈ r, (g.2.length : Int) ≤ get_max r := by
  intro g hg
  obtain ⟨h1, h2, _⟩ := foldl_max_spec r MinInt
  have hl := h2 g hg
  have hpos : (0 : Int) ≤ g.2.length := Int.ofNat_nonneg _
  unfold get_max
  simp only [beq_iff_eq]
  split
  · rename_i he
    rw [he] at hl
    simp only [MinInt] at hl
    omega
  · exact hl

/-- When `get_min` and `get_max` agree, every list has that length. -/
theorem length_eq_of_get_min_eq_get_max (r : Groups) (h : get_min r = get_max r) :
    ∀ g ∈ r, (g.2.length : Int) = get_min r := by
  intro g hg
  have hmax := le_get_max r g hg
  obtain ⟨h1, h2, h3⟩ := foldl_min_spec r MaxInt
  have hl := h2 g hg
  have hpos : (0 : Int) ≤ g.2.length := Int.ofNat_nonneg _
  rw [← h] at hmax
  revert hmax
  unfold get_min
  simp only [beq_iff_eq]
  split
  · rename_i he
    rw [he] at hl
    simp only [MaxInt] at hl
    intro hmax
    omega
  · intro hmax
    omega

/-- Lists of one common length below `math.MaxInt` pass the comparison of `get_min`
with `get_max`, and both give that length. -/
theorem get_min_get_max_of_length_eq (r : Groups) (n : Nat) (hr : r ≠ [])
    (hn : (n : Int) < MaxInt) (h : ∀ g ∈ r, g.2.length = n) :
    get_min r = n ∧ get_max r = n := by
  obtain ⟨g0, hg0⟩ := List.exists_mem_of_ne_nil r hr
  obtain ⟨a1, a2, a3⟩ := foldl_min_spec r MaxInt
  obtain ⟨b1, b2, b3⟩ := foldl_max_spec r MinInt
  have ha := a2 g0 hg0
  have hb := b2 g0 hg0
  rw [h g0 hg0] at ha hb
  constructor
  · unfold get_min
    simp only [beq_iff_eq]
    split
    · rename_i he
      rw [he] at ha
      omega
    · rcases a3 with a3 | ⟨g, hg, a3⟩
      · rename_i hne
        exact absurd a3 hne
      · rw [a3, h g hg]
  · unfold get_max
    simp only [beq_iff_eq]
    split
    · rename_i he
      rw [he] at hb
      simp only [MinInt] at hb
      omega
    · rcases b3 with b3 | ⟨g, hg, b3⟩
      · rename_i hne
        exact absurd b3 hne
      · rw [b3, h g hg]

/-- The minimum does not depend on the order in which the map is visited. -/
theorem get_min_perm (r r2 : Groups) (h : r.Perm r2) : get_min r = get_min r2 := by
  obtain ⟨a1, a2, a3⟩ := foldl_min_spec r MaxInt
  obtain ⟨b1, b2, b3⟩ := foldl_min_spec r2 MaxInt
  have hfold : r.foldl (fun (min : Int) val =>
        if (val.2.length : Int) < min then (val.2.length : Int) else min) MaxInt
      = r2.foldl (fun (min : Int) val =>
        if (val.2.length : Int) < min then (val.2.length : Int) else min) MaxInt := by
    apply Int.le_antisymm
    · rcases b3 with b3 | ⟨g, hg, b3⟩
      · rw [b3]; exact a1
      · rw [b3]; exact a2 g (h.mem_iff.2 hg)
    · rcases a3 with a3 | ⟨g, hg, a3⟩
      · rw [a3]; exact b1
      · rw [a3]; exact b2 g (h.mem_iff.1 hg)
  unfold get_min
  rw [hfold]

/-- The maximum does not depend on the order in which the map is visited. -/
theorem get_max_perm (r r2 : Groups) (h : r.Perm r2) : get_max r = get_max r2 := by
  obtain ⟨a1, a2, a3⟩ := foldl_max_spec r MinInt
  obtain ⟨b1, b2, b3⟩ := foldl_max_spec r2 MinInt
  have hfold : r.foldl (fun (max : Int) val =>
        if (val.2.length : Int) > max then (val.2.length : Int) else max) MinInt
      = r2.foldl (fun (max : Int) val =>
        if (val.2.length : Int) > max then (val.2.length : Int) else max) MinInt := by
    apply Int.le_antisymm
    · rcases a3 with a3 | ⟨g, hg, a3⟩
      · rw [a3]; exact b1
      · rw [a3]; exact b2 g (h.mem_iff.1 hg)
    · rcases b3 with b3 | ⟨g, hg, b3⟩
      · rw [b3]; exact a1
      · rw [b3]; exact a2 g (h.mem_iff.2 hg)
  unfold get_max
  rw [hfold]

/-- The survivors of a group depend on which positions are to be removed, not on the
order or number of times they were collected. -/
theorem RegExpMatch.survivors_congr (removing removing2 : List Nat) (group : List Str)
    (h : ∀ k, k ∈ removing ↔ k ∈ removing2) :
    RegExpMatch.survivors removing group = RegExpMatch.survivors removing2 group := by
  unfold RegExpMatch.survivors
  congr 2
  funext iv
  congr 1
  rw [Bool.eq_iff_iff, List.any_eq_true, List.any_eq_true]
  constructor
  · rintro ⟨x, hx, he⟩
    exact ⟨x, (h x).1 hx, he⟩
  · rintro ⟨x, hx, he⟩
    exact ⟨x, (h x).2 hx, he⟩

/-- The positions to remove are the same in whatever order the groups are visited. -/
theorem RegExpMatch.removing_perm (ex : Regexp) (r r2 : Groups) (h : r.Perm r2) (k : Nat) :
    k ∈ RegExpMatch.removing ex r ↔ k ∈ RegExpMatch.removing ex r2 := by
  simp only [RegExpMatch.removing, List.mem_flatMap]
  constructor
  · rintro ⟨g, hg, hk⟩
    exact ⟨g, h.mem_iff.1 hg, hk⟩
  · rintro ⟨g, hg, hk⟩
    exact ⟨g, h.mem_iff.2 hg, hk⟩

/-- C4: whenever `RegExpMatch` returns without error, every group's list in the returned
map has the same length and the returned count equals that length; the count is 0 when
the map is empty. -/
theorem RegExpMatch_count (lib : RegexpLib) (output incRegex excRegex : Str)
    (groups : Groups) (count : Int)
    (h : RegExpMatch lib output incRegex excRegex = .returned (groups, count, none)) :
    (∀ g ∈ groups, (g.2.length : Int) = count) ∧ (groups = [] → count = 0) := by
  unfold RegExpMatch at h
  cases hc : lib.Compile incRegex with
  | none => simp [hc] at h
  | some re =>
    cases hcol : RegExpMatch.collect re.SubexpNames (re.FindAllStringSubmatch output) [] with
    | none => simp [hc, hcol] at h
    | some result =>
      by_cases h1 : (get_min result != get_max result) = true
      · simp [hc, hcol, h1] at h
      · cases hex : RegExpMatch.excluded lib excRegex result with
        | none => simp [hc, hcol, h1, hex] at h
        | some result2 =>
          simp only [hc, hcol, h1, hex, RegExpMatch.finish] at h
          by_cases h2 : (get_min result2 != get_max result2) = true
          · simp [h2] at h
          · simp only [h2, Bool.false_eq_true, if_false, Outcome.returned.injEq,
              Prod.mk.injEq, and_true] at h
            obtain ⟨hg, hcnt⟩ := h
            subst hg
            subst hcnt
            have heq : get_min result2 = get_max result2 := by simpa using h2
            exact ⟨length_eq_of_get_min_eq_get_max result2 heq, fun he => by rw [he]; rfl⟩

theorem RegExpMatch_count_witness :
    RegExpMatch sampleLib "x1 y2 z3".toList "(?P<a>[a-z])(?P<b>[0-9])".toList "y".toList
        = .returned ([("a".toList, ["x".toList, "z".toList]),
            ("b".toList, ["1".toList, "3".toList])], 2, none) ∧
      ((∀ g ∈ [("a".toList, ["x".toList, "z".toList]), ("b".toList, ["1".toList, "3".toList])],
          ((g.2.length : Nat) : Int) = 2) ∧
        (([("a".toList, ["x".toList, "z".toList]), ("b".toList, ["1".toList, "3".toList])]
            : Groups) = [] → (2 : Int) = 0)) :=
  ⟨rfl, RegExpMatch_count sampleLib "x1 y2 z3".toList "(?P<a>[a-z])(?P<b>[0-9])".toList
    "y".toList _ _ rfl⟩

/-- A position is collected for removal exactly when the value at that position of some
group matches the exclude expression. -/
theorem RegExpMatch.mem_removing (ex : Regexp) (result : Groups) (k : Nat) :
    k ∈ RegExpMatch.removing ex result ↔ RegExpMatch.positionExcluded ex result k = true := by
  simp only [RegExpMatch.removing, RegExpMatch.positionExcluded, List.mem_flatMap, List.mem_map,
    List.mem_filter, List.any_eq_true]
  constructor
  · rintro ⟨g, hg, iv, ⟨hiv, hm⟩, rfl⟩
    refine ⟨g, hg, ?_⟩
    rw [List.mem_enum_iff_getElem?] at hiv
    rw [hiv]
    exact hm
  · rintro ⟨g, hg, h⟩
    cases hv : g.2[k]? with
    | none => simp [hv] at h
    | some v =>
      simp only [hv] at h
      exact ⟨g, hg, (k, v), ⟨List.mk_mem_enum_iff_getElem?.2 hv, h⟩, rfl⟩

theorem RegExpMatch.survivors_eq (ex : Regexp) (result : Groups) (values : List Str) :
    RegExpMatch.survivors (RegExpMatch.removing ex result) values
      = RegExpMatch.keptPositions ex result values := by
  unfold RegExpMatch.survivors RegExpMatch.keptPositions
  congr 2
  funext iv
  congr 1
  rw [Bool.eq_iff_iff, List.any_eq_true, ← RegExpMatch.mem_removing]
  constructor
  · rintro ⟨r, hr, he⟩
    rw [beq_iff_eq] at he
    rw [he]
    exact hr
  · intro h
    exact ⟨iv.1, h, by simp⟩

theorem RegExpMatch.keptPositions_of_none (ex : Regexp) (result : Groups) (values : List Str)
    (h : RegExpMatch.removing ex result = []) :
    RegExpMatch.keptPositions ex result values = values := by
  have hno : ∀ k, RegExpMatch.positionExcluded ex result k = false := by
    intro k
    rw [Bool.eq_false_iff, Ne, ← RegExpMatch.mem_removing, h]
    simp
  unfold RegExpMatch.keptPositions
  simp only [hno, Bool.not_false, List.filter_true]
  exact List.enum_map_snd values

/-- The exclusion block computes the positional exclusion of the specification. -/
theorem RegExpMatch.exclude_eq (ex : Regexp) (result : Groups) :
    RegExpMatch.exclude ex result
      = result.map fun g => (g.1, RegExpMatch.keptPositions ex result g.2) := by
  unfold RegExpMatch.exclude
  by_cases h : (RegExpMatch.removing ex result).length > 0
  · simp only [h, if_true, RegExpMatch.survivors_eq]
  · have hnil : RegExpMatch.removing ex result = [] :=
      List.length_eq_zero.1 (by omega)
    simp only [h, if_false]
    conv_lhs => rw [← List.map_id result]
    apply List.map_congr_left
    intro g _
    rw [RegExpMatch.keptPositions_of_none ex result g.2 hnil]
    rfl

/-- The number of positions kept depends on the length of the list only. -/
theorem RegExpMatch.keptPositions_length (ex : Regexp) (result : Groups) (values : List Str) :
    (RegExpMatch.keptPositions ex result values).length
      = ((List.range values.length).filter
          fun k => !RegExpMatch.positionExcluded ex result k).length := by
  unfold RegExpMatch.keptPositions
  rw [List.length_map, ← List.countP_eq_length_filter, ← List.countP_eq_length_filter,
    ← List.enum_map_fst values, List.countP_map]
  rfl

/-- C5: exclusion is positional. When the include expression compiles and the groups it
yields have one common length, then for a non-empty exclude expression that compiles
the call returns without error the map in which every group's list has lost exactly the
positions at which the value of at least one group matches the exclude expression, all
other positions being kept in their order; the count is the length of these lists. -/
theorem RegExpMatch_exclusion_positional (lib : RegexpLib) (output incRegex excRegex : Str)
    (re ex : Regexp) (result : Groups) (n : Nat)
    (hc : lib.Compile incRegex = some re)
    (hcol : RegExpMatch.collect re.SubexpNames (re.FindAllStringSubmatch output) [] = some result)
    (hlen : ∀ g ∈ result, g.2.length = n) (hn : (n : Int) < MaxInt)
    (hexc : excRegex ≠ []) (hx : lib.Compile excRegex = some ex) :
    ∃ count : Int,
      RegExpMatch lib output incRegex excRegex
        = .returned (result.map fun g => (g.1, RegExpMatch.keptPositions ex result g.2),
            count, none) ∧
      ∀ g ∈ result, count = ((RegExpMatch.keptPositions ex result g.2).length : Int) := by
  have hpos : excRegex.length > 0 := List.length_pos.2 hexc
  have h1 : (get_min result != get_max result) = false := by
    by_cases hr : result = []
    · subst hr
      decide
    · obtain ⟨a, b⟩ := get_min_get_max_of_length_eq result n hr hn hlen
      simp [a, b]
  have hexd : RegExpMatch.excluded lib excRegex result
      = some (result.map fun g => (g.1, RegExpMatch.keptPositions ex result g.2)) := by
    simp only [RegExpMatch.excluded, hpos, if_true, hx, RegExpMatch.exclude_eq]
  have hlen2 : ∀ g ∈ (result.map fun g => (g.1, RegExpMatch.keptPositions ex result g.2)),
      g.2.length = ((List.range n).filter
        fun k => !RegExpMatch.positionExcluded ex result k).length := by
    intro g hg
    obtain ⟨g0, hg0, rfl⟩ := List.mem_map.1 hg
    simp only
    rw [RegExpMatch.keptPositions_length, hlen g0 hg0]
  have hle : ((((List.range n).filter
      fun k => !RegExpMatch.positionExcluded ex result k).length : Nat) : Int) < MaxInt := by
    have := List.length_filter_le (fun k => !RegExpMatch.positionExcluded ex result k)
      (List.range n)
    rw [List.length_range] at this
    omega
  have h2 : (get_min (result.map fun g => (g.1, RegExpMatch.keptPositions ex result g.2))
      != get_max (result.map fun g => (g.1, RegExpMatch.keptPositions ex result g.2))) = false := by
    by_cases hr : result = []
    · subst hr
      rfl
    · obtain ⟨a, b⟩ := get_min_get_max_of_length_eq _ _ (by simpa using hr) hle hlen2
      simp [a, b]
  refine ⟨get_min (result.map fun g => (g.1, RegExpMatch.keptPositions ex result g.2)), ?_, ?_⟩
  · simp only [RegExpMatch, hc, hcol, h1, Bool.false_eq_true, if_false, hexd,
      RegExpMatch.finish, h2]
  · intro g hg
    have heq : get_min (result.map fun g => (g.1, RegExpMatch.keptPositions ex result g.2))
        = get_max (result.map fun g => (g.1, RegExpMatch.keptPositions ex result g.2)) := by
      simpa using h2
    have := length_eq_of_get_min_eq_get_max _ heq
      (g.1, RegExpMatch.keptPositions ex result g.2) (List.mem_map.2 ⟨g, hg, rfl⟩)
    exact this.symm

theorem RegExpMatch_exclusion_positional_witness :
    RegExpMatch.collect
        (classesRegexp ["a".toList, "b".toList] [Char.isLower, Char.isDigit]).SubexpNames
        ((classesRegexp ["a".toList, "b".toList]
          [Char.isLower, Char.isDigit]).FindAllStringSubmatch "x1 y2 z3".toList) []
      = some [("a".toList, ["x".toList, "y".toList, "z".toList]),
          ("b".toList, ["1".toList, "2".toList, "3".toList])] ∧
    (∃ count : Int,
      RegExpMatch sampleLib "x1 y2 z3".toList "(?P<a>[a-z])(?P<b>[0-9])".toList "y".toList
        = .returned
          ([("a".toList, ["x".toList, "y".toList, "z".toList]),
            ("b".toList, ["1".toList, "2".toList, "3".toList])].map fun g =>
              (g.1, RegExpMatch.keptPositions (literalRegexp "y".toList)
                [("a".toList, ["x".toList, "y".toList, "z".toList]),
                  ("b".toList, ["1".toList, "2".toList, "3".toList])] g.2),
            count, none) ∧
      ∀ g ∈ [("a".toList, ["x".toList, "y".toList, "z".toList]),
          ("b".toList, ["1".toList, "2".toList, "3".toList])],
        count = ((RegExpMatch.keptPositions (literalRegexp "y".toList)
          [("a".toList, ["x".toList, "y".toList, "z".toList]),
            ("b".toList, ["1".toList, "2".toList, "3".toList])] g.2).length : Int)) ∧
    RegExpMatch sampleLib "x1 y2 z3".toList "(?P<a>[a-z])(?P<b>[0-9])".toList "y".toList
      = .returned ([("a".toList, ["x".toList, "z".toList]),
          ("b".toList, ["1".toList, "3".toList])], 2, none) :=
  ⟨rfl,
   RegExpMatch_exclusion_positional sampleLib "x1 y2 z3".toList
     "(?P<a>[a-z])(?P<b>[0-9])".toList "y".toList
     (classesRegexp ["a".toList, "b".toList] [Char.isLower, Char.isDigit])
     (literalRegexp "y".toList)
     [("a".toList, ["x".toList, "y".toList, "z".toList]),
       ("b".toList, ["1".toList, "2".toList, "3".toList])] 3
     rfl rfl (by decide) (by decide) (by decide) rfl,
   rfl⟩

/-- C6, as stated, fails: for the pattern `(?P<2>[a-z])([0-9])(?P<c>[a-z])` and the output
`x1y` the group named `2` and the unnamed second group share the key `2`, the lists have
lengths 2 and 1, and the call fails; but the returned error is a sentence with the two
lengths, not the code `spawner-regex-group-val-count-not-equal`, which only goes to the
log. -/
theorem RegExpMatch_error_is_not_the_code :
    RegExpMatch.collect
        (classesRegexp ["2".toList, [], "c".toList]
          [Char.isLower, Char.isDigit, Char.isLower]).SubexpNames
        ((classesRegexp ["2".toList, [], "c".toList]
          [Char.isLower, Char.isDigit, Char.isLower]).FindAllStringSubmatch "x1y".toList) []
      = some [("2".toList, ["x".toList, "1".toList]), ("c".toList, ["y".toList])] ∧
    RegExpMatch sampleLib "x1y".toList "(?P<2>[a-z])([0-9])(?P<c>[a-z])".toList []
      = .returned ([], -1, some ⟨ERROR_REGEX_GROUP_NE,
          "Count of element in different groups is not equal, max: 2, min: 1, st 1".toList⟩) ∧
    "Count of element in different groups is not equal, max: 2, min: 1, st 1".toList
      ≠ ERROR_REGEX_GROUP_NE :=
  ⟨rfl, rfl, by decide⟩

/-- C6, amended: whenever the lists of the groups built from the matches do not all have
the same length, the operation fails at the check made before exclusion: it logs the code
`spawner-regex-group-val-count-not-equal` and returns a `nil` map, the count -1 and an error
whose text is `Count of element in different groups is not equal, max: <max>, min: <min>,
st 1`. -/
theorem RegExpMatch_unequal_groups (lib : RegexpLib) (output incRegex excRegex : Str)
    (re : Regexp) (result : Groups)
    (hc : lib.Compile incRegex = some re)
    (hcol : RegExpMatch.collect re.SubexpNames (re.FindAllStringSubmatch output) [] = some result)
    (hne : ∃ g ∈ result, ∃ g2 ∈ result, g.2.length ≠ g2.2.length) :
    RegExpMatch lib output incRegex excRegex
      = .returned ([], -1, some ⟨ERROR_REGEX_GROUP_NE,
          RegExpMatch.countMessage result ", st 1".toList⟩) := by
  have h1 : (get_min result != get_max result) = true := by
    rw [bne_iff_ne]
    intro heq
    obtain ⟨g, hg, g2, hg2, hd⟩ := hne
    have a := length_eq_of_get_min_eq_get_max result heq g hg
    have b := length_eq_of_get_min_eq_get_max result heq g2 hg2
    omega
  simp only [RegExpMatch, hc, hcol, h1, if_true]

theorem RegExpMatch_unequal_groups_witness :
    (∃ g ∈ [("2".toList, ["x".toList, "1".toList]), ("c".toList, ["y".toList])],
      ∃ g2 ∈ [("2".toList, ["x".toList, "1".toList]), ("c".toList, ["y".toList])],
        g.2.length ≠ g2.2.length) ∧
    RegExpMatch sampleLib "x1y".toList "(?P<2>[a-z])([0-9])(?P<c>[a-z])".toList "y".toList
      = .returned ([], -1, some ⟨ERROR_REGEX_GROUP_NE,
          RegExpMatch.countMessage
            [("2".toList, ["x".toList, "1".toList]), ("c".toList, ["y".toList])]
            ", st 1".toList⟩) :=
  ⟨by decide,
   RegExpMatch_unequal_groups sampleLib "x1y".toList "(?P<2>[a-z])([0-9])(?P<c>[a-z])".toList
     "y".toList
     (classesRegexp ["2".toList, [], "c".toList] [Char.isLower, Char.isDigit, Char.isLower])
     [("2".toList, ["x".toList, "1".toList]), ("c".toList, ["y".toList])]
     rfl rfl (by decide)⟩

theorem get_min_lt_MaxInt (r : Groups) : get_min r < MaxInt := by
  obtain ⟨h1, _, _⟩ := foldl_min_spec r MaxInt
  unfold get_min
  simp only [beq_iff_eq]
  split
  · decide
  · rename_i hne
    omega

/-- The check repeated after exclusion cannot fail: exclusion takes the same positions
out of lists of one common length. -/
theorem RegExpMatch.excluded_check (lib : RegexpLib) (excRegex : Str) (result result2 : Groups)
    (h1 : get_min result = get_max result)
    (hex : RegExpMatch.excluded lib excRegex result = some result2) :
    get_min result2 = get_max result2 := by
  unfold RegExpMatch.excluded at hex
  by_cases hpos : excRegex.length > 0
  · simp only [hpos, if_true] at hex
    cases hx : lib.Compile excRegex with
    | none => simp [hx] at hex
    | some ex =>
      simp only [hx, Option.some.injEq] at hex
      subst hex
      rw [RegExpMatch.exclude_eq]
      cases result with
      | nil => rfl
      | cons g0 rest =>
        have hall := length_eq_of_get_min_eq_get_max _ h1
        have hlt := get_min_lt_MaxInt (g0 :: rest)
        have h0 := hall g0 (List.mem_cons_self _ _)
        have hlen2 : ∀ g ∈ ((g0 :: rest).map fun g =>
            (g.1, RegExpMatch.keptPositions ex (g0 :: rest) g.2)),
            g.2.length = ((List.range g0.2.length).filter
              fun k => !RegExpMatch.positionExcluded ex (g0 :: rest) k).length := by
          intro g hg
          obtain ⟨g1, hg1, rfl⟩ := List.mem_map.1 hg
          simp only
          have h1' := hall g1 hg1
          rw [RegExpMatch.keptPositions_length]
          have : g1.2.length = g0.2.length := by omega
          rw [this]
        have hle : ((((List.range g0.2.length).filter
            fun k => !RegExpMatch.positionExcluded ex (g0 :: rest) k).length : Nat) : Int)
            < MaxInt := by
          have := List.length_filter_le
            (fun k => !RegExpMatch.positionExcluded ex (g0 :: rest) k) (List.range g0.2.length)
          rw [List.length_range] at this
          omega
        obtain ⟨a, b⟩ := get_min_get_max_of_length_eq _ _ (by simp) hle hlen2
        rw [a, b]
  · simp only [hpos, if_false, Option.some.injEq] at hex
    subst hex
    exact h1

/-- Every error that `RegExpMatch` returns comes from the check made before exclusion. -/
theorem RegExpMatch_error_is_stage_one (lib : RegexpLib) (output incRegex excRegex : Str)
    (r : Groups × Int × Option Failure)
    (h : RegExpMatch lib output incRegex excRegex = .returned r) :
    r.2.2 = none ∨
      ∃ result, r = ([], -1, some ⟨ERROR_REGEX_GROUP_NE,
        RegExpMatch.countMessage result ", st 1".toList⟩) := by
  unfold RegExpMatch at h
  cases hc : lib.Compile incRegex with
  | none => simp [hc] at h
  | some re =>
    cases hcol : RegExpMatch.collect re.SubexpNames (re.FindAllStringSubmatch output) [] with
    | none => simp [hc, hcol] at h
    | some result =>
      by_cases h1 : (get_min result != get_max result) = true
      · simp only [hc, hcol, h1, if_true, Outcome.returned.injEq] at h
        exact Or.inr ⟨result, h.symm⟩
      · cases hex : RegExpMatch.excluded lib excRegex result with
        | none => simp [hc, hcol, h1, hex] at h
        | some result2 =>
          have heq : get_min result = get_max result := by simpa using h1
          have h2 := RegExpMatch.excluded_check lib excRegex result result2 heq hex
          simp only [hc, hcol, h1, hex, RegExpMatch.finish, h2, bne_self_eq_false,
            Bool.false_eq_true, if_false, Outcome.returned.injEq] at h
          left
          rw [← h]

/-! ## `WhenMatcher` -/

theorem Contains_iff (s substr : Str) : Contains s substr = true ↔ substr <:+: s := by
  unfold Contains
  rw [List.any_eq_true]
  constructor
  · rintro ⟨t, ht, hp⟩
    rw [List.mem_tails] at ht
    exact List.infix_iff_prefix_suffix.2 ⟨t, List.isPrefixOf_iff_prefix.1 hp, ht⟩
  · intro h
    obtain ⟨t, hp, ht⟩ := List.infix_iff_prefix_suffix.1 h
    exact ⟨t, (List.mem_tails _ _).2 ht, List.isPrefixOf_iff_prefix.2 hp⟩

/-- The guard of `ifOutputContainsRe` lets a clause through exactly when the pattern
compiles and matches. -/
theorem RegexpLib.guard_contains (lib : RegexpLib) (pattern s : Str) :
    (!(lib.MatchString pattern s).1 || (lib.MatchString pattern s).2) = false ↔
      ∃ re, lib.Compile pattern = some re ∧ re.MatchString s = true := by
  unfold RegexpLib.MatchString
  cases h : lib.Compile pattern with
  | none => simp
  | some re => simp

/-- The guard `match && matchError != nil` of `ifOutputNotContainsRe` never holds: a match
is only reported without an error. -/
theorem RegexpLib.guard_not_contains (lib : RegexpLib) (pattern s : Str) :
    ((lib.MatchString pattern s).1 && (lib.MatchString pattern s).2) = false := by
  unfold RegexpLib.MatchString
  cases h : lib.Compile pattern with
  | none => simp
  | some re => simp

theorem Controller.WhenMatcher.actions_eq (c : Controller) (when : When) :
    Controller.WhenMatcher.actions c when
      = if when.OnExit then .exited c.ExitSuccess
        else .returned (true, none, afterMove c when) := by
  unfold Controller.WhenMatcher.actions Controller.WhenActions afterMove
  by_cases he : when.OnExit = true
  · simp [he]
  · by_cases hm : when.OnMove.length > 0
    · simp [he, hm]
    · simp [he, hm]

theorem length_pos_iff_ne_nil (s : Str) : decide (s.length > 0) = true ↔ s ≠ [] := by
  cases s <;> simp

/-- C7: when the first clause of the list that has a name or a variable has both, the
evaluator returns `passed = false` with the error `spawner-when-condition-double-based`
and leaves the controller, and with it `NextTaskName`, unchanged. -/
theorem WhenMatcher_double_based (c : Controller) (lib : RegexpLib) (vars : Artefacts)
    (clauses : List When) (w : When)
    (hfirst : clauses.find? (fun x => !x.Name.isEmpty || !x.Variable.isEmpty) = some w)
    (hboth : w.Name ≠ [] ∧ w.Variable ≠ []) :
    c.WhenMatcher lib (some clauses) vars
      = .returned (false, some ERROR_WHEN_CONDITION_DOUBLE_BASED, c) := by
  show Controller.WhenMatcher.loop c lib vars clauses = _
  induction clauses with
  | nil => simp at hfirst
  | cons x rest ih =>
    by_cases hx : (!x.Name.isEmpty || !x.Variable.isEmpty) = true
    · simp only [List.find?_cons, hx, Option.some.injEq] at hfirst
      subst hfirst
      have h1 : decide (x.Name.length > 0) = true := (length_pos_iff_ne_nil _).2 hboth.1
      have h2 : decide (x.Variable.length > 0) = true := (length_pos_iff_ne_nil _).2 hboth.2
      simp only [Controller.WhenMatcher.loop, h1, h2, Bool.and_self, if_true]
    · simp only [List.find?_cons, hx] at hfirst
      have hn : x.Name = [] := by
        cases hnn : x.Name with
        | nil => rfl
        | cons a b => simp [hnn] at hx
      have hv : x.Variable = [] := by
        cases hvv : x.Variable with
        | nil => rfl
        | cons a b => simp [hvv] at hx
      simp only [Controller.WhenMatcher.loop, hn, hv, List.length_nil, gt_iff_lt,
        Nat.lt_irrefl, decide_False, Bool.and_self, Bool.false_eq_true, if_false]
      exact ih hfirst

theorem WhenMatcher_double_based_witness :
    [emptyWhen, sampleDoubleWhen].find? (fun x => !x.Name.isEmpty || !x.Variable.isEmpty)
      = some sampleDoubleWhen ∧
    (sampleDoubleWhen.Name ≠ [] ∧ sampleDoubleWhen.Variable ≠ []) ∧
    sampleNamedController.WhenMatcher sampleLib (some [emptyWhen, sampleDoubleWhen]) sampleNoVars
      = .returned (false, some ERROR_WHEN_CONDITION_DOUBLE_BASED, sampleNamedController) :=
  ⟨by decide, by decide,
   WhenMatcher_double_based sampleNamedController sampleLib sampleNoVars
     [emptyWhen, sampleDoubleWhen] sampleDoubleWhen (by decide) (by decide)⟩

theorem WhenMatcher_single_name (c : Controller) (lib : RegexpLib) (vars : Artefacts) (w : When)
    (hn : w.Name ≠ []) (hv : w.Variable = []) :
    c.WhenMatcher lib (some [w]) vars = Controller.WhenMatcher.byName c lib w := by
  have h1 : decide (w.Name.length > 0) = true := (length_pos_iff_ne_nil _).2 hn
  simp only [Controller.WhenMatcher, Controller.WhenMatcher.loop, h1, hv, List.length_nil,
    gt_iff_lt, Nat.lt_irrefl, decide_False, Bool.and_false, Bool.false_eq_true, if_false,
    if_true]
  rw [if_pos (List.length_pos.2 hn)]

theorem WhenMatcher_single_variable (c : Controller) (lib : RegexpLib) (vars : Artefacts)
    (w : When) (hn : w.Name = []) (hv : w.Variable ≠ []) :
    c.WhenMatcher lib (some [w]) vars = Controller.WhenMatcher.byVariable c vars w := by
  have h1 : decide (w.Variable.length > 0) = true := (length_pos_iff_ne_nil _).2 hv
  simp only [Controller.WhenMatcher, Controller.WhenMatcher.loop, h1, hn, List.length_nil,
    gt_iff_lt, Nat.lt_irrefl, decide_False, Bool.false_and, Bool.false_eq_true, if_false,
    if_true]
  rw [if_pos (List.length_pos.2 hv)]

/-- The name-based block in one formula: the five guards in order, then the actions. -/
theorem Controller.WhenMatcher.byName_some (c : Controller) (lib : RegexpLib) (w : When)
    (entry : NamedTask) (hN : c.Names w.Name = some entry) :
    Controller.WhenMatcher.byName c lib w
      = if (decide (entry.Status.length ≤ 0)
            || (decide (w.IfStatus.length > 0) && entry.Status != w.IfStatus)
            || (decide (w.IfOutputContains.length > 0)
                && !Contains entry.Output w.IfOutputContains)
            || (decide (w.IfOutputNotContains.length > 0)
                && Contains entry.Output w.IfOutputNotContains)
            || (decide (w.IfOutputContainsRe.length > 0)
                && (!(lib.MatchString w.IfOutputContainsRe entry.Output).1
                    || (lib.MatchString w.IfOutputContainsRe entry.Output).2))) = true
        then .returned (false, none, c)
        else Controller.WhenMatcher.actions c w := by
  unfold Controller.WhenMatcher.byName
  rw [hN]
  simp only [RegexpLib.guard_not_contains, Bool.and_false, Bool.false_eq_true, if_false]
  by_cases g1 : entry.Status.length ≤ 0
  · simp only [g1, if_true, decide_True, Bool.true_or]
  rw [if_neg g1]
  simp only [g1, decide_False, Bool.false_or]
  generalize (decide (w.IfStatus.length > 0) && entry.Status != w.IfStatus) = b
  generalize (decide (w.IfOutputContains.length > 0)
    && !Contains entry.Output w.IfOutputContains) = d
  generalize (decide (w.IfOutputNotContains.length > 0)
    && Contains entry.Output w.IfOutputNotContains) = e
  generalize (decide (w.IfOutputContainsRe.length > 0)
    && (!(lib.MatchString w.IfOutputContainsRe entry.Output).1
        || (lib.MatchString w.IfOutputContainsRe entry.Output).2)) = f
  cases b <;> cases d <;> cases e <;> cases f <;> rfl

theorem or5_eq_false (a b d e f : Bool) :
    (a || b || d || e || f) = false ↔
      (a = false ∧ b = false ∧ d = false ∧ e = false ∧ f = false) := by
  cases a <;> cases b <;> cases d <;> cases e <;> cases f <;> decide

/-- The five guards all let the clause through exactly when the condition of the
specification holds for the entry. -/
theorem Controller.WhenMatcher.guards_iff (lib : RegexpLib) (w : When) (entry : NamedTask) :
    (decide (entry.Status.length ≤ 0)
        || (decide (w.IfStatus.length > 0) && entry.Status != w.IfStatus)
        || (decide (w.IfOutputContains.length > 0)
            && !Contains entry.Output w.IfOutputContains)
        || (decide (w.IfOutputNotContains.length > 0)
            && Contains entry.Output w.IfOutputNotContains)
        || (decide (w.IfOutputContainsRe.length > 0)
            && (!(lib.MatchString w.IfOutputContainsRe entry.Output).1
                || (lib.MatchString w.IfOutputContainsRe entry.Output).2))) = false ↔
      (entry.Status ≠ [] ∧
        (w.IfStatus = [] ∨ w.IfStatus = entry.Status) ∧
        (w.IfOutputContains = [] ∨ w.IfOutputContains <:+: entry.Output) ∧
        (w.IfOutputNotContains = [] ∨ ¬ w.IfOutputNotContains <:+: entry.Output) ∧
        (w.IfOutputContainsRe = [] ∨
          ∃ re, lib.Compile w.IfOutputContainsRe = some re
            ∧ re.MatchString entry.Output = true)) := by
  have e1 : decide (entry.Status.length ≤ 0) = false ↔ entry.Status ≠ [] := by
    cases entry.Status <;> simp
  have e2 : (decide (w.IfStatus.length > 0) && entry.Status != w.IfStatus) = false ↔
      (w.IfStatus = [] ∨ w.IfStatus = entry.Status) := by
    cases h : w.IfStatus with
    | nil => simp
    | cons a b =>
      simp only [List.length_cons, gt_iff_lt, Nat.zero_lt_succ, decide_True, Bool.true_and,
        bne_eq_false_iff_eq, false_or, reduceCtorEq]
      exact eq_comm
  have e3 : (decide (w.IfOutputContains.length > 0)
      && !Contains entry.Output w.IfOutputContains) = false ↔
      (w.IfOutputContains = [] ∨ w.IfOutputContains <:+: entry.Output) := by
    rw [← Contains_iff]
    cases h : w.IfOutputContains with
    | nil => simp
    | cons a b => simp
  have e4 : (decide (w.IfOutputNotContains.length > 0)
      && Contains entry.Output w.IfOutputNotContains) = false ↔
      (w.IfOutputNotContains = [] ∨ ¬ w.IfOutputNotContains <:+: entry.Output) := by
    rw [← Contains_iff]
    cases h : w.IfOutputNotContains with
    | nil => simp
    | cons a b => simp
  have e5 : (decide (w.IfOutputContainsRe.length > 0)
      && (!(lib.MatchString w.IfOutputContainsRe entry.Output).1
          || (lib.MatchString w.IfOutputContainsRe entry.Output).2)) = false ↔
      (w.IfOutputContainsRe = [] ∨
        ∃ re, lib.Compile w.IfOutputContainsRe = some re
          ∧ re.MatchString entry.Output = true) := by
    rw [← RegexpLib.guard_contains]
    cases h : w.IfOutputContainsRe with
    | nil => simp
    | cons a b => simp
  rw [or5_eq_false, e1, e2, e3, e4, e5]

/-- C8, as stated, fails: with task `A` recorded as `success`, the one-clause list
`{name: A, onExit: true}` satisfies every condition of the claim, yet the evaluator does
not return `passed = true`: it ends the process through `ExitSuccess`. -/
theorem WhenMatcher_name_clause_exits :
    NameClauseHolds sampleNamedController sampleLib sampleExitWhen ∧
      sampleNamedController.WhenMatcher sampleLib (some [sampleExitWhen]) sampleNoVars
        = .exited sampleNamedController.ExitSuccess ∧
      ∀ r, sampleNamedController.WhenMatcher sampleLib (some [sampleExitWhen]) sampleNoVars
        ≠ .returned r := by
  refine ⟨⟨⟨PIPE_STATUS_SUCCESS, "foo bar".toList⟩, rfl, by decide, Or.inl rfl, Or.inl rfl,
    Or.inl rfl, Or.inl rfl⟩, rfl, ?_⟩
  intro r h
  have h2 : sampleNamedController.WhenMatcher sampleLib (some [sampleExitWhen]) sampleNoVars
      = .exited sampleNamedController.ExitSuccess := rfl
  rw [h2] at h
  exact Outcome.noConfusion h

/-- C8, amended: for a one-clause list with `name` set, `variable` empty and
`ifOutputNotContainsRe` empty, no error is ever returned. When the named-task table has an
entry for `name` with a non-empty status and every predicate that is set holds, the
evaluator returns `passed = true` after setting `NextTaskName` to a non-empty `onMove`,
unless `onExit` is set, in which case it ends the process through `ExitSuccess` instead of
returning. In every other case it returns `passed = false` and changes nothing. -/
theorem WhenMatcher_name_clause (c : Controller) (lib : RegexpLib) (vars : Artefacts) (w : When)
    (hn : w.Name ≠ []) (hv : w.Variable = []) (_hre : w.IfOutputNotContainsRe = []) :
    (NameClauseHolds c lib w →
      c.WhenMatcher lib (some [w]) vars
        = if w.OnExit then .exited c.ExitSuccess else .returned (true, none, afterMove c w)) ∧
    (¬ NameClauseHolds c lib w →
      c.WhenMatcher lib (some [w]) vars = .returned (false, none, c)) := by
  rw [WhenMatcher_single_name c lib vars w hn hv]
  cases hN : c.Names w.Name with
  | none =>
    constructor
    · rintro ⟨entry, he, _⟩
      rw [hN] at he
      exact absurd he (by simp)
    · intro _
      simp only [Controller.WhenMatcher.byName, hN]
  | some entry =>
    rw [Controller.WhenMatcher.byName_some c lib w entry hN]
    constructor
    · rintro ⟨entry2, he, hconds⟩
      rw [hN] at he
      cases he
      have := (Controller.WhenMatcher.guards_iff lib w entry).2 hconds
      rw [this]
      simp only [Bool.false_eq_true, if_false]
      exact Controller.WhenMatcher.actions_eq c w
    · intro hnot
      have hg : ¬ (decide (entry.Status.length ≤ 0)
          || (decide (w.IfStatus.length > 0) && entry.Status != w.IfStatus)
          || (decide (w.IfOutputContains.length > 0)
              && !Contains entry.Output w.IfOutputContains)
          || (decide (w.IfOutputNotContains.length > 0)
              && Contains entry.Output w.IfOutputNotContains)
          || (decide (w.IfOutputContainsRe.length > 0)
              && (!(lib.MatchString w.IfOutputContainsRe entry.Output).1
                  || (lib.MatchString w.IfOutputContainsRe entry.Output).2))) = false := by
        intro hf
        exact hnot ⟨entry, hN, (Controller.WhenMatcher.guards_iff lib w entry).1 hf⟩
      rw [Bool.not_eq_false] at hg
      rw [if_pos hg]

theorem WhenMatcher_name_clause_witness :
    (sampleNameWhen.Name ≠ [] ∧ sampleNameWhen.Variable = []
      ∧ sampleNameWhen.IfOutputNotContainsRe = []) ∧
    NameClauseHolds sampleNamedController sampleLib sampleNameWhen ∧
    sampleNamedController.WhenMatcher sampleLib (some [sampleNameWhen]) sampleNoVars
      = .returned (true, none, afterMove sampleNamedController sampleNameWhen) ∧
    (afterMove sampleNamedController sampleNameWhen).NextTaskName = "T".toList :=
  have hholds : NameClauseHolds sampleNamedController sampleLib sampleNameWhen :=
    ⟨⟨PIPE_STATUS_SUCCESS, "foo bar".toList⟩, rfl, by decide, Or.inr rfl,
      Or.inr ⟨[], " bar".toList, rfl⟩, Or.inl rfl, Or.inl rfl⟩
  ⟨by decide, hholds,
   (WhenMatcher_name_clause sampleNamedController sampleLib sampleNoVars sampleNameWhen
     (by decide) rfl rfl).1 hholds,
   rfl⟩

/-- C9, the code at the failing input: task `A` is recorded with status `success` and
output `foo bar`, the clause `{name: A, ifOutputNotContainsRe: foo}` has a pattern that
matches this output, and the evaluator returns `passed = true` without an error. -/
theorem WhenMatcher_ifOutputNotContainsRe_passes :
    sampleNamedController.Names sampleNotContainsReWhen.Name
        = some ⟨PIPE_STATUS_SUCCESS, "foo bar".toList⟩ ∧
      sampleLib.MatchString sampleNotContainsReWhen.IfOutputNotContainsRe "foo bar".toList
        = (true, false) ∧
      sampleNamedController.WhenMatcher sampleLib (some [sampleNotContainsReWhen]) sampleNoVars
        = .returned (true, none, sampleNamedController) :=
  ⟨rfl, rfl, rfl⟩

/-- The field `ifOutputNotContainsRe` has no effect at all on a name-based clause: the
result is the one of the clause with the field emptied. -/
theorem Controller.WhenMatcher.byName_ignores_notContainsRe (c : Controller) (lib : RegexpLib)
    (w : When) :
    Controller.WhenMatcher.byName c lib w
      = Controller.WhenMatcher.byName c lib { w with IfOutputNotContainsRe := [] } := by
  have ha : Controller.WhenMatcher.actions c { w with IfOutputNotContainsRe := [] }
      = Controller.WhenMatcher.actions c w := by
    rw [Controller.WhenMatcher.actions_eq, Controller.WhenMatcher.actions_eq]
    rfl
  cases hN : c.Names w.Name with
  | none => simp only [Controller.WhenMatcher.byName, hN]
  | some entry =>
    rw [Controller.WhenMatcher.byName_some c lib w entry hN,
      Controller.WhenMatcher.byName_some c lib { w with IfOutputNotContainsRe := [] } entry hN,
      ha]

/-- The variable-based block lets a clause through exactly when the condition of the
specification holds. -/
theorem Controller.WhenMatcher.byVariable_eq (c : Controller) (vars : Artefacts) (w : When) :
    (VariableClauseHolds vars w →
      Controller.WhenMatcher.byVariable c vars w = Controller.WhenMatcher.actions c w) ∧
    (¬ VariableClauseHolds vars w →
      Controller.WhenMatcher.byVariable c vars w = .returned (false, none, c)) := by
  unfold Controller.WhenMatcher.byVariable VariableClauseHolds
  by_cases g1 : (vars.get w.Variable).length ≤ 0
  · have hnil : vars.get w.Variable = [] := List.length_eq_zero.1 (Nat.le_zero.1 g1)
    rw [if_pos g1]
    exact ⟨fun h => absurd hnil h.1, fun _ => rfl⟩
  · have hne : vars.get w.Variable ≠ [] := fun h => g1 (by rw [h]; exact Nat.le_refl 0)
    rw [if_neg g1]
    by_cases g2 : (decide (w.IfValue.length > 0) && vars.get w.Variable != w.IfValue) = true
    · rw [if_pos g2]
      refine ⟨fun h => ?_, fun _ => rfl⟩
      exfalso
      simp only [Bool.and_eq_true, decide_eq_true_eq, bne_iff_ne, ne_eq] at g2
      rcases h.2.1 with h1 | h1
      · rw [h1] at g2
        simp at g2
      · exact g2.2 h1.symm
    · rw [if_neg g2]
      by_cases g3 : (decide (w.IfValueNot.length > 0)
          && vars.get w.Variable == w.IfValueNot) = true
      · rw [if_pos g3]
        refine ⟨fun h => ?_, fun _ => rfl⟩
        exfalso
        simp only [Bool.and_eq_true, decide_eq_true_eq, beq_iff_eq] at g3
        rcases h.2.2 with h1 | h1
        · rw [h1] at g3
          simp at g3
        · exact h1 g3.2.symm
      · rw [if_neg g3]
        refine ⟨fun _ => rfl, fun h => ?_⟩
        exfalso
        apply h
        refine ⟨hne, ?_, ?_⟩
        · by_cases hv : w.IfValue = []
          · exact Or.inl hv
          · right
            by_contra hneq
            apply g2
            simp only [Bool.and_eq_true, decide_eq_true_eq, bne_iff_ne, ne_eq]
            exact ⟨List.length_pos.2 hv, fun e => hneq e.symm⟩
        · by_cases hv : w.IfValueNot = []
          · exact Or.inl hv
          · right
            intro heq
            apply g3
            simp only [Bool.and_eq_true, decide_eq_true_eq, beq_iff_eq]
            exact ⟨List.length_pos.2 hv, heq.symm⟩

/-- C10, as stated, fails: with `vrf = mgmt` the one-clause list `{variable: vrf, onExit:
true}` satisfies every condition of the claim, yet the evaluator does not return
`passed = true`: it ends the process through `ExitSuccess`. -/
theorem WhenMatcher_variable_clause_exits :
    VariableClauseHolds sampleVrfVars sampleVariableExitWhen ∧
      sampleController.WhenMatcher sampleLib (some [sampleVariableExitWhen]) sampleVrfVars
        = .exited sampleController.ExitSuccess ∧
      ∀ r, sampleController.WhenMatcher sampleLib (some [sampleVariableExitWhen]) sampleVrfVars
        ≠ .returned r := by
  refine ⟨⟨by decide, Or.inl rfl, Or.inl rfl⟩, rfl, ?_⟩
  intro r h
  have h2 : sampleController.WhenMatcher sampleLib (some [sampleVariableExitWhen]) sampleVrfVars
      = .exited sampleController.ExitSuccess := rfl
  rw [h2] at h
  exact Outcome.noConfusion h

/-- C10, amended: for a one-clause list with `variable` set and `name` empty, no error is
ever returned. When `artefacts[variable]` is non-empty, equals a non-empty `ifValue` and
differs from a non-empty `ifValueNot`, the evaluator returns `passed = true` after setting
`NextTaskName` to a non-empty `onMove`, unless `onExit` is set, in which case it ends the
process through `ExitSuccess` instead of returning. In every other case it returns
`passed = false` and changes nothing. An empty or absent When list always yields
`passed = true`. -/
theorem WhenMatcher_variable_clause (c : Controller) (lib : RegexpLib) (vars : Artefacts)
    (w : When) (hn : w.Name = []) (hv : w.Variable ≠ []) :
    (VariableClauseHolds vars w →
      c.WhenMatcher lib (some [w]) vars
        = if w.OnExit then .exited c.ExitSuccess else .returned (true, none, afterMove c w)) ∧
    (¬ VariableClauseHolds vars w →
      c.WhenMatcher lib (some [w]) vars = .returned (false, none, c)) ∧
    c.WhenMatcher lib none vars = .returned (true, none, c) ∧
    c.WhenMatcher lib (some []) vars = .returned (true, none, c) := by
  rw [WhenMatcher_single_variable c lib vars w hn hv]
  obtain ⟨h1, h2⟩ := Controller.WhenMatcher.byVariable_eq c vars w
  refine ⟨fun h => ?_, h2, rfl, rfl⟩
  rw [h1 h, Controller.WhenMatcher.actions_eq]

theorem WhenMatcher_variable_clause_witness :
    (sampleVariableWhen.Name = [] ∧ sampleVariableWhen.Variable ≠ []) ∧
    VariableClauseHolds sampleVrfVars sampleVariableWhen ∧
    ¬ VariableClauseHolds sampleNoVars sampleVariableWhen ∧
    sampleController.WhenMatcher sampleLib (some [sampleVariableWhen]) sampleVrfVars
      = .returned (true, none, sampleController) ∧
    sampleController.WhenMatcher sampleLib (some [sampleVariableWhen]) sampleNoVars
      = .returned (false, none, sampleController) :=
  ⟨by decide, ⟨by decide, Or.inr rfl, Or.inr (by decide)⟩, fun h => h.1 rfl,
   (WhenMatcher_variable_clause sampleController sampleLib sampleVrfVars sampleVariableWhen
     rfl (by decide)).1 ⟨by decide, Or.inr rfl, Or.inr (by decide)⟩,
   (WhenMatcher_variable_clause sampleController sampleLib sampleNoVars sampleVariableWhen
     rfl (by decide)).2.1 (fun h => h.1 rfl)⟩

/-! ## `Controller.WhenMatcher`: what a call leaves behind -/

theorem Controller.WhenMatcher.byName_cases (c : Controller) (lib : RegexpLib) (w : When) :
    Controller.WhenMatcher.byName c lib w = .returned (false, none, c)
      ∨ Controller.WhenMatcher.byName c lib w = Controller.WhenMatcher.actions c w := by
  unfold Controller.WhenMatcher.byName
  cases c.Names w.Name with
  | none => exact Or.inl rfl
  | some entry =>
    simp only []
    repeat' split
    all_goals first | exact Or.inl rfl | exact Or.inr rfl

theorem Controller.WhenMatcher.byVariable_cases (c : Controller) (vars : Artefacts) (w : When) :
    Controller.WhenMatcher.byVariable c vars w = .returned (false, none, c)
      ∨ Controller.WhenMatcher.byVariable c vars w = Controller.WhenMatcher.actions c w := by
  unfold Controller.WhenMatcher.byVariable
  repeat' split
  all_goals first | exact Or.inl rfl | exact Or.inr rfl

/-- What a returning call of the actions leaves behind. -/
theorem Controller.WhenMatcher.actions_returned (c : Controller) (w : When) (passed : Bool)
    (err : Option Str) (c2 : Controller)
    (h : Controller.WhenMatcher.actions c w = .returned (passed, err, c2)) :
    w.OnExit = false ∧ passed = true ∧ err = none ∧ c2 = afterMove c w := by
  rw [Controller.WhenMatcher.actions_eq] at h
  cases he : w.OnExit with
  | true => simp [he] at h
  | false =>
    simp [he] at h
    obtain ⟨h1, h2, h3⟩ := h
    exact ⟨rfl, h1, h2.symm, h3.symm⟩

/-- What a returning call of the loop over the clauses leaves behind: the controller as
it was, or the move of one clause of the list. -/
theorem Controller.WhenMatcher.loop_returned (c : Controller) (lib : RegexpLib)
    (vars : Artefacts) (clauses : List When) (passed : Bool) (err : Option Str)
    (c2 : Controller)
    (h : Controller.WhenMatcher.loop c lib vars clauses = .returned (passed, err, c2)) :
    c2 = c ∨ (passed = true ∧ err = none ∧
      ∃ w ∈ clauses, w.OnExit = false ∧ c2 = afterMove c w) := by
  induction clauses with
  | nil =>
    simp [Controller.WhenMatcher.loop] at h
    exact Or.inl h.2.2.symm
  | cons w rest ih =>
    unfold Controller.WhenMatcher.loop at h
    split at h
    · simp at h
      exact Or.inl h.2.2.symm
    · split at h
      · rcases Controller.WhenMatcher.byName_cases c lib w with hb | hb
        · rw [hb] at h
          simp at h
          exact Or.inl h.2.2.symm
        · rw [hb] at h
          obtain ⟨h1, h2, h3, h4⟩ := Controller.WhenMatcher.actions_returned c w passed err c2 h
          exact Or.inr ⟨h2, h3, w, List.mem_cons_self _ _, h1, h4⟩
      · split at h
        · rcases Controller.WhenMatcher.byVariable_cases c vars w with hb | hb
          · rw [hb] at h
            simp at h
            exact Or.inl h.2.2.symm
          · rw [hb] at h
            obtain ⟨h1, h2, h3, h4⟩ :=
              Controller.WhenMatcher.actions_returned c w passed err c2 h
            exact Or.inr ⟨h2, h3, w, List.mem_cons_self _ _, h1, h4⟩
        · rcases ih h with h1 | ⟨h1, h2, w2, hw, h3, h4⟩
          · exact Or.inl h1
          · exact Or.inr ⟨h1, h2, w2, List.mem_cons_of_mem _ hw, h3, h4⟩

/-- What a returning call of `WhenMatcher` leaves behind. -/
theorem Controller.WhenMatcher.returned_cases (c : Controller) (lib : RegexpLib)
    (when : Option (List When)) (vars : Artefacts) (passed : Bool) (err : Option Str)
    (c2 : Controller) (h : c.WhenMatcher lib when vars = .returned (passed, err, c2)) :
    c2 = c ∨ (passed = true ∧ err = none ∧ ∃ clauses w, when = some clauses ∧ w ∈ clauses ∧
      w.OnExit = false ∧ w.OnMove ≠ [] ∧ c2 = { c with NextTaskName := w.OnMove }) := by
  unfold Controller.WhenMatcher at h
  cases when with
  | none =>
    simp at h
    exact Or.inl h.2.2.symm
  | some clauses =>
    simp only [] at h
    rcases Controller.WhenMatcher.loop_returned c lib vars clauses passed err c2 h with
      h1 | ⟨h1, h2, w, hw, h3, h4⟩
    · exact Or.inl h1
    · by_cases hm : w.OnMove = []
      · left
        rw [h4]
        simp [afterMove, hm]
      · right
        refine ⟨h1, h2, clauses, w, rfl, hw, h3, hm, ?_⟩
        rw [h4]
        have : w.OnMove.length > 0 := List.length_pos.2 hm
        simp [afterMove, this]

/-! ## `Connection.Send` -/

/-- C19. The device answers the command `show prompt` with the line `prompt R1#` and its
prompt `R1#`, so the text of the last line occurs earlier in the output. `Connection.Send`
hands back the text in which the first `R1#`, inside the line of output, is deleted and
the final line is still there, whereas the specification asks for the text without its
final line and with the earlier `R1#` kept. -/
theorem Send_sanitize_strikes_first_occurrence :
    (sampleConnection.spawn.SendString "show prompt".toList 20 PromptCiscoPriv).1
        = ("prompt R1#\r\nR1#".toList, none)
      ∧ (sampleConnection.Send deviceLib 2 "show prompt".toList 20 false).map
          (fun result => match result with
            | .returned ((output, err), _) => some (output, err)
            | _ => none)
        = some (some ("prompt \r\nR1#".toList, none))
      ∧ Connection.Send.sanitize "prompt R1#\r\nR1#".toList = "prompt \r\nR1#".toList
      ∧ sanitizeSpec "prompt R1#\r\nR1#".toList = "prompt R1#\r\n".toList
      ∧ lastLineOccursEarlier "prompt R1#\r\nR1#".toList = true := by
  refine ⟨by rfl, by rfl, by rfl, by rfl, by rfl⟩

/-- Deleting the first occurrence of the end of a text deletes that end, when the end
does not occur earlier in the text. -/
theorem replaceFirst_of_last (old : Str) (hold : old ≠ []) :
    ∀ (s : Str) (i : Nat), s.drop i = old →
      (∀ j, j < i → old.isPrefixOf (s.drop j) = false) → replaceFirst old [] s = s.take i := by
  intro s
  induction s with
  | nil =>
    intro i h _
    simp at h
    exact absurd h hold
  | cons c rest ih =>
    intro i h hj
    cases i with
    | zero =>
      simp only [List.drop_zero] at h
      subst h
      simp [replaceFirst]
    | succ n =>
      have h0 := hj 0 (Nat.succ_pos n)
      simp only [List.drop_zero] at h0
      simp only [replaceFirst, h0, Bool.false_eq_true, if_false, List.take_succ_cons]
      rw [ih n (by simpa using h) (fun j hjn => by simpa using hj (j + 1) (by omega))]

/-- Where the text of the last line does not occur earlier in the cleaned output, the
output that `Connection.Send` hands back is the output that the specification
describes. -/
theorem Send_sanitize_eq_spec (raw : Str) (h : lastLineOccursEarlier raw = false) :
    Connection.Send.sanitize raw = sanitizeSpec raw := by
  unfold Connection.Send.sanitize sanitizeSpec
  simp only []
  generalize hout : Connection.Send.clean raw = output
  generalize hi : (LastIndex output "\n".toList + 1).toNat = i
  unfold lastLineOccursEarlier at h
  simp only [hout, hi] at h
  unfold ReplaceFirst
  by_cases hnil : output.drop i = []
  · have hlen : output.length ≤ i := List.drop_eq_nil_iff.1 hnil
    simp [hnil, List.take_of_length_le hlen]
  · have hbeq : (output.drop i == []) = false := by
      cases hd : output.drop i with
      | nil => exact absurd hd hnil
      | cons a b => rfl
    have hemp : (output.drop i).isEmpty = false := by
      cases hd : output.drop i with
      | nil => exact absurd hd hnil
      | cons a b => rfl
    simp only [hbeq, hemp, Bool.false_eq_true, if_false]
    apply replaceFirst_of_last _ hnil output i rfl
    intro j hj
    have := h
    rw [List.any_eq_false] at this
    exact Bool.eq_false_iff.2 (this j (List.mem_range.2 hj))

/-- C20. For a connection with a saved prompt: whenever `SendString`, waiting for the
saved prompt, succeeds and `PromptDefine` then succeeds with a prompt whose name differs
from the name of the saved one, `Send` with `promptChangeAllowed` unset returns the error
`spawner-prompt-has-been-changed`; and whenever `SendString`, waiting for the universal
prompt as it does with `promptChangeAllowed` set, succeeds and `PromptDefine` then
succeeds, `Send` with `promptChangeAllowed` set returns no error, whatever the new
prompt. Each half asks only for the success of its own send. -/
theorem Send_prompt_changed (lib : RegexpLib) (fuel : Nat) (c : Connection) (command : Str)
    (timeout : Int) (current : Prompt) (hcurrent : c.Prompt = some current) :
    (∀ (output : Str) (spawn : Spawn) (c2 : Connection) (p : Prompt),
        c.spawn.SendString command timeout current = ((output, none), spawn) →
        Connection.PromptDefine lib fuel { c with spawn := spawn }
          = some (.returned (none, c2)) →
        c2.Prompt = some p → p.Name ≠ current.Name →
        c.Send lib fuel command timeout false
          = some (.returned ((Connection.Send.sanitize output, some ERROR_PROMPT_CHANGED), c2)))
      ∧ ERROR_PROMPT_CHANGED = "spawner-prompt-has-been-changed".toList
      ∧ (∀ (output : Str) (spawn : Spawn) (c2 : Connection) (p : Prompt),
        c.spawn.SendString command timeout PromptUniversal = ((output, none), spawn) →
        Connection.PromptDefine lib fuel { c with spawn := spawn }
          = some (.returned (none, c2)) →
        c2.Prompt = some p →
        c.Send lib fuel command timeout true
          = some (.returned ((Connection.Send.sanitize output, none), c2))) := by
  refine ⟨?_, rfl, ?_⟩
  · intro output spawn c2 p hsend hdefine hp hname
    rw [hcurrent] at hdefine
    unfold Connection.Send
    simp only [hcurrent, Bool.false_eq_true, if_false, hsend, hdefine, hp]
    simp [hname]
  · intro output spawn c2 p hsend hdefine hp
    rw [hcurrent] at hdefine
    unfold Connection.Send
    simp only [hcurrent, if_true, hsend, hdefine, hp]
    simp

/-- The theorem `Send_prompt_changed` at the command `configure terminal` sent to the
device `R1` from its prompt `cisco-priv`, after which the device shows its prompt
`cisco-conf`, and at the command `system-view` sent to a Huawei device from its prompt
`huawei-user` with `promptChangeAllowed` set: there only the wait for the universal prompt
succeeds, the wait for the saved prompt runs into the timeout. -/
theorem Send_prompt_changed_witness :
    sampleConnection.Prompt = some PromptCiscoPriv
      ∧ sampleConnection.Send deviceLib 1 "configure terminal".toList 20 false
        = some (.returned ((Connection.Send.sanitize "configure terminal\r\nR1(config)#".toList,
            some ERROR_PROMPT_CHANGED), sampleConfConnection))
      ∧ sampleHuaweiConnection.Prompt = some PromptHuaweiUser
      ∧ (sampleHuaweiConnection.spawn.SendString "system-view".toList 20 PromptHuaweiUser).1
        = ("system-view\r\n[HUAWEI]".toList, some ERROR_PROMPT_TIMEOUT)
      ∧ sampleHuaweiSysConnection.Prompt = some PromptHuaweiSys
      ∧ sampleHuaweiConnection.Send catalogLib 1 "system-view".toList 20 true
        = some (.returned ((Connection.Send.sanitize "system-view\r\n[HUAWEI]".toList, none),
            sampleHuaweiSysConnection)) :=
  ⟨rfl,
    (Send_prompt_changed deviceLib 1 sampleConnection "configure terminal".toList 20
      PromptCiscoPriv rfl).1 "configure terminal\r\nR1(config)#".toList sampleConfSpawn
      sampleConfConnection PromptCiscoConf rfl rfl rfl (by decide),
    rfl, rfl, rfl,
    (Send_prompt_changed catalogLib 1 sampleHuaweiConnection "system-view".toList 20
      PromptHuaweiUser rfl).2.2 "system-view\r\n[HUAWEI]".toList sampleHuaweiSpawnU
      sampleHuaweiSysConnection PromptHuaweiSys rfl rfl rfl⟩

/-! ## The task file under `SetTaskStatus` -/

theorem Task.setStatus_Tasks (s : Str) (t : Task) : (t.setStatus s).Tasks = t.Tasks := by
  cases t; rfl

theorem Task.setStatus_Status (s : Str) (t : Task) : (t.setStatus s).Status = s := by
  cases t; rfl

theorem Task.setTasks_Tasks (x : Option (List Task)) (t : Task) : (t.setTasks x).Tasks = x := by
  cases t; rfl

theorem Task.setTasks_Status (x : Option (List Task)) (t : Task) :
    (t.setTasks x).Status = t.Status := by
  cases t; rfl

/-- Writing a status keeps the length of every list of the file. -/
theorem tasksAt_setStatusAt_length (s : Str) (j : Nat) :
    ∀ (q p : TasksRef) (root : Option (List Task)),
      (tasksAt q (setStatusAt s p j root)).map List.length = (tasksAt q root).map List.length := by
  intro q
  induction q with
  | nil =>
    intro p root
    cases root with
    | none => cases p <;> rfl
    | some list => cases p <;> simp [tasksAt, setStatusAt]
  | cons a q ih =>
    intro p root
    cases root with
    | none => cases p <;> rfl
    | some list =>
      cases p with
      | nil =>
        simp only [tasksAt, setStatusAt, List.getElem?_modify]
        cases list[a]? with
        | none => rfl
        | some t =>
          by_cases h : j = a
          · simp [h, Task.setStatus_Tasks]
          · simp [h]
      | cons b p =>
        simp only [tasksAt, setStatusAt, List.getElem?_modify]
        cases list[a]? with
        | none => rfl
        | some t =>
          by_cases h : b = a
          · simp only [h, if_true, Option.map_eq_map, Option.map_some', Task.setTasks_Tasks]
            exact ih p t.Tasks
          · simp [h]

/-- Writing a status at `(p, j)` changes, in what a projection `g` that does not look at
the subtasks shows of the task at `(q, i)`, only the status of the task at `(p, j)`. -/
theorem taskAt_setStatusAt {β : Type} (g : Task → β)
    (hg : ∀ (x : Option (List Task)) (t : Task), g (t.setTasks x) = g t) (s : Str) (j i : Nat) :
    ∀ (q p : TasksRef) (root : Option (List Task)),
      ((tasksAt q (setStatusAt s p j root)).bind fun list => list[i]?).map g
        = if q = p ∧ i = j then
            ((tasksAt q root).bind fun list => list[i]?).map fun t => g (t.setStatus s)
          else ((tasksAt q root).bind fun list => list[i]?).map g := by
  intro q
  induction q with
  | nil =>
    intro p root
    cases root with
    | none => cases p <;> simp [tasksAt, setStatusAt]
    | some list =>
      cases p with
      | nil =>
        simp only [tasksAt, setStatusAt, Option.some_bind, List.getElem?_modify, true_and]
        cases list[i]? with
        | none => simp
        | some t =>
          by_cases h : i = j
          · simp [h]
          · have h2 : ¬ j = i := fun e => h e.symm
            simp [h, h2]
      | cons b p =>
        simp only [tasksAt, setStatusAt, Option.some_bind, List.getElem?_modify]
        cases list[i]? with
        | none => simp
        | some t =>
          by_cases h : b = i
          · simp [h, hg]
          · simp [h]
  | cons a q ih =>
    intro p root
    cases root with
    | none => cases p <;> simp [tasksAt, setStatusAt]
    | some list =>
      cases p with
      | nil =>
        simp only [tasksAt, setStatusAt, List.getElem?_modify]
        cases list[a]? with
        | none => simp
        | some t =>
          by_cases h : j = a
          · simp [h, Task.setStatus_Tasks]
          · simp [h]
      | cons b p =>
        simp only [tasksAt, setStatusAt, List.getElem?_modify]
        cases list[a]? with
        | none => simp
        | some t =>
          by_cases h : b = a
          · simp only [h, if_true, Option.map_eq_map, Option.map_some', Task.setTasks_Tasks]
            rw [ih p t.Tasks]
            simp
          · have h2 : ¬ a = b := fun e => h e.symm
            simp [h, h2]

theorem Controller.taskAt_eq (c : Controller) (q : TasksRef) (i : Nat) :
    c.taskAt q i = (Executor.tasksAt q c.Task.Tasks).bind fun list => list[i]? := by
  unfold Controller.taskAt Controller.tasksAt
  cases Executor.tasksAt q c.Task.Tasks <;> rfl

theorem Controller.SetTaskStatus_Tasks (c : Controller) (p : TasksRef) (j : Nat) (s : Str) :
    (c.SetTaskStatus p j s).Task.Tasks
      = if (c.taskAt p j).isSome then setStatusAt s p j c.Task.Tasks else c.Task.Tasks := by
  unfold Controller.SetTaskStatus
  cases h : c.taskAt p j with
  | none => simp
  | some t =>
    simp only [Option.isSome_some, if_true]
    split <;> rfl

theorem Controller.SetTaskStatus_Variables (c : Controller) (p : TasksRef) (j : Nat) (s : Str) :
    (c.SetTaskStatus p j s).Variables = c.Variables := by
  unfold Controller.SetTaskStatus
  cases c.taskAt p j with
  | none => rfl
  | some t => simp only []; split <;> rfl

theorem Controller.SetTaskStatus_Connection (c : Controller) (p : TasksRef) (j : Nat) (s : Str) :
    (c.SetTaskStatus p j s).Connection = c.Connection := by
  unfold Controller.SetTaskStatus
  cases c.taskAt p j with
  | none => rfl
  | some t => simp only []; split <;> rfl

theorem Controller.SetTaskStatus_NextTaskName (c : Controller) (p : TasksRef) (j : Nat)
    (s : Str) : (c.SetTaskStatus p j s).NextTaskName = c.NextTaskName := by
  unfold Controller.SetTaskStatus
  cases c.taskAt p j with
  | none => rfl
  | some t => simp only []; split <;> rfl

theorem Controller.SetTaskStatus_OutputStorage (c : Controller) (p : TasksRef) (j : Nat)
    (s : Str) : (c.SetTaskStatus p j s).OutputStorage = c.OutputStorage := by
  unfold Controller.SetTaskStatus
  cases c.taskAt p j with
  | none => rfl
  | some t => simp only []; split <;> rfl

/-- The method `SetTaskStatus` changes nothing of the file but the field `Tasks`. -/
theorem Controller.SetTaskStatus_Task (c : Controller) (p : TasksRef) (j : Nat) (s : Str) :
    (c.SetTaskStatus p j s).Task = { c.Task with Tasks := (c.SetTaskStatus p j s).Task.Tasks } := by
  unfold Controller.SetTaskStatus
  cases c.taskAt p j with
  | none => rfl
  | some t => simp only []; split <;> rfl

/-- The method `SetTaskStatus` keeps the length of every list of the file. -/
theorem Controller.SetTaskStatus_length (c : Controller) (p : TasksRef) (j : Nat) (s : Str)
    (q : TasksRef) :
    ((c.SetTaskStatus p j s).tasksAt q).map List.length = (c.tasksAt q).map List.length := by
  unfold Controller.tasksAt
  rw [Controller.SetTaskStatus_Tasks]
  split
  · exact tasksAt_setStatusAt_length s j q p c.Task.Tasks
  · rfl

/-- The method `SetTaskStatus` for the task at `(p, j)` changes, in what a projection `g`
that does not look at the subtasks shows of the task at `(q, i)`, only the status of the
task at `(p, j)`. -/
theorem Controller.SetTaskStatus_taskAt {β : Type} (g : Executor.Task → β)
    (hg : ∀ (x : Option (List Executor.Task)) (t : Executor.Task), g (t.setTasks x) = g t)
    (c : Controller) (p : TasksRef) (j : Nat) (s : Str) (q : TasksRef) (i : Nat) :
    ((c.SetTaskStatus p j s).taskAt q i).map g
      = if q = p ∧ i = j then (c.taskAt q i).map fun t => g (t.setStatus s)
        else (c.taskAt q i).map g := by
  rw [Controller.taskAt_eq, Controller.taskAt_eq, Controller.SetTaskStatus_Tasks]
  by_cases hv : (c.taskAt p j).isSome
  · rw [if_pos hv]
    exact taskAt_setStatusAt g hg s j i q p c.Task.Tasks
  · rw [if_neg hv]
    split
    · rename_i h
      obtain ⟨rfl, rfl⟩ := h
      rw [Controller.taskAt_eq] at hv
      cases h2 : (Executor.tasksAt q c.Task.Tasks).bind fun list => list[i]? with
      | none => rfl
      | some t => rw [h2] at hv; simp at hv
    · rfl

/-- The status of the task at `(q, i)` after `SetTaskStatus` for the task at `(p, j)`. -/
theorem Controller.SetTaskStatus_statusAt (c : Controller) (p : TasksRef) (j : Nat) (s : Str)
    (q : TasksRef) (i : Nat) :
    (c.SetTaskStatus p j s).statusAt q i
      = if q = p ∧ i = j then (c.statusAt q i).map fun _ => s else c.statusAt q i := by
  unfold Controller.statusAt
  rw [Controller.SetTaskStatus_taskAt Task.Status Task.setTasks_Status]
  split
  · cases c.taskAt q i <;> simp [Task.setStatus_Status]
  · rfl

/-- The status written by `SetTaskStatus` is the status of the task afterwards. -/
theorem Controller.SetTaskStatus_statusAt_self (c : Controller) (p : TasksRef) (j : Nat)
    (s : Str) (t : Executor.Task) (h : c.taskAt p j = some t) :
    (c.SetTaskStatus p j s).statusAt p j = some s := by
  rw [Controller.SetTaskStatus_statusAt]
  simp [Controller.statusAt, h]

/-! ## What `Effect` keeps -/

theorem Effect.mono {A B : TasksRef → Nat → Prop} (hAB : ∀ q j, A q j → B q j)
    {c c2 : Controller} (h : Effect A c c2) : Effect B c c2 := by
  induction h with
  | refl => exact Effect.refl _
  | status q j s _ ha hs ih => exact Effect.status q j s ih (hAB q j ha) hs
  | other c3 _ hT hV ih => exact Effect.other c3 ih hT hV

theorem Effect.trans {A : TasksRef → Nat → Prop} {c c2 c3 : Controller}
    (h1 : Effect A c c2) (h2 : Effect A c2 c3) : Effect A c c3 := by
  induction h2 with
  | refl => exact h1
  | status q j s _ ha hs ih => exact Effect.status q j s ih ha hs
  | other c4 _ hT hV ih => exact Effect.other c4 ih hT hV

/-- A step that leaves the task file and the artefacts alone. -/
theorem Effect.of_same {A : TasksRef → Nat → Prop} (c c2 : Controller)
    (hT : c2.Task = c.Task) (hV : c2.Variables = c.Variables) : Effect A c c2 :=
  Effect.other c2 (Effect.refl c) hT (fun k _ => by rw [hV])

/-- One call of `SetTaskStatus`. -/
theorem Effect.of_status {A : TasksRef → Nat → Prop} (c : Controller) (q : TasksRef) (j : Nat)
    (s : Str) (ha : A q j) (hs : IsWalkStatus s) : Effect A c (c.SetTaskStatus q j s) :=
  Effect.status q j s (Effect.refl c) ha hs

/-- The artefacts of the controller are kept but for the key `prompt`. -/
theorem Effect.variables {A : TasksRef → Nat → Prop} {c c2 : Controller} (h : Effect A c c2)
    (k : Str) (hk : k ≠ "prompt".toList) : c2.Variables k = c.Variables k := by
  induction h with
  | refl => rfl
  | status q j s _ _ _ ih => rw [Controller.SetTaskStatus_Variables]; exact ih
  | other c3 _ _ hV ih => rw [hV k hk]; exact ih

/-- The lists of the file keep their lengths. -/
theorem Effect.length {A : TasksRef → Nat → Prop} {c c2 : Controller} (h : Effect A c c2)
    (q : TasksRef) : (c2.tasksAt q).map List.length = (c.tasksAt q).map List.length := by
  induction h with
  | refl => rfl
  | status p j s _ _ _ ih => rw [Controller.SetTaskStatus_length]; exact ih
  | other c3 _ hT _ ih => unfold Controller.tasksAt at *; rw [hT]; exact ih

/-- What a projection that looks neither at the status nor at the subtasks shows of a
task is kept. -/
theorem Effect.taskAt {A : TasksRef → Nat → Prop} {c c2 : Controller} (h : Effect A c c2)
    {β : Type} (g : Task → β)
    (hg : ∀ (x : Option (List Task)) (t : Task), g (t.setTasks x) = g t)
    (hs : ∀ (s : Str) (t : Task), g (t.setStatus s) = g t) (q : TasksRef) (i : Nat) :
    (c2.taskAt q i).map g = (c.taskAt q i).map g := by
  induction h with
  | refl => rfl
  | status p j s _ _ _ ih =>
    rw [Controller.SetTaskStatus_taskAt g hg]
    split
    · rw [← ih]
      congr 1
      funext t
      exact hs s t
    · exact ih
  | other c3 _ hT _ ih =>
    rw [Controller.taskAt_eq] at *
    rw [hT]
    exact ih

/-- The status of a task that may not be written to is kept. -/
theorem Effect.statusAt {A : TasksRef → Nat → Prop} {c c2 : Controller} (h : Effect A c c2)
    (q : TasksRef) (i : Nat) (hq : ¬ A q i) : c2.statusAt q i = c.statusAt q i := by
  induction h with
  | refl => rfl
  | status p j s _ ha _ ih =>
    rw [Controller.SetTaskStatus_statusAt]
    split
    · rename_i h
      obtain ⟨rfl, rfl⟩ := h
      exact absurd ha hq
    · exact ih
  | other c3 _ hT _ ih =>
    unfold Controller.statusAt at *
    rw [Controller.taskAt_eq] at *
    rw [hT]
    exact ih

/-- The status of every task is kept or is one of the three statuses that `Run` writes. -/
theorem Effect.statusAt_cases {A : TasksRef → Nat → Prop} {c c2 : Controller}
    (h : Effect A c c2) (q : TasksRef) (i : Nat) :
    c2.statusAt q i = c.statusAt q i ∨ Marked c2 q i := by
  induction h with
  | refl => exact Or.inl rfl
  | @status c2 p j s _ _ hs ih =>
    rw [Controller.SetTaskStatus_statusAt]
    split
    · rename_i h
      obtain ⟨rfl, rfl⟩ := h
      cases hst : c2.statusAt q i with
      | none =>
        rcases ih with ih | ⟨s2, h2, _⟩
        · left; rw [← ih, hst]; rfl
        · rw [hst] at h2; cases h2
      | some old =>
        right
        refine ⟨s, ?_, hs⟩
        rw [Controller.SetTaskStatus_statusAt, if_pos ⟨rfl, rfl⟩, hst]
        rfl
    · rcases ih with ih | ⟨s2, h2, h3⟩
      · exact Or.inl ih
      · right
        refine ⟨s2, ?_, h3⟩
        rw [Controller.SetTaskStatus_statusAt]
        rename_i hne
        rw [if_neg hne]
        exact h2
  | @other c2 c3 _ hT _ ih =>
    have e : c3.statusAt q i = c2.statusAt q i := by
      unfold Controller.statusAt
      rw [Controller.taskAt_eq, Controller.taskAt_eq, hT]
    rcases ih with ih | ⟨s2, h2, h3⟩
    · exact Or.inl (e.trans ih)
    · exact Or.inr ⟨s2, e.trans h2, h3⟩

/-- The fields of the file other than `Tasks` are kept. -/
theorem Effect.file {A : TasksRef → Nat → Prop} {c c2 : Controller} (h : Effect A c c2) :
    c2.Task = { c.Task with Tasks := c2.Task.Tasks } := by
  induction h with
  | refl => rfl
  | status p j s _ _ _ ih =>
    rw [Controller.SetTaskStatus_Task]
    rw [ih]
  | other c3 _ hT _ ih =>
    rw [hT]
    exact ih

/-! ## What the steps of `Run` change -/

/-- A returning `Controller.Send` leaves the task file, `NextTaskName` and the storage as
they are, and the artefacts but for the key `prompt`. -/
theorem Controller.Send_returned (c : Controller) (lib : RegexpLib) (fuel : Nat)
    (task : Executor.Task) (r : Str × Option Str) (c2 : Controller)
    (h : c.Send lib fuel task = some (.returned (r, c2))) :
    c2.Task = c.Task ∧ (∀ k, k ≠ "prompt".toList → c2.Variables k = c.Variables k)
      ∧ c2.NextTaskName = c.NextTaskName ∧ c2.OutputStorage = c.OutputStorage := by
  unfold Controller.Send at h
  cases hc : c.Connection with
  | none => rw [hc] at h; simp at h
  | some connection =>
    rw [hc] at h
    simp only [] at h
    cases hs : connection.Send lib fuel task.Command task.Params.Timeout
        task.Params.PromptChangeAllowed with
    | none => rw [hs] at h; simp at h
    | some o =>
      rw [hs] at h
      cases o with
      | panicked => simp at h
      | exited e => simp at h
      | returned x =>
        obtain ⟨⟨out, err⟩, connection2⟩ := x
        cases err with
        | some e =>
          simp only [Option.some.injEq, Outcome.returned.injEq, Prod.mk.injEq] at h
          obtain ⟨_, rfl⟩ := h
          split <;> exact ⟨rfl, fun _ _ => rfl, rfl, rfl⟩
        | none =>
          simp only [] at h
          cases hp : connection2.Prompt with
          | none => rw [hp] at h; simp at h
          | some p =>
            rw [hp] at h
            simp only [Option.some.injEq, Outcome.returned.injEq, Prod.mk.injEq] at h
            obtain ⟨_, rfl⟩ := h
            split
            · refine ⟨rfl, fun k hk => ?_, rfl, rfl⟩
              show Artefacts.set c.Variables "prompt".toList p.Name k = c.Variables k
              simp only [Artefacts.set, beq_false_of_ne hk, Bool.false_eq_true, if_false]
            · refine ⟨rfl, fun k hk => ?_, rfl, rfl⟩
              show Artefacts.set c.Variables "prompt".toList p.Name k = c.Variables k
              simp only [Artefacts.set, beq_false_of_ne hk, Bool.false_eq_true, if_false]

theorem Controller.SaveOutput_Task (c : Controller) (lib : RegexpLib) (output filename : Str) :
    (c.SaveOutput lib output filename).2.Task = c.Task
      ∧ (c.SaveOutput lib output filename).2.Variables = c.Variables := by
  unfold Controller.SaveOutput
  exact ⟨rfl, rfl⟩

/-- A returning `WhenMatcher` leaves the task file and the artefacts as they are. -/
theorem Controller.WhenMatcher.returned_Task (c : Controller) (lib : RegexpLib)
    (when : Option (List When)) (vars : Artefacts) (passed : Bool) (err : Option Str)
    (c2 : Controller) (h : c.WhenMatcher lib when vars = .returned (passed, err, c2)) :
    c2.Task = c.Task ∧ c2.Variables = c.Variables ∧ c2.Connection = c.Connection := by
  rcases Controller.WhenMatcher.returned_cases c lib when vars passed err c2 h with
    h1 | ⟨_, _, _, w, _, _, _, _, h5⟩
  · subst h1; exact ⟨rfl, rfl, rfl⟩
  · subst h5; exact ⟨rfl, rfl, rfl⟩

theorem turnWrites_self (tasks : TasksRef) (taskIdx : Nat) :
    turnWrites tasks taskIdx tasks taskIdx :=
  Or.inl ⟨rfl, rfl⟩

theorem child_not_above (tasks : TasksRef) (taskIdx : Nat) : ¬ (tasks ++ [taskIdx]) <+: tasks := by
  intro h
  have := h.length_le
  simp at this

theorem isWalkStatus_skipped : IsWalkStatus PIPE_STATUS_SKIPPED := Or.inr (Or.inr rfl)

theorem isWalkStatus_fail : IsWalkStatus PIPE_STATUS_FAIL := Or.inr (Or.inl rfl)

theorem isWalkStatus_success : IsWalkStatus PIPE_STATUS_SUCCESS := Or.inl rfl

/-- After `SetTaskStatus` with one of the three statuses, a task that is there has one of
them. -/
theorem Marked.of_set (c : Controller) (tasks : TasksRef) (taskIdx : Nat) (s : Str)
    (hs : IsWalkStatus s) (hv : (c.taskAt tasks taskIdx).isSome) :
    Marked (c.SetTaskStatus tasks taskIdx s) tasks taskIdx := by
  cases h : c.taskAt tasks taskIdx with
  | none => rw [h] at hv; cases hv
  | some t => exact ⟨s, Controller.SetTaskStatus_statusAt_self c tasks taskIdx s t h, hs⟩

/-- A step that leaves the task file alone keeps the tasks. -/
theorem Controller.taskAt_congr (c c2 : Controller) (hT : c2.Task = c.Task) (q : TasksRef)
    (i : Nat) : c2.taskAt q i = c.taskAt q i := by
  rw [Controller.taskAt_eq, Controller.taskAt_eq, hT]

/-- The runs of the subtasks write to the tasks below `(*tasks)[taskIdx]` only. -/
theorem Run.subTasks_effect
    (run : Controller → TasksRef → VarsRef → Int → Option (Outcome Controller))
    (hrun : ∀ c q v d c2, run c q v d = some (.returned c2) → Effect (runWrites q) c c2)
    (tasks : TasksRef) (taskIdx : Nat) (vars : VarsRef) (depthLevel : Int) (regMap : Groups) :
    ∀ (todo subTaskOrder : Nat) (ctrl c2 : Controller),
      Run.subTasks run tasks taskIdx vars depthLevel regMap todo subTaskOrder ctrl
          = some (.returned c2) →
        Effect (runWrites (tasks ++ [taskIdx])) ctrl c2 := by
  intro todo
  induction todo with
  | zero =>
    intro k ctrl c2 h
    simp [Run.subTasks] at h
    subst h
    exact Effect.refl _
  | succ n ih =>
    intro k ctrl c2 h
    unfold Run.subTasks at h
    cases ha : Run.subTaskArtefacts k regMap (vars.read ctrl) with
    | none => rw [ha] at h; simp at h
    | some sub =>
      rw [ha] at h
      simp only [] at h
      cases hr : run ctrl (tasks ++ [taskIdx]) (.own sub) (depthLevel + 1) with
      | none => rw [hr] at h; simp at h
      | some o =>
        rw [hr] at h
        cases o with
        | panicked => simp at h
        | exited e => simp at h
        | returned c1 =>
          simp only [] at h
          exact Effect.trans (hrun _ _ _ _ _ hr) (ih _ _ _ h)

theorem runWrites_child_turn (tasks : TasksRef) (taskIdx : Nat) (q : TasksRef) (j : Nat)
    (h : runWrites (tasks ++ [taskIdx]) q j) : turnWrites tasks taskIdx q j :=
  Or.inr h

/-- The end of a turn of the loop, from the filter on: what it writes to, and that it
leaves the task of the turn with one of the three statuses if it had one. -/
theorem Run.byFilter_effect (lib : RegexpLib)
    (run : Controller → TasksRef → VarsRef → Int → Option (Outcome Controller))
    (hrun : ∀ c q v d c2, run c q v d = some (.returned c2) → Effect (runWrites q) c c2)
    (ctrl : Controller) (tasks : TasksRef) (taskIdx : Nat) (task : Task) (vars : VarsRef)
    (depthLevel : Int) (output : Str) (c2 : Controller)
    (h : Run.byFilter lib run ctrl tasks taskIdx task vars depthLevel output
      = some (.returned c2)) :
    Effect (turnWrites tasks taskIdx) ctrl c2
      ∧ (Marked ctrl tasks taskIdx → Marked c2 tasks taskIdx) := by
  have hskip : ∀ c3, some (Outcome.returned (ctrl.SetTaskStatus tasks taskIdx
      PIPE_STATUS_SKIPPED)) = some (Outcome.returned c3) →
      Effect (turnWrites tasks taskIdx) ctrl c3
        ∧ (Marked ctrl tasks taskIdx → Marked c3 tasks taskIdx) := by
    intro c3 h3
    simp only [Option.some.injEq, Outcome.returned.injEq] at h3
    subst h3
    refine ⟨Effect.of_status _ _ _ _ (turnWrites_self _ _) isWalkStatus_skipped, ?_⟩
    rintro ⟨s, hs, _⟩
    refine Marked.of_set _ _ _ _ isWalkStatus_skipped ?_
    unfold Controller.statusAt at hs
    cases ht : ctrl.taskAt tasks taskIdx with
    | none => rw [ht] at hs; cases hs
    | some t => rfl
  unfold Run.byFilter at h
  split at h
  · cases hm : RegExpMatch lib output task.Params.Filter task.Params.FilterExclude with
    | panicked => rw [hm] at h; simp at h
    | exited e => rw [hm] at h; simp at h
    | returned x =>
      obtain ⟨regMap, regCount, regError⟩ := x
      rw [hm] at h
      cases regError with
      | some e => simp at h
      | none =>
        simp only [] at h
        split at h
        · exact hskip c2 h
        · split at h
          · have he := Run.subTasks_effect run hrun tasks taskIdx vars depthLevel regMap _ _ _ _ h
            refine ⟨he.mono (runWrites_child_turn tasks taskIdx), ?_⟩
            rintro ⟨s, hs, hw⟩
            refine ⟨s, ?_, hw⟩
            rw [he.statusAt tasks taskIdx (child_not_above tasks taskIdx)]
            exact hs
          · exact hskip c2 h
  · simp only [Option.some.injEq, Outcome.returned.injEq] at h
    subst h
    exact ⟨Effect.refl _, id⟩

/-- The end of a turn of the loop, from the saving of the output on. -/
theorem Run.byOutputFile_effect (lib : RegexpLib)
    (run : Controller → TasksRef → VarsRef → Int → Option (Outcome Controller))
    (hrun : ∀ c q v d c2, run c q v d = some (.returned c2) → Effect (runWrites q) c c2)
    (ctrl : Controller) (tasks : TasksRef) (taskIdx : Nat) (task : Task) (vars : VarsRef)
    (depthLevel : Int) (output : Str) (c2 : Controller)
    (h : Run.byOutputFile lib run ctrl tasks taskIdx task vars depthLevel output
      = some (.returned c2)) :
    Effect (turnWrites tasks taskIdx) ctrl c2
      ∧ (Marked ctrl tasks taskIdx → Marked c2 tasks taskIdx) := by
  unfold Run.byOutputFile at h
  split at h
  · cases hst : ctrl.statusAt tasks taskIdx with
    | none => rw [hst] at h; simp at h
    | some status =>
      rw [hst] at h
      simp only [] at h
      split at h
      · cases hsave : ctrl.SaveOutput lib output task.Params.OutputFile with
        | mk err c3 =>
          have hT := Controller.SaveOutput_Task ctrl lib output task.Params.OutputFile
          rw [hsave] at h hT
          cases err with
          | some e => simp at h
          | none =>
            simp only [] at h
            obtain ⟨he, hm⟩ := Run.byFilter_effect lib run hrun c3 tasks taskIdx task vars
              depthLevel output c2 h
            refine ⟨Effect.trans (Effect.of_same ctrl c3 hT.1 hT.2) he, ?_⟩
            rintro ⟨s, hs, hw⟩
            apply hm
            refine ⟨s, ?_, hw⟩
            unfold Controller.statusAt at *
            rw [Controller.taskAt_congr ctrl c3 hT.1]
            exact hs
      · exact Run.byFilter_effect lib run hrun ctrl tasks taskIdx task vars depthLevel output c2 h
  · exact Run.byFilter_effect lib run hrun ctrl tasks taskIdx task vars depthLevel output c2 h

/-- The end of a turn of the loop, from the sending of the command on: what it writes
to, and that it leaves the task of the turn with one of the three statuses. -/
theorem Run.bySend_effect (lib : RegexpLib) (fuel : Nat)
    (run : Controller → TasksRef → VarsRef → Int → Option (Outcome Controller))
    (hrun : ∀ c q v d c2, run c q v d = some (.returned c2) → Effect (runWrites q) c c2)
    (ctrl : Controller) (tasks : TasksRef) (taskIdx : Nat) (task : Task) (vars : VarsRef)
    (depthLevel : Int) (c2 : Controller)
    (h : Run.bySend lib fuel run ctrl tasks taskIdx task vars depthLevel = some (.returned c2)) :
    Effect (turnWrites tasks taskIdx) ctrl c2
      ∧ ((ctrl.taskAt tasks taskIdx).isSome → Marked c2 tasks taskIdx) := by
  unfold Run.bySend at h
  cases hs : ctrl.Send lib fuel task with
  | none => rw [hs] at h; simp at h
  | some o =>
    rw [hs] at h
    cases o with
    | panicked => simp at h
    | exited e => simp at h
    | returned x =>
      obtain ⟨⟨output, err⟩, c1⟩ := x
      obtain ⟨hT, hV, _, _⟩ := Controller.Send_returned ctrl lib fuel task _ _ hs
      have h1 : Effect (turnWrites tasks taskIdx) ctrl c1 :=
        Effect.other c1 (Effect.refl ctrl) hT hV
      have hv : (ctrl.taskAt tasks taskIdx).isSome → (c1.taskAt tasks taskIdx).isSome := by
        rw [Controller.taskAt_congr ctrl c1 hT]
        exact id
      cases err with
      | some e =>
        simp only [] at h
        split at h
        · obtain ⟨he, hm⟩ := Run.byOutputFile_effect lib run hrun _ tasks taskIdx task vars
            depthLevel output c2 h
          refine ⟨Effect.trans (Effect.status _ _ _ h1 (turnWrites_self _ _) isWalkStatus_fail) he,
            fun hval => hm (Marked.of_set _ _ _ _ isWalkStatus_fail (hv hval))⟩
        · simp at h
      | none =>
        simp only [] at h
        obtain ⟨he, hm⟩ := Run.byOutputFile_effect lib run hrun _ tasks taskIdx task vars
          depthLevel output c2 h
        refine ⟨Effect.trans (Effect.status _ _ _ h1 (turnWrites_self _ _) isWalkStatus_success)
          he, fun hval => hm (Marked.of_set _ _ _ _ isWalkStatus_success (hv hval))⟩

/-- The end of a turn of the loop, from the conditions on. -/
theorem Run.byWhen_effect (lib : RegexpLib) (fuel : Nat)
    (run : Controller → TasksRef → VarsRef → Int → Option (Outcome Controller))
    (hrun : ∀ c q v d c2, run c q v d = some (.returned c2) → Effect (runWrites q) c c2)
    (ctrl : Controller) (tasks : TasksRef) (taskIdx : Nat) (task : Task) (vars : VarsRef)
    (depthLevel : Int) (c2 : Controller)
    (h : Run.byWhen lib fuel run ctrl tasks taskIdx task vars depthLevel = some (.returned c2)) :
    Effect (turnWrites tasks taskIdx) ctrl c2
      ∧ ((ctrl.taskAt tasks taskIdx).isSome → Marked c2 tasks taskIdx) := by
  unfold Run.byWhen at h
  cases hw : ctrl.WhenMatcher lib task.When (vars.read ctrl) with
  | panicked => rw [hw] at h; simp at h
  | exited e => rw [hw] at h; simp at h
  | returned x =>
    obtain ⟨passed, err, c1⟩ := x
    obtain ⟨hT, hV, _⟩ := Controller.WhenMatcher.returned_Task ctrl lib _ _ _ _ _ hw
    have h1 : Effect (turnWrites tasks taskIdx) ctrl c1 := Effect.of_same ctrl c1 hT hV
    have hv : (ctrl.taskAt tasks taskIdx).isSome → (c1.taskAt tasks taskIdx).isSome := by
      rw [Controller.taskAt_congr ctrl c1 hT]
      exact id
    rw [hw] at h
    cases err with
    | some e => simp at h
    | none =>
      cases passed with
      | false =>
        simp only [Option.some.injEq, Outcome.returned.injEq] at h
        subst h
        exact ⟨Effect.status _ _ _ h1 (turnWrites_self _ _) isWalkStatus_skipped,
          fun hval => Marked.of_set _ _ _ _ isWalkStatus_skipped (hv hval)⟩
      | true =>
        simp only [] at h
        obtain ⟨he, hm⟩ := Run.bySend_effect lib fuel run hrun c1 tasks taskIdx task vars
          depthLevel c2 h
        exact ⟨Effect.trans h1 he, fun hval => hm (hv hval)⟩

/-- The end of a turn of the loop, from the check of the status on. -/
theorem Run.byStatus_effect (lib : RegexpLib) (fuel : Nat)
    (run : Controller → TasksRef → VarsRef → Int → Option (Outcome Controller))
    (hrun : ∀ c q v d c2, run c q v d = some (.returned c2) → Effect (runWrites q) c c2)
    (ctrl : Controller) (tasks : TasksRef) (taskIdx : Nat) (task : Task) (vars : VarsRef)
    (depthLevel : Int) (c2 : Controller)
    (h : Run.byStatus lib fuel run ctrl tasks taskIdx task vars depthLevel
      = some (.returned c2)) :
    Effect (turnWrites tasks taskIdx) ctrl c2
      ∧ ((ctrl.taskAt tasks taskIdx).isSome → Marked c2 tasks taskIdx) := by
  unfold Run.byStatus at h
  split at h
  · simp only [Option.some.injEq, Outcome.returned.injEq] at h
    subst h
    exact ⟨Effect.of_status _ _ _ _ (turnWrites_self _ _) isWalkStatus_skipped,
      fun hval => Marked.of_set _ _ _ _ isWalkStatus_skipped hval⟩
  · exact Run.byWhen_effect lib fuel run hrun ctrl tasks taskIdx task vars depthLevel c2 h

/-- The end of a turn of the loop, from the check of `NextTaskName` on. -/
theorem Run.byNextTaskName_effect (lib : RegexpLib) (fuel : Nat)
    (run : Controller → TasksRef → VarsRef → Int → Option (Outcome Controller))
    (hrun : ∀ c q v d c2, run c q v d = some (.returned c2) → Effect (runWrites q) c c2)
    (ctrl : Controller) (tasks : TasksRef) (taskIdx : Nat) (task : Task) (vars : VarsRef)
    (depthLevel : Int) (c2 : Controller)
    (h : Run.byNextTaskName lib fuel run ctrl tasks taskIdx task vars depthLevel
      = some (.returned c2)) :
    Effect (turnWrites tasks taskIdx) ctrl c2
      ∧ ((ctrl.taskAt tasks taskIdx).isSome → Marked c2 tasks taskIdx) := by
  unfold Run.byNextTaskName at h
  split at h
  · split at h
    · simp only [Option.some.injEq, Outcome.returned.injEq] at h
      subst h
      exact ⟨Effect.of_status _ _ _ _ (turnWrites_self _ _) isWalkStatus_skipped,
        fun hval => Marked.of_set _ _ _ _ isWalkStatus_skipped hval⟩
    · obtain ⟨he, hm⟩ := Run.byStatus_effect lib fuel run hrun _ tasks taskIdx task vars
        depthLevel c2 h
      exact ⟨Effect.trans (Effect.of_same ctrl { ctrl with NextTaskName := [] } rfl rfl) he,
        fun hval => hm hval⟩
  · exact Run.byStatus_effect lib fuel run hrun ctrl tasks taskIdx task vars depthLevel c2 h

/-- A turn of the loop writes to its task and to the tasks below it only, and leaves its
task with one of the three statuses. -/
theorem Run.task_effect (lib : RegexpLib) (fuel : Nat)
    (run : Controller → TasksRef → VarsRef → Int → Option (Outcome Controller))
    (hrun : ∀ c q v d c2, run c q v d = some (.returned c2) → Effect (runWrites q) c c2)
    (ctrl : Controller) (tasks : TasksRef) (taskIdx : Nat) (task : Task) (vars : VarsRef)
    (depthLevel : Int) (c2 : Controller)
    (h : Run.task lib fuel run ctrl tasks taskIdx task vars depthLevel = some (.returned c2)) :
    Effect (turnWrites tasks taskIdx) ctrl c2
      ∧ ((ctrl.taskAt tasks taskIdx).isSome → Marked c2 tasks taskIdx) := by
  unfold Run.task at h
  cases hc : ctrl.Compile task (vars.read ctrl) with
  | panicked => rw [hc] at h; simp at h
  | exited e => rw [hc] at h; simp at h
  | returned compiled =>
    rw [hc] at h
    exact Run.byNextTaskName_effect lib fuel run hrun ctrl tasks taskIdx compiled vars
      depthLevel c2 h

theorem turnWrites_loop (tasks : TasksRef) (taskIdx k : Nat) (hk : taskIdx ≤ k) (q : TasksRef)
    (j : Nat) (h : turnWrites tasks k q j) : loopWrites tasks taskIdx q j := by
  rcases h with ⟨h1, h2⟩ | h
  · exact Or.inl ⟨h1, h2 ▸ hk⟩
  · exact Or.inr ⟨k, hk, h⟩

theorem loopWrites_mono (tasks : TasksRef) (taskIdx k : Nat) (hk : taskIdx ≤ k) (q : TasksRef)
    (j : Nat) (h : loopWrites tasks k q j) : loopWrites tasks taskIdx q j := by
  rcases h with ⟨h1, h2⟩ | ⟨i, hi, h⟩
  · exact Or.inl ⟨h1, hk.trans h2⟩
  · exact Or.inr ⟨i, hk.trans hi, h⟩

theorem loopWrites_run (tasks : TasksRef) (taskIdx : Nat) (q : TasksRef) (j : Nat)
    (h : loopWrites tasks taskIdx q j) : runWrites tasks q j := by
  rcases h with ⟨h1, _⟩ | ⟨i, _, h⟩
  · rw [h1]; exact List.prefix_refl _
  · exact (List.prefix_append tasks [i]).trans h

theorem not_loopWrites_before (tasks : TasksRef) (taskIdx j : Nat) (hj : j < taskIdx) :
    ¬ loopWrites tasks taskIdx tasks j := by
  rintro (⟨_, h⟩ | ⟨i, _, h⟩)
  · omega
  · exact child_not_above tasks i h

/-- The loop from the index `taskIdx` on writes to the tasks of the list from that index
on and to the tasks below them only, and leaves each task that it visits with one of the
three statuses. -/
theorem Run.loop_effect (lib : RegexpLib) (fuel : Nat)
    (run : Controller → TasksRef → VarsRef → Int → Option (Outcome Controller))
    (hrun : ∀ c q v d c2, run c q v d = some (.returned c2) → Effect (runWrites q) c c2)
    (tasks : TasksRef) (vars : VarsRef) (depthLevel : Int) :
    ∀ (todo taskIdx : Nat) (ctrl c2 : Controller),
      Run.loop lib fuel run tasks vars depthLevel todo taskIdx ctrl = some (.returned c2) →
        Effect (loopWrites tasks taskIdx) ctrl c2
          ∧ ∀ j, taskIdx ≤ j → j < taskIdx + todo → Marked c2 tasks j := by
  intro todo
  induction todo with
  | zero =>
    intro k ctrl c2 h
    simp [Run.loop] at h
    subst h
    exact ⟨Effect.refl _, fun j h1 h2 => absurd h2 (by omega)⟩
  | succ n ih =>
    intro k ctrl c2 h
    unfold Run.loop at h
    cases ht : ctrl.taskAt tasks k with
    | none => rw [ht] at h; simp at h
    | some task =>
      rw [ht] at h
      simp only [] at h
      cases hb : Run.task lib fuel run ctrl tasks k task vars depthLevel with
      | none => rw [hb] at h; simp at h
      | some o =>
        rw [hb] at h
        cases o with
        | panicked => simp at h
        | exited e => simp at h
        | returned c1 =>
          simp only [] at h
          obtain ⟨he1, hm1⟩ := Run.task_effect lib fuel run hrun ctrl tasks k task vars
            depthLevel c1 hb
          obtain ⟨he2, hm2⟩ := ih (k + 1) c1 c2 h
          refine ⟨Effect.trans (he1.mono (turnWrites_loop tasks k k (le_refl k)))
            (he2.mono (loopWrites_mono tasks k (k + 1) (Nat.le_succ k))), ?_⟩
          intro j hj1 hj2
          by_cases hjk : j = k
          · subst hjk
            obtain ⟨s, hs, hw⟩ := hm1 (by rw [ht]; rfl)
            refine ⟨s, ?_, hw⟩
            rw [he2.statusAt tasks j (not_loopWrites_before tasks (j + 1) j (Nat.lt_succ_self j))]
            exact hs
          · exact hm2 j (by omega) (by omega)

/-- The function `Run` over `*tasks` writes to the tasks of the list and to the tasks
below them only, and leaves the task file otherwise as it is and the artefacts of the
controller but for the key `prompt`. -/
theorem Run_effect (lib : RegexpLib) :
    ∀ (fuel : Nat) (ctrl : Controller) (tasks : TasksRef) (vars : VarsRef) (depthLevel : Int)
      (c2 : Controller),
      Run lib fuel ctrl tasks vars depthLevel = some (.returned c2) →
        Effect (runWrites tasks) ctrl c2 := by
  intro fuel
  induction fuel with
  | zero => intro ctrl tasks vars depthLevel c2 h; simp [Run] at h
  | succ n ih =>
    intro ctrl tasks vars depthLevel c2 h
    unfold Run at h
    cases hl : ctrl.tasksAt tasks with
    | none => rw [hl] at h; simp at h
    | some list =>
      rw [hl] at h
      simp only [] at h
      exact (Run.loop_effect lib n (Run lib n) ih tasks vars depthLevel _ _ _ _ h).1.mono
        (loopWrites_run tasks 0)

/-- Every task of a list that `Run` has walked to its end has one of the three
statuses. -/
theorem Run_marked (lib : RegexpLib) (fuel : Nat) (ctrl : Controller) (tasks : TasksRef)
    (vars : VarsRef) (depthLevel : Int) (c2 : Controller)
    (h : Run lib fuel ctrl tasks vars depthLevel = some (.returned c2))
    (list : List Task) (hl : ctrl.tasksAt tasks = some list) (j : Nat) (hj : j < list.length) :
    Marked c2 tasks j := by
  cases fuel with
  | zero => simp [Run] at h
  | succ n =>
    unfold Run at h
    rw [hl] at h
    simp only [] at h
    exact (Run.loop_effect lib n (Run lib n) (Run_effect lib n) tasks vars depthLevel _ _ _ _
      h).2 j (Nat.zero_le j) (by omega)

/-! ## `Run`: the check of `NextTaskName` and the check of the status -/

/-- What `Compile` leaves of the task as it is. -/
theorem Controller.Compile_returned (c : Controller) (t t2 : Executor.Task) (vars : Artefacts)
    (h : c.Compile t vars = .returned t2) :
    t2.Name = t.Name ∧ t2.Status = t.Status ∧ t2.Tasks = t.Tasks ∧ t2.When = t.When
      ∧ t2.Params.Filter = t.Params.Filter ∧ t2.Params.FilterExclude = t.Params.FilterExclude
      ∧ t2.Params.OnErrorContinue = t.Params.OnErrorContinue
      ∧ t2.Params.PromptChangeAllowed = t.Params.PromptChangeAllowed
      ∧ t2.Params.CommandRepeatAllowed = t.Params.CommandRepeatAllowed := by
  unfold Controller.Compile at h
  cases h1 : RegExpConstructor t.Command vars with
  | mk command e1 =>
    rw [h1] at h
    cases e1 with
    | some e => simp at h
    | none =>
      simp only [] at h
      cases h2 : RegExpConstructor t.Params.OutputFile vars with
      | mk outputFile e2 =>
        rw [h2] at h
        cases e2 with
        | some e => simp at h
        | none =>
          simp only [Outcome.returned.injEq] at h
          subst h
          exact ⟨rfl, rfl, rfl, rfl, rfl, rfl, rfl, rfl, rfl⟩

/-- The method `Compile` returns when both substitutions succeed. -/
theorem Controller.Compile_ok (c : Controller) (t : Executor.Task) (vars : Artefacts)
    (h1 : (RegExpConstructor t.Command vars).2 = none)
    (h2 : (RegExpConstructor t.Params.OutputFile vars).2 = none) :
    ∃ t2, c.Compile t vars = .returned t2 := by
  unfold Controller.Compile
  cases h3 : RegExpConstructor t.Command vars with
  | mk command e1 =>
    rw [h3] at h1
    simp only [] at h1
    subst h1
    cases h4 : RegExpConstructor t.Params.OutputFile vars with
    | mk outputFile e2 =>
      rw [h4] at h2
      simp only [] at h2
      subst h2
      exact ⟨_, rfl⟩

/-- Against C12 as stated: the task `A` is visited while `NextTaskName` is `T`, and its
command names a variable that is not set. `Compile`, which comes before the check of
`NextTaskName`, ends the process with exit code 1: `A` is not marked `skipped` and is
left with the empty status that it had. -/
theorem Run_goto_filter_compile_exits :
    sampleGotoMissingController.NextTaskName = "T".toList
      ∧ sampleGotoMissingController.taskAt [] 0 = some (sampleMissingTask "A" "")
      ∧ (sampleMissingTask "A" "").Name ≠ sampleGotoMissingController.NextTaskName
      ∧ shutdownOf (Run deviceLib 2 sampleGotoMissingController [] .controller 0)
        = some (1, sampleMissingMessage, some [[], []])
      ∧ Run.task deviceLib 1 (Run deviceLib 1) sampleGotoMissingController [] 0
          (sampleMissingTask "A" "") .controller 0
        = some (.exited (sampleGotoMissingController.ExitError sampleMissingMessage)) := by
  refine ⟨rfl, rfl, by decide, rfl, rfl⟩

/-- C12, amended. When a task is visited while `NextTaskName` is not empty and the
substitutions of `Compile` succeed for it, so that the check of `NextTaskName` is
reached: if the name of the task differs from `NextTaskName`, the turn ends with the task
marked `skipped`, nothing is sent (the connection is as it was) and `NextTaskName` is
kept; if the name equals `NextTaskName`, the turn goes on in the controller whose
`NextTaskName` is empty: with the check of the status, which marks a root task that has a
status and may not be repeated `skipped`, and else with the conditions of the task. -/
theorem Run_goto_filter (lib : RegexpLib) (fuel : Nat)
    (run : Controller → TasksRef → VarsRef → Int → Option (Outcome Controller))
    (ctrl : Controller) (tasks : TasksRef) (taskIdx : Nat) (task compiled : Task)
    (vars : VarsRef) (depthLevel : Int)
    (htask : ctrl.taskAt tasks taskIdx = some task)
    (hcompile : ctrl.Compile task (vars.read ctrl) = .returned compiled)
    (hnext : ctrl.NextTaskName ≠ []) :
    (task.Name ≠ ctrl.NextTaskName →
        Run.task lib fuel run ctrl tasks taskIdx task vars depthLevel
            = some (.returned (ctrl.SetTaskStatus tasks taskIdx PIPE_STATUS_SKIPPED))
          ∧ (ctrl.SetTaskStatus tasks taskIdx PIPE_STATUS_SKIPPED).statusAt tasks taskIdx
            = some PIPE_STATUS_SKIPPED
          ∧ (ctrl.SetTaskStatus tasks taskIdx PIPE_STATUS_SKIPPED).Connection = ctrl.Connection
          ∧ (ctrl.SetTaskStatus tasks taskIdx PIPE_STATUS_SKIPPED).NextTaskName
            = ctrl.NextTaskName)
      ∧ (task.Name = ctrl.NextTaskName →
        Run.task lib fuel run ctrl tasks taskIdx task vars depthLevel
            = Run.byStatus lib fuel run { ctrl with NextTaskName := [] } tasks taskIdx compiled
                vars depthLevel
          ∧ (task.Status ≠ [] → task.Params.CommandRepeatAllowed = false → depthLevel = 0 →
              Run.task lib fuel run ctrl tasks taskIdx task vars depthLevel
                  = some (.returned (({ ctrl with NextTaskName := [] } : Controller).SetTaskStatus
                      tasks taskIdx PIPE_STATUS_SKIPPED))
                ∧ (({ ctrl with NextTaskName := [] } : Controller).SetTaskStatus
                    tasks taskIdx PIPE_STATUS_SKIPPED).NextTaskName = []
                ∧ (({ ctrl with NextTaskName := [] } : Controller).SetTaskStatus
                    tasks taskIdx PIPE_STATUS_SKIPPED).Connection = ctrl.Connection)
          ∧ (task.Status = [] ∨ task.Params.CommandRepeatAllowed = true ∨ depthLevel ≠ 0 →
              Run.task lib fuel run ctrl tasks taskIdx task vars depthLevel
                = Run.byWhen lib fuel run { ctrl with NextTaskName := [] } tasks taskIdx
                    compiled vars depthLevel)) := by
  obtain ⟨hname, hstatus, _, _, _, _, _, _, hrepeat⟩ :=
    Controller.Compile_returned ctrl task compiled _ hcompile
  have hlen : ctrl.NextTaskName.length > 0 := List.length_pos.2 hnext
  constructor
  · intro hne
    refine ⟨?_, Controller.SetTaskStatus_statusAt_self ctrl tasks taskIdx _ task htask,
      Controller.SetTaskStatus_Connection _ _ _ _, Controller.SetTaskStatus_NextTaskName _ _ _ _⟩
    unfold Run.task
    rw [hcompile]
    simp only [Run.byNextTaskName, hlen, if_true, hname]
    simp [hne]
  · intro heq
    have hturn : Run.task lib fuel run ctrl tasks taskIdx task vars depthLevel
        = Run.byStatus lib fuel run { ctrl with NextTaskName := [] } tasks taskIdx compiled
            vars depthLevel := by
      unfold Run.task
      rw [hcompile]
      simp only [Run.byNextTaskName, hlen, if_true, hname]
      simp [heq]
    refine ⟨hturn, ?_, ?_⟩
    · intro hs hr hd
      have hslen : compiled.Status.length > 0 := by rw [hstatus]; exact List.length_pos.2 hs
      refine ⟨?_, ?_, ?_⟩
      · rw [hturn]
        unfold Run.byStatus
        simp [hslen, hrepeat, hr, hd]
      · rw [Controller.SetTaskStatus_NextTaskName]
      · rw [Controller.SetTaskStatus_Connection]
    · intro hcase
      rw [hturn]
      unfold Run.byStatus
      rcases hcase with hs | hr | hd
      · simp [hstatus, hs]
      · simp [hrepeat, hr]
      · simp [hd]

/-- The theorem `Run_goto_filter` at the list `A`, `T` visited while `NextTaskName` is `T`:
`A` is skipped, and `T` goes on to the check of the status. -/
theorem Run_goto_filter_witness :
    sampleGotoController.taskAt [] 0 = some (sampleNamedTask "A" "show a")
      ∧ sampleGotoController.Compile (sampleNamedTask "A" "show a")
          (VarsRef.controller.read sampleGotoController)
        = .returned (sampleCompiledTask "A" "show a")
      ∧ sampleGotoController.NextTaskName ≠ []
      ∧ (Run.task deviceLib 1 (Run deviceLib 1) sampleGotoController [] 0
              (sampleNamedTask "A" "show a") .controller 0
            = some (.returned (sampleGotoController.SetTaskStatus [] 0 PIPE_STATUS_SKIPPED))
          ∧ (sampleGotoController.SetTaskStatus [] 0 PIPE_STATUS_SKIPPED).statusAt [] 0
            = some PIPE_STATUS_SKIPPED
          ∧ (sampleGotoController.SetTaskStatus [] 0 PIPE_STATUS_SKIPPED).Connection
            = sampleGotoController.Connection
          ∧ (sampleGotoController.SetTaskStatus [] 0 PIPE_STATUS_SKIPPED).NextTaskName
            = sampleGotoController.NextTaskName)
      ∧ (sampleGotoController.SetTaskStatus [] 0 PIPE_STATUS_SKIPPED).taskAt [] 1
        = some (sampleNamedTask "T" "show t")
      ∧ Run.task deviceLib 1 (Run deviceLib 1)
            (sampleGotoController.SetTaskStatus [] 0 PIPE_STATUS_SKIPPED) [] 1
            (sampleNamedTask "T" "show t") .controller 0
          = Run.byWhen deviceLib 1 (Run deviceLib 1)
              { sampleGotoController.SetTaskStatus [] 0 PIPE_STATUS_SKIPPED with
                NextTaskName := [] } [] 1
              (sampleCompiledTask "T" "show t") .controller 0 :=
  ⟨rfl, rfl, by decide,
    (Run_goto_filter deviceLib 1 (Run deviceLib 1) sampleGotoController [] 0
      (sampleNamedTask "A" "show a") (sampleCompiledTask "A" "show a") .controller 0 rfl rfl
      (by decide)).1 (by decide),
    rfl,
    ((Run_goto_filter deviceLib 1 (Run deviceLib 1)
      (sampleGotoController.SetTaskStatus [] 0 PIPE_STATUS_SKIPPED) [] 1
      (sampleNamedTask "T" "show t") (sampleCompiledTask "T" "show t") .controller 0 rfl rfl
      (by decide)).2 rfl).2.2 (Or.inl rfl)⟩

/-- A root task that has a status and may not be repeated, and whose substitutions
succeed, is marked `skipped` by its turn, which sends nothing. -/
theorem Run.task_repeated (lib : RegexpLib) (fuel : Nat)
    (run : Controller → TasksRef → VarsRef → Int → Option (Outcome Controller))
    (ctrl : Controller) (taskIdx : Nat) (task : Task)
    (hstatus : task.Status ≠ []) (hrepeat : task.Params.CommandRepeatAllowed = false)
    (h1 : (RegExpConstructor task.Command ctrl.Variables).2 = none)
    (h2 : (RegExpConstructor task.Params.OutputFile ctrl.Variables).2 = none) :
    ∃ c0 : Controller, Run.task lib fuel run ctrl [] taskIdx task .controller 0
          = some (.returned (c0.SetTaskStatus [] taskIdx PIPE_STATUS_SKIPPED))
      ∧ c0.Task = ctrl.Task ∧ c0.Variables = ctrl.Variables
      ∧ c0.Connection = ctrl.Connection := by
  obtain ⟨compiled, hc⟩ := Controller.Compile_ok ctrl task ctrl.Variables h1 h2
  obtain ⟨_, hs, _, _, _, _, _, _, hr⟩ := Controller.Compile_returned ctrl task compiled _ hc
  have hlen : compiled.Status.length > 0 := by rw [hs]; exact List.length_pos.2 hstatus
  have hby : ∀ c : Controller, Run.byStatus lib fuel run c [] taskIdx compiled .controller 0
      = some (.returned (c.SetTaskStatus [] taskIdx PIPE_STATUS_SKIPPED)) := by
    intro c
    unfold Run.byStatus
    simp [hlen, hr, hrepeat]
  unfold Run.task
  simp only [VarsRef.read, hc, Run.byNextTaskName]
  split
  · split
    · exact ⟨ctrl, rfl, rfl, rfl, rfl⟩
    · exact ⟨{ ctrl with NextTaskName := [] }, hby _, rfl, rfl, rfl⟩
  · exact ⟨ctrl, hby _, rfl, rfl, rfl⟩

/-- The loop over root tasks that all have a status and may not be repeated. -/
theorem Run.loop_repeated (lib : RegexpLib) (fuel : Nat)
    (run : Controller → TasksRef → VarsRef → Int → Option (Outcome Controller))
    (vars : Artefacts) :
    ∀ (todo taskIdx : Nat) (ctrl : Controller), ctrl.Variables = vars →
      (∀ j, taskIdx ≤ j → j < taskIdx + todo → ∃ t, ctrl.taskAt [] j = some t ∧
        t.Status ≠ [] ∧ t.Params.CommandRepeatAllowed = false ∧
        (RegExpConstructor t.Command vars).2 = none ∧
        (RegExpConstructor t.Params.OutputFile vars).2 = none) →
      ∃ c2, Run.loop lib fuel run [] .controller 0 todo taskIdx ctrl = some (.returned c2)
        ∧ c2.Connection = ctrl.Connection
        ∧ (∀ j, taskIdx ≤ j → j < taskIdx + todo → c2.statusAt [] j = some PIPE_STATUS_SKIPPED)
        ∧ (∀ j, j < taskIdx → c2.statusAt [] j = ctrl.statusAt [] j) := by
  intro todo
  induction todo with
  | zero =>
    intro k ctrl _ _
    exact ⟨ctrl, rfl, rfl, fun j h1 h2 => absurd h2 (by omega), fun _ _ => rfl⟩
  | succ n ih =>
    intro k ctrl hv hall
    obtain ⟨t, ht, hst, hrep, hc1, hc2⟩ := hall k (le_refl k) (by omega)
    obtain ⟨c0, hturn, hT, hV, hC⟩ := Run.task_repeated lib fuel run ctrl k t hst hrep
      (by rw [hv]; exact hc1) (by rw [hv]; exact hc2)
    have hc0 : c0.taskAt [] k = some t := by rw [Controller.taskAt_congr ctrl c0 hT]; exact ht
    have hrest : ∀ j, k + 1 ≤ j → j < k + 1 + n →
        ∃ t2, (c0.SetTaskStatus [] k PIPE_STATUS_SKIPPED).taskAt [] j = some t2 ∧
          t2.Status ≠ [] ∧ t2.Params.CommandRepeatAllowed = false ∧
          (RegExpConstructor t2.Command vars).2 = none ∧
          (RegExpConstructor t2.Params.OutputFile vars).2 = none := by
      intro j hj1 hj2
      obtain ⟨tj, htj, h1, h2, h3, h4⟩ := hall j (by omega) (by omega)
      have hg := Controller.SetTaskStatus_taskAt
        (fun t : Task => (t.Command, t.Status, t.Params))
        (fun x t => by cases t; rfl) c0 [] k PIPE_STATUS_SKIPPED [] j
      have hjk : ¬ ((([] : TasksRef) = []) ∧ j = k) := fun h => by omega
      rw [if_neg hjk, Controller.taskAt_congr ctrl c0 hT, htj] at hg
      cases hj : (c0.SetTaskStatus [] k PIPE_STATUS_SKIPPED).taskAt [] j with
      | none => rw [hj] at hg; cases hg
      | some t2 =>
        rw [hj] at hg
        simp only [Option.map_some', Option.some.injEq, Prod.mk.injEq] at hg
        obtain ⟨e1, e2, e3⟩ := hg
        exact ⟨t2, rfl, by rw [e2]; exact h1, by rw [e3]; exact h2, by rw [e1]; exact h3,
          by rw [e3]; exact h4⟩
    obtain ⟨c2, hloop, hconn, hmark, hkeep⟩ :=
      ih (k + 1) (c0.SetTaskStatus [] k PIPE_STATUS_SKIPPED)
        (by rw [Controller.SetTaskStatus_Variables, hV, hv]) hrest
    refine ⟨c2, ?_, ?_, ?_, ?_⟩
    · unfold Run.loop
      rw [ht]
      simp only [hturn]
      exact hloop
    · rw [hconn, Controller.SetTaskStatus_Connection, hC]
    · intro j hj1 hj2
      by_cases hjk : j = k
      · subst hjk
        rw [hkeep j (Nat.lt_succ_self j)]
        exact Controller.SetTaskStatus_statusAt_self c0 [] j _ t hc0
      · exact hmark j (by omega) (by omega)
    · intro j hj
      rw [hkeep j (by omega), Controller.SetTaskStatus_statusAt]
      have hjk : ¬ ((([] : TasksRef) = []) ∧ j = k) := fun h => by omega
      rw [if_neg hjk]
      unfold Controller.statusAt
      rw [Controller.taskAt_congr ctrl c0 hT]

/-- C15, as the specification has it, fails: the walk of two root tasks that were not run
before sends the first command, finds no value for the variable of the second command
and ends the process with exit code 1; the second task, which was being visited, is left
in the saved file with the empty status that it had in the input file. -/
theorem Run_shutdown_leaves_status :
    (Run deviceLib 2 sampleMissingController [] .controller 0).map
        (fun result => match result with
          | .exited h => some (h.exitCode, h.saved.Error, rootStatuses h.saved)
          | _ => none)
      = some (some (1, sampleMissingMessage, some ["success".toList, []])) := by
  rfl

/-- C16, as the specification has it, fails: the artefacts of the root list are the map
of the controller, to which `Controller.Send` writes the key `prompt`. The subtask
`configure terminal` of the first task changes the prompt of the device, so the walk
leaves `prompt` at `cisco-conf` in the map in which it was `cisco-priv`, and the next
task of the root list, whose command names that variable, is sent as `show cisco-conf`. -/
theorem Run_subtask_writes_prompt :
    VarsRef.controller.read sampleLeakController "prompt".toList = some "cisco-priv".toList
      ∧ VarsRef.controller.read
          (returnedOr (Run deviceLib 3 sampleLeakController [] .controller 0)) "prompt".toList
        = some "cisco-conf".toList
      ∧ sentTexts (returnedOr (Run deviceLib 3 sampleLeakController [] .controller 0))
        = ["show vdc\n".toList, "\n".toList, "configure terminal\n".toList, "\n".toList,
           "configure terminal\n".toList, "\n".toList, "show cisco-conf\n".toList, "\n".toList] := by
  refine ⟨by rfl, by rfl, by rfl⟩

/-- C16, amended. Whenever a walk of subtasks returns, the artefacts of the frame that
started it are as they were before the walk but for the key `prompt`; the artefacts of a
frame of subtasks, which are a map of its own, are as they were for every key. -/
theorem Run_keeps_artefacts (lib : RegexpLib) (fuel : Nat) (ctrl : Controller)
    (tasks : TasksRef) (taskIdx : Nat) (sub : Artefacts) (depthLevel : Int) (c2 : Controller)
    (h : Run lib fuel ctrl (tasks ++ [taskIdx]) (.own sub) (depthLevel + 1)
      = some (.returned c2))
    (vars : VarsRef) :
    (∀ k, k ≠ "prompt".toList → vars.read c2 k = vars.read ctrl k)
      ∧ (∀ m, vars = .own m → vars.read c2 = vars.read ctrl) := by
  constructor
  · intro k hk
    cases vars with
    | controller => exact (Run_effect lib fuel ctrl _ _ _ c2 h).variables k hk
    | own m => rfl
  · rintro m rfl
    rfl

/-- The theorem `Run_keeps_artefacts` at a run of the subtask of the first task of
`sampleLeakController`, seen from the frame of the root list. -/
theorem Run_keeps_artefacts_witness :
    Run deviceLib 2 sampleLeakController ([] ++ [0]) (.own sampleVrfVars) (0 + 1)
        = some (.returned
            (returnedOr (Run deviceLib 2 sampleLeakController [0] (.own sampleVrfVars) 1)))
      ∧ ((∀ k, k ≠ "prompt".toList →
          VarsRef.controller.read
              (returnedOr (Run deviceLib 2 sampleLeakController [0] (.own sampleVrfVars) 1)) k
            = VarsRef.controller.read sampleLeakController k)
        ∧ (∀ m, VarsRef.controller = .own m →
          VarsRef.controller.read
              (returnedOr (Run deviceLib 2 sampleLeakController [0] (.own sampleVrfVars) 1))
            = VarsRef.controller.read sampleLeakController)) :=
  ⟨rfl, Run_keeps_artefacts deviceLib 2 sampleLeakController [] 0 sampleVrfVars 0 _ rfl
    .controller⟩

/-- After a failed send with `onErrorContinue`, the turn of a task with a filter goes on
to the filter: when the extraction finds nothing in the output of the failed send, the
status `fail` that the turn has just written is overwritten with `skipped`. -/
theorem Run.bySend_failed_filter (lib : RegexpLib) (fuel : Nat)
    (run : Controller → TasksRef → VarsRef → Int → Option (Outcome Controller))
    (ctrl : Controller) (tasks : TasksRef) (taskIdx : Nat) (persisted task : Task)
    (vars : VarsRef) (depthLevel : Int) (output commandSendError : Str) (c1 : Controller)
    (regMap : Groups) (n : Int)
    (hpersisted : ctrl.taskAt tasks taskIdx = some persisted)
    (hsend : ctrl.Send lib fuel task = some (.returned ((output, some commandSendError), c1)))
    (hcontinue : task.Params.OnErrorContinue = true)
    (hfilter : task.Params.Filter ≠ [])
    (hmatch : RegExpMatch lib output task.Params.Filter task.Params.FilterExclude
      = .returned (regMap, n, none))
    (hn : n ≤ 0) :
    Run.bySend lib fuel run ctrl tasks taskIdx task vars depthLevel
        = some (.returned ((c1.SetTaskStatus tasks taskIdx PIPE_STATUS_FAIL).SetTaskStatus
            tasks taskIdx PIPE_STATUS_SKIPPED))
      ∧ ((c1.SetTaskStatus tasks taskIdx PIPE_STATUS_FAIL).SetTaskStatus
          tasks taskIdx PIPE_STATUS_SKIPPED).statusAt tasks taskIdx
        = some PIPE_STATUS_SKIPPED := by
  have hT := (Controller.Send_returned ctrl lib fuel task _ _ hsend).1
  have h1 : c1.taskAt tasks taskIdx = some persisted := by
    rw [Controller.taskAt_congr ctrl c1 hT]; exact hpersisted
  have hst := Controller.SetTaskStatus_statusAt_self c1 tasks taskIdx PIPE_STATUS_FAIL _ h1
  have hst2 : ((c1.SetTaskStatus tasks taskIdx PIPE_STATUS_FAIL).SetTaskStatus
      tasks taskIdx PIPE_STATUS_SKIPPED).statusAt tasks taskIdx = some PIPE_STATUS_SKIPPED := by
    rw [Controller.SetTaskStatus_statusAt, if_pos ⟨rfl, rfl⟩, hst]
    rfl
  refine ⟨?_, hst2⟩
  have hlen : task.Params.Filter.length > 0 := List.length_pos.2 hfilter
  unfold Run.bySend
  rw [hsend]
  simp only [hcontinue, if_true]
  unfold Run.byOutputFile
  rw [hst]
  have hne : (PIPE_STATUS_FAIL == PIPE_STATUS_SUCCESS) = false := by decide
  simp only [hne, Bool.false_eq_true, if_false, ite_self]
  unfold Run.byFilter
  simp only [hlen, if_true, hmatch, hn]

/-- C17. The command `bad` is refused with `spawner-command-send-error`, and the task has
`onErrorContinue` and a filter that finds nothing in the output of the refused command:
the walk returns, only `bad` was sent, and the status of the task is `skipped`, not
`fail`; after the failed send the turn goes on to the filter, which overwrites the
status. -/
theorem Run_onErrorContinue_filter_overwrites :
    (sampleBadTask "zzz").Params.OnErrorContinue = true
      ∧ ((sampleRunController [sampleBadTask "zzz"]).Send deviceLib 1
            (sampleBadCompiled "zzz")).map
          (fun result => match result with
            | .returned ((_, commandSendError), _) => commandSendError
            | _ => none)
        = some (some "spawner-command-send-error".toList)
      ∧ (Run deviceLib 2 (sampleRunController [sampleBadTask "zzz"]) [] .controller 0).map
          (fun result => match result with
            | .returned c => some (rootStatuses c.Task, sentTexts c)
            | _ => none)
        = some (some (some ["skipped".toList], ["bad\n".toList])) := by
  exact ⟨rfl, rfl, rfl⟩

/-- When `Send` fails for a task with `onErrorContinue` and without a filter, the turn of
the task ends without a shutdown, with the task marked `fail`; the loop goes on with the
next task from there, and whenever the rest of the loop returns, the status of the task
still is `fail`. -/
theorem Run_onErrorContinue (lib : RegexpLib) (fuel : Nat) (ctrl : Controller)
    (tasks : TasksRef) (taskIdx : Nat) (persisted task : Task) (vars : VarsRef)
    (depthLevel : Int) (output commandSendError : Str) (c1 : Controller)
    (hpersisted : ctrl.taskAt tasks taskIdx = some persisted)
    (hsend : ctrl.Send lib fuel task = some (.returned ((output, some commandSendError), c1)))
    (hcontinue : task.Params.OnErrorContinue = true)
    (hfilter : task.Params.Filter = []) :
    Run.bySend lib fuel (Run lib fuel) ctrl tasks taskIdx task vars depthLevel
        = some (.returned (c1.SetTaskStatus tasks taskIdx PIPE_STATUS_FAIL))
      ∧ (c1.SetTaskStatus tasks taskIdx PIPE_STATUS_FAIL).statusAt tasks taskIdx
        = some PIPE_STATUS_FAIL
      ∧ ∀ todo c2,
          Run.loop lib fuel (Run lib fuel) tasks vars depthLevel todo (taskIdx + 1)
              (c1.SetTaskStatus tasks taskIdx PIPE_STATUS_FAIL) = some (.returned c2) →
            c2.statusAt tasks taskIdx = some PIPE_STATUS_FAIL := by
  have hT := (Controller.Send_returned ctrl lib fuel task _ _ hsend).1
  have h1 : c1.taskAt tasks taskIdx = some persisted := by
    rw [Controller.taskAt_congr ctrl c1 hT]; exact hpersisted
  have hst := Controller.SetTaskStatus_statusAt_self c1 tasks taskIdx PIPE_STATUS_FAIL _ h1
  refine ⟨?_, hst, ?_⟩
  · unfold Run.bySend
    rw [hsend]
    simp only [hcontinue, if_true]
    unfold Run.byOutputFile
    rw [hst]
    have hne : (PIPE_STATUS_FAIL == PIPE_STATUS_SUCCESS) = false := by decide
    simp only [hne, Bool.false_eq_true, if_false, ite_self]
    unfold Run.byFilter
    simp [hfilter]
  · intro todo c2 hloop
    have he := (Run.loop_effect lib fuel (Run lib fuel) (Run_effect lib fuel) tasks vars
      depthLevel todo (taskIdx + 1) _ c2 hloop).1
    rw [he.statusAt tasks taskIdx
      (not_loopWrites_before tasks (taskIdx + 1) taskIdx (Nat.lt_succ_self taskIdx))]
    exact hst

/-- The refused command `bad` with `onErrorContinue` and no filter: the turn marks the task
`fail`, and the status stays `fail` while the loop goes on. -/
theorem Run_onErrorContinue_example :
    (sampleRunController [sampleBadTask ""]).taskAt [] 0 = some (sampleBadTask "")
      ∧ (sampleRunController [sampleBadTask ""]).Send deviceLib 1 (sampleBadCompiled "")
        = some (.returned (("bad\r\n% Invalid input detected\r\n".toList,
            some "spawner-command-send-error".toList),
            sampleBadController))
      ∧ (sampleBadCompiled "").Params.OnErrorContinue = true
      ∧ (sampleBadCompiled "").Params.Filter = []
      ∧ (Run.bySend deviceLib 1 (Run deviceLib 1) (sampleRunController [sampleBadTask ""]) [] 0
            (sampleBadCompiled "") .controller 0
          = some (.returned (sampleBadController.SetTaskStatus [] 0 PIPE_STATUS_FAIL))
        ∧ (sampleBadController.SetTaskStatus [] 0 PIPE_STATUS_FAIL).statusAt [] 0
          = some PIPE_STATUS_FAIL
        ∧ ∀ todo c2,
            Run.loop deviceLib 1 (Run deviceLib 1) [] .controller 0 todo (0 + 1)
                (sampleBadController.SetTaskStatus [] 0 PIPE_STATUS_FAIL)
              = some (.returned c2) →
              c2.statusAt [] 0 = some PIPE_STATUS_FAIL) :=
  ⟨rfl, rfl, rfl, rfl,
    Run_onErrorContinue deviceLib 1 (sampleRunController [sampleBadTask ""]) [] 0
      (sampleBadTask "") (sampleBadCompiled "") .controller 0 _ _ sampleBadController rfl rfl
      rfl rfl⟩

/-! ## `Run`: the runs of the subtasks -/

theorem Groups.push_keys (name group : Str) (r : Groups) :
    (Groups.push name group r).map Prod.fst
      = if name ∈ r.map Prod.fst then r.map Prod.fst else r.map Prod.fst ++ [name] := by
  induction r with
  | nil => simp [Groups.push]
  | cons g rest ih =>
    obtain ⟨n, values⟩ := g
    unfold Groups.push
    by_cases h : n = name
    · subst h
      simp
    · have h2 : ¬ name = n := fun e => h e.symm
      simp only [beq_iff_eq, h, if_false, List.map_cons, ih, List.mem_cons, h2, false_or]
      split <;> simp

theorem Groups.push_nodup (name group : Str) (r : Groups) (h : (r.map Prod.fst).Nodup) :
    ((Groups.push name group r).map Prod.fst).Nodup := by
  rw [Groups.push_keys]
  split
  · exact h
  · rename_i hn
    rw [List.nodup_append]
    refine ⟨h, List.nodup_singleton _, ?_⟩
    intro a ha hb
    simp only [List.mem_singleton] at hb
    subst hb
    exact hn ha

theorem RegExpMatch.collectMatch_nodup (groupNames : List Str) :
    ∀ (m : List (Nat × Str)) (r r2 : Groups), (r.map Prod.fst).Nodup →
      RegExpMatch.collectMatch groupNames m r = some r2 → (r2.map Prod.fst).Nodup := by
  intro m
  induction m with
  | nil =>
    intro r r2 hr h
    simp [RegExpMatch.collectMatch] at h
    subst h
    exact hr
  | cons x rest ih =>
    intro r r2 hr h
    obtain ⟨groupIndex, group⟩ := x
    unfold RegExpMatch.collectMatch at h
    split at h
    · cases hn : groupNames[groupIndex]? with
      | none => rw [hn] at h; simp at h
      | some declared =>
        rw [hn] at h
        simp only [] at h
        exact ih _ r2 (Groups.push_nodup _ _ r hr) h
    · exact ih r r2 hr h

theorem RegExpMatch.collect_nodup (groupNames : List Str) :
    ∀ (ms : List (List Str)) (r r2 : Groups), (r.map Prod.fst).Nodup →
      RegExpMatch.collect groupNames ms r = some r2 → (r2.map Prod.fst).Nodup := by
  intro ms
  induction ms with
  | nil =>
    intro r r2 hr h
    simp [RegExpMatch.collect] at h
    subst h
    exact hr
  | cons m rest ih =>
    intro r r2 hr h
    unfold RegExpMatch.collect at h
    cases hm : RegExpMatch.collectMatch groupNames m.enum r with
    | none => rw [hm] at h; simp at h
    | some r1 =>
      rw [hm] at h
      simp only [] at h
      exact ih r1 r2 (RegExpMatch.collectMatch_nodup groupNames _ r r1 hr hm) h

theorem RegExpMatch.exclude_keys (ex : Regexp) (r : Groups) :
    (RegExpMatch.exclude ex r).map Prod.fst = r.map Prod.fst := by
  unfold RegExpMatch.exclude
  simp only []
  split
  · simp [List.map_map, Function.comp_def]
  · rfl

/-- The map that `RegExpMatch` returns without an error has one entry for each group
identifier, and every entry holds as many values as the count says. -/
theorem RegExpMatch.returned_groups (lib : RegexpLib) (output incRegex excRegex : Str)
    (groups : Groups) (count : Int)
    (h : RegExpMatch lib output incRegex excRegex = .returned (groups, count, none)) :
    (groups.map Prod.fst).Nodup ∧ ∀ g ∈ groups, (g.2.length : Int) = count := by
  unfold RegExpMatch at h
  cases hc : lib.Compile incRegex with
  | none => simp [hc] at h
  | some re =>
    cases hcol : RegExpMatch.collect re.SubexpNames (re.FindAllStringSubmatch output) [] with
    | none => simp [hc, hcol] at h
    | some result =>
      have hnd := RegExpMatch.collect_nodup re.SubexpNames _ [] result List.nodup_nil hcol
      by_cases h1 : (get_min result != get_max result) = true
      · simp [hc, hcol, h1] at h
      · cases hex : RegExpMatch.excluded lib excRegex result with
        | none => simp [hc, hcol, h1, hex] at h
        | some result2 =>
          have hnd2 : (result2.map Prod.fst).Nodup := by
            unfold RegExpMatch.excluded at hex
            split at hex
            · cases hce : lib.Compile excRegex with
              | none => rw [hce] at hex; simp at hex
              | some ex =>
                rw [hce] at hex
                simp only [Option.some.injEq] at hex
                subst hex
                rw [RegExpMatch.exclude_keys]
                exact hnd
            · simp only [Option.some.injEq] at hex
              subst hex
              exact hnd
          simp only [hc, hcol, h1, hex, RegExpMatch.finish] at h
          by_cases h2 : (get_min result2 != get_max result2) = true
          · simp [h2] at h
          · simp only [h2, Bool.false_eq_true, if_false, Outcome.returned.injEq,
              Prod.mk.injEq, and_true] at h
            obtain ⟨hg, hcnt⟩ := h
            subst hg
            subst hcnt
            have heq : get_min result2 = get_max result2 := by simpa using h2
            exact ⟨hnd2, length_eq_of_get_min_eq_get_max result2 heq⟩

/-- The loop that fills `subTaskArtefacts` gives the artefacts that the specification
asks for, when every group identifier has one entry and every entry has a value `k`. -/
theorem Run.subTaskArtefacts_eq (k : Nat) :
    ∀ (regMap : Groups) (sub : Artefacts), (regMap.map Prod.fst).Nodup →
      (∀ g ∈ regMap, k < g.2.length) →
      Run.subTaskArtefacts k regMap sub = some (overlayAt sub regMap k) := by
  intro regMap
  induction regMap with
  | nil =>
    intro sub _ _
    rfl
  | cons g rest ih =>
    intro sub hnd hlen
    obtain ⟨index, values⟩ := g
    have hk : k < values.length := hlen (index, values) (List.mem_cons_self _ _)
    simp only [List.map_cons, List.nodup_cons] at hnd
    unfold Run.subTaskArtefacts
    rw [List.getElem?_eq_getElem hk]
    simp only []
    rw [ih _ hnd.2 (fun g hg => hlen g (List.mem_cons_of_mem _ hg))]
    congr 1
    funext key
    unfold overlayAt
    by_cases hkey : index = key
    · subst hkey
      have hnone : rest.find? (fun group => group.1 == index) = none := by
        rw [List.find?_eq_none]
        intro g hg hgi
        simp only [beq_iff_eq] at hgi
        exact hnd.1 (List.mem_map.2 ⟨g, hg, hgi⟩)
      simp [hnone, Artefacts.set, List.getElem?_eq_getElem hk]
    · have hkey2 : ¬ key = index := fun e => hkey e.symm
      have hb : (index == key) = false := beq_false_of_ne hkey
      simp only [List.find?_cons, hb]
      cases rest.find? (fun group => group.1 == key) with
      | some g => rfl
      | none => simp [Artefacts.set, hkey2]

/-- The loop over `subTaskOrder` makes the walks that the specification asks for. -/
theorem Run.subTasks_eq_walkEach
    (run : Controller → TasksRef → VarsRef → Int → Option (Outcome Controller))
    (tasks : TasksRef) (taskIdx : Nat) (vars : VarsRef) (depthLevel : Int) (regMap : Groups)
    (hnd : (regMap.map Prod.fst).Nodup) :
    ∀ (todo subTaskOrder : Nat) (ctrl : Controller),
      (∀ g ∈ regMap, subTaskOrder + todo ≤ g.2.length) →
      Run.subTasks run tasks taskIdx vars depthLevel regMap todo subTaskOrder ctrl
        = walkEach run (tasks ++ [taskIdx]) vars (depthLevel + 1) regMap
            (List.range' subTaskOrder todo) ctrl := by
  intro todo
  induction todo with
  | zero => intro k ctrl _; rfl
  | succ n ih =>
    intro k ctrl hlen
    unfold Run.subTasks
    rw [Run.subTaskArtefacts_eq k regMap _ hnd (fun g hg => by have := hlen g hg; omega)]
    simp only [List.range'_succ, walkEach]
    cases hr : run ctrl (tasks ++ [taskIdx]) (.own (overlayAt (vars.read ctrl) regMap k))
        (depthLevel + 1) with
    | none => rfl
    | some o =>
      cases o with
      | panicked => rfl
      | exited e => rfl
      | returned c1 =>
        simp only []
        exact ih (k + 1) c1 (fun g hg => by have := hlen g hg; omega)

/-- Against C18 as stated: the extraction of the parent returns the count 2, and the
subtask, whose command the device refuses, has no `onErrorContinue`. The first walk of
the subtasks ends the process with exit code 1 and the error of the send, and with it the
turn of the parent: the list of the subtasks is walked once, not twice. -/
theorem Run_fan_out_shutdown_stops :
    RegExpMatch deviceLib "L3-CORE\nAGG\n".toList
        (sampleParentCompiled [sampleTask "bad".toList]).Params.Filter
        (sampleParentCompiled [sampleTask "bad".toList]).Params.FilterExclude
      = .returned ([("vdc".toList, ["L3-CORE".toList, "AGG".toList])], 2, none)
      ∧ sentTexts sampleFailAfterParent = ["show vdc\n".toList, "\n".toList]
      ∧ Run.byFilter deviceLib (Run deviceLib 2) sampleFailAfterParent [] 0
          (sampleParentCompiled [sampleTask "bad".toList]) .controller 0
          "L3-CORE\nAGG\n".toList
        = Run deviceLib 2 sampleFailAfterParent [0]
            (.own (overlayAt sampleFailAfterParent.Variables
              [("vdc".toList, ["L3-CORE".toList, "AGG".toList])] 0)) 1
      ∧ shutdownOf (Run deviceLib 2 sampleFailAfterParent [0]
            (.own (overlayAt sampleFailAfterParent.Variables
              [("vdc".toList, ["L3-CORE".toList, "AGG".toList])] 0)) 1)
        = some (1, "spawner-command-send-error".toList, some ["success".toList])
      ∧ shutdownOf (Run deviceLib 3 sampleFailController [] .controller 0)
        = some (1, "spawner-command-send-error".toList, some ["success".toList])
      ∧ (exitedOr (Run deviceLib 3 sampleFailController [] .controller 0)).saved.statusAt [0] 0
        = some "fail".toList := by
  refine ⟨by rfl, by rfl, by rfl, by rfl, by rfl, by rfl⟩

/-- C18, amended. For a task with a filter whose extraction returns the groups `regMap`
and a count `n` of at least 1 without an error, and with subtasks, the rest of the turn
is: for `k = 0, ..., n - 1` in turn, one walk of the list of the subtasks at the depth
`depthLevel + 1`, the walk `k` being given the artefacts of the frame at that time with
each group identifier taken to the value `k` captured for it (`walkEach` with
`overlayAt`); a walk that does not return, because the process is shut down inside it,
ends the turn at that walk, so that the list is walked `n` times when every walk
returns. -/
theorem Run_fan_out (lib : RegexpLib)
    (run : Controller → TasksRef → VarsRef → Int → Option (Outcome Controller))
    (ctrl : Controller) (tasks : TasksRef) (taskIdx : Nat) (task : Task) (vars : VarsRef)
    (depthLevel : Int) (output : Str) (regMap : Groups) (n : Int) (subtasks : List Task)
    (hfilter : task.Params.Filter ≠ [])
    (hmatch : RegExpMatch lib output task.Params.Filter task.Params.FilterExclude
      = .returned (regMap, n, none))
    (hn : 1 ≤ n) (hsub : task.Tasks = some subtasks) :
    Run.byFilter lib run ctrl tasks taskIdx task vars depthLevel output
      = walkEach run (tasks ++ [taskIdx]) vars (depthLevel + 1) regMap (List.range n.toNat)
          ctrl := by
  obtain ⟨hnd, hlen⟩ := RegExpMatch.returned_groups lib output _ _ regMap n hmatch
  have hpos : task.Params.Filter.length > 0 := List.length_pos.2 hfilter
  have hn2 : ¬ n ≤ 0 := by omega
  unfold Run.byFilter
  simp only [hpos, if_true, hmatch, hn2, if_false, hsub, Option.isSome_some]
  rw [List.range_eq_range']
  exact Run.subTasks_eq_walkEach run tasks taskIdx vars depthLevel regMap hnd n.toNat 0 ctrl
    (fun g hg => by have := hlen g hg; omega)

/-- The theorem `Run_fan_out` at the parent of the fan-out scenario, whose output
`L3-CORE`, `AGG` gives two values for the group `vdc`. -/
theorem Run_fan_out_witness :
    (sampleParentTask [sampleSwitchTask]).Params.Filter ≠ []
      ∧ RegExpMatch deviceLib "L3-CORE\nAGG\n".toList
          (sampleParentTask [sampleSwitchTask]).Params.Filter
          (sampleParentTask [sampleSwitchTask]).Params.FilterExclude
        = .returned ([("vdc".toList, ["L3-CORE".toList, "AGG".toList])], 2, none)
      ∧ (1 : Int) ≤ 2
      ∧ (sampleParentTask [sampleSwitchTask]).Tasks = some [sampleSwitchTask]
      ∧ Run.byFilter deviceLib (Run deviceLib 2) sampleFanController [] 0
          (sampleParentTask [sampleSwitchTask]) .controller 0 "L3-CORE\nAGG\n".toList
        = walkEach (Run deviceLib 2) ([] ++ [0]) .controller (0 + 1)
            [("vdc".toList, ["L3-CORE".toList, "AGG".toList])] (List.range (2 : Int).toNat)
            sampleFanController :=
  ⟨by decide, rfl, by decide, rfl,
    Run_fan_out deviceLib (Run deviceLib 2) sampleFanController [] 0
      (sampleParentTask [sampleSwitchTask]) .controller 0 "L3-CORE\nAGG\n".toList
      [("vdc".toList, ["L3-CORE".toList, "AGG".toList])] 2 [sampleSwitchTask] (by decide) rfl
      (by decide) rfl⟩

/-- The fan-out scenario: the command `show vdc` gives the output `L3-CORE`, `AGG`, and the
walk sends `switchto vdc L3-CORE` and then `switchto vdc AGG`, each followed by the empty
command of `PromptDefine`. -/
theorem Run_fan_out_scenario :
    (sampleFanController.Send deviceLib 2 (sampleParentTask [sampleSwitchTask])).map
        (fun result => match result with
          | .returned ((output, err), _) => some (output, err)
          | _ => none)
      = some (some ("L3-CORE\nAGG\n".toList, none))
      ∧ (Run deviceLib 3 sampleFanController [] .controller 0).map
          (fun result => match result with
            | .returned c => some (sentTexts c)
            | _ => none)
        = some (some ["show vdc\n".toList, "\n".toList, "switchto vdc L3-CORE\n".toList,
            "\n".toList, "switchto vdc AGG\n".toList, "\n".toList]) := by
  refine ⟨by rfl, by rfl⟩

/-! ## `Run`: a clause on the name of its own task -/

theorem RegExpConstructor_nil (vars : Artefacts) : RegExpConstructor [] vars = ([], none) := by
  rfl

/-- The output file name of the compiled task. -/
theorem Controller.Compile_OutputFile (c : Controller) (t t2 : Executor.Task) (vars : Artefacts)
    (h : c.Compile t vars = .returned t2) :
    t2.Params.OutputFile = (RegExpConstructor t.Params.OutputFile vars).1 := by
  unfold Controller.Compile at h
  cases h1 : RegExpConstructor t.Command vars with
  | mk command e1 =>
    rw [h1] at h
    cases e1 with
    | some e => simp at h
    | none =>
      simp only [] at h
      cases h2 : RegExpConstructor t.Params.OutputFile vars with
      | mk outputFile e2 =>
        rw [h2] at h
        cases e2 with
        | some e => simp at h
        | none =>
          simp only [Outcome.returned.injEq] at h
          subst h
          rfl

/-- The turn of a task without a status, conditions, output file and filter, visited
while `NextTaskName` is empty, whose command is sent with success: the task is marked
`success`. -/
theorem Run.task_plain (lib : RegexpLib) (fuel : Nat)
    (run : Controller → TasksRef → VarsRef → Int → Option (Outcome Controller))
    (ctrl : Controller) (tasks : TasksRef) (taskIdx : Nat) (t t2 : Task) (vars : VarsRef)
    (depthLevel : Int) (output : Str) (c2 : Controller)
    (hnext : ctrl.NextTaskName = []) (hstatus : t.Status = []) (hwhen : t.When = none)
    (hfilter : t.Params.Filter = []) (hfile : t.Params.OutputFile = [])
    (hcompile : ctrl.Compile t (vars.read ctrl) = .returned t2)
    (hsend : ctrl.Send lib fuel t2 = some (.returned ((output, none), c2))) :
    Run.task lib fuel run ctrl tasks taskIdx t vars depthLevel
      = some (.returned (c2.SetTaskStatus tasks taskIdx PIPE_STATUS_SUCCESS)) := by
  obtain ⟨_, hs, _, hw, hf, _, _, _, _⟩ := Controller.Compile_returned ctrl t t2 _ hcompile
  have ho := Controller.Compile_OutputFile ctrl t t2 _ hcompile
  rw [hfile, RegExpConstructor_nil] at ho
  rw [hstatus] at hs
  rw [hwhen] at hw
  rw [hfilter] at hf
  unfold Run.task
  rw [hcompile]
  simp only [Run.byNextTaskName, hnext, List.length_nil, gt_iff_lt, lt_self_iff_false, if_false,
    Run.byStatus, hs, decide_False, Bool.false_and, Bool.false_eq_true, Run.byWhen, hw,
    Controller.WhenMatcher, Run.bySend, hsend, Run.byOutputFile, ho, Run.byFilter, hf]

/-- The turn of a task without a status whose one clause names a task that has no entry
in the named-task table: the task is marked `skipped`, and nothing else is changed. -/
theorem Run.task_unmet_name (lib : RegexpLib) (fuel : Nat)
    (run : Controller → TasksRef → VarsRef → Int → Option (Outcome Controller))
    (ctrl : Controller) (tasks : TasksRef) (taskIdx : Nat) (t : Task) (vars : VarsRef)
    (depthLevel : Int) (w : When)
    (hnext : ctrl.NextTaskName = []) (hstatus : t.Status = []) (hwhen : t.When = some [w])
    (hname : w.Name ≠ []) (hvariable : w.Variable = []) (hentry : ctrl.Names w.Name = none)
    (h1 : (RegExpConstructor t.Command (vars.read ctrl)).2 = none)
    (h2 : (RegExpConstructor t.Params.OutputFile (vars.read ctrl)).2 = none) :
    Run.task lib fuel run ctrl tasks taskIdx t vars depthLevel
      = some (.returned (ctrl.SetTaskStatus tasks taskIdx PIPE_STATUS_SKIPPED)) := by
  obtain ⟨t2, hcompile⟩ := Controller.Compile_ok ctrl t _ h1 h2
  obtain ⟨_, hs, _, hw, _⟩ := Controller.Compile_returned ctrl t t2 _ hcompile
  rw [hstatus] at hs
  rw [hwhen] at hw
  have hlen : w.Name.length > 0 := List.length_pos.2 hname
  unfold Run.task
  rw [hcompile]
  simp only [Run.byNextTaskName, hnext, List.length_nil, gt_iff_lt, lt_self_iff_false, if_false,
    Run.byStatus, hs, decide_False, Bool.false_and, Bool.false_eq_true, Run.byWhen, hw,
    Controller.WhenMatcher, Controller.WhenMatcher.loop, hvariable, hlen, decide_True,
    Bool.and_false, if_true, Controller.WhenMatcher.byName, hentry]

/-- The root list after `SetTaskStatus` for one of its tasks. -/
theorem Controller.SetTaskStatus_root (c : Controller) (list : List Executor.Task)
    (hlist : c.Task.Tasks = some list) (j : Nat) (hj : j < list.length) (s : Str) :
    (c.SetTaskStatus [] j s).Task.Tasks = some (list.modify (Task.setStatus s) j) := by
  rw [Controller.SetTaskStatus_Tasks, Controller.taskAt_eq, hlist]
  simp [Executor.tasksAt, hj, setStatusAt]

/-- C13, as the specification has it, fails: in the scenario of the move, the clause of
`A` on its own name finds no entry for `A` in the named-task table, so `A` is marked
`skipped` and not sent, `NextTaskName` is never set, and `B` and `T` are both sent. -/
theorem Run_own_name_clause_skips :
    (Run deviceLib 2 sampleOwnController [] .controller 0).map
        (fun result => match result with
          | .returned c => some (rootStatuses c.Task, sentTexts c)
          | _ => none)
      = some (some (some ["skipped".toList, "success".toList, "success".toList],
          ["show b\n".toList, "\n".toList, "show t\n".toList, "\n".toList])) := by
  rfl

/-- C13, amended. For a root list `A`, `B`, `T`, none run before, with `A` named and
without an entry in the named-task table, `A` carrying the single clause on its own name
with a move, `B` and `T` without conditions, output file and filter, the command and the
output file name of each task naming only variables that have a value when the task is
visited, so that `Compile` returns, and every send succeeding: the walk marks `A`
`skipped` without sending anything for it, sends the commands of `B` and of `T`, and ends
with the statuses `skipped`, `success`, `success`. -/
theorem Run_own_name_clause (lib : RegexpLib) (fuel : Nat) (c : Controller)
    (A B T B2 T2 : Task) (move outputB outputT : Str) (c2 c3 : Controller)
    (hlist : c.Task.Tasks = some [A, B, T]) (hnext : c.NextTaskName = [])
    (hA : A.Name ≠ []) (hentry : c.Names A.Name = none) (hAstatus : A.Status = [])
    (hAwhen : A.When = some [{ emptyWhen with Name := A.Name, OnMove := move }])
    (hAcommand : (RegExpConstructor A.Command c.Variables).2 = none)
    (hAfile : (RegExpConstructor A.Params.OutputFile c.Variables).2 = none)
    (hBstatus : B.Status = []) (hBwhen : B.When = none) (hBfilter : B.Params.Filter = [])
    (hBfile : B.Params.OutputFile = [])
    (hBcompile : (c.SetTaskStatus [] 0 PIPE_STATUS_SKIPPED).Compile B c.Variables
      = .returned B2)
    (hBsend : (c.SetTaskStatus [] 0 PIPE_STATUS_SKIPPED).Send lib fuel B2
      = some (.returned ((outputB, none), c2)))
    (hTstatus : T.Status = []) (hTwhen : T.When = none) (hTfilter : T.Params.Filter = [])
    (hTfile : T.Params.OutputFile = [])
    (hTcompile : (c2.SetTaskStatus [] 1 PIPE_STATUS_SUCCESS).Compile T c2.Variables
      = .returned T2)
    (hTsend : (c2.SetTaskStatus [] 1 PIPE_STATUS_SUCCESS).Send lib fuel T2
      = some (.returned ((outputT, none), c3))) :
    Run lib (fuel + 1) c [] .controller 0
        = some (.returned (c3.SetTaskStatus [] 2 PIPE_STATUS_SUCCESS))
      ∧ (c.SetTaskStatus [] 0 PIPE_STATUS_SKIPPED).Connection = c.Connection
      ∧ (c3.SetTaskStatus [] 2 PIPE_STATUS_SUCCESS).Task.Tasks
        = some [A.setStatus PIPE_STATUS_SKIPPED, B.setStatus PIPE_STATUS_SUCCESS,
            T.setStatus PIPE_STATUS_SUCCESS] := by
  -- the states between the turns
  have e1 : (c.SetTaskStatus [] 0 PIPE_STATUS_SKIPPED).Task.Tasks
      = some [A.setStatus PIPE_STATUS_SKIPPED, B, T] := by
    rw [Controller.SetTaskStatus_root c _ hlist 0 (by simp)]
    rfl
  obtain ⟨hT2, _, hN2, _⟩ := Controller.Send_returned _ lib fuel B2 _ c2 hBsend
  have e2 : (c2.SetTaskStatus [] 1 PIPE_STATUS_SUCCESS).Task.Tasks
      = some [A.setStatus PIPE_STATUS_SKIPPED, B.setStatus PIPE_STATUS_SUCCESS, T] := by
    rw [Controller.SetTaskStatus_root c2 _ (by rw [hT2]; exact e1) 1 (by simp)]
    rfl
  obtain ⟨hT3, _, hN3, _⟩ := Controller.Send_returned _ lib fuel T2 _ c3 hTsend
  have e3 : (c3.SetTaskStatus [] 2 PIPE_STATUS_SUCCESS).Task.Tasks
      = some [A.setStatus PIPE_STATUS_SKIPPED, B.setStatus PIPE_STATUS_SUCCESS,
          T.setStatus PIPE_STATUS_SUCCESS] := by
    rw [Controller.SetTaskStatus_root c3 _ (by rw [hT3]; exact e2) 2 (by simp)]
    rfl
  -- the three turns
  have t0 := Run.task_unmet_name lib fuel (Run lib fuel) c [] 0 A .controller 0
    { emptyWhen with Name := A.Name, OnMove := move } hnext hAstatus hAwhen hA rfl hentry
    hAcommand hAfile
  have n1 : (c.SetTaskStatus [] 0 PIPE_STATUS_SKIPPED).NextTaskName = [] := by
    rw [Controller.SetTaskStatus_NextTaskName]; exact hnext
  have t1 := Run.task_plain lib fuel (Run lib fuel) (c.SetTaskStatus [] 0 PIPE_STATUS_SKIPPED)
    [] 1 B B2 .controller 0 outputB c2 n1 hBstatus hBwhen hBfilter hBfile
    (by simp only [VarsRef.read, Controller.SetTaskStatus_Variables]; exact hBcompile) hBsend
  have n2 : (c2.SetTaskStatus [] 1 PIPE_STATUS_SUCCESS).NextTaskName = [] := by
    rw [Controller.SetTaskStatus_NextTaskName, hN2]; exact n1
  have t2 := Run.task_plain lib fuel (Run lib fuel) (c2.SetTaskStatus [] 1 PIPE_STATUS_SUCCESS)
    [] 2 T T2 .controller 0 outputT c3 n2 hTstatus hTwhen hTfilter hTfile
    (by simp only [VarsRef.read, Controller.SetTaskStatus_Variables]; exact hTcompile) hTsend
  refine ⟨?_, Controller.SetTaskStatus_Connection _ _ _ _, e3⟩
  have g0 : c.taskAt [] 0 = some A := by
    rw [Controller.taskAt_eq, hlist]; rfl
  have g1 : (c.SetTaskStatus [] 0 PIPE_STATUS_SKIPPED).taskAt [] 1 = some B := by
    rw [Controller.taskAt_eq, e1]; rfl
  have g2 : (c2.SetTaskStatus [] 1 PIPE_STATUS_SUCCESS).taskAt [] 2 = some T := by
    rw [Controller.taskAt_eq, e2]; rfl
  unfold Run
  simp only [Controller.tasksAt, tasksAt, hlist, List.length_cons, List.length_nil]
  simp only [Run.loop, g0, t0, g1, t1, g2, t2]

/-- The theorem `Run_own_name_clause` at the scenario of the move on the device `R1`. -/
theorem Run_own_name_clause_witness :
    sampleOwnController.Task.Tasks
        = some [sampleOwnTask, sampleNamedTask "B" "show b", sampleNamedTask "T" "show t"]
      ∧ sampleOwnController.NextTaskName = []
      ∧ sampleOwnTask.Name ≠ []
      ∧ sampleOwnController.Names sampleOwnTask.Name = none
      ∧ sampleOwnTask.Status = []
      ∧ sampleOwnTask.When
        = some [{ emptyWhen with Name := sampleOwnTask.Name, OnMove := "T".toList }]
      ∧ (RegExpConstructor sampleOwnTask.Command sampleOwnController.Variables).2 = none
      ∧ (RegExpConstructor sampleOwnTask.Params.OutputFile sampleOwnController.Variables).2
        = none
      ∧ (sampleNamedTask "B" "show b").Status = []
      ∧ (sampleNamedTask "B" "show b").When = none
      ∧ (sampleNamedTask "B" "show b").Params.Filter = []
      ∧ (sampleNamedTask "B" "show b").Params.OutputFile = []
      ∧ (sampleOwnController.SetTaskStatus [] 0 PIPE_STATUS_SKIPPED).Compile
          (sampleNamedTask "B" "show b") sampleOwnController.Variables
        = .returned (sampleCompiledTask "B" "show b")
      ∧ (sampleOwnController.SetTaskStatus [] 0 PIPE_STATUS_SKIPPED).Send deviceLib 1
          (sampleCompiledTask "B" "show b")
        = some (.returned (("show b\r\n".toList, none), sampleOwnAfterB))
      ∧ (sampleNamedTask "T" "show t").Status = []
      ∧ (sampleNamedTask "T" "show t").When = none
      ∧ (sampleNamedTask "T" "show t").Params.Filter = []
      ∧ (sampleNamedTask "T" "show t").Params.OutputFile = []
      ∧ (sampleOwnAfterB.SetTaskStatus [] 1 PIPE_STATUS_SUCCESS).Compile
          (sampleNamedTask "T" "show t") sampleOwnAfterB.Variables
        = .returned (sampleCompiledTask "T" "show t")
      ∧ (sampleOwnAfterB.SetTaskStatus [] 1 PIPE_STATUS_SUCCESS).Send deviceLib 1
          (sampleCompiledTask "T" "show t")
        = some (.returned (("show t\r\n".toList, none), sampleOwnAfterT))
      ∧ (Run deviceLib (1 + 1) sampleOwnController [] .controller 0
          = some (.returned (sampleOwnAfterT.SetTaskStatus [] 2 PIPE_STATUS_SUCCESS))
        ∧ (sampleOwnController.SetTaskStatus [] 0 PIPE_STATUS_SKIPPED).Connection
          = sampleOwnController.Connection
        ∧ (sampleOwnAfterT.SetTaskStatus [] 2 PIPE_STATUS_SUCCESS).Task.Tasks
          = some [sampleOwnTask.setStatus PIPE_STATUS_SKIPPED,
              (sampleNamedTask "B" "show b").setStatus PIPE_STATUS_SUCCESS,
              (sampleNamedTask "T" "show t").setStatus PIPE_STATUS_SUCCESS]) :=
  ⟨rfl, rfl, by decide, rfl, rfl, rfl, rfl, rfl, rfl, rfl, rfl, rfl, rfl, rfl, rfl, rfl, rfl, rfl,
    rfl, rfl,
    Run_own_name_clause deviceLib 1 sampleOwnController sampleOwnTask
      (sampleNamedTask "B" "show b") (sampleNamedTask "T" "show t")
      (sampleCompiledTask "B" "show b") (sampleCompiledTask "T" "show t") "T".toList
      "show b\r\n".toList "show t\r\n".toList sampleOwnAfterB sampleOwnAfterT
      rfl rfl (by decide) rfl rfl rfl rfl rfl rfl rfl rfl rfl rfl rfl rfl rfl rfl rfl rfl rfl⟩

/-- In the scenario of the move with a command of `A` that names a variable without a
value, `Compile` ends the process at `A` before its clause is looked at: the shutdown is
that of the controller as it was, with nothing sent, and the three tasks keep their empty
status. -/
theorem Run_own_name_clause_compile_exits :
    shutdownOf (Run deviceLib 2 sampleOwnMissingController [] .controller 0)
        = some (1, sampleMissingMessage, some [[], [], []])
      ∧ Run deviceLib 2 sampleOwnMissingController [] .controller 0
        = some (.exited (sampleOwnMissingController.ExitError sampleMissingMessage)) := by
  exact ⟨rfl, rfl⟩

/-! ## `Controller.WhenMatcher`: the clause that decides -/

/-- The loop over the clauses on a list that starts with a clause with a name or a
variable: the rest of the list is not looked at. -/
theorem Controller.WhenMatcher.loop_based (c : Controller) (lib : RegexpLib) (vars : Artefacts)
    (w : When) (rest : List When)
    (h : (!w.Name.isEmpty || !w.Variable.isEmpty) = true) :
    Controller.WhenMatcher.loop c lib vars (w :: rest)
      = Controller.WhenMatcher.loop c lib vars [w] := by
  unfold Controller.WhenMatcher.loop
  split
  · rfl
  · split
    · rfl
    · split
      · rfl
      · rename_i h1 h2 h3
        exfalso
        have hn : w.Name = [] := by
          cases hw : w.Name with
          | nil => rfl
          | cons a b => rw [hw] at h2; simp at h2
        have hv : w.Variable = [] := by
          cases hw : w.Variable with
          | nil => rfl
          | cons a b => rw [hw] at h3; simp at h3
        rw [hn, hv] at h
        simp at h

/-- The loop over the clauses on a list that starts with a clause without a name and
without a variable: the clause is passed over. -/
theorem Controller.WhenMatcher.loop_unbased (c : Controller) (lib : RegexpLib)
    (vars : Artefacts) (w : When) (rest : List When)
    (h : (!w.Name.isEmpty || !w.Variable.isEmpty) = false) :
    Controller.WhenMatcher.loop c lib vars (w :: rest)
      = Controller.WhenMatcher.loop c lib vars rest := by
  have hn : w.Name = [] := by
    cases hw : w.Name with
    | nil => rfl
    | cons a b => rw [hw] at h; simp at h
  have hv : w.Variable = [] := by
    cases hw : w.Variable with
    | nil => rfl
    | cons a b => rw [hw] at h; simp at h
  rw [Controller.WhenMatcher.loop]
  simp [hn, hv]

/-- C29. For every list of clauses, `WhenMatcher` ends as it ends on the list that holds
only the first clause whose `name` or `variable` is not empty: the same returned `passed`
and error and the same controller after the call (so the same `NextTaskName`), or the
same end of the process; clauses before it, which have neither, and all clauses after it
play no part. A list without such a clause gives `passed = true`, no error and the
controller as it was. -/
theorem WhenMatcher_first_based (c : Controller) (lib : RegexpLib) (vars : Artefacts)
    (clauses : List When) :
    c.WhenMatcher lib (some clauses) vars
      = match clauses.find? fun w => !w.Name.isEmpty || !w.Variable.isEmpty with
        | some w => c.WhenMatcher lib (some [w]) vars
        | none => .returned (true, none, c) := by
  unfold Controller.WhenMatcher
  simp only []
  induction clauses with
  | nil => rfl
  | cons w rest ih =>
    cases h : (!w.Name.isEmpty || !w.Variable.isEmpty) with
    | true =>
      simp only [List.find?_cons, h]
      exact Controller.WhenMatcher.loop_based c lib vars w rest h
    | false =>
      simp only [List.find?_cons, h]
      rw [Controller.WhenMatcher.loop_unbased c lib vars w rest h]
      exact ih

/-- An example for `WhenMatcher_first_based`: after a clause without a name and a variable,
the clause on the variable `vrf` decides and moves to `T`, although the clause after it
has both a name and a variable. -/
theorem WhenMatcher_first_based_example :
    sampleController.WhenMatcher sampleLib
        (some [emptyWhen, sampleMoveWhen, sampleDoubleWhen]) sampleVrfVars
      = .returned (true, none, sampleMovedController) := by
  rfl

/-! ## `Controller.WhenMatcher`: what the deciding clause leaves behind -/

/-- The evaluator on a list of clauses ends as it ends on the first clause with a name
or a variable alone. -/
theorem Controller.WhenMatcher.eq_first (c : Controller) (lib : RegexpLib) (vars : Artefacts)
    (clauses : List When) :
    c.WhenMatcher lib (some clauses) vars
      = match clauses.find? fun w => !w.Name.isEmpty || !w.Variable.isEmpty with
        | some w => c.WhenMatcher lib (some [w]) vars
        | none => .returned (true, none, c) := by
  unfold Controller.WhenMatcher
  simp only []
  induction clauses with
  | nil => rfl
  | cons w rest ih =>
    cases h : (!w.Name.isEmpty || !w.Variable.isEmpty) with
    | true =>
      simp only [List.find?_cons, h]
      exact Controller.WhenMatcher.loop_based c lib vars w rest h
    | false =>
      simp only [List.find?_cons, h]
      rw [Controller.WhenMatcher.loop_unbased c lib vars w rest h]
      exact ih

/-- What the evaluation of one clause with a name or a variable returns: `passed = false`
and the controller as it was, or `passed = true` without an error from a clause whose
`onExit` is unset, and the controller after the move of that clause. -/
theorem Controller.WhenMatcher.single_based (c : Controller) (lib : RegexpLib)
    (vars : Artefacts) (w : When) (passed : Bool) (err : Option Str) (c2 : Controller)
    (hbased : (!w.Name.isEmpty || !w.Variable.isEmpty) = true)
    (h : c.WhenMatcher lib (some [w]) vars = .returned (passed, err, c2)) :
    (passed = false ∧ c2 = c)
      ∨ (passed = true ∧ err = none ∧ w.OnExit = false ∧ c2 = afterMove c w) := by
  have hact : Controller.WhenMatcher.actions c w = .returned (passed, err, c2) →
      (passed = false ∧ c2 = c)
        ∨ (passed = true ∧ err = none ∧ w.OnExit = false ∧ c2 = afterMove c w) := by
    intro ha
    obtain ⟨h1, h2, h3, h4⟩ := Controller.WhenMatcher.actions_returned c w passed err c2 ha
    exact Or.inr ⟨h2, h3, h1, h4⟩
  have hret : ∀ e : Option Str,
      (Outcome.returned (false, e, c) : Outcome (Bool × Option Str × Controller))
        = .returned (passed, err, c2) →
      (passed = false ∧ c2 = c)
        ∨ (passed = true ∧ err = none ∧ w.OnExit = false ∧ c2 = afterMove c w) := by
    intro e he
    simp only [Outcome.returned.injEq, Prod.mk.injEq] at he
    exact Or.inl ⟨he.1.symm, he.2.2.symm⟩
  unfold Controller.WhenMatcher at h
  simp only [] at h
  unfold Controller.WhenMatcher.loop at h
  split at h
  · exact hret _ h
  · split at h
    · rcases Controller.WhenMatcher.byName_cases c lib w with hb | hb
      · rw [hb] at h; exact hret _ h
      · rw [hb] at h; exact hact h
    · split at h
      · rcases Controller.WhenMatcher.byVariable_cases c vars w with hb | hb
        · rw [hb] at h; exact hret _ h
        · rw [hb] at h; exact hact h
      · rename_i h1 h2 h3
        exfalso
        have hn : w.Name = [] := by
          cases hw : w.Name with
          | nil => rfl
          | cons a b => rw [hw] at h2; simp at h2
        have hv : w.Variable = [] := by
          cases hw : w.Variable with
          | nil => rfl
          | cons a b => rw [hw] at h3; simp at h3
        rw [hn, hv] at hbased
        simp at hbased

/-- C11. Whenever `WhenMatcher` returns: a result with `passed = false` or with an error
leaves the controller, and with it `NextTaskName` and the named-task table, as it was;
the named-task table is never changed; and `NextTaskName` is changed only when the
evaluator returns `passed = true` without an error from the clause that decides, the
first clause of the list with a name or a variable, when the `onMove` of that clause is
not empty and its `onExit` is unset, and `NextTaskName` then is that `onMove`. In full,
the controller after a call that passes is the controller before it with `NextTaskName`
set to the `onMove` of the deciding clause if that is not empty. -/
theorem WhenMatcher_actions_frame (c : Controller) (lib : RegexpLib)
    (when : Option (List When)) (vars : Artefacts) (passed : Bool) (err : Option Str)
    (c2 : Controller) (h : c.WhenMatcher lib when vars = .returned (passed, err, c2)) :
    ((passed = false ∨ err ≠ none) →
        c2 = c ∧ c2.NextTaskName = c.NextTaskName ∧ c2.Names = c.Names)
      ∧ c2.Names = c.Names
      ∧ (c2.NextTaskName ≠ c.NextTaskName →
          passed = true ∧ err = none ∧ ∃ clauses w, when = some clauses
            ∧ clauses.find? (fun w => !w.Name.isEmpty || !w.Variable.isEmpty) = some w
            ∧ c.WhenMatcher lib (some [w]) vars = .returned (true, none, c2)
            ∧ w.OnMove ≠ [] ∧ w.OnExit = false ∧ c2.NextTaskName = w.OnMove)
      ∧ c2 = (if passed then
          match when.bind fun clauses =>
              clauses.find? fun w => !w.Name.isEmpty || !w.Variable.isEmpty with
          | some w => if w.OnMove.length > 0 then { c with NextTaskName := w.OnMove } else c
          | none => c
        else c) := by
  cases when with
  | none =>
    simp only [Controller.WhenMatcher, Outcome.returned.injEq, Prod.mk.injEq] at h
    obtain ⟨rfl, rfl, rfl⟩ := h
    exact ⟨fun _ => ⟨rfl, rfl, rfl⟩, rfl, fun hne => absurd rfl hne, rfl⟩
  | some clauses =>
    rw [Controller.WhenMatcher.eq_first] at h
    cases hf : clauses.find? fun w => !w.Name.isEmpty || !w.Variable.isEmpty with
    | none =>
      rw [hf] at h
      simp only [Outcome.returned.injEq, Prod.mk.injEq] at h
      obtain ⟨rfl, rfl, rfl⟩ := h
      refine ⟨fun _ => ⟨rfl, rfl, rfl⟩, rfl, fun hne => absurd rfl hne, ?_⟩
      simp [hf]
    | some w =>
      rw [hf] at h
      simp only [] at h
      have hbased : (!w.Name.isEmpty || !w.Variable.isEmpty) = true := by
        have h1 := List.find?_some hf
        simpa using h1
      rcases Controller.WhenMatcher.single_based c lib vars w passed err c2 hbased h with
        ⟨hp, hc⟩ | ⟨hp, he, hexit, hc⟩
      · subst hp
        subst hc
        exact ⟨fun _ => ⟨rfl, rfl, rfl⟩, rfl, fun hne => absurd rfl hne, rfl⟩
      · subst hp
        subst he
        have hnames : c2.Names = c.Names := by
          rw [hc]
          unfold afterMove
          split <;> rfl
        refine ⟨?_, hnames, ?_, ?_⟩
        · rintro (hp | he)
          · cases hp
          · exact absurd rfl he
        · intro hne
          have hmove : w.OnMove ≠ [] := by
            intro hm
            apply hne
            rw [hc]
            simp [afterMove, hm]
          have hlen : w.OnMove.length > 0 := List.length_pos.2 hmove
          refine ⟨rfl, rfl, clauses, w, rfl, hf, h, hmove, hexit, ?_⟩
          rw [hc]
          simp [afterMove, hlen]
        · rw [hc]
          have hb : ((some clauses).bind fun clauses =>
              clauses.find? fun w => !w.Name.isEmpty || !w.Variable.isEmpty) = some w := hf
          simp only [hb, if_true]
          rfl

/-- The theorem `WhenMatcher_actions_frame` at a list of three clauses: the first has neither
a name nor a variable, the second, on the variable `vrf`, decides and moves to the task
`T`, and the third, which would move to `U`, plays no part. -/
theorem WhenMatcher_actions_frame_witness :
    sampleController.WhenMatcher sampleLib
        (some [emptyWhen, sampleMoveWhen, sampleLaterWhen]) sampleVrfVars
        = .returned (true, none, sampleMovedController)
      ∧ sampleMovedController.NextTaskName = "T".toList
      ∧ (((true = false ∨ (none : Option Str) ≠ none) →
          sampleMovedController = sampleController
            ∧ sampleMovedController.NextTaskName = sampleController.NextTaskName
            ∧ sampleMovedController.Names = sampleController.Names)
        ∧ sampleMovedController.Names = sampleController.Names
        ∧ (sampleMovedController.NextTaskName ≠ sampleController.NextTaskName →
            true = true ∧ (none : Option Str) = none ∧ ∃ clauses w,
              some [emptyWhen, sampleMoveWhen, sampleLaterWhen] = some clauses
              ∧ clauses.find? (fun w => !w.Name.isEmpty || !w.Variable.isEmpty) = some w
              ∧ sampleController.WhenMatcher sampleLib (some [w]) sampleVrfVars
                = .returned (true, none, sampleMovedController)
              ∧ w.OnMove ≠ [] ∧ w.OnExit = false
              ∧ sampleMovedController.NextTaskName = w.OnMove)
        ∧ sampleMovedController = (if true then
            match (some [emptyWhen, sampleMoveWhen, sampleLaterWhen]).bind fun clauses =>
                clauses.find? fun w => !w.Name.isEmpty || !w.Variable.isEmpty with
            | some w =>
              if w.OnMove.length > 0 then { sampleController with NextTaskName := w.OnMove }
              else sampleController
            | none => sampleController
          else sampleController)) :=
  ⟨rfl, rfl, WhenMatcher_actions_frame sampleController sampleLib
    (some [emptyWhen, sampleMoveWhen, sampleLaterWhen]) sampleVrfVars true none
    sampleMovedController rfl⟩

/-! ## `NewPrompt` -/

/-- The `switch` of `NewPrompt` on prompts whose expressions all compile: the first prompt
of the list whose expression matches the output. -/
theorem NewPrompt.first_eq (lib : RegexpLib) (output : Str) :
    ∀ l : List Prompt, (∀ p ∈ l, (lib.Compile p.RegExp).isSome = true) →
      NewPrompt.first lib output l
        = .returned (l.find? fun p => (lib.MatchString p.RegExp output).1) := by
  intro l
  induction l with
  | nil => intro _; rfl
  | cons p rest ih =>
    intro h
    have hp := h p (List.mem_cons_self _ _)
    cases hc : lib.Compile p.RegExp with
    | none => rw [hc] at hp; cases hp
    | some re =>
      unfold NewPrompt.first
      simp only [hc, List.find?_cons, RegexpLib.MatchString]
      cases re.MatchString output with
      | true => rfl
      | false =>
        simp only [Bool.false_eq_true, if_false]
        exact ih fun q hq => h q (List.mem_cons_of_mem _ hq)

/-- The function `NewPrompt` when the expressions of the catalog all compile. -/
theorem NewPrompt_eq (lib : RegexpLib) (output : Str)
    (hcompile : ∀ p ∈ NewPrompt.order, (lib.Compile p.RegExp).isSome = true) :
    NewPrompt lib output
      = .returned (match NewPrompt.order.find? fun p => (lib.MatchString p.RegExp output).1 with
          | some p => .ok p
          | none => .error ERROR_PROMPT_DEFINE) := by
  unfold NewPrompt
  rw [NewPrompt.first_eq lib output _ hcompile]
  cases NewPrompt.order.find? fun p => (lib.MatchString p.RegExp output).1 <;> rfl

/-- C21. With a `regexp` package in which the expressions of the catalog compile,
`NewPrompt` goes through the prompts in the order `cisco-conf`, `cisco-user`,
`cisco-priv`, `cisco-menu`, `huawei-user`, `huawei-sys`, `f5-bash`, `f5-tmos`,
`radware-alteon` and returns the first whose expression matches the output: it returns a
prompt whenever the expression of some prompt matches, it returns `cisco-conf` whenever
the expression of `cisco-conf` matches, and it returns the error
`spawner-prompt-was-not-defined` exactly when no expression matches. -/
theorem NewPrompt_first_match (lib : RegexpLib) (output : Str)
    (hcompile : ∀ p ∈ NewPrompt.order, (lib.Compile p.RegExp).isSome = true) :
    NewPrompt.order.map Prompt.Name
        = ["cisco-conf".toList, "cisco-user".toList, "cisco-priv".toList, "cisco-menu".toList,
           "huawei-user".toList, "huawei-sys".toList, "f5-bash".toList, "f5-tmos".toList,
           "radware-alteon".toList]
      ∧ NewPrompt lib output
        = .returned
            (match NewPrompt.order.find? fun p => (lib.MatchString p.RegExp output).1 with
              | some p => .ok p
              | none => .error ERROR_PROMPT_DEFINE)
      ∧ ((∃ p ∈ NewPrompt.order, (lib.MatchString p.RegExp output).1 = true) →
          ∃ p ∈ NewPrompt.order, NewPrompt lib output = .returned (.ok p))
      ∧ ((lib.MatchString PromptCiscoConf.RegExp output).1 = true →
          NewPrompt lib output = .returned (.ok PromptCiscoConf))
      ∧ (NewPrompt lib output = .returned (.error ERROR_PROMPT_DEFINE)
          ↔ ∀ p ∈ NewPrompt.order, (lib.MatchString p.RegExp output).1 = false)
      ∧ ERROR_PROMPT_DEFINE = "spawner-prompt-was-not-defined".toList := by
  have heq := NewPrompt_eq lib output hcompile
  refine ⟨by decide, heq, ?_, ?_, ?_, rfl⟩
  · rintro ⟨p, hp, hm⟩
    cases hf : NewPrompt.order.find? fun p => (lib.MatchString p.RegExp output).1 with
    | none =>
      rw [List.find?_eq_none] at hf
      exact absurd hm (hf p hp)
    | some q =>
      rw [hf] at heq
      exact ⟨q, List.mem_of_find?_eq_some hf, heq⟩
  · intro hm
    rw [heq]
    simp only [NewPrompt.order, List.find?_cons, hm]
  · rw [heq]
    cases hf : NewPrompt.order.find? fun p => (lib.MatchString p.RegExp output).1 with
    | none =>
      rw [List.find?_eq_none] at hf
      simp only [true_iff]
      intro p hp
      exact Bool.eq_false_iff.2 (hf p hp)
    | some q =>
      constructor
      · intro h
        simp at h
      · intro h
        have h1 := List.find?_some hf
        have h2 := h q (List.mem_of_find?_eq_some hf)
        simp only [] at h1
        rw [h2] at h1
        cases h1

/-- The expressions of the catalog all compile in `catalogLib`. -/
theorem catalogLib_compiles :
    ∀ p ∈ NewPrompt.order, (catalogLib.Compile p.RegExp).isSome = true := by
  decide

/-- The theorem `NewPrompt_first_match` at the output `R1(config)#`, which the expressions of
`cisco-conf` and of `cisco-priv` both match. -/
theorem NewPrompt_first_match_witness :
    (∀ p ∈ NewPrompt.order, (catalogLib.Compile p.RegExp).isSome = true)
      ∧ (catalogLib.MatchString PromptCiscoPriv.RegExp "\r\nR1(config)#".toList).1 = true
      ∧ (NewPrompt.order.map Prompt.Name
          = ["cisco-conf".toList, "cisco-user".toList, "cisco-priv".toList,
             "cisco-menu".toList, "huawei-user".toList, "huawei-sys".toList, "f5-bash".toList,
             "f5-tmos".toList, "radware-alteon".toList]
        ∧ NewPrompt catalogLib "\r\nR1(config)#".toList
          = .returned
              (match NewPrompt.order.find? fun p =>
                  (catalogLib.MatchString p.RegExp "\r\nR1(config)#".toList).1 with
                | some p => .ok p
                | none => .error ERROR_PROMPT_DEFINE)
        ∧ ((∃ p ∈ NewPrompt.order,
              (catalogLib.MatchString p.RegExp "\r\nR1(config)#".toList).1 = true) →
            ∃ p ∈ NewPrompt.order,
              NewPrompt catalogLib "\r\nR1(config)#".toList = .returned (.ok p))
        ∧ ((catalogLib.MatchString PromptCiscoConf.RegExp "\r\nR1(config)#".toList).1 = true →
            NewPrompt catalogLib "\r\nR1(config)#".toList = .returned (.ok PromptCiscoConf))
        ∧ (NewPrompt catalogLib "\r\nR1(config)#".toList
              = .returned (.error ERROR_PROMPT_DEFINE)
            ↔ ∀ p ∈ NewPrompt.order,
              (catalogLib.MatchString p.RegExp "\r\nR1(config)#".toList).1 = false)
        ∧ ERROR_PROMPT_DEFINE = "spawner-prompt-was-not-defined".toList) :=
  ⟨catalogLib_compiles, by rfl,
    NewPrompt_first_match catalogLib "\r\nR1(config)#".toList catalogLib_compiles⟩

/-- C27. The outputs `>> Main#`, `>> Operations#` and
`>> Border Gateway Protocol Operations#` after CR LF, which the comments of
`PromptRadwareAlteon` list as its prompts and which its expression matches, are taken by
`NewPrompt` for the prompt `cisco-user` of the vendor `cisco`: the expression of
`PromptCiscoUser`, tried earlier, matches the text `>>`. -/
theorem NewPrompt_radware_is_cisco_user :
    NewPrompt catalogLib "\r\n>> Main#".toList = .returned (.ok PromptCiscoUser)
      ∧ NewPrompt catalogLib "\r\n>> Operations#".toList = .returned (.ok PromptCiscoUser)
      ∧ NewPrompt catalogLib "\r\n>> Border Gateway Protocol Operations#".toList
        = .returned (.ok PromptCiscoUser)
      ∧ (catalogLib.MatchString PromptRadwareAlteon.RegExp "\r\n>> Main#".toList).1 = true
      ∧ (catalogLib.MatchString PromptCiscoUser.RegExp "\r\n>> Main#".toList).1 = true
      ∧ PromptCiscoUser.Name = "cisco-user".toList
      ∧ PromptCiscoUser.Vendor = "cisco".toList := by
  refine ⟨by rfl, by rfl, by rfl, by rfl, by rfl, rfl, rfl⟩

/-- The expression of `PromptCiscoUser`, as `deviceLib` has it, matches every output that
starts with CR LF and `>> `. -/
theorem userMatch_radware (name : Str) :
    (deviceLib.MatchString PromptCiscoUser.RegExp
      ("\r\n>> ".toList ++ name ++ "#".toList)).1 = true := by
  have hc : deviceLib.Compile PromptCiscoUser.RegExp = some (matcherRegexp userMatchAt []) := by
    rfl
  have hm : userMatchAt ("\r\n>> ".toList ++ name ++ "#".toList)
      = some (' ' :: (name ++ "#".toList)) := by
    rfl
  simp only [RegexpLib.MatchString, hc, matcherRegexp]
  show (("\r\n>> ".toList ++ name ++ "#".toList).tails.any fun t => (userMatchAt t).isSome) = true
  rw [List.any_eq_true]
  exact ⟨_, (List.mem_tails _ _).2 (List.suffix_refl _), by rw [hm]; rfl⟩

/-- Whatever the name of the menu, `NewPrompt` takes a prompt of the form `>> name#` after
CR LF for `cisco-conf` or `cisco-user`, never for `radware-alteon`. -/
theorem NewPrompt_radware_shadowed (name : Str) :
    NewPrompt deviceLib ("\r\n>> ".toList ++ name ++ "#".toList) = .returned (.ok PromptCiscoConf)
      ∨ NewPrompt deviceLib ("\r\n>> ".toList ++ name ++ "#".toList)
        = .returned (.ok PromptCiscoUser) := by
  have hu := userMatch_radware name
  have hconf : deviceLib.Compile PromptCiscoConf.RegExp = some (matcherRegexp confMatchAt []) := by
    rfl
  have huser : deviceLib.Compile PromptCiscoUser.RegExp = some (matcherRegexp userMatchAt []) := by
    rfl
  simp only [RegexpLib.MatchString, huser] at hu
  unfold NewPrompt
  simp only [NewPrompt.order, NewPrompt.first, hconf, huser]
  cases (matcherRegexp confMatchAt []).MatchString ("\r\n>> ".toList ++ name ++ "#".toList) with
  | true => exact Or.inl rfl
  | false =>
    simp only [Bool.false_eq_true, if_false, hu, if_true]
    simp

/-- C28. The output `[root@bigip:Active:Standalone] config # ` after CR LF, which has the
form that the comment of `PromptF5Bash` gives and which its expression matches, is taken
by `NewPrompt` for the prompt `huawei-sys` of the vendor `huawei`: the expression of
`PromptHuaweiSys`, tried earlier, matches a newline followed by a text in square
brackets. -/
theorem NewPrompt_f5_bash_is_huawei_sys :
    NewPrompt catalogLib "\r\n[root@bigip:Active:Standalone] config # ".toList
        = .returned (.ok PromptHuaweiSys)
      ∧ (catalogLib.MatchString PromptF5Bash.RegExp
          "\r\n[root@bigip:Active:Standalone] config # ".toList).1 = true
      ∧ (catalogLib.MatchString PromptHuaweiSys.RegExp
          "\r\n[root@bigip:Active:Standalone] config # ".toList).1 = true
      ∧ PromptHuaweiSys.Name = "huawei-sys".toList
      ∧ PromptHuaweiSys.Vendor = "huawei".toList := by
  refine ⟨by rfl, by rfl, by rfl, rfl, rfl⟩

/-! ## `Connection.PromptDefine`: the recovery from the user mode -/

/-- The recovery from the user mode in one formula: when the empty command is answered
with a text that `NewPrompt` takes for `cisco-user`, `enable` is sent, `PromptDefine` is
called again, and its error is dropped; the result is the check that the prompt then is
`cisco-priv`. -/
theorem PromptDefine_after_enable (lib : RegexpLib) (fuel : Nat) (c : Connection)
    (output : Str) (spawn : Spawn) (again : Option Str) (c2 : Connection)
    (hsend : c.spawn.SendString [] SPAWN_TIMEOUT_SYSTEM PromptUniversal = ((output, none), spawn))
    (hnew : NewPrompt lib
        (if !HasPrefix output "\r\n".toList then "\r\n".toList ++ output else output)
      = .returned (.ok PromptCiscoUser))
    (hagain : Connection.PromptDefine lib fuel
        { spawn := (spawn.SendEnableCisco PromptCiscoPriv).2, Prompt := some PromptCiscoUser,
          connectOutput := c.connectOutput }
      = some (.returned (again, c2))) :
    Connection.PromptDefine lib (fuel + 1) c
      = some (Connection.PromptDefine.expectPriv ERROR_INTERNAL_CISCO_ENABLE c2) := by
  rw [Connection.PromptDefine]
  simp only [hsend, hnew]
  have hname : (PromptCiscoUser.Name == PromptCiscoUser.Name) = true := by decide
  simp only [hname, if_true]
  rw [hagain]

/-- The device that accepts `enable`: `PromptDefine` returns no error and leaves the
prompt `cisco-priv`. -/
theorem PromptDefine_enable_accepted :
    (Connection.PromptDefine catalogLib 2 enableConnection).map
        (fun result => match result with
          | .returned (err, c) => some (err, c.Prompt)
          | _ => none)
      = some (some (none, some PromptCiscoPriv)) := by
  rfl

/-- One call of `PromptDefine` on the device that stays in the user mode gives no result
when the call of `PromptDefine` inside it gives none. -/
theorem PromptDefine_stubborn_step (fuel : Nat) (sent : List Batch) (username password : Str)
    (prompt : Option Prompt) (connectOutput : Str)
    (h : ∀ c : Connection, c.spawn.Session.respond = stubbornRespond →
      Connection.PromptDefine catalogLib fuel c = none) :
    Connection.PromptDefine catalogLib (fuel + 1)
        { spawn := { Session := { respond := stubbornRespond, sent := sent },
                     Username := username, Password := password },
          Prompt := prompt, connectOutput := connectOutput }
      = none := by
  have hnew : NewPrompt catalogLib "\r\nR1>".toList = .returned (.ok PromptCiscoUser) := by rfl
  have hpre : HasPrefix "\r\nR1>".toList "\r\n".toList = true := by rfl
  have hname : (PromptCiscoUser.Name == PromptCiscoUser.Name) = true := by decide
  rw [Connection.PromptDefine]
  simp only [Spawn.SendString, Session.ExpectBatch, stubbornRespond, hpre, Bool.not_true,
    Bool.false_eq_true, if_false, hnew, hname, if_true, Spawn.SendEnableCisco]
  rw [h _ rfl]

/-- On a device that stays in the user mode, `PromptDefine` gives no result for any
bound on the depth of its calls, whatever was sent before. -/
theorem PromptDefine_stubborn :
    ∀ (fuel : Nat) (c : Connection), c.spawn.Session.respond = stubbornRespond →
      Connection.PromptDefine catalogLib fuel c = none := by
  intro fuel
  induction fuel with
  | zero => intro c _; rfl
  | succ n ih =>
    intro c hc
    obtain ⟨⟨⟨respond, sent⟩, username, password⟩, prompt, connectOutput⟩ := c
    simp only [] at hc
    subst hc
    exact PromptDefine_stubborn_step n sent username password prompt connectOutput ih

/-- C26. On a device that stays in the user mode, showing its prompt `R1>` whatever is
sent, `PromptDefine` gives no result for any bound on the depth of its calls: each call
takes the prompt for `cisco-user`, sends `enable` and calls `PromptDefine` again, so the
check that would return `internal-error-cisco-enable` is never reached. -/
theorem PromptDefine_cisco_user_never_returns (fuel : Nat) :
    Connection.PromptDefine catalogLib fuel stubbornConnection = none :=
  PromptDefine_stubborn fuel stubbornConnection rfl

/-! ## `FileStorage.Save`: names without a usable character -/

/-- With the library of the catalog, the storage of `NewFileStorage` allows exactly the
characters of `[a-zA-Z0-9._-]`. -/
theorem NewFileStorage_allowed (dir : Str) (disk : Disk) (symb : Char) :
    (NewFileStorage dir disk).allowed catalogLib symb = isFilenameChar symb := by
  have hc : catalogLib.Compile "[a-zA-Z0-9-_\\.]".toList
      = some ((Re.cls isFilenameChar).compile 0) := by rfl
  simp only [FileStorage.allowed, NewFileStorage, RegexpLib.MatchString, hc, Re.compile,
    Re.MatchString, Re.matchAt, List.tails, List.any_cons, List.any_nil, Re.run]
  cases isFilenameChar symb <;> simp

/-- A name is verified exactly when normalising it changes nothing. -/
theorem FileStorage.NameVerify_iff (lib : RegexpLib) (f : FileStorage) (s : Str) :
    f.NameVerify lib s = true ↔ f.NameNormalization lib s = s := by
  simp only [FileStorage.NameVerify, FileStorage.NameNormalization, List.all_eq_true,
    List.filter_eq_self]

/-- `Save` with no data returns no error and writes nothing, whatever the name. -/
theorem FileStorage.Save_no_data (lib : RegexpLib) (f : FileStorage) (filename : Str) :
    f.Save lib [] filename = (none, f) := by
  simp [FileStorage.Save]

/-- Against C22 as stated: the name `###` is not empty and no character of it is kept,
yet `Save` of no data under that name returns no error. -/
theorem Save_no_data_unusable_name :
    "###".toList ≠ []
      ∧ "###".toList.filter isFilenameChar = []
      ∧ (NewFileStorage "out".toList sampleStorage.disk).NameNormalization catalogLib
          "###".toList = []
      ∧ ((NewFileStorage "out".toList sampleStorage.disk).Save catalogLib [] "###".toList).1
          = none := by
  refine ⟨by decide, by decide, by rfl, by rfl⟩

/-- C22, amended. When the data is not empty, the name is not empty, and no character
of the name is one of `[a-zA-Z0-9._-]`, which are the characters the storage allows, `Save`
returns the error `Filename is incorrect: '<name>'` and leaves the storage as it was, with
nothing written. -/
theorem Save_unusable_name (lib : RegexpLib) (f : FileStorage) (data filename : Str)
    (hallowed : ∀ symb, f.allowed lib symb = isFilenameChar symb)
    (hdata : data ≠ []) (hname : filename ≠ [])
    (hnorm : filename.filter isFilenameChar = []) :
    f.NameNormalization lib filename = []
      ∧ f.Save lib data filename
        = (some ("Filename is incorrect: '".toList ++ filename ++ "'".toList), f)
      ∧ (f.Save lib data filename).2.disk.written = f.disk.written := by
  have hn : f.NameNormalization lib filename = [] := by
    rw [FileStorage.NameNormalization, ← hnorm]
    congr 1
    funext symb
    exact hallowed symb
  have hv : f.NameVerify lib filename = false := by
    apply Bool.eq_false_iff.2
    intro h
    rw [FileStorage.NameVerify_iff, hn] at h
    exact hname h.symm
  have hlen : ¬ data.length ≤ 0 := by
    cases data with
    | nil => exact absurd rfl hdata
    | cons a rest => simp
  have hsave : f.Save lib data filename
      = (some ("Filename is incorrect: '".toList ++ filename ++ "'".toList), f) := by
    simp [FileStorage.Save, hlen, hv, hn]
  exact ⟨hn, hsave, by rw [hsave]⟩

/-- An instance of `Save_unusable_name`: the name `###` with the data `x`. -/
theorem Save_unusable_name_witness :
    (NewFileStorage "out".toList sampleStorage.disk).NameNormalization catalogLib
        "###".toList = []
      ∧ (NewFileStorage "out".toList sampleStorage.disk).Save catalogLib "x".toList
          "###".toList
        = (some ("Filename is incorrect: '".toList ++ "###".toList ++ "'".toList),
            NewFileStorage "out".toList sampleStorage.disk)
      ∧ ((NewFileStorage "out".toList sampleStorage.disk).Save catalogLib "x".toList
          "###".toList).2.disk.written
        = (NewFileStorage "out".toList sampleStorage.disk).disk.written :=
  Save_unusable_name catalogLib (NewFileStorage "out".toList sampleStorage.disk) "x".toList
    "###".toList (NewFileStorage_allowed _ _) (by decide) (by decide) (by decide)

/-! ## `Controller.Autotests` -/

/-- The name-based block decides in the same way on every controller with the same
named-task table. -/
theorem Controller.WhenMatcher.byName_uniform (c : Controller) (lib : RegexpLib) (w : When) :
    (∀ c2 : Controller, c2.Names = c.Names →
        Controller.WhenMatcher.byName c2 lib w = .returned (false, none, c2))
      ∨ (∀ c2 : Controller, c2.Names = c.Names →
        Controller.WhenMatcher.byName c2 lib w = Controller.WhenMatcher.actions c2 w) := by
  cases hN : c.Names w.Name with
  | none =>
    left
    intro c2 h
    unfold Controller.WhenMatcher.byName
    rw [h, hN]
  | some entry =>
    by_cases g : (decide (entry.Status.length ≤ 0)
            || (decide (w.IfStatus.length > 0) && entry.Status != w.IfStatus)
            || (decide (w.IfOutputContains.length > 0)
                && !Contains entry.Output w.IfOutputContains)
            || (decide (w.IfOutputNotContains.length > 0)
                && Contains entry.Output w.IfOutputNotContains)
            || (decide (w.IfOutputContainsRe.length > 0)
                && (!(lib.MatchString w.IfOutputContainsRe entry.Output).1
                    || (lib.MatchString w.IfOutputContainsRe entry.Output).2))) = true
    · left
      intro c2 h
      rw [Controller.WhenMatcher.byName_some c2 lib w entry (by rw [h]; exact hN), if_pos g]
    · right
      intro c2 h
      rw [Controller.WhenMatcher.byName_some c2 lib w entry (by rw [h]; exact hN), if_neg g]

/-- The variable-based block decides in the same way on every controller. -/
theorem Controller.WhenMatcher.byVariable_uniform (vars : Artefacts) (w : When) :
    (∀ c2 : Controller, Controller.WhenMatcher.byVariable c2 vars w = .returned (false, none, c2))
      ∨ (∀ c2 : Controller,
        Controller.WhenMatcher.byVariable c2 vars w = Controller.WhenMatcher.actions c2 w) := by
  by_cases h : VariableClauseHolds vars w
  · exact Or.inr fun c2 => (Controller.WhenMatcher.byVariable_eq c2 vars w).1 h
  · exact Or.inl fun c2 => (Controller.WhenMatcher.byVariable_eq c2 vars w).2 h

/-- The evaluation of one clause on the controllers that share a named-task table: on
all of them it returns the same verdict and leaves the task file, the table and the
artefacts as they were, or on all of them it ends the process with the `success`
status. -/
theorem Controller.WhenMatcher.single_uniform (c : Controller) (lib : RegexpLib)
    (vars : Artefacts) (w : When) :
    (∃ passed err, ∀ c2 : Controller, c2.Names = c.Names →
        ∃ c3 : Controller, c2.WhenMatcher lib (some [w]) vars = .returned (passed, err, c3)
          ∧ c3.Task = c2.Task ∧ c3.Names = c2.Names ∧ c3.Variables = c2.Variables)
      ∨ (w.OnExit = true ∧ ∀ c2 : Controller, c2.Names = c.Names →
        c2.WhenMatcher lib (some [w]) vars = .exited c2.ExitSuccess) := by
  have hact : (∀ c2 : Controller, c2.Names = c.Names → ∀ r,
      r = Controller.WhenMatcher.actions c2 w →
        c2.WhenMatcher lib (some [w]) vars = r) →
      (∃ passed err, ∀ c2 : Controller, c2.Names = c.Names →
        ∃ c3 : Controller, c2.WhenMatcher lib (some [w]) vars = .returned (passed, err, c3)
          ∧ c3.Task = c2.Task ∧ c3.Names = c2.Names ∧ c3.Variables = c2.Variables)
      ∨ (w.OnExit = true ∧ ∀ c2 : Controller, c2.Names = c.Names →
        c2.WhenMatcher lib (some [w]) vars = .exited c2.ExitSuccess) := by
    intro h
    cases he : w.OnExit with
    | true =>
      right
      refine ⟨rfl, fun c2 h2 => ?_⟩
      rw [h c2 h2 _ rfl, Controller.WhenMatcher.actions_eq, he]
      rfl
    | false =>
      left
      refine ⟨true, none, fun c2 h2 => ⟨afterMove c2 w, ?_, ?_, ?_, ?_⟩⟩
      · rw [h c2 h2 _ rfl, Controller.WhenMatcher.actions_eq, he]
        rfl
      all_goals
        unfold afterMove
        split <;> rfl
  have hret : ∀ (passed : Bool) (err : Option Str),
      (∀ c2 : Controller, c2.Names = c.Names →
        c2.WhenMatcher lib (some [w]) vars = .returned (passed, err, c2)) →
      (∃ passed err, ∀ c2 : Controller, c2.Names = c.Names →
        ∃ c3 : Controller, c2.WhenMatcher lib (some [w]) vars = .returned (passed, err, c3)
          ∧ c3.Task = c2.Task ∧ c3.Names = c2.Names ∧ c3.Variables = c2.Variables)
      ∨ (w.OnExit = true ∧ ∀ c2 : Controller, c2.Names = c.Names →
        c2.WhenMatcher lib (some [w]) vars = .exited c2.ExitSuccess) :=
    fun passed err h => Or.inl ⟨passed, err, fun c2 h2 => ⟨c2, h c2 h2, rfl, rfl, rfl⟩⟩
  by_cases hn : w.Name = []
  · by_cases hv : w.Variable = []
    · apply hret true none
      intro c2 _
      simp [Controller.WhenMatcher, Controller.WhenMatcher.loop, hn, hv]
    · rcases Controller.WhenMatcher.byVariable_uniform vars w with h | h
      · apply hret false none
        intro c2 _
        rw [WhenMatcher_single_variable c2 lib vars w hn hv, h c2]
      · apply hact
        intro c2 _ r hr
        rw [WhenMatcher_single_variable c2 lib vars w hn hv, h c2, hr]
  · by_cases hv : w.Variable = []
    · rcases Controller.WhenMatcher.byName_uniform c lib w with h | h
      · apply hret false none
        intro c2 h2
        rw [WhenMatcher_single_name c2 lib vars w hn hv, h c2 h2]
      · apply hact
        intro c2 h2 r hr
        rw [WhenMatcher_single_name c2 lib vars w hn hv, h c2 h2, hr]
    · apply hret false (some ERROR_WHEN_CONDITION_DOUBLE_BASED)
      intro c2 _
      have h1 : decide (w.Name.length > 0) = true := (length_pos_iff_ne_nil _).2 hn
      have h2 : decide (w.Variable.length > 0) = true := (length_pos_iff_ne_nil _).2 hv
      simp only [Controller.WhenMatcher, Controller.WhenMatcher.loop, h1, h2, Bool.and_self,
        if_true]

/-- The loop of `Autotests` over entries none of which ends the process: it returns, the
task file, the named-task table and the artefacts are as they were, and the returned error
is set exactly when it was set before or one of the entries fails. -/
theorem Controller.Autotests.loop_returns (c0 : Controller) (lib : RegexpLib)
    (tests : List When) (hexit : ∀ test ∈ tests, ¬ AutotestExits c0 lib test) :
    ∀ (c : Controller) (testIdx : Nat) (testsResult : Option Str),
      c.Task = c0.Task → c.Names = c0.Names → c.Variables = c0.Variables →
      ∃ (err : Option Str) (c2 : Controller),
        Controller.Autotests.loop lib c testIdx testsResult tests = .returned (err, c2)
          ∧ c2.Task = c0.Task ∧ c2.Names = c0.Names ∧ c2.Variables = c0.Variables
          ∧ (err.isSome = true ↔
              testsResult.isSome = true ∨ ∃ test ∈ tests, AutotestFails c0 lib test) := by
  induction tests with
  | nil =>
    intro c testIdx testsResult hT hN hV
    exact ⟨testsResult, c, rfl, hT, hN, hV, by simp⟩
  | cons test rest ih =>
    intro c testIdx testsResult hT hN hV
    have ih2 := ih fun t ht => hexit t (List.mem_cons_of_mem _ ht)
    rcases Controller.WhenMatcher.single_uniform c0 lib c0.Variables test with
      ⟨passed, err, h⟩ | ⟨_, h⟩
    · obtain ⟨c3, h3, h3T, h3N, h3V⟩ := h c hN
      obtain ⟨c4, h4, _, _, _⟩ := h c0 rfl
      have hfails : AutotestFails c0 lib test ↔ (err ≠ none ∨ passed = false) := by
        constructor
        · rintro ⟨p, e, c5, h5, h6⟩
          rw [h4] at h5
          simp only [Outcome.returned.injEq, Prod.mk.injEq] at h5
          rw [h5.1, h5.2.1]
          exact h6
        · intro h6
          exact ⟨passed, err, c4, h4, h6⟩
      rw [← hV] at h3
      unfold Controller.Autotests.loop
      rw [h3]
      cases err with
      | some testError =>
        obtain ⟨e, c2, h5, h5T, h5N, h5V, h5E⟩ := ih2 c3 (testIdx + 1)
          (some (Controller.Autotests.message testIdx (some testError)))
          (h3T.trans hT) (h3N.trans hN) (h3V.trans hV)
        refine ⟨e, c2, by cases passed <;> exact h5, h5T, h5N, h5V, ?_⟩
        rw [h5E]
        have : AutotestFails c0 lib test := hfails.2 (Or.inl (by simp))
        simp [this]
      | none =>
        cases passed with
        | false =>
          obtain ⟨e, c2, h5, h5T, h5N, h5V, h5E⟩ := ih2 c3 (testIdx + 1)
            (some (Controller.Autotests.message testIdx none))
            (h3T.trans hT) (h3N.trans hN) (h3V.trans hV)
          refine ⟨e, c2, h5, h5T, h5N, h5V, ?_⟩
          rw [h5E]
          have : AutotestFails c0 lib test := hfails.2 (Or.inr rfl)
          simp [this]
        | true =>
          obtain ⟨e, c2, h5, h5T, h5N, h5V, h5E⟩ := ih2 c3 (testIdx + 1) testsResult
            (h3T.trans hT) (h3N.trans hN) (h3V.trans hV)
          refine ⟨e, c2, h5, h5T, h5N, h5V, ?_⟩
          rw [h5E]
          have : ¬ AutotestFails c0 lib test := by
            rw [hfails]
            simp
          simp [this]
    · exact absurd ⟨_, h c0 rfl⟩ (hexit test (List.mem_cons_self _ _))

/-- An entry whose `onExit` is unset never ends the process. -/
theorem AutotestExits_onExit (c : Controller) (lib : RegexpLib) (test : When)
    (h : AutotestExits c lib test) : test.OnExit = true := by
  obtain ⟨halted, h⟩ := h
  rcases Controller.WhenMatcher.single_uniform c lib c.Variables test with
    ⟨passed, err, h2⟩ | ⟨h2, _⟩
  · obtain ⟨c3, h3, _⟩ := h2 c rfl
    rw [h3] at h
    cases h
  · exact h2

/-- Against C23 as stated: the first entry of the list fails, returning `passed = false`,
and the second passes with `onExit` set; `Autotests` returns no failure, since the
process ends inside it with the `success` status. -/
theorem Autotests_exit_hides_failure :
    AutotestFails (sampleTestsController [sampleFailingTest, sampleExitWhen]) sampleLib
        sampleFailingTest
      ∧ (sampleTestsController [sampleFailingTest, sampleExitWhen]).Autotests sampleLib
        = .exited (sampleTestsController [sampleFailingTest, sampleExitWhen]).ExitSuccess
      ∧ (sampleTestsController [sampleFailingTest, sampleExitWhen]).ExitSuccess.saved.Status
        = "success".toList := by
  refine ⟨⟨false, none, _, rfl, Or.inr rfl⟩, rfl, rfl⟩

/-- C23, amended. When the list of `autotests` is absent or empty, `Autotests` returns no
failure and leaves the controller as it was. When no entry of the list ends the process
(which an entry does whose `onExit` is set and whose condition holds), `Autotests`
returns; it returns a failure exactly when at least one entry, evaluated as a list of one
clause against the artefacts and the named-task table of the controller, returns an error
or `passed = false`; and the task file, with the status of every task, the named-task
table and the artefacts are as they were. -/
theorem Autotests_verdict (c : Controller) (lib : RegexpLib) :
    (c.Task.Autotests = none ∨ c.Task.Autotests = some [] → c.Autotests lib = .returned (none, c))
      ∧ ∀ tests, c.Task.Autotests = some tests →
        (∀ test ∈ tests, ¬ AutotestExits c lib test) →
        ∃ (err : Option Str) (c2 : Controller), c.Autotests lib = .returned (err, c2)
          ∧ (err.isSome = true ↔ ∃ test ∈ tests, AutotestFails c lib test)
          ∧ (err = none ↔ ∀ test ∈ tests, ¬ AutotestFails c lib test)
          ∧ c2.Task = c.Task ∧ c2.Names = c.Names ∧ c2.Variables = c.Variables := by
  constructor
  · rintro (h | h)
    · simp [Controller.Autotests, h]
    · simp [Controller.Autotests, h]
  · intro tests hA hexit
    unfold Controller.Autotests
    rw [hA]
    cases tests with
    | nil => exact ⟨none, c, by simp, by simp, by simp, rfl, rfl, rfl⟩
    | cons test rest =>
      obtain ⟨err, c2, h, hT, hN, hV, hE⟩ :=
        Controller.Autotests.loop_returns c lib (test :: rest) hexit c 0 none rfl rfl rfl
      simp only [Option.isSome_none, Bool.false_eq_true, false_or] at hE
      refine ⟨err, c2, by simpa using h, hE, ?_, hT, hN, hV⟩
      rw [← Option.not_isSome_iff_eq_none, hE]
      push_neg
      rfl

/-- An instance of `Autotests_verdict`: of the two entries the first fails and the second
passes, none has `onExit` set, and the returned failure names the first. -/
theorem Autotests_verdict_witness :
    (sampleTestsController [sampleFailingTest, samplePassingTest]).Autotests sampleLib
        = .returned (some "TEST[0] FAIL: <nil>".toList,
            sampleTestsController [sampleFailingTest, samplePassingTest])
      ∧ ∃ (err : Option Str) (c2 : Controller),
        (sampleTestsController [sampleFailingTest, samplePassingTest]).Autotests sampleLib
            = .returned (err, c2)
          ∧ (err.isSome = true ↔ ∃ test ∈ [sampleFailingTest, samplePassingTest],
              AutotestFails (sampleTestsController [sampleFailingTest, samplePassingTest])
                sampleLib test)
          ∧ (err = none ↔ ∀ test ∈ [sampleFailingTest, samplePassingTest],
              ¬ AutotestFails (sampleTestsController [sampleFailingTest, samplePassingTest])
                sampleLib test)
          ∧ c2.Task = (sampleTestsController [sampleFailingTest, samplePassingTest]).Task
          ∧ c2.Names = (sampleTestsController [sampleFailingTest, samplePassingTest]).Names
          ∧ c2.Variables
            = (sampleTestsController [sampleFailingTest, samplePassingTest]).Variables :=
  ⟨rfl,
   (Autotests_verdict (sampleTestsController [sampleFailingTest, samplePassingTest])
      sampleLib).2 [sampleFailingTest, samplePassingTest] rfl (by
        intro test ht h
        have he := AutotestExits_onExit _ _ _ h
        simp only [List.mem_cons, List.mem_singleton, List.not_mem_nil, or_false] at ht
        rcases ht with rfl | rfl
        · exact absurd he (by decide)
        · exact absurd he (by decide))⟩

/-! ## The artefact `prompt` after a send -/

/-- A text that is the token of a variable with a value becomes that value. -/
theorem RegExpConstructor_prompt_token (vars : Artefacts) (value : Str)
    (hv : vars "prompt".toList = some value) (hne : value ≠ []) :
    RegExpConstructor (VariableRegExp.token "prompt".toList) vars = (value, none) := by
  have hf : VariableRegExp.FindAllStringSubmatch (VariableRegExp.token "prompt".toList)
      = [(VariableRegExp.token "prompt".toList, "prompt".toList)] := by decide
  have hg : vars.get "prompt".toList = value := by
    simp only [Artefacts.get, hv, Option.getD_some]
  have he : value.isEmpty = false := by
    cases value with
    | nil => exact absurd rfl hne
    | cons a rest => rfl
  have hr := Replace_occurrence (VariableRegExp.token "prompt".toList) value (by decide) []
  rw [List.append_nil, Replace_nil _ _ (by decide), List.append_nil] at hr
  rw [RegExpConstructor, hf]
  simp only [RegExpConstructor.loop, hg, he, Bool.not_false, if_true, hr]

/-- Against C25 as stated: in the frame of the subtasks of `show vdc`, the subtask
`configure terminal` is sent with success and changes the prompt of the connection to
`cisco-conf`, yet the next task of the same frame, `show \x7b\x7bprompt\x7d\x7d`, is sent as
`show cisco-priv`, the name the copy of the artefacts held when the frame started. -/
theorem Run_subtask_frame_stale_prompt :
    sentTexts (returnedOr (Run deviceLib 3 sampleStaleController [] .controller 0))
        = ["show vdc\n".toList, "\n".toList,
           "configure terminal\n".toList, "\n".toList, "show cisco-priv\n".toList, "\n".toList,
           "configure terminal\n".toList, "\n".toList, "show cisco-conf\n".toList, "\n".toList]
      ∧ rootStatuses (returnedOr (Run deviceLib 3 sampleStaleController [] .controller 0)).Task
        = some ["success".toList] := by
  refine ⟨by rfl, by rfl⟩

/-- C25, amended. After every successful send of a task, the artefact map of the
controller, which is the map of the frame of the root list, maps `prompt` to the name of
the prompt the connection then has, so that the next task of the root list has
`\x7b\x7bprompt\x7d\x7d` replaced by that name; the map of a frame of subtasks is a copy of
its own, which the send leaves as it was. -/
theorem Send_sets_prompt (c : Controller) (lib : RegexpLib) (fuel : Nat)
    (task : Executor.Task) (output : Str) (c2 : Controller)
    (h : c.Send lib fuel task = some (.returned ((output, none), c2))) :
    ∃ (connection : Connection) (p : Executor.Prompt),
      c2.Connection = some connection ∧ connection.Prompt = some p
        ∧ VarsRef.read c2 .controller "prompt".toList = some p.Name
        ∧ (p.Name ≠ [] →
            RegExpConstructor (VariableRegExp.token "prompt".toList) (VarsRef.read c2 .controller)
              = (p.Name, none))
        ∧ ∀ m, VarsRef.read c2 (.own m) = m ∧ VarsRef.read c (.own m) = m := by
  unfold Controller.Send at h
  cases hc : c.Connection with
  | none => rw [hc] at h; simp at h
  | some connection =>
    rw [hc] at h
    simp only [] at h
    cases hs : connection.Send lib fuel task.Command task.Params.Timeout
        task.Params.PromptChangeAllowed with
    | none => rw [hs] at h; simp at h
    | some o =>
      rw [hs] at h
      cases o with
      | panicked => simp at h
      | exited e => simp at h
      | returned x =>
        obtain ⟨⟨out, err⟩, connection2⟩ := x
        cases err with
        | some e =>
          simp only [Option.some.injEq, Outcome.returned.injEq, Prod.mk.injEq] at h
          exact absurd h.1.2 (by simp)
        | none =>
          simp only [] at h
          cases hp : connection2.Prompt with
          | none => rw [hp] at h; simp at h
          | some p =>
            rw [hp] at h
            simp only [Option.some.injEq, Outcome.returned.injEq, Prod.mk.injEq] at h
            obtain ⟨_, rfl⟩ := h
            have hv : ∀ c3 : Controller,
                c3 = (if task.Name.length > 0 then
                  Controller.nameOutput
                    { c with Connection := some connection2,
                             Variables := c.Variables.set "prompt".toList p.Name }
                    task.Name out
                  else { c with Connection := some connection2,
                                Variables := c.Variables.set "prompt".toList p.Name }) →
                c3.Connection = some connection2
                  ∧ c3.Variables "prompt".toList = some p.Name := by
              intro c3 h3
              subst h3
              split
              · exact ⟨rfl, by simp [Controller.nameOutput, Artefacts.set]⟩
              · exact ⟨rfl, by simp [Artefacts.set]⟩
            obtain ⟨h1, h2⟩ := hv _ rfl
            exact ⟨connection2, p, h1, hp, h2,
              fun hne => RegExpConstructor_prompt_token _ _ h2 hne, fun m => ⟨rfl, rfl⟩⟩

/-- An instance of `Send_sets_prompt`: the send of `configure terminal`, after which the
prompt of the connection is `cisco-conf`. -/
theorem Send_sets_prompt_witness :
    VarsRef.read (sentOr ((sampleRunController []).Send deviceLib 2 sampleConfTask))
        .controller "prompt".toList = some "cisco-conf".toList
      ∧ ∃ (connection : Connection) (p : Executor.Prompt),
        (sentOr ((sampleRunController []).Send deviceLib 2 sampleConfTask)).Connection
            = some connection
          ∧ connection.Prompt = some p
          ∧ VarsRef.read (sentOr ((sampleRunController []).Send deviceLib 2 sampleConfTask))
              .controller "prompt".toList = some p.Name
          ∧ (p.Name ≠ [] →
              RegExpConstructor (VariableRegExp.token "prompt".toList)
                (VarsRef.read (sentOr ((sampleRunController []).Send deviceLib 2
                  sampleConfTask)) .controller)
                = (p.Name, none))
          ∧ ∀ m,
            VarsRef.read (sentOr ((sampleRunController []).Send deviceLib 2 sampleConfTask))
                (.own m) = m
              ∧ VarsRef.read (sampleRunController []) (.own m) = m :=
  ⟨rfl, Send_sets_prompt (sampleRunController []) deviceLib 2 sampleConfTask
    "configure terminal\r\n".toList _ rfl⟩

/-! ## What a walk leaves of the task file -/

theorem NewPrompt.first_not_exited (lib : RegexpLib) (output : Str) (h : Halted) :
    ∀ order : List Prompt, NewPrompt.first lib output order ≠ .exited h := by
  intro order
  induction order with
  | nil => simp [NewPrompt.first]
  | cons p rest ih =>
    unfold NewPrompt.first
    cases lib.Compile p.RegExp with
    | none => simp
    | some re =>
      simp only []
      split
      · simp
      · exact ih

theorem NewPrompt_not_exited (lib : RegexpLib) (output : Str) (h : Halted) :
    NewPrompt lib output ≠ .exited h := by
  unfold NewPrompt
  cases hf : NewPrompt.first lib output NewPrompt.order with
  | panicked => simp
  | exited e => exact absurd hf (NewPrompt.first_not_exited lib output e _)
  | returned x => cases x <;> simp

theorem Connection.CiscoMenuAction_not_exited (lib : RegexpLib) (c : Connection)
    (spawnOutput : Str) (p : Executor.Prompt) (h : Halted) :
    c.CiscoMenuAction lib spawnOutput p ≠ .exited h := by
  unfold Connection.CiscoMenuAction
  split
  · repeat' split
    all_goals simp
  · simp

theorem Connection.PromptDefine.expectPriv_not_exited (code : Str) (c : Connection)
    (h : Halted) : Connection.PromptDefine.expectPriv code c ≠ .exited h := by
  unfold Connection.PromptDefine.expectPriv
  cases c.Prompt with
  | none => simp
  | some p => simp only []; split <;> simp

/-- The method `PromptDefine` never ends the process. -/
theorem Connection.PromptDefine_not_exited (lib : RegexpLib) :
    ∀ (fuel : Nat) (c : Connection) (h : Halted),
      Connection.PromptDefine lib fuel c ≠ some (.exited h) := by
  intro fuel
  induction fuel with
  | zero => intro c h; simp [Connection.PromptDefine]
  | succ n ih =>
    intro c h
    unfold Connection.PromptDefine
    rcases hs : c.spawn.SendString [] SPAWN_TIMEOUT_SYSTEM PromptUniversal with
      ⟨⟨output, err⟩, spawn⟩
    cases err with
    | some e => simp
    | none =>
      simp only []
      generalize (if !HasPrefix output "\r\n".toList then "\r\n".toList ++ output else output)
        = text
      cases hn : NewPrompt lib text with
      | panicked => simp
      | exited e => exact absurd hn (NewPrompt_not_exited lib text e)
      | returned x =>
        cases x with
        | error e => simp
        | ok p =>
          simp only []
          split
          · generalize hr : Connection.PromptDefine lib n _ = r
            cases r with
            | none => simp
            | some o =>
              cases o with
              | panicked => simp
              | exited e => exact absurd hr (ih _ e)
              | returned x =>
                simp only [ne_eq, Option.some.injEq]
                exact Connection.PromptDefine.expectPriv_not_exited _ _ h
          · split
            · cases hm : Connection.CiscoMenuAction lib
                  { spawn := spawn, Prompt := some p, connectOutput := c.connectOutput }
                  c.connectOutput PromptCiscoPriv with
              | panicked => simp
              | exited e => exact absurd hm (Connection.CiscoMenuAction_not_exited _ _ _ _ e)
              | returned x =>
                simp only []
                cases hr : Connection.PromptDefine lib n x.2 with
                | none => simp
                | some o =>
                  cases o with
                  | panicked => simp
                  | exited e => exact absurd hr (ih x.2 e)
                  | returned y =>
                    simp only [ne_eq, Option.some.injEq]
                    exact Connection.PromptDefine.expectPriv_not_exited _ _ h
            · simp

/-- The method `Connection.Send` never ends the process. -/
theorem Connection.Send_never_exits (lib : RegexpLib) (fuel : Nat) (c : Connection)
    (command : Str) (timeout : Int) (promptChangeAllowed : Bool) (h : Halted) :
    c.Send lib fuel command timeout promptChangeAllowed ≠ some (.exited h) := by
  unfold Connection.Send
  simp only []
  cases (if promptChangeAllowed = true then some PromptUniversal else c.Prompt) with
  | none => simp
  | some next =>
    simp only []
    rcases hs : c.spawn.SendString command timeout next with ⟨⟨output, err⟩, spawn⟩
    cases err with
    | some e => simp
    | none =>
      simp only []
      cases hr : Connection.PromptDefine lib fuel { c with spawn := spawn } with
      | none => simp
      | some o =>
        cases o with
        | panicked => simp
        | exited e => exact absurd hr (Connection.PromptDefine_not_exited lib fuel _ e)
        | returned x =>
          obtain ⟨err, c1⟩ := x
          cases err with
          | some e => simp
          | none =>
            simp only []
            split
            · split <;> simp
            · simp

/-- The method `Controller.Send` never ends the process. -/
theorem Controller.Send_not_exited (c : Controller) (lib : RegexpLib) (fuel : Nat)
    (task : Executor.Task) (h : Halted) : c.Send lib fuel task ≠ some (.exited h) := by
  unfold Controller.Send
  cases c.Connection with
  | none => simp
  | some connection =>
    simp only []
    cases hs : connection.Send lib fuel task.Command task.Params.Timeout
        task.Params.PromptChangeAllowed with
    | none => simp
    | some o =>
      cases o with
      | panicked => simp
      | exited e => exact absurd hs (Connection.Send_never_exits lib fuel _ _ _ _ e)
      | returned x =>
        obtain ⟨⟨out, err⟩, connection2⟩ := x
        cases err with
        | some e => simp
        | none =>
          simp only []
          cases connection2.Prompt <;> simp

/-- The method `RegExpMatch` never ends the process. -/
theorem RegExpMatch_not_exited (lib : RegexpLib) (output incRegex excRegex : Str) (h : Halted) :
    RegExpMatch lib output incRegex excRegex ≠ .exited h := by
  unfold RegExpMatch
  cases lib.Compile incRegex with
  | none => simp
  | some re =>
    simp only []
    cases RegExpMatch.collect re.SubexpNames (re.FindAllStringSubmatch output) [] with
    | none => simp
    | some result =>
      simp only []
      split
      · simp
      · cases RegExpMatch.excluded lib excRegex result with
        | none => simp
        | some result2 =>
          simp only [RegExpMatch.finish]
          split <;> simp

/-- When `WhenMatcher` ends the process, it does so by `ExitSuccess` on the controller
as it is. -/
theorem Controller.WhenMatcher_exited (c : Controller) (lib : RegexpLib)
    (when : Option (List When)) (vars : Artefacts) (h : Halted)
    (hw : c.WhenMatcher lib when vars = .exited h) : h = c.ExitSuccess := by
  have hact : ∀ w, Controller.WhenMatcher.actions c w = .exited h → h = c.ExitSuccess := by
    intro w ha
    rw [Controller.WhenMatcher.actions_eq] at ha
    split at ha
    · simp only [Outcome.exited.injEq] at ha
      exact ha.symm
    · simp at ha
  unfold Controller.WhenMatcher at hw
  cases when with
  | none => simp at hw
  | some clauses =>
    simp only [] at hw
    induction clauses with
    | nil => simp [Controller.WhenMatcher.loop] at hw
    | cons w rest ih =>
      unfold Controller.WhenMatcher.loop at hw
      split at hw
      · simp at hw
      · split at hw
        · rcases Controller.WhenMatcher.byName_cases c lib w with hb | hb
          · rw [hb] at hw; simp at hw
          · rw [hb] at hw; exact hact w hw
        · split at hw
          · rcases Controller.WhenMatcher.byVariable_cases c vars w with hb | hb
            · rw [hb] at hw; simp at hw
            · rw [hb] at hw; exact hact w hw
          · exact ih hw

/-- When `Compile` ends the process, it does so by `ExitError` on the controller as it
is. -/
theorem Controller.Compile_exited (c : Controller) (task : Executor.Task) (vars : Artefacts)
    (h : Halted) (hc : c.Compile task vars = .exited h) : ∃ e, h = c.ExitError e := by
  unfold Controller.Compile at hc
  rcases h1 : RegExpConstructor task.Command vars with ⟨command, err⟩
  rw [h1] at hc
  cases err with
  | some e =>
    simp only [Outcome.exited.injEq] at hc
    exact ⟨_, hc.symm⟩
  | none =>
    simp only [] at hc
    rcases h2 : RegExpConstructor task.Params.OutputFile vars with ⟨outputFile, err2⟩
    rw [h2] at hc
    cases err2 with
    | some e =>
      simp only [Outcome.exited.injEq] at hc
      exact ⟨_, hc.symm⟩
    | none => simp at hc

theorem Effect.any {A : TasksRef → Nat → Prop} {c c2 : Controller} (h : Effect A c c2) :
    Effect anyTask c c2 :=
  h.mono fun _ _ _ => trivial

theorem Controller.EndsIn.after {c c1 : Controller} {h : Halted} (h1 : Effect anyTask c c1)
    (h2 : c1.EndsIn h) : c.EndsIn h := by
  obtain ⟨c2, he, hh⟩ := h2
  exact ⟨c2, Effect.trans h1 he, hh⟩

theorem Controller.EndsIn.error (c : Controller) (e : Str) : c.EndsIn (c.ExitError e) :=
  ⟨c, Effect.refl c, Or.inl ⟨e, rfl⟩⟩

theorem Controller.EndsIn.success (c : Controller) : c.EndsIn c.ExitSuccess :=
  ⟨c, Effect.refl c, Or.inr rfl⟩

/-- A shutdown inside the runs of the subtasks. -/
theorem Run.subTasks_exited
    (run : Controller → TasksRef → VarsRef → Int → Option (Outcome Controller))
    (hrun : ∀ c q v d c2, run c q v d = some (.returned c2) → Effect (runWrites q) c c2)
    (hrunE : ∀ c q v d h, run c q v d = some (.exited h) → c.EndsIn h)
    (tasks : TasksRef) (taskIdx : Nat) (vars : VarsRef) (depthLevel : Int) (regMap : Groups) :
    ∀ (todo subTaskOrder : Nat) (ctrl : Controller) (e : Halted),
      Run.subTasks run tasks taskIdx vars depthLevel regMap todo subTaskOrder ctrl
          = some (.exited e) →
        ctrl.EndsIn e := by
  intro todo
  induction todo with
  | zero =>
    intro k ctrl e h
    simp [Run.subTasks] at h
  | succ n ih =>
    intro k ctrl e h
    unfold Run.subTasks at h
    cases ha : Run.subTaskArtefacts k regMap (vars.read ctrl) with
    | none => rw [ha] at h; simp at h
    | some sub =>
      rw [ha] at h
      simp only [] at h
      cases hr : run ctrl (tasks ++ [taskIdx]) (.own sub) (depthLevel + 1) with
      | none => rw [hr] at h; simp at h
      | some o =>
        rw [hr] at h
        cases o with
        | panicked => simp at h
        | exited e2 =>
          simp only [Option.some.injEq, Outcome.exited.injEq] at h
          subst h
          exact hrunE _ _ _ _ _ hr
        | returned c1 =>
          simp only [] at h
          exact Controller.EndsIn.after (hrun _ _ _ _ _ hr).any (ih _ _ _ h)

/-- A shutdown in a turn of the loop, from the filter on. -/
theorem Run.byFilter_exited (lib : RegexpLib)
    (run : Controller → TasksRef → VarsRef → Int → Option (Outcome Controller))
    (hrun : ∀ c q v d c2, run c q v d = some (.returned c2) → Effect (runWrites q) c c2)
    (hrunE : ∀ c q v d h, run c q v d = some (.exited h) → c.EndsIn h)
    (ctrl : Controller) (tasks : TasksRef) (taskIdx : Nat) (task : Task) (vars : VarsRef)
    (depthLevel : Int) (output : Str) (e : Halted)
    (h : Run.byFilter lib run ctrl tasks taskIdx task vars depthLevel output
      = some (.exited e)) :
    ctrl.EndsIn e := by
  unfold Run.byFilter at h
  split at h
  · cases hm : RegExpMatch lib output task.Params.Filter task.Params.FilterExclude with
    | panicked => rw [hm] at h; simp at h
    | exited e2 => exact absurd hm (RegExpMatch_not_exited _ _ _ _ e2)
    | returned x =>
      obtain ⟨regMap, regCount, regError⟩ := x
      rw [hm] at h
      cases regError with
      | some err =>
        simp only [Option.some.injEq, Outcome.exited.injEq] at h
        subst h
        exact Controller.EndsIn.error ctrl _
      | none =>
        simp only [] at h
        split at h
        · simp at h
        · split at h
          · exact Run.subTasks_exited run hrun hrunE tasks taskIdx vars depthLevel regMap _ _ _ _ h
          · simp at h
  · simp at h

/-- A shutdown in a turn of the loop, from the saving of the output on. -/
theorem Run.byOutputFile_exited (lib : RegexpLib)
    (run : Controller → TasksRef → VarsRef → Int → Option (Outcome Controller))
    (hrun : ∀ c q v d c2, run c q v d = some (.returned c2) → Effect (runWrites q) c c2)
    (hrunE : ∀ c q v d h, run c q v d = some (.exited h) → c.EndsIn h)
    (ctrl : Controller) (tasks : TasksRef) (taskIdx : Nat) (task : Task) (vars : VarsRef)
    (depthLevel : Int) (output : Str) (e : Halted)
    (h : Run.byOutputFile lib run ctrl tasks taskIdx task vars depthLevel output
      = some (.exited e)) :
    ctrl.EndsIn e := by
  unfold Run.byOutputFile at h
  split at h
  · cases hst : ctrl.statusAt tasks taskIdx with
    | none => rw [hst] at h; simp at h
    | some status =>
      rw [hst] at h
      simp only [] at h
      split at h
      · cases hsave : ctrl.SaveOutput lib output task.Params.OutputFile with
        | mk err c3 =>
          have hT := Controller.SaveOutput_Task ctrl lib output task.Params.OutputFile
          rw [hsave] at h hT
          have h1 : Effect anyTask ctrl c3 := Effect.of_same ctrl c3 hT.1 hT.2
          cases err with
          | some err =>
            simp only [Option.some.injEq, Outcome.exited.injEq] at h
            subst h
            exact Controller.EndsIn.after h1 (Controller.EndsIn.error c3 _)
          | none =>
            simp only [] at h
            exact Controller.EndsIn.after h1
              (Run.byFilter_exited lib run hrun hrunE c3 tasks taskIdx task vars depthLevel
                output e h)
      · exact Run.byFilter_exited lib run hrun hrunE ctrl tasks taskIdx task vars depthLevel
          output e h
  · exact Run.byFilter_exited lib run hrun hrunE ctrl tasks taskIdx task vars depthLevel
      output e h

/-- A shutdown in a turn of the loop, from the sending of the command on. -/
theorem Run.bySend_exited (lib : RegexpLib) (fuel : Nat)
    (run : Controller → TasksRef → VarsRef → Int → Option (Outcome Controller))
    (hrun : ∀ c q v d c2, run c q v d = some (.returned c2) → Effect (runWrites q) c c2)
    (hrunE : ∀ c q v d h, run c q v d = some (.exited h) → c.EndsIn h)
    (ctrl : Controller) (tasks : TasksRef) (taskIdx : Nat) (task : Task) (vars : VarsRef)
    (depthLevel : Int) (e : Halted)
    (h : Run.bySend lib fuel run ctrl tasks taskIdx task vars depthLevel = some (.exited e)) :
    ctrl.EndsIn e := by
  unfold Run.bySend at h
  cases hs : ctrl.Send lib fuel task with
  | none => rw [hs] at h; simp at h
  | some o =>
    rw [hs] at h
    cases o with
    | panicked => simp at h
    | exited e2 => exact absurd hs (Controller.Send_not_exited _ _ _ _ e2)
    | returned x =>
      obtain ⟨⟨output, err⟩, c1⟩ := x
      obtain ⟨hT, hV, _, _⟩ := Controller.Send_returned ctrl lib fuel task _ _ hs
      have h1 : Effect anyTask ctrl c1 := Effect.other c1 (Effect.refl ctrl) hT hV
      cases err with
      | some err =>
        simp only [] at h
        have h2 : Effect anyTask ctrl (c1.SetTaskStatus tasks taskIdx PIPE_STATUS_FAIL) :=
          Effect.status _ _ _ h1 trivial isWalkStatus_fail
        split at h
        · exact Controller.EndsIn.after h2
            (Run.byOutputFile_exited lib run hrun hrunE _ tasks taskIdx task vars depthLevel
              output e h)
        · simp only [Option.some.injEq, Outcome.exited.injEq] at h
          subst h
          exact Controller.EndsIn.after h2 (Controller.EndsIn.error _ _)
      | none =>
        simp only [] at h
        exact Controller.EndsIn.after (Effect.status _ _ _ h1 trivial isWalkStatus_success)
          (Run.byOutputFile_exited lib run hrun hrunE _ tasks taskIdx task vars depthLevel
            output e h)

/-- A shutdown in a turn of the loop, from the conditions on. -/
theorem Run.byWhen_exited (lib : RegexpLib) (fuel : Nat)
    (run : Controller → TasksRef → VarsRef → Int → Option (Outcome Controller))
    (hrun : ∀ c q v d c2, run c q v d = some (.returned c2) → Effect (runWrites q) c c2)
    (hrunE : ∀ c q v d h, run c q v d = some (.exited h) → c.EndsIn h)
    (ctrl : Controller) (tasks : TasksRef) (taskIdx : Nat) (task : Task) (vars : VarsRef)
    (depthLevel : Int) (e : Halted)
    (h : Run.byWhen lib fuel run ctrl tasks taskIdx task vars depthLevel = some (.exited e)) :
    ctrl.EndsIn e := by
  unfold Run.byWhen at h
  cases hw : ctrl.WhenMatcher lib task.When (vars.read ctrl) with
  | panicked => rw [hw] at h; simp at h
  | exited e2 =>
    rw [hw] at h
    simp only [Option.some.injEq, Outcome.exited.injEq] at h
    subst h
    rw [Controller.WhenMatcher_exited ctrl lib _ _ _ hw]
    exact Controller.EndsIn.success ctrl
  | returned x =>
    obtain ⟨passed, err, c1⟩ := x
    obtain ⟨hT, hV, _⟩ := Controller.WhenMatcher.returned_Task ctrl lib _ _ _ _ _ hw
    have h1 : Effect anyTask ctrl c1 := Effect.of_same ctrl c1 hT hV
    rw [hw] at h
    cases err with
    | some err =>
      have h2 : e = c1.ExitError err := by
        cases passed <;> simp at h <;> exact h.symm
      rw [h2]
      exact Controller.EndsIn.after h1 (Controller.EndsIn.error c1 _)
    | none =>
      cases passed with
      | false => simp at h
      | true =>
        simp only [] at h
        exact Controller.EndsIn.after h1
          (Run.bySend_exited lib fuel run hrun hrunE c1 tasks taskIdx task vars depthLevel e h)

/-- A shutdown in a turn of the loop. -/
theorem Run.task_exited (lib : RegexpLib) (fuel : Nat)
    (run : Controller → TasksRef → VarsRef → Int → Option (Outcome Controller))
    (hrun : ∀ c q v d c2, run c q v d = some (.returned c2) → Effect (runWrites q) c c2)
    (hrunE : ∀ c q v d h, run c q v d = some (.exited h) → c.EndsIn h)
    (ctrl : Controller) (tasks : TasksRef) (taskIdx : Nat) (task : Task) (vars : VarsRef)
    (depthLevel : Int) (e : Halted)
    (h : Run.task lib fuel run ctrl tasks taskIdx task vars depthLevel = some (.exited e)) :
    ctrl.EndsIn e := by
  have hstatus : ∀ (c : Controller) (t : Task),
      Run.byStatus lib fuel run c tasks taskIdx t vars depthLevel = some (.exited e) →
        c.EndsIn e := by
    intro c t hs
    unfold Run.byStatus at hs
    split at hs
    · simp at hs
    · exact Run.byWhen_exited lib fuel run hrun hrunE c tasks taskIdx t vars depthLevel e hs
  unfold Run.task at h
  cases hc : ctrl.Compile task (vars.read ctrl) with
  | panicked => rw [hc] at h; simp at h
  | exited e2 =>
    rw [hc] at h
    simp only [Option.some.injEq, Outcome.exited.injEq] at h
    subst h
    obtain ⟨err, he⟩ := Controller.Compile_exited ctrl task _ _ hc
    rw [he]
    exact Controller.EndsIn.error ctrl _
  | returned compiled =>
    rw [hc] at h
    simp only [] at h
    unfold Run.byNextTaskName at h
    split at h
    · split at h
      · simp at h
      · exact Controller.EndsIn.after
          (Effect.of_same ctrl { ctrl with NextTaskName := [] } rfl rfl) (hstatus _ _ h)
    · exact hstatus _ _ h

/-- A shutdown in the loop over the tasks. -/
theorem Run.loop_exited (lib : RegexpLib) (fuel : Nat)
    (run : Controller → TasksRef → VarsRef → Int → Option (Outcome Controller))
    (hrun : ∀ c q v d c2, run c q v d = some (.returned c2) → Effect (runWrites q) c c2)
    (hrunE : ∀ c q v d h, run c q v d = some (.exited h) → c.EndsIn h)
    (tasks : TasksRef) (vars : VarsRef) (depthLevel : Int) :
    ∀ (todo taskIdx : Nat) (ctrl : Controller) (e : Halted),
      Run.loop lib fuel run tasks vars depthLevel todo taskIdx ctrl = some (.exited e) →
        ctrl.EndsIn e := by
  intro todo
  induction todo with
  | zero =>
    intro k ctrl e h
    simp [Run.loop] at h
  | succ n ih =>
    intro k ctrl e h
    unfold Run.loop at h
    cases ht : ctrl.taskAt tasks k with
    | none => rw [ht] at h; simp at h
    | some task =>
      rw [ht] at h
      simp only [] at h
      cases hb : Run.task lib fuel run ctrl tasks k task vars depthLevel with
      | none => rw [hb] at h; simp at h
      | some o =>
        rw [hb] at h
        cases o with
        | panicked => simp at h
        | exited e2 =>
          simp only [Option.some.injEq, Outcome.exited.injEq] at h
          subst h
          exact Run.task_exited lib fuel run hrun hrunE ctrl tasks k task vars depthLevel _ hb
        | returned c1 =>
          simp only [] at h
          exact Controller.EndsIn.after
            (Run.task_effect lib fuel run hrun ctrl tasks k task vars depthLevel c1 hb).1.any
            (ih _ _ _ h)

/-- When `Run` ends the process, the shutdown is made by `ExitError` or `ExitSuccess` from
a controller that differs from the one of the call by the statuses that the walk wrote
and by the artefact `prompt` only. -/
theorem Run_exited (lib : RegexpLib) :
    ∀ (fuel : Nat) (ctrl : Controller) (tasks : TasksRef) (vars : VarsRef) (depthLevel : Int)
      (e : Halted),
      Run lib fuel ctrl tasks vars depthLevel = some (.exited e) → ctrl.EndsIn e := by
  intro fuel
  induction fuel with
  | zero => intro ctrl tasks vars depthLevel e h; simp [Run] at h
  | succ n ih =>
    intro ctrl tasks vars depthLevel e h
    unfold Run at h
    cases hl : ctrl.tasksAt tasks with
    | none => rw [hl] at h; simp at h
    | some list =>
      rw [hl] at h
      simp only [] at h
      exact Run.loop_exited lib n (Run lib n) (Run_effect lib n) ih tasks vars depthLevel
        _ _ _ _ h

theorem Controller.taskAt_file (c : Controller) (q : TasksRef) (i : Nat) :
    c.taskAt q i = c.Task.taskAt q i :=
  Controller.taskAt_eq c q i

/-- The task file that a walk leaves is, but for the fields `status` and `error` of the
file, the file of a controller that differs from the one of the call by the statuses that
the walk wrote and by the artefact `prompt` only. -/
theorem Run_file (lib : RegexpLib) (fuel : Nat) (ctrl : Controller) (tasks : TasksRef)
    (vars : VarsRef) (depthLevel : Int) (o : Outcome Controller) (file : TaskPattern)
    (h : Run lib fuel ctrl tasks vars depthLevel = some o) (hf : o.file = some file) :
    ∃ c2 : Controller, Effect anyTask ctrl c2 ∧ file.Tasks = c2.Task.Tasks
      ∧ { file with Status := c2.Task.Status, Error := c2.Task.Error } = c2.Task := by
  cases o with
  | panicked => simp [Outcome.file] at hf
  | returned c2 =>
    simp only [Outcome.file, Option.some.injEq] at hf
    subst hf
    exact ⟨c2, (Run_effect lib fuel ctrl tasks vars depthLevel c2 h).any, rfl, rfl⟩
  | exited e =>
    simp only [Outcome.file, Option.some.injEq] at hf
    subst hf
    obtain ⟨c2, he, hh⟩ := Run_exited lib fuel ctrl tasks vars depthLevel e h
    refine ⟨c2, he, ?_⟩
    rcases hh with ⟨err, rfl⟩ | rfl
    · exact ⟨rfl, rfl⟩
    · exact ⟨rfl, rfl⟩

/-- C30. Whenever `Run` returns or ends the process, the task file that it leaves, which
is the file of the controller or the file saved by the shutdown, differs from the file
before the walk in the statuses of tasks only, the fields `status` and `error` of the
file itself apart: at every place of the tree there is a task after the walk exactly when
there was one before, with the same command, name, parameters (the timeout, the output
file, the filter and the flags) and `when` list, every list of subtasks has the length it
had, and the other fields of the file are as they were. So the substitution of variables
and the default timeout of `Compile` reach the copy of the task only. -/
theorem Run_changes_status_only (lib : RegexpLib) (fuel : Nat) (ctrl : Controller)
    (tasks : TasksRef) (vars : VarsRef) (depthLevel : Int) (o : Outcome Controller)
    (file : TaskPattern) (h : Run lib fuel ctrl tasks vars depthLevel = some o)
    (hf : o.file = some file) :
    (∀ (q : TasksRef) (i : Nat),
        (file.taskAt q i).map Task.Command = (ctrl.Task.taskAt q i).map Task.Command
          ∧ (file.taskAt q i).map Task.Name = (ctrl.Task.taskAt q i).map Task.Name
          ∧ (file.taskAt q i).map Task.Params = (ctrl.Task.taskAt q i).map Task.Params
          ∧ (file.taskAt q i).map Task.When = (ctrl.Task.taskAt q i).map Task.When)
      ∧ (∀ q : TasksRef,
          (tasksAt q file.Tasks).map List.length = (tasksAt q ctrl.Task.Tasks).map List.length)
      ∧ { file with Status := ctrl.Task.Status, Error := ctrl.Task.Error,
                    Tasks := ctrl.Task.Tasks } = ctrl.Task := by
  obtain ⟨c2, he, hT, hF⟩ := Run_file lib fuel ctrl tasks vars depthLevel o file h hf
  have ht : ∀ q i, file.taskAt q i = c2.taskAt q i := by
    intro q i
    rw [Controller.taskAt_file]
    unfold TaskPattern.taskAt
    rw [hT]
  refine ⟨fun q i => ⟨?_, ?_, ?_, ?_⟩, fun q => ?_, ?_⟩
  · rw [ht, ← Controller.taskAt_file]
    exact he.taskAt Task.Command (fun x t => by cases t; rfl) (fun s t => by cases t; rfl) q i
  · rw [ht, ← Controller.taskAt_file]
    exact he.taskAt Task.Name (fun x t => by cases t; rfl) (fun s t => by cases t; rfl) q i
  · rw [ht, ← Controller.taskAt_file]
    exact he.taskAt Task.Params (fun x t => by cases t; rfl) (fun s t => by cases t; rfl) q i
  · rw [ht, ← Controller.taskAt_file]
    exact he.taskAt Task.When (fun x t => by cases t; rfl) (fun s t => by cases t; rfl) q i
  · rw [hT]
    exact he.length q
  · have h2 := he.file
    have h3 : ctrl.Task = { c2.Task with Tasks := ctrl.Task.Tasks } := by
      rw [h2]
    rw [h3, ← hF]

/-- An instance of `Run_changes_status_only`: the walk of the fan-out scenario sends the
subtask as `switchto vdc L3-CORE` and `switchto vdc AGG`, and the task file still holds
the command with its variable and the timeout that was not set. -/
theorem Run_changes_status_only_witness :
    sentTexts (returnedOr (Run deviceLib 3 sampleFanController [] .controller 0))
        = ["show vdc\n".toList, "\n".toList, "switchto vdc L3-CORE\n".toList, "\n".toList,
           "switchto vdc AGG\n".toList, "\n".toList]
      ∧ ((returnedOr (Run deviceLib 3 sampleFanController [] .controller 0)).Task.taskAt
          [0] 0).map Task.Command = some "switchto vdc \x7b\x7bvdc\x7d\x7d".toList
      ∧ (∀ (q : TasksRef) (i : Nat),
        ((returnedOr (Run deviceLib 3 sampleFanController [] .controller 0)).Task.taskAt
            q i).map Task.Command = (sampleFanController.Task.taskAt q i).map Task.Command
          ∧ ((returnedOr (Run deviceLib 3 sampleFanController [] .controller 0)).Task.taskAt
            q i).map Task.Name = (sampleFanController.Task.taskAt q i).map Task.Name
          ∧ ((returnedOr (Run deviceLib 3 sampleFanController [] .controller 0)).Task.taskAt
            q i).map Task.Params = (sampleFanController.Task.taskAt q i).map Task.Params
          ∧ ((returnedOr (Run deviceLib 3 sampleFanController [] .controller 0)).Task.taskAt
            q i).map Task.When = (sampleFanController.Task.taskAt q i).map Task.When)
      ∧ (∀ q : TasksRef,
          (tasksAt q (returnedOr (Run deviceLib 3 sampleFanController [] .controller
              0)).Task.Tasks).map List.length
            = (tasksAt q sampleFanController.Task.Tasks).map List.length)
      ∧ { (returnedOr (Run deviceLib 3 sampleFanController [] .controller 0)).Task with
            Status := sampleFanController.Task.Status,
            Error := sampleFanController.Task.Error,
            Tasks := sampleFanController.Task.Tasks } = sampleFanController.Task :=
  ⟨rfl, rfl,
   Run_changes_status_only deviceLib 3 sampleFanController [] .controller 0
     (.returned (returnedOr (Run deviceLib 3 sampleFanController [] .controller 0)))
     (returnedOr (Run deviceLib 3 sampleFanController [] .controller 0)).Task rfl rfl⟩

/-! ## `NewController`: the checks of the task file -/

/-- The method `connect` leaves the task file as it is. -/
theorem Controller.connect_returned (c : Controller) (launcher : Launcher) (lib : RegexpLib)
    (fuel : Nat) (host user pass : Str) (err : Option Str) (c2 : Controller)
    (h : c.connect launcher lib fuel host user pass = some (.returned (err, c2))) :
    c2.Task = c.Task ∧ (err ≠ none → c2 = c) := by
  unfold Controller.connect at h
  cases hn : NewConnection launcher lib fuel host user pass with
  | none => rw [hn] at h; simp at h
  | some o =>
    rw [hn] at h
    cases o with
    | panicked => simp at h
    | exited e => simp at h
    | returned x =>
      obtain ⟨connection, connectionError⟩ := x
      cases connectionError with
      | some e =>
        simp only [Option.some.injEq, Outcome.returned.injEq, Prod.mk.injEq] at h
        obtain ⟨_, rfl⟩ := h
        exact ⟨rfl, fun _ => rfl⟩
      | none =>
        simp only [Option.some.injEq, Outcome.returned.injEq, Prod.mk.injEq] at h
        obtain ⟨rfl, rfl⟩ := h
        exact ⟨rfl, fun hne => absurd rfl hne⟩

/-- When the connection attempt fails, the start-up ends in a shutdown that records the
error of the attempt, whatever the task file holds. -/
theorem NewController_connection_error (launcher : Launcher) (lib : RegexpLib) (fuel : Nat)
    (file : TaskPattern) (disk : Disk) (date time outputDirectory user pass : Str)
    (connError : Str) (c : Controller)
    (hconnect : (NewController.start file outputDirectory disk).connect launcher lib fuel
      file.Host user pass = some (.returned (some connError, c))) :
    NewController launcher lib fuel (.ok file) disk date time outputDirectory user pass
        = some (.exited ((NewController.start file outputDirectory disk).ExitError connError))
      ∧ recordedError (NewController launcher lib fuel (.ok file) disk date time
          outputDirectory user pass) = some connError := by
  have hc := (Controller.connect_returned _ _ _ _ _ _ _ _ _ hconnect).2 (by simp)
  subst hc
  have h1 : NewController launcher lib fuel (.ok file) disk date time outputDirectory user
      pass = some (.exited ((NewController.start file outputDirectory disk).ExitError
        connError)) := by
    unfold NewController
    simp only []
    rw [hconnect]
  exact ⟨h1, by rw [h1]; rfl⟩

/-- When none of the three attempts to connect can be started, `NewConnection` returns
`connection-no-available-method`. -/
theorem NewConnection_not_started (lib : RegexpLib) (fuel : Nat) (host username password : Str) :
    NewConnection sampleNoLauncher lib fuel host username password
      = some (.returned (none, some ERROR_CONN_NO_AVAILABLE_METHOD)) := by
  rfl

/-- C24. The checks of the task file, which the source places under the comment of the
basic check of the task file, come after the call of `connect` on the host that they
check: on a machine on which no connection can be started, the start-up on a task file
with an empty host, and the start-up on a task file with a host and no tasks, end in a
shutdown that records `connection-no-available-method`, the error of the connection
attempt, and not `syntax-host-is-not-set` or `syntax-no-tasks`. -/
theorem NewController_connection_error_first :
    (sampleFile "" none).Host = []
      ∧ recordedError (NewController sampleNoLauncher deviceLib 3 (.ok (sampleFile "" none))
          sampleStorage.disk [] [] [] "admin".toList "secret".toList)
        = some "connection-no-available-method".toList
      ∧ recordedError (NewController sampleNoLauncher deviceLib 3 (.ok (sampleFile "" none))
          sampleStorage.disk [] [] [] "admin".toList "secret".toList)
        ≠ some ERROR_SYNTAX_NO_HOST
      ∧ (sampleFile "r1" none).Host ≠ [] ∧ (sampleFile "r1" none).Tasks = none
      ∧ recordedError (NewController sampleNoLauncher deviceLib 3 (.ok (sampleFile "r1" none))
          sampleStorage.disk [] [] [] "admin".toList "secret".toList)
        = some "connection-no-available-method".toList
      ∧ recordedError (NewController sampleNoLauncher deviceLib 3 (.ok (sampleFile "r1" none))
          sampleStorage.disk [] [] [] "admin".toList "secret".toList)
        ≠ some ERROR_SYNTAX_NO_TASKS := by
  have h1 : recordedError (NewController sampleNoLauncher deviceLib 3
      (.ok (sampleFile "" none)) sampleStorage.disk [] [] [] "admin".toList "secret".toList)
      = some "connection-no-available-method".toList := rfl
  have h2 : recordedError (NewController sampleNoLauncher deviceLib 3
      (.ok (sampleFile "r1" none)) sampleStorage.disk [] [] [] "admin".toList "secret".toList)
      = some "connection-no-available-method".toList := rfl
  refine ⟨rfl, h1, ?_, by decide, rfl, h2, ?_⟩
  · rw [h1]; decide
  · rw [h2]; decide

/-- When the connection attempt succeeds, the checks of the task file are reached: for
every task file whose `host` is empty, the start-up ends in a shutdown that records the error code
`syntax-host-is-not-set` and the status `fail`; and for every task file with a non-empty
host and an absent or empty `tasks` list, it ends in a shutdown that records
`syntax-no-tasks`. -/
theorem NewController_validation (launcher : Launcher) (lib : RegexpLib) (fuel : Nat)
    (file : TaskPattern) (disk : Disk) (date time outputDirectory user pass : Str)
    (c : Controller)
    (hconnect : (NewController.start file outputDirectory disk).connect launcher lib fuel
      file.Host user pass = some (.returned (none, c))) :
    (file.Host = [] →
        NewController launcher lib fuel (.ok file) disk date time outputDirectory user pass
            = some (.exited (c.ExitError ERROR_SYNTAX_NO_HOST))
          ∧ recordedError (NewController launcher lib fuel (.ok file) disk date time
              outputDirectory user pass) = some "syntax-host-is-not-set".toList
          ∧ (c.ExitError ERROR_SYNTAX_NO_HOST).saved.Status = "fail".toList)
      ∧ (file.Host ≠ [] → (file.Tasks = none ∨ file.Tasks = some []) →
        NewController launcher lib fuel (.ok file) disk date time outputDirectory user pass
            = some (.exited (c.ExitError ERROR_SYNTAX_NO_TASKS))
          ∧ recordedError (NewController launcher lib fuel (.ok file) disk date time
              outputDirectory user pass) = some "syntax-no-tasks".toList
          ∧ (c.ExitError ERROR_SYNTAX_NO_TASKS).saved.Status = "fail".toList) := by
  have hT : c.Task = file := (Controller.connect_returned _ _ _ _ _ _ _ _ _ hconnect).1
  constructor
  · intro hh
    have h1 : NewController launcher lib fuel (.ok file) disk date time outputDirectory user
        pass = some (.exited (c.ExitError ERROR_SYNTAX_NO_HOST)) := by
      unfold NewController
      simp only []
      rw [hconnect]
      simp only [hT, hh, List.length_nil, Nat.le_refl, if_true]
    exact ⟨h1, by rw [h1]; rfl, rfl⟩
  · intro hh ht
    have hlen : ¬ file.Host.length ≤ 0 := by
      cases hf : file.Host with
      | nil => exact absurd hf hh
      | cons a rest => simp
    have h1 : NewController launcher lib fuel (.ok file) disk date time outputDirectory user
        pass = some (.exited (c.ExitError ERROR_SYNTAX_NO_TASKS)) := by
      unfold NewController
      simp only []
      rw [hconnect]
      rcases ht with ht | ht
      · simp only [hT, hlen, ht, if_false, if_true]
      · simp only [hT, hlen, ht, if_false, List.length_nil, Nat.le_refl,
          decide_True, if_true]
    exact ⟨h1, by rw [h1]; rfl, rfl⟩

/-- An instance of `NewController_validation`: `ssh` reaches the device, and the task file
has an empty host. -/
theorem NewController_validation_example :
    ((sampleFile "" none).Host = [] →
        NewController sampleLauncher deviceLib 3 (.ok (sampleFile "" none))
            sampleStorage.disk [] [] [] "admin".toList "secret".toList
          = some (.exited ((sampleConnected (sampleFile "" none)).ExitError
              ERROR_SYNTAX_NO_HOST))
          ∧ recordedError (NewController sampleLauncher deviceLib 3 (.ok (sampleFile "" none))
              sampleStorage.disk [] [] [] "admin".toList "secret".toList)
            = some "syntax-host-is-not-set".toList
          ∧ ((sampleConnected (sampleFile "" none)).ExitError
              ERROR_SYNTAX_NO_HOST).saved.Status = "fail".toList)
      ∧ ((sampleFile "" none).Host ≠ [] →
        ((sampleFile "" none).Tasks = none ∨ (sampleFile "" none).Tasks = some []) →
        NewController sampleLauncher deviceLib 3 (.ok (sampleFile "" none))
            sampleStorage.disk [] [] [] "admin".toList "secret".toList
          = some (.exited ((sampleConnected (sampleFile "" none)).ExitError
              ERROR_SYNTAX_NO_TASKS))
          ∧ recordedError (NewController sampleLauncher deviceLib 3 (.ok (sampleFile "" none))
              sampleStorage.disk [] [] [] "admin".toList "secret".toList)
            = some "syntax-no-tasks".toList
          ∧ ((sampleConnected (sampleFile "" none)).ExitError
              ERROR_SYNTAX_NO_TASKS).saved.Status = "fail".toList) :=
  NewController_validation sampleLauncher deviceLib 3 (sampleFile "" none)
    sampleStorage.disk [] [] [] "admin".toList "secret".toList
    (sampleConnected (sampleFile "" none)) rfl

/-- The start-up on the machine `sampleLauncher`: an empty host ends it with
`syntax-host-is-not-set`, a host without tasks or with an empty list of tasks with
`syntax-no-tasks`, and with a host and a task it returns the controller. -/
theorem NewController_examples :
    recordedError (NewController sampleLauncher deviceLib 3 (.ok (sampleFile "" none))
        sampleStorage.disk [] [] [] "admin".toList "secret".toList)
      = some "syntax-host-is-not-set".toList
    ∧ recordedError (NewController sampleLauncher deviceLib 3 (.ok (sampleFile "r1" none))
        sampleStorage.disk [] [] [] "admin".toList "secret".toList)
      = some "syntax-no-tasks".toList
    ∧ recordedError (NewController sampleLauncher deviceLib 3 (.ok (sampleFile "r1" (some [])))
        sampleStorage.disk [] [] [] "admin".toList "secret".toList)
      = some "syntax-no-tasks".toList
    ∧ recordedError (NewController sampleLauncher deviceLib 3
        (.ok (sampleFile "r1" (some [sampleTask "show a".toList])))
        sampleStorage.disk [] [] [] "admin".toList "secret".toList)
      = none := by
  refine ⟨rfl, rfl, rfl, rfl⟩

/-! ## The statuses after a walk, also one that is shut down -/

theorem Marked.effect {A : TasksRef → Nat → Prop} {c c2 : Controller} (h : Effect A c c2)
    (q : TasksRef) (i : Nat) (hm : Marked c q i) : Marked c2 q i := by
  rcases h.statusAt_cases q i with h1 | h1
  · obtain ⟨s, hs, hw⟩ := hm
    exact ⟨s, by rw [h1]; exact hs, hw⟩
  · exact h1

/-- The statuses of the file saved by a shutdown are those of the controller from which
the shutdown is made. -/
theorem Controller.Halts.statusAt_saved {c : Controller} {h : Halted} (hh : c.Halts h)
    (q : TasksRef) (i : Nat) : h.saved.statusAt q i = c.statusAt q i := by
  have hT : h.saved.Tasks = c.Task.Tasks := by
    rcases hh with ⟨e, rfl⟩ | rfl
    · rfl
    · rfl
  unfold TaskPattern.statusAt TaskPattern.taskAt Controller.statusAt
  rw [Controller.taskAt_eq, hT]

theorem Controller.Halts.marked {c : Controller} {h : Halted} (hh : c.Halts h)
    (q : TasksRef) (i : Nat) (hm : Marked c q i) : h.saved.Marked q i := by
  obtain ⟨s, hs, hw⟩ := hm
  exact ⟨s, by rw [hh.statusAt_saved]; exact hs, hw⟩

/-- A shutdown in the turn of a task comes before the turn writes a status, from a
controller with the task file as it was at the start of the turn, or it is made from a
controller in which the task of the turn has one of the three statuses. -/
theorem Run.task_exited_cases (lib : RegexpLib) (fuel : Nat)
    (run : Controller → TasksRef → VarsRef → Int → Option (Outcome Controller))
    (hrun : ∀ c q v d c2, run c q v d = some (.returned c2) → Effect (runWrites q) c c2)
    (hrunE : ∀ c q v d h, run c q v d = some (.exited h) → c.EndsIn h)
    (ctrl : Controller) (tasks : TasksRef) (taskIdx : Nat) (task : Task) (vars : VarsRef)
    (depthLevel : Int) (e : Halted) (htask : ctrl.taskAt tasks taskIdx = some task)
    (h : Run.task lib fuel run ctrl tasks taskIdx task vars depthLevel = some (.exited e)) :
    (Run.gateExit lib ctrl task vars e ∧ e.saved.Tasks = ctrl.Task.Tasks)
      ∨ ∃ c2 : Controller, Effect anyTask ctrl c2 ∧ Marked c2 tasks taskIdx ∧ c2.Halts e := by
  unfold Run.task at h
  cases hc : ctrl.Compile task (vars.read ctrl) with
  | panicked => rw [hc] at h; simp at h
  | exited e2 =>
    rw [hc] at h
    simp only [Option.some.injEq, Outcome.exited.injEq] at h
    subst h
    obtain ⟨err, he⟩ := Controller.Compile_exited ctrl task _ _ hc
    exact Or.inl ⟨Or.inl hc, by rw [he]; rfl⟩
  | returned compiled =>
    rw [hc] at h
    simp only [] at h
    have hsend : ∀ c3 : Controller, Effect anyTask ctrl c3 → c3.Task = ctrl.Task →
        Run.bySend lib fuel run c3 tasks taskIdx compiled vars depthLevel = some (.exited e) →
        ∃ c2 : Controller, Effect anyTask ctrl c2 ∧ Marked c2 tasks taskIdx ∧ c2.Halts e := by
      intro c3 h3 hT3 hb
      unfold Run.bySend at hb
      cases hs : c3.Send lib fuel compiled with
      | none => rw [hs] at hb; simp at hb
      | some o =>
        rw [hs] at hb
        cases o with
        | panicked => simp at hb
        | exited e2 => exact absurd hs (Controller.Send_not_exited _ _ _ _ e2)
        | returned x =>
          obtain ⟨⟨output, err⟩, c4⟩ := x
          obtain ⟨hT, hV, _, _⟩ := Controller.Send_returned c3 lib fuel compiled _ _ hs
          have h4 : Effect anyTask ctrl c4 := Effect.other c4 h3 hT hV
          have hv : (c4.taskAt tasks taskIdx).isSome := by
            rw [Controller.taskAt_congr c3 c4 hT, Controller.taskAt_congr ctrl c3 hT3, htask]
            rfl
          have hfrom : ∀ (s : Str), IsWalkStatus s →
              (c4.SetTaskStatus tasks taskIdx s).EndsIn e →
              ∃ c2 : Controller, Effect anyTask ctrl c2 ∧ Marked c2 tasks taskIdx
                ∧ c2.Halts e := by
            intro s hs2 hends
            obtain ⟨c2, he2, hh⟩ := hends
            exact ⟨c2, Effect.trans (Effect.status _ _ _ h4 trivial hs2) he2,
              Marked.effect he2 _ _ (Marked.of_set c4 tasks taskIdx s hs2 hv), hh⟩
          cases err with
          | some err =>
            simp only [] at hb
            split at hb
            · exact hfrom _ isWalkStatus_fail
                (Run.byOutputFile_exited lib run hrun hrunE _ tasks taskIdx compiled vars
                  depthLevel output e hb)
            · simp only [Option.some.injEq, Outcome.exited.injEq] at hb
              subst hb
              exact hfrom _ isWalkStatus_fail (Controller.EndsIn.error _ _)
          | none =>
            simp only [] at hb
            exact hfrom _ isWalkStatus_success
              (Run.byOutputFile_exited lib run hrun hrunE _ tasks taskIdx compiled vars
                depthLevel output e hb)
    have hstatus : ∀ c : Controller, (c = ctrl ∨ c = { ctrl with NextTaskName := [] }) →
        Run.byStatus lib fuel run c tasks taskIdx compiled vars depthLevel = some (.exited e) →
        (Run.gateExit lib ctrl task vars e ∧ e.saved.Tasks = ctrl.Task.Tasks)
          ∨ ∃ c2 : Controller, Effect anyTask ctrl c2 ∧ Marked c2 tasks taskIdx
            ∧ c2.Halts e := by
      intro c hcc hs
      have hTc : c.Task = ctrl.Task := by rcases hcc with rfl | rfl <;> rfl
      have hVc : c.Variables = ctrl.Variables := by rcases hcc with rfl | rfl <;> rfl
      have h1 : Effect anyTask ctrl c := Effect.of_same ctrl c hTc hVc
      unfold Run.byStatus at hs
      split at hs
      · simp at hs
      · unfold Run.byWhen at hs
        cases hw : c.WhenMatcher lib compiled.When (vars.read c) with
        | panicked => rw [hw] at hs; simp at hs
        | exited e2 =>
          rw [hw] at hs
          simp only [Option.some.injEq, Outcome.exited.injEq] at hs
          subst hs
          have he := Controller.WhenMatcher_exited c lib _ _ _ hw
          exact Or.inl ⟨Or.inr ⟨compiled, c, hc, hcc, Or.inl hw⟩, by rw [he, ← hTc]; rfl⟩
        | returned x =>
          obtain ⟨passed, err, c3⟩ := x
          obtain ⟨hT, hV, _⟩ := Controller.WhenMatcher.returned_Task c lib _ _ _ _ _ hw
          rw [hw] at hs
          cases err with
          | some err =>
            have he : e = c3.ExitError err := by
              cases passed <;> simp at hs <;> exact hs.symm
            exact Or.inl ⟨Or.inr ⟨compiled, c, hc, hcc, Or.inr ⟨passed, err, c3, hw, he⟩⟩,
              by rw [he, ← hTc, ← hT]; rfl⟩
          | none =>
            cases passed with
            | false => simp at hs
            | true =>
              simp only [] at hs
              exact Or.inr (hsend c3 (Effect.trans h1 (Effect.of_same c c3 hT hV))
                (hT.trans hTc) hs)
    unfold Run.byNextTaskName at h
    split at h
    · split at h
      · simp at h
      · exact hstatus _ (Or.inr rfl) h
    · exact hstatus _ (Or.inl rfl) h

theorem turnWrites_turns (tasks : TasksRef) (k : Nat) (q : TasksRef) (j : Nat)
    (h : turnWrites tasks k q j) : turnsWrite tasks k (k + 1) q j := by
  rcases h with ⟨h1, h2⟩ | h
  · exact Or.inl ⟨h1, by omega, by omega⟩
  · exact Or.inr ⟨k, le_refl k, by omega, h⟩

theorem turnsWrite_mono (tasks : TasksRef) (a b a2 b2 : Nat) (ha : a2 ≤ a) (hb : b ≤ b2)
    (q : TasksRef) (j : Nat) (h : turnsWrite tasks a b q j) : turnsWrite tasks a2 b2 q j := by
  rcases h with ⟨h1, h2, h3⟩ | ⟨i, h1, h2, h3⟩
  · exact Or.inl ⟨h1, by omega, by omega⟩
  · exact Or.inr ⟨i, by omega, by omega, h3⟩

theorem not_turnsWrite_last (tasks : TasksRef) (a b j : Nat) (hj : b ≤ j) :
    ¬ turnsWrite tasks a b tasks j := by
  rintro (⟨_, _, h⟩ | ⟨i, _, _, h⟩)
  · omega
  · exact child_not_above tasks i h

/-- The turns `taskIdx`, ..., `taskIdx + todo - 1` of the loop write to their own tasks
and to the tasks below them only. -/
theorem Run.loop_effect_turns (lib : RegexpLib) (fuel : Nat)
    (run : Controller → TasksRef → VarsRef → Int → Option (Outcome Controller))
    (hrun : ∀ c q v d c2, run c q v d = some (.returned c2) → Effect (runWrites q) c c2)
    (tasks : TasksRef) (vars : VarsRef) (depthLevel : Int) :
    ∀ (todo taskIdx : Nat) (ctrl c2 : Controller),
      Run.loop lib fuel run tasks vars depthLevel todo taskIdx ctrl = some (.returned c2) →
        Effect (turnsWrite tasks taskIdx (taskIdx + todo)) ctrl c2 := by
  intro todo
  induction todo with
  | zero =>
    intro k ctrl c2 h
    simp [Run.loop] at h
    subst h
    exact Effect.refl _
  | succ n ih =>
    intro k ctrl c2 h
    unfold Run.loop at h
    cases ht : ctrl.taskAt tasks k with
    | none => rw [ht] at h; simp at h
    | some task =>
      rw [ht] at h
      simp only [] at h
      cases hb : Run.task lib fuel run ctrl tasks k task vars depthLevel with
      | none => rw [hb] at h; simp at h
      | some o =>
        rw [hb] at h
        cases o with
        | panicked => simp at h
        | exited e => simp at h
        | returned c1 =>
          simp only [] at h
          have he1 := (Run.task_effect lib fuel run hrun ctrl tasks k task vars depthLevel c1
            hb).1
          have he2 := ih (k + 1) c1 c2 h
          exact Effect.trans
            ((he1.mono (turnWrites_turns tasks k)).mono
              (turnsWrite_mono tasks k (k + 1) k (k + (n + 1)) (le_refl k) (by omega)))
            (he2.mono
              (turnsWrite_mono tasks (k + 1) (k + 1 + n) k (k + (n + 1)) (by omega) (by omega)))

/-- A loop that is shut down is shut down in one of its turns, after the turns before
that one have returned. -/
theorem Run.loop_exited_at (lib : RegexpLib) (fuel : Nat)
    (run : Controller → TasksRef → VarsRef → Int → Option (Outcome Controller))
    (tasks : TasksRef) (vars : VarsRef) (depthLevel : Int) :
    ∀ (todo taskIdx : Nat) (ctrl : Controller) (e : Halted),
      Run.loop lib fuel run tasks vars depthLevel todo taskIdx ctrl = some (.exited e) →
        ∃ (done : Nat) (c1 : Controller) (task : Task), done < todo
          ∧ Run.loop lib fuel run tasks vars depthLevel done taskIdx ctrl = some (.returned c1)
          ∧ c1.taskAt tasks (taskIdx + done) = some task
          ∧ Run.task lib fuel run c1 tasks (taskIdx + done) task vars depthLevel
            = some (.exited e) := by
  intro todo
  induction todo with
  | zero =>
    intro k ctrl e h
    simp [Run.loop] at h
  | succ n ih =>
    intro k ctrl e h
    unfold Run.loop at h
    cases ht : ctrl.taskAt tasks k with
    | none => rw [ht] at h; simp at h
    | some task =>
      rw [ht] at h
      simp only [] at h
      cases hb : Run.task lib fuel run ctrl tasks k task vars depthLevel with
      | none => rw [hb] at h; simp at h
      | some o =>
        rw [hb] at h
        cases o with
        | panicked => simp at h
        | exited e2 =>
          simp only [Option.some.injEq, Outcome.exited.injEq] at h
          subst h
          exact ⟨0, ctrl, task, Nat.succ_pos n, rfl, ht, hb⟩
        | returned c1 =>
          simp only [] at h
          obtain ⟨done, c2, task2, hd, hloop, ht2, hturn⟩ := ih (k + 1) c1 e h
          refine ⟨done + 1, c2, task2, by omega, ?_, ?_, ?_⟩
          · rw [Run.loop]
            simp only [ht, hb]
            exact hloop
          · rw [show k + (done + 1) = k + 1 + done by omega]
            exact ht2
          · rw [show k + (done + 1) = k + 1 + done by omega]
            exact hturn

/-- C15, amended. For every walk of a task list: when the walk returns, every task of
the list has one of the statuses `success`, `fail`, `skipped`; when the walk is shut down,
it is shut down in the turn of one task of the list, after the turns before it have
returned, every task of these earlier turns has one of the three statuses in the file
that the shutdown saves, and so has the task of the turn that is shut down, unless the
shutdown comes from `Compile` or from the evaluation of the conditions of that task,
before the turn writes a status: then that task is left with the status that it had
before the walk. In both cases every other task of the file has the status that it had
before the walk or one of the three. -/
theorem Run_statuses (lib : RegexpLib) (fuel : Nat) (ctrl : Controller) (tasks : TasksRef)
    (vars : VarsRef) (depthLevel : Int) (list : List Task)
    (hlist : ctrl.tasksAt tasks = some list) :
    (∀ c2, Run lib (fuel + 1) ctrl tasks vars depthLevel = some (.returned c2) →
        (∀ j, j < list.length → ∃ s, c2.statusAt tasks j = some s ∧
          (s = PIPE_STATUS_SUCCESS ∨ s = PIPE_STATUS_FAIL ∨ s = PIPE_STATUS_SKIPPED))
        ∧ ∀ q i, c2.statusAt q i = ctrl.statusAt q i ∨ ∃ s, c2.statusAt q i = some s ∧
          (s = PIPE_STATUS_SUCCESS ∨ s = PIPE_STATUS_FAIL ∨ s = PIPE_STATUS_SKIPPED))
      ∧ (∀ h, Run lib (fuel + 1) ctrl tasks vars depthLevel = some (.exited h) →
        ∃ (k : Nat) (c1 : Controller) (task : Task), k < list.length
          ∧ Run.loop lib fuel (Run lib fuel) tasks vars depthLevel k 0 ctrl
            = some (.returned c1)
          ∧ c1.taskAt tasks k = some task
          ∧ Run.task lib fuel (Run lib fuel) c1 tasks k task vars depthLevel
            = some (.exited h)
          ∧ (∀ j, j < k → ∃ s, h.saved.statusAt tasks j = some s ∧
            (s = PIPE_STATUS_SUCCESS ∨ s = PIPE_STATUS_FAIL ∨ s = PIPE_STATUS_SKIPPED))
          ∧ ((∃ s, h.saved.statusAt tasks k = some s ∧
              (s = PIPE_STATUS_SUCCESS ∨ s = PIPE_STATUS_FAIL ∨ s = PIPE_STATUS_SKIPPED))
            ∨ (Run.gateExit lib c1 task vars h
              ∧ h.saved.statusAt tasks k = ctrl.statusAt tasks k))
          ∧ ∀ q i, h.saved.statusAt q i = ctrl.statusAt q i ∨ ∃ s,
            h.saved.statusAt q i = some s ∧
            (s = PIPE_STATUS_SUCCESS ∨ s = PIPE_STATUS_FAIL ∨ s = PIPE_STATUS_SKIPPED)) := by
  have hrunEq : Run lib (fuel + 1) ctrl tasks vars depthLevel
      = Run.loop lib fuel (Run lib fuel) tasks vars depthLevel list.length 0 ctrl := by
    rw [Run]
    simp only [hlist]
  constructor
  · intro c2 h
    exact ⟨fun j hj => Run_marked lib (fuel + 1) ctrl tasks vars depthLevel c2 h list hlist j hj,
      fun q i => (Run_effect lib (fuel + 1) ctrl tasks vars depthLevel c2 h).statusAt_cases q i⟩
  · intro h hexit
    obtain ⟨cE, hE, hH⟩ := Run_exited lib (fuel + 1) ctrl tasks vars depthLevel h hexit
    rw [hrunEq] at hexit
    obtain ⟨k, c1, task, hk, hloop, htask, hturn⟩ :=
      Run.loop_exited_at lib fuel (Run lib fuel) tasks vars depthLevel list.length 0 ctrl h hexit
    rw [Nat.zero_add] at htask hturn
    have hpre := Run.loop_effect lib fuel (Run lib fuel) (Run_effect lib fuel) tasks vars
      depthLevel k 0 ctrl c1 hloop
    have hturns := Run.loop_effect_turns lib fuel (Run lib fuel) (Run_effect lib fuel) tasks
      vars depthLevel k 0 ctrl c1 hloop
    have hkeep : c1.statusAt tasks k = ctrl.statusAt tasks k :=
      hturns.statusAt tasks k (not_turnsWrite_last tasks 0 (0 + k) k (by omega))
    have hcases := Run.task_exited_cases lib fuel (Run lib fuel) (Run_effect lib fuel)
      (Run_exited lib fuel) c1 tasks k task vars depthLevel h htask hturn
    have hsavedOf : ∀ q i, h.saved.Tasks = c1.Task.Tasks →
        h.saved.statusAt q i = c1.statusAt q i := by
      intro q i hT
      unfold TaskPattern.statusAt TaskPattern.taskAt Controller.statusAt
      rw [Controller.taskAt_eq, hT]
    refine ⟨k, c1, task, hk, hloop, htask, hturn, ?_, ?_, ?_⟩
    · intro j hj
      have hm : Marked c1 tasks j := hpre.2 j (Nat.zero_le j) (by omega)
      rcases hcases with ⟨_, hT⟩ | ⟨c2, he2, _, hh⟩
      · obtain ⟨s, hs, hw⟩ := hm
        exact ⟨s, by rw [hsavedOf _ _ hT]; exact hs, hw⟩
      · exact hh.marked tasks j (Marked.effect he2 _ _ hm)
    · rcases hcases with ⟨hg, hT⟩ | ⟨c2, _, hm, hh⟩
      · exact Or.inr ⟨hg, by rw [hsavedOf _ _ hT]; exact hkeep⟩
      · exact Or.inl (hh.marked tasks k hm)
    · intro q i
      rw [hH.statusAt_saved]
      exact hE.statusAt_cases q i

/-- The theorem `Run_statuses` at the walk of the fan-out scenario, which returns, and at
the walk of two root tasks that is shut down by `Compile` in the turn of the second, whose
command names a variable without a value: the first task is saved with the status
`success`, the second with the empty status that it had. -/
theorem Run_statuses_witness :
    sampleFanController.tasksAt [] = some [sampleParentTask [sampleSwitchTask]]
      ∧ Run deviceLib (2 + 1) sampleFanController [] .controller 0
        = some (.returned (returnedOr (Run deviceLib 3 sampleFanController [] .controller 0)))
      ∧ ((∀ j, j < [sampleParentTask [sampleSwitchTask]].length →
          ∃ s, (returnedOr (Run deviceLib 3 sampleFanController [] .controller 0)).statusAt [] j
              = some s ∧
            (s = PIPE_STATUS_SUCCESS ∨ s = PIPE_STATUS_FAIL ∨ s = PIPE_STATUS_SKIPPED))
        ∧ ∀ q i,
          (returnedOr (Run deviceLib 3 sampleFanController [] .controller 0)).statusAt q i
              = sampleFanController.statusAt q i
            ∨ ∃ s, (returnedOr (Run deviceLib 3 sampleFanController [] .controller 0)).statusAt q i
                = some s ∧
              (s = PIPE_STATUS_SUCCESS ∨ s = PIPE_STATUS_FAIL ∨ s = PIPE_STATUS_SKIPPED))
      ∧ sampleMissingController.tasksAt []
        = some [sampleTask "show a".toList, sampleTask sampleMissingCommand]
      ∧ Run deviceLib (1 + 1) sampleMissingController [] .controller 0
        = some (.exited (exitedOr (Run deviceLib 2 sampleMissingController [] .controller 0)))
      ∧ rootStatuses (exitedOr (Run deviceLib 2 sampleMissingController [] .controller 0)).saved
        = some ["success".toList, []]
      ∧ ∃ (k : Nat) (c1 : Controller) (task : Task),
        k < [sampleTask "show a".toList, sampleTask sampleMissingCommand].length
          ∧ Run.loop deviceLib 1 (Run deviceLib 1) [] .controller 0 k 0 sampleMissingController
            = some (.returned c1)
          ∧ c1.taskAt [] k = some task
          ∧ Run.task deviceLib 1 (Run deviceLib 1) c1 [] k task .controller 0
            = some (.exited (exitedOr (Run deviceLib 2 sampleMissingController [] .controller 0)))
          ∧ (∀ j, j < k → ∃ s,
            (exitedOr (Run deviceLib 2 sampleMissingController [] .controller 0)).saved.statusAt
                [] j = some s ∧
            (s = PIPE_STATUS_SUCCESS ∨ s = PIPE_STATUS_FAIL ∨ s = PIPE_STATUS_SKIPPED))
          ∧ ((∃ s,
              (exitedOr (Run deviceLib 2 sampleMissingController [] .controller 0)).saved.statusAt
                  [] k = some s ∧
              (s = PIPE_STATUS_SUCCESS ∨ s = PIPE_STATUS_FAIL ∨ s = PIPE_STATUS_SKIPPED))
            ∨ (Run.gateExit deviceLib c1 task .controller
                (exitedOr (Run deviceLib 2 sampleMissingController [] .controller 0))
              ∧ (exitedOr (Run deviceLib 2 sampleMissingController [] .controller
                  0)).saved.statusAt [] k = sampleMissingController.statusAt [] k))
          ∧ ∀ q i,
            (exitedOr (Run deviceLib 2 sampleMissingController [] .controller 0)).saved.statusAt
                q i = sampleMissingController.statusAt q i
              ∨ ∃ s,
                (exitedOr (Run deviceLib 2 sampleMissingController [] .controller
                  0)).saved.statusAt q i = some s ∧
                (s = PIPE_STATUS_SUCCESS ∨ s = PIPE_STATUS_FAIL ∨ s = PIPE_STATUS_SKIPPED) :=
  ⟨rfl, rfl,
    (Run_statuses deviceLib 2 sampleFanController [] .controller 0 _ rfl).1 _ rfl,
    rfl, rfl, rfl,
    (Run_statuses deviceLib 1 sampleMissingController [] .controller 0 _ rfl).2 _ rfl⟩
end Executor
